import Mathlib

/-!
# Mini-bucket elimination with lookahead (daoopt, `MiniBucketElimLH.cpp`)

A shallow embedding of the heuristic generator of `MiniBucketElimLH.cpp` and
theorems about it.

Conventions of the embedding.

* `double` values are exact: a rational, or one of the two infinities
  (`Val = WithBot (WithTop ℚ)`, `⊥` being `-inf`).  Rounding is not modelled,
  except where the scope of a slice is selected: there the running sum of
  logarithms is rounded as the parameters `add` and `sub` of `Libm` say.  NaN
  is not a `Val`.  In the loop of `computeLocalErrorTable`, where a row of two
  zeros gives the error `(-inf) - (-inf)`, NaN is the value `none` of
  `Option Val`: it is stored, summed and compared as IEEE arithmetic does, and
  the loop goes on.  Elsewhere an operation whose IEEE result is NaN returns
  `none` where the source computes a difference, and `(+inf) + (-inf)` is
  `-inf` as in Mathlib's extended numbers.
* The semiring is the logarithmic one (the source subtracts values and tests
  them against `-inf`): `ELEM_ZERO = -inf`, `ELEM_ONE = 0`, `OP_TIMES = +`,
  `OP_DIVIDE = -`, and marginalisation is `max`.
* A `vector` indexed by variable id is a total map `Nat → _`; `_SubtreeError`
  and `out`, whose length matters, are lists.
* A dereference of a null pointer, a read of an empty vector, an iterator
  moved past the end, a conversion to `int64` that is undefined and a failed
  assertion (assertions are compiled in) make the operation return `none`.
* The stored functions (`Function`) hold no NaN: the estimation of all buckets
  returns `none` where a table with a NaN would be stored.  The C library
  (`log10`, `pow`), the random numbers and the code that the sources call but
  do not hold are parameters.
-/

namespace daoopt

/-! ## Values -/

/-- A domain value; `NONE = -1` marks an unassigned variable. -/
abbrev val_t := Int

/-- The search assignment `vector<val_t>`, indexed by variable id. -/
abbrev Assignment := Nat → val_t

/-- A `double`: an exact rational, `-inf` (`⊥`) or `+inf` (`⊤`). -/
abbrev Val := WithBot (WithTop ℚ)

/-- Modelled from the spec: the semiring macro `ELEM_ZERO` is missing from the
sources; in logarithmic space it is `-inf`. -/
def ELEM_ZERO : Val := ⊥

/-- Modelled from the spec: the semiring macro `ELEM_ONE` is missing from the
sources; in logarithmic space it is `0`. -/
def ELEM_ONE : Val := 0

/-- Modelled from the spec: the semiring macro `OP_TIMES` (and `OP_TIMESEQ`) is
missing from the sources; in logarithmic space it is addition. -/
def OP_TIMES (a b : Val) : Val := a + b

/-- The constant `OUR_OWN_nInfinity` (line 57). -/
def OUR_OWN_nInfinity : Val := ⊥

/-- The difference `x - y` of two doubles, `none` where IEEE gives NaN
(`inf - inf` with equal signs).  It is the C++ `-` of line 1256 and, in
logarithmic space, the macro `OP_DIVIDE` of line 966. -/
def OP_DIVIDE : Val → Val → Option Val
  | none, none => none
  | some none, some none => none
  | none, some _ => some ⊥
  | some _, none => some ⊤
  | some none, some (some _) => some ⊤
  | some (some _), some none => some ⊥
  | some (some x), some (some y) => some (((x - y : ℚ) : WithTop ℚ) : Val)

/-! ## Problem, functions, pseudo tree -/

/-- The part of `Problem` the heuristic reads: the number of variables and
the domain sizes. -/
structure Problem where
  /-- Variable count `getN()`. -/
  N : Nat
  /-- Domain size `getDomainSize(v)`. -/
  getDomainSize : Nat → Nat

/-- A `Function`: its id, its scope (`getScopeSet()`) and its value at an
assignment (`getValue(assignment)`; `getValuePtr` reads the same table through
pointers into the tuple). -/
structure Function where
  /-- Function id. -/
  id : Int
  /-- Scope `getScopeSet()`. -/
  scope : Finset Nat
  /-- Table lookup `getValue(assignment)`. -/
  getValue : Assignment → Val
  /-- Number of table entries `getTableSize()`. -/
  getTableSize : Nat := 0

/-- Modelled from the spec: `Function::getValues(assignment, var, out)` is
missing from the sources; it lists the function's value for every value of
`var`, the rest of the assignment being fixed. -/
def Function.getValues (fn : Function) (assignment : Assignment) (var : Nat)
    (domainSize : Nat) : List Val :=
  (List.range domainSize).map
    (fun (i : Nat) => fn.getValue (Function.update assignment var (i : Int)))

/-- The part of `Pseudotree` the heuristic reads.  `parent v` is
`getNode(v)->getParent()` (the parent's variable, `none` for a null
pointer), `root` is `getRoot()->getVar()`. -/
structure Pseudotree where
  /-- Variable of the root node. -/
  root : Nat
  /-- Parent variable of a node, `none` for NULL. -/
  parent : Nat → Option Nat
  /-- Elimination order `getElimOrder()`. -/
  elimOrder : List Nat
  /-- The original functions `getFunctions(v)` assigned to the bucket of `v`. -/
  getFunctions : Nat → List Function := fun _ => []

/-! ## Mini-buckets -/

/-- Modelled from the spec: the class `MiniBucket` is missing from the sources
(only its uses in `build` are there).  It holds the bucket variable, the
i-bound, the member functions, their joint scope and the output function. -/
structure MiniBucket where
  /-- Bucket variable. -/
  m_bucketVar : Nat
  /-- The i-bound. -/
  m_ibound : Nat
  /-- Member functions, in insertion order. -/
  m_functions : List Function
  /-- Union of the member scopes. -/
  m_jointScope : Finset Nat
  /-- Output function `output_fn()`, `none` while not computed. -/
  m_outputFn : Option Function

/-- Modelled from the spec: the constructor `MiniBucket(v, ibound, problem)`,
missing from the sources, makes an empty mini-bucket. -/
def MiniBucket.new (v ibound : Nat) : MiniBucket :=
  { m_bucketVar := v, m_ibound := ibound, m_functions := [],
    m_jointScope := ∅, m_outputFn := none }

/-- Modelled from the spec: `MiniBucket::allowsFunction` is missing from the
sources; "a function joins the first mini-bucket whose combined scope width
stays within the i-bound". -/
def MiniBucket.allowsFunction (mb : MiniBucket) (f : Function) : Bool :=
  decide ((mb.m_jointScope ∪ f.scope).card ≤ mb.m_ibound)

/-- Modelled from the spec: `MiniBucket::addFunction` is missing from the
sources; the function becomes a member and its scope joins the scope. -/
def MiniBucket.addFunction (mb : MiniBucket) (f : Function) : MiniBucket :=
  { mb with m_functions := mb.m_functions ++ [f],
            m_jointScope := mb.m_jointScope ∪ f.scope }

/-- The combination of the values of a list of functions at one assignment:
`z = ELEM_ONE; for (f : funs) z OP_TIMESEQ f->getValue(a)`. -/
def combineValues (funs : List Function) (a : Assignment) : Val :=
  funs.foldl (fun z f => OP_TIMES z (f.getValue a)) ELEM_ONE

/-- The maximum over the values `0 .. domainSize-1` of `var` of the
combination of `funs`, started at `ELEM_ZERO` (lines 1240-1246). -/
def maxOverVar (funs : List Function) (var domainSize : Nat)
    (tuple : Assignment) : Val :=
  (List.range domainSize).foldl
    (fun acc (x : Nat) =>
      max acc (combineValues funs (Function.update tuple var (x : Int))))
    ELEM_ZERO

/-- Modelled from the spec: `MiniBucket::eliminate` is missing from the
sources; "each mini-bucket is eliminated (v marginalized out via the semiring's
marginalize operator) into an output function".  The output's scope is the
joint scope without the bucket variable and its table has one entry for every
assignment of that scope. -/
def MiniBucket.eliminate (mb : MiniBucket) (problem : Problem) : Function :=
  { id := 0,
    scope := mb.m_jointScope.erase mb.m_bucketVar,
    getValue := fun a =>
      maxOverVar mb.m_functions mb.m_bucketVar
        (problem.getDomainSize mb.m_bucketVar) a,
    getTableSize :=
      Finset.prod (mb.m_jointScope.erase mb.m_bucketVar) problem.getDomainSize }

/-! ## Local error of one table entry (`computeLocalErrorTable`) -/

/-- The list `funs_MB` of lines 1139-1144: the output functions of the
mini-buckets, those that are null skipped. -/
def collect_funs_MB (minibuckets : List MiniBucket) : List Function :=
  minibuckets.filterMap (fun mb => mb.m_outputFn)

/-- The value `tableentryB` of lines 1240-1246 for the tuple of one entry. -/
def computeLocalErrorTable_tableentryB (problem : Problem)
    (funs_B : List Function) (var : Nat) (tuple : Assignment) : Val :=
  maxOverVar funs_B var (problem.getDomainSize var) tuple

/-- The value `tableentryMB` of lines 1249-1251 for the tuple of one entry. -/
def computeLocalErrorTable_tableentryMB (minibuckets : List MiniBucket)
    (tuple : Assignment) : Val :=
  combineValues (collect_funs_MB minibuckets) tuple

/-- The entry error `e = tableentryMB - tableentryB` of line 1256; `none` is the
NaN that the difference of two equal infinities is. -/
def computeLocalErrorTable_e (problem : Problem) (funs_B : List Function)
    (minibuckets : List MiniBucket) (var : Nat) (tuple : Assignment) :
    Option Val :=
  OP_DIVIDE (computeLocalErrorTable_tableentryMB minibuckets tuple)
    (computeLocalErrorTable_tableentryB problem funs_B var tuple)

/-! ## State of the heuristic -/

/-- The constant `INT_MAX` of `<climits>`. -/
def INT_MAX : Int := 2 ^ 31 - 1

/-- The command-line flags read by the heuristic (`DECLARE_*`, lines 29-37). -/
structure Flags where
  /-- Flag `lookahead_starting_probability`. -/
  lookahead_starting_probability : ℚ := 1
  /-- Flag `lookahead_min_probability`. -/
  lookahead_min_probability : ℚ := 0
  /-- Flag `lookahead_fix_probability`. -/
  lookahead_fix_probability : Bool := false
  /-- Flag `lookahead_always_perform_if_better_once`. -/
  lookahead_always_perform_if_better_once : Bool := false
  /-- Flag `lookahead_always_compute`. -/
  lookahead_always_compute : Bool := false
  /-- Flag `bee_importance_sampling`. -/
  bee_importance_sampling : Bool := false
  /-- Flag `aobf_subordering_use_relative_error`. -/
  aobf_subordering_use_relative_error : Bool := false
  /-- Flag `aobf_subordering_depth_limit`. -/
  aobf_subordering_depth_limit : Int := -1

/-- Modelled from the spec: the class `MBLHSubtreeNode` is missing from the
sources.  Of a node of a lookahead subtree `noteOrNodeExpansionBeginning` reads
the validity flag "for the current context". -/
structure MBLHSubtreeNode where
  /-- Bucket variable of the node. -/
  _Var : Nat := 0
  /-- Flag `_IsValidForCurrentContext`. -/
  _IsValidForCurrentContext : Bool := false

/-- Modelled from the spec: the node of an "earlier subtree of identical
shape" that a copy refers to (`_IsCopyOfEarlierSubtree`); the code reads its
`_RootVar` and the validity flags of its `_Children`. -/
structure MBLHSubtreeRef where
  /-- Root variable `_RootVar` of the earlier subtree. -/
  _RootVar : Nat
  /-- The nodes `_Children` whose validity flags are checked. -/
  _Children : List MBLHSubtreeNode := []

/-- Modelled from the spec: the class `MBLHSubtree` is missing from the
sources.  Of a lookahead subtree the queries read the selected descendant
buckets (`_SubtreeNodes`), the value `GetHeuristic(assignment)` it holds and
the back-reference that marks it a structural copy of an earlier subtree. -/
structure MBLHSubtree where
  /-- Bucket variables of the subtree nodes. -/
  _SubtreeNodes : List Nat := []
  /-- The value returned by `GetHeuristic(assignment)`. -/
  GetHeuristic : Assignment → Val := fun _ => 0
  /-- The pointer `_IsCopyOfEarlierSubtree`, `none` for NULL. -/
  _IsCopyOfEarlierSubtree : Option MBLHSubtreeRef := none

/-- Modelled from the spec: the methods `ComputeHeuristic(assignment)` and
`Invalidate()` of `MBLHSubtree` are missing from the sources; they are
parameters of the embedding.  `ComputeHeuristic` receives the assignment by
reference and may change it. -/
structure LookaheadOps where
  /-- The subtree and the assignment that `ComputeHeuristic` leaves. -/
  ComputeHeuristic : MBLHSubtree → Assignment → MBLHSubtree × Assignment :=
    fun t a => (t, a)
  /-- The subtree that `Invalidate` leaves. -/
  Invalidate : MBLHSubtree → MBLHSubtree := fun t => t

/-- The fields of `ProgramOptions` (`m_options`) that the embedded functions
read; the type is missing from the sources. -/
structure ProgramOptions where
  /-- Option `lookahead_use_full_subtree`. -/
  lookahead_use_full_subtree : Bool := false
  /-- Option `force_compute_tables`. -/
  force_compute_tables : Bool := false
  /-- Option `lookahead_LE_IgnoreThreshold`. -/
  lookahead_LE_IgnoreThreshold : ℚ := 0
  /-- Option `aobf_subordering`, the ordering-score source. -/
  aobf_subordering : String := ""
  /-- Option `bee_slice_sample_scope_size`. -/
  bee_slice_sample_scope_size : Nat := 0
  /-- Option `bee_slice_sample_closest_first`. -/
  bee_slice_sample_closest_first : Bool := false
  /-- Option `match`, the moment matching (`match` is a keyword of Lean). -/
  match_ : Bool := false
  /-- Option `lookahead_LE_AllTablesTotalLimit`. -/
  lookahead_LE_AllTablesTotalLimit : Val := 0
  /-- Option `lookahead_LE_SingleTableLimit`. -/
  lookahead_LE_SingleTableLimit : Val := 0
  /-- Option `lookaheadDepth`. -/
  lookaheadDepth : Int := 0
  /-- Option `lookaheadSubtreeSizeLimit`. -/
  lookaheadSubtreeSizeLimit : Int := 0

/-- The part of `SearchNode` that `getOrderingHeur` reads: the cached
per-value ordering-heuristic table. -/
structure SearchNode where
  /-- The table `getOrderingHeurCache()`. -/
  getOrderingHeurCache : List Val := []

/-- The members of `MiniBucketElimLH` (and of its base `MiniBucketElim`) that
the embedded functions read or write. -/
structure MiniBucketElimLH where
  /-- Member `m_problem`. -/
  m_problem : Problem
  /-- Member `m_pseudotree`. -/
  m_pseudotree : Pseudotree
  /-- Member `m_ibound`. -/
  m_ibound : Nat := 0
  /-- The routed functions placed in each bucket. -/
  m_augmented : Nat → List Function := fun _ => []
  /-- The routed functions that pass each bucket. -/
  m_intermediate : Nat → List Function := fun _ => []
  /-- The mini-buckets of each bucket. -/
  _MiniBuckets : Nat → List MiniBucket := fun _ => []
  /-- The functions (original and routed) of each bucket. -/
  _BucketFunctions : Nat → List Function := fun _ => []
  /-- The error-quality tag of each bucket (-1, 0, 1, 2 or 99). -/
  _BucketErrorQuality : Nat → Int := fun _ => -1
  /-- The stored error function of each bucket, `none` for NULL. -/
  _BucketErrorFunctions : Nat → Option Function := fun _ => none
  /-- The scalar subtree-error summaries. -/
  _SubtreeError : List ℚ := []
  /-- The lookahead subtree of each variable. -/
  _Lookahead : Nat → MBLHSubtree := fun _ => {}
  /-- Whether the lookahead was validated in this round. -/
  lookahead_subtree_ok_ : Bool := false
  /-- Number of lookahead computations per variable. -/
  _nLHcalls : Nat → Nat := fun _ => 0
  /-- Number of skipped lookahead computations per variable. -/
  _nLHcallsSkipped : Nat → Nat := fun _ => 0
  /-- Number of times the lookahead changed the best child, per variable. -/
  count_better_ordering_ : Nat → Nat := fun _ => 0
  /-- Trigger probability per variable. -/
  lookahead_probability_ : Nat → ℚ := fun _ => 1
  /-- Statistic `_Stats._NumNodesLookahead`. -/
  _Stats_NumNodesLookahead : Nat → Nat := fun _ => 0
  /-- Statistic `_Stats._MemorySize`. -/
  _Stats_MemorySize : Nat := 0
  /-- Member `m_options`. -/
  m_options : ProgramOptions := {}
  /-- Member `max_lookahead_trials_`, the minimum trial count. -/
  max_lookahead_trials_ : Nat := 0
  /-- The joint scope of each bucket. -/
  _BucketScopes : Nat → Finset Nat := fun _ => ∅
  /-- The sliced error function of each bucket read by the ordering score,
  `none` for NULL. -/
  _TrueSlicedBucketErrorFunctions : Nat → Option Function := fun _ => none
  /-- The subtree error function of each bucket, `none` for NULL. -/
  _SubtreeErrorFunctions : Nat → Option Function := fun _ => none
  /-- Average absolute error of each bucket, `-inf` when there is none. -/
  _BucketError_AbsAvg : Nat → WithBot ℚ := fun _ => ⊥
  /-- Smallest entry error of each bucket. -/
  _BucketError_AbsMin : Nat → Val := fun _ => ⊥
  /-- Largest entry error of each bucket. -/
  _BucketError_AbsMax : Nat → Val := fun _ => ⊥
  /-- Relative error of each bucket, in percent. -/
  _BucketError_Rel : Nat → WithBot ℚ := fun _ => 0
  /-- Statistic `_Stats._EnforcedPseudoWidth`. -/
  _Stats_EnforcedPseudoWidth : Nat := 0
  /-- Statistic `_Stats._LEMemorySizeMB`. -/
  _Stats_LEMemorySizeMB : ℚ := 0
  /-- Counter `_nBucketsWithNonZeroBucketError`. -/
  _nBucketsWithNonZeroBucketError : Nat := 0
  /-- Counter `_nBucketsWithMoreThan1MB`. -/
  _nBucketsWithMoreThan1MB : Nat := 0
  /-- Accumulator `_BucketErrorFnTableSizes_Precomputed` (log10 of a number of
  table entries). -/
  _BucketErrorFnTableSizes_Precomputed : Val := 0
  /-- The common size of the per-variable vectors that `build` resizes at lines
  251-264; it is 0 in a newly constructed object, whose vectors are empty. -/
  perVariableSize : Nat := 0
  /-- Statistic `_Stats._iBound`. -/
  _Stats_iBound : Int := -1
  /-- Statistic `_Stats._Width`. -/
  _Stats_Width : Int := -1
  /-- Statistic `_Stats._PseudoWidth`. -/
  _Stats_PseudoWidth : Int := -1
  /-- Statistic `_Stats._MaxNumMBs`. -/
  _Stats_MaxNumMBs : Int := -1
  /-- Statistic `_Stats._NumBucketsWithMoreThan1MB`. -/
  _Stats_NumBucketsWithMoreThan1MB : Int := 0
  /-- Statistic `_Stats._NumNodesLookaheadSkipped`. -/
  _Stats_NumNodesLookaheadSkipped : Nat → Nat := fun _ => 0
  /-- The pseudo-width of each bucket. -/
  _Pseudowidth : Nat → Int := fun _ => -1
  /-- Member `_MaxDepth`. -/
  _MaxDepth : Int := -1
  /-- The depth of each bucket in the pseudo tree. -/
  _Depth : Nat → Int := fun _ => -1
  /-- The distance of each bucket to its closest descendant with more than one
  mini-bucket. -/
  _distToClosestDescendantWithMBs : Nat → Int := fun _ => INT_MAX
  /-- The distance of each bucket to its closest descendant with substantial
  error. -/
  _distToClosestDescendantWithLE : Nat → Int := fun _ => INT_MAX
  /-- Member `m_globalUB`. -/
  m_globalUB : Val := 0

/-! ## `getLocalError` -/

/-- The vector `sumVals` of lines 934-943: for every value of `var` the
combination of the bucket functions. -/
def getLocalError_sumVals (funs_B : List Function) (assignment : Assignment)
    (var var_domain_size : Nat) : List Val :=
  funs_B.foldl
    (fun sumVals fn =>
      List.zipWith OP_TIMES sumVals (fn.getValues assignment var var_domain_size))
    (List.replicate var_domain_size ELEM_ONE)

/-- `MiniBucketElimLH::getLocalError(var, assignment)` (lines 908-967), with
`DEBUG_BUCKET_ERROR` undefined.  The result is `none` where the source reads
the front of an empty vector. -/
def MiniBucketElimLH.getLocalError (self : MiniBucketElimLH) (var : Nat)
    (assignment : Assignment) : Option Val :=
  let minibuckets := self._MiniBuckets var
  if minibuckets.length ≤ 1 ∨ 0 = self._BucketErrorQuality var then some 0
  else
    match self._BucketErrorFunctions var with
    | some errorFn => some (errorFn.getValue assignment)
    | none =>
      let var_domain_size := self.m_problem.getDomainSize var
      let tableentryMB := combineValues (collect_funs_MB minibuckets) assignment
      if OUR_OWN_nInfinity = tableentryMB then some 0
      else
        match getLocalError_sumVals (self._BucketFunctions var) assignment var
            var_domain_size with
        | [] => none
        | front :: rest =>
          let tableentryB := rest.foldl (fun acc s => max acc s) front
          if tableentryMB ≤ tableentryB then some 0
          else OP_DIVIDE tableentryMB tableentryB

/-! ## `ComputeSubtreeErrors` -/

/-- The call `vector::resize(n, z)`: the first `n` elements are kept and new
elements are `z`. -/
def vector_resize {α : Type} (v : List α) (n : Nat) (z : α) : List α :=
  v.take n ++ List.replicate (n - v.length) z

/-- The value `max(0.0, bucket_error[v])` of line 2120.  The error averages are
finite or the `-inf` with which `build` initialises them (lines 252-254). -/
def clampError : WithBot ℚ → ℚ
  | none => 0
  | some q => max 0 q

/-- One iteration of the loop of `ComputeSubtreeErrors` (lines 2120-2136) for
the variable `v`.  The result is `none` on an index out of range or a null
parent.  The summaries are exact rationals; the division by a domain size 0,
which gives an infinity or NaN in IEEE arithmetic, gives 0 here. -/
def ComputeSubtreeErrors_step (pt : Pseudotree) (problem : Problem)
    (bucket_error : Nat → WithBot ℚ) (subtreeError : List ℚ) (v : Nat) :
    Option (List ℚ) :=
  let e := clampError (bucket_error v)
  match subtreeError[v]? with
  | none => none
  | some old_v =>
    let s1 := subtreeError.set v (old_v + e)
    if v ≠ pt.root then
      match pt.parent v with
      | none => none
      | some p_var =>
        let child_penalty : ℚ := (problem.getDomainSize v : ℚ)
        match s1[p_var]?, s1[v]? with
        | some old_p, some cur_v => some (s1.set p_var (old_p + cur_v / child_penalty))
        | _, _ => none
    else some s1

/-- `MiniBucketElimLH::ComputeSubtreeErrors(bucket_error)` (lines 2116-2138). -/
def MiniBucketElimLH.ComputeSubtreeErrors (self : MiniBucketElimLH)
    (bucket_error : Nat → WithBot ℚ) : Option MiniBucketElimLH :=
  let resized := vector_resize self._SubtreeError self.m_problem.N 0
  (self.m_pseudotree.elimOrder.foldlM
      (ComputeSubtreeErrors_step self.m_pseudotree self.m_problem bucket_error)
      resized).map
    (fun s => { self with _SubtreeError := s })

/-- The pseudo-tree children of `v` among the variables of the elimination
order: the non-root variables whose parent is `v`. -/
def Pseudotree.children (pt : Pseudotree) (v : Nat) : List Nat :=
  pt.elimOrder.filter (fun c => decide (c ≠ pt.root ∧ pt.parent c = some v))

/-- Every non-root variable of the elimination order has its parent later in
the order. -/
def Pseudotree.precedesParent (pt : Pseudotree) : Prop :=
  ∀ v ∈ pt.elimOrder, v ≠ pt.root →
    ∃ p, pt.parent v = some p ∧ p ∈ pt.elimOrder ∧
      pt.elimOrder.indexOf v < pt.elimOrder.indexOf p

/-- The loop body of `ComputeSubtreeErrors` on total maps, used to reason about
the loop: `par` is the parent variable and `dom` the domain size. -/
def subtreeStep (root : Nat) (par : Nat → Nat) (dom : Nat → ℚ) (e : Nat → ℚ)
    (st : Nat → ℚ) (v : Nat) : Nat → ℚ :=
  let s1 := Function.update st v (st v + e v)
  if v ≠ root then
    Function.update s1 (par v) (s1 (par v) + s1 v / dom v)
  else s1

/-! ## `build`: packing a bucket into mini-buckets (lines 356-374) -/

/-- Modelled from the spec: the comparator `scopeIsLarger` is missing from the
sources; the functions are sorted "by descending scope size". -/
def scopeIsLarger (p q : Function) : Bool :=
  decide (q.scope.card < p.scope.card)

/-- The call `sort(funs.begin(), funs.end(), scopeIsLarger)` of line 357, as a
stable sort (the order `std::sort` gives to functions of equal scope size is
not specified). -/
def build_sortFunctions (funs : List Function) : List Function :=
  funs.mergeSort (fun p q => !scopeIsLarger q p)

/-- The inner loop of lines 362-368: the function is added to the first
mini-bucket that allows it; the flag is `placed`. -/
def build_placeInExisting (f : Function) :
    List MiniBucket → List MiniBucket × Bool
  | [] => ([], false)
  | mb :: rest =>
    if mb.allowsFunction f then (mb.addFunction f :: rest, true)
    else
      let r := build_placeInExisting f rest
      (mb :: r.1, r.2)

/-- The body of the loop of lines 359-374 for one function: first fit, and a
new mini-bucket when the function was not placed. -/
def build_placeFunction (v ibound : Nat) (minibuckets : List MiniBucket)
    (f : Function) : List MiniBucket :=
  let r := build_placeInExisting f minibuckets
  if r.2 then r.1 else r.1 ++ [(MiniBucket.new v ibound).addFunction f]

/-- The packing of the functions of the bucket of `v` (lines 356-374): sort,
then first fit in order. -/
def build_partition (v ibound : Nat) (funs : List Function) : List MiniBucket :=
  (build_sortFunctions funs).foldl (build_placeFunction v ibound) []

/-! ## `build`: routing an output function (lines 437-447) -/

/-- The loop of lines 441-445, started at node `n`: every bucket passed gets
`newf` in its intermediate list; the result is the node reached and the
intermediate lists.  The fuel bounds the number of loop tests; the result is
`none` when it runs out or a parent is null. -/
def build_routeLoop (pt : Pseudotree) (newf : Function) :
    Nat → Nat → (Nat → List Function) → Option (Nat × (Nat → List Function))
  | 0, _, _ => none
  | fuel + 1, n, m_intermediate =>
    if n ∉ newf.scope ∧ n ≠ pt.root then
      match pt.parent n with
      | none => none
      | some p =>
        build_routeLoop pt newf fuel p
          (Function.update m_intermediate n (m_intermediate n ++ [newf]))
    else some (n, m_intermediate)

/-- Lines 437-447 of `build`: the table size of the output `newf` of a
mini-bucket of `v` is added to the memory statistic, and `newf` goes up the
tree from the parent of `v` and is appended to the augmented list of the node
reached. -/
def MiniBucketElimLH.build_route (self : MiniBucketElimLH) (fuel v : Nat)
    (newf : Function) : Option MiniBucketElimLH :=
  match self.m_pseudotree.parent v with
  | none => none
  | some n0 =>
    match build_routeLoop self.m_pseudotree newf fuel n0 self.m_intermediate with
    | none => none
    | some (n, m_intermediate) =>
      some { self with
        _Stats_MemorySize := self._Stats_MemorySize + newf.getTableSize,
        m_intermediate := m_intermediate,
        m_augmented :=
          Function.update self.m_augmented n (self.m_augmented n ++ [newf]) }

/-- The list `path` holds the strict ancestors of `v`, nearest first: it
starts at the parent of `v`, follows the parent pointers and ends at the root,
which does not occur earlier. -/
def Pseudotree.isAncestorPath (pt : Pseudotree) : Nat → List Nat → Prop
  | _, [] => False
  | v, [a] => pt.parent v = some a ∧ a = pt.root
  | v, a :: b :: rest =>
    pt.parent v = some a ∧ a ≠ pt.root ∧ pt.isAncestorPath a (b :: rest)

/-- The recipient of a routed function: the nearest ancestor on the path whose
variable is in the function's scope, the root if there is none. -/
def routeTarget (pt : Pseudotree) (path : List Nat) (newf : Function) : Nat :=
  (path.find? (fun a => decide (a ∈ newf.scope))).getD pt.root

/-- The ancestors a routed function passes before it reaches its recipient:
the ones on the path that are neither in its scope nor the root. -/
def routeSkipped (pt : Pseudotree) (path : List Nat) (newf : Function) :
    List Nat :=
  path.takeWhile (fun a => decide (a ∉ newf.scope ∧ a ≠ pt.root))

/-- Appending `newf` to the list of one bucket. -/
def pushAt (newf : Function) (m : Nat → List Function) (a : Nat) :
    Nat → List Function :=
  Function.update m a (m a ++ [newf])

/-! ## Heuristic queries -/

/-- Modelled from the spec: `MiniBucketElim::getHeur` of the base class is
missing from the sources; it is "the plain mini-bucket combination (sum/max
over augmented + intermediate functions targeting var)", as `evaluateMBE` in
`fglpMbeCompare.cpp` computes it. -/
def MiniBucketElim.getHeur (self : MiniBucketElimLH) (var : Nat)
    (assignment : Assignment) : Val :=
  combineValues (self.m_augmented var ++ self.m_intermediate var) assignment

/-- Modelled from the spec: `MiniBucketElim::getHeurAll` of the base class is
missing from the sources; it "fills the plain per-value bounds": one plain
value for every value of `var`. -/
def MiniBucketElim.getHeurAll (self : MiniBucketElimLH) (var : Nat)
    (assignment : Assignment) : List Val :=
  (List.range (self.m_problem.getDomainSize var)).map
    (fun (i : Nat) =>
      MiniBucketElim.getHeur self var (Function.update assignment var (i : Int)))

/-- `MiniBucketElimLH::getHeur(var, assignment, search_node)` (lines 725-780),
without `DEBUG`: the value returned and the state left. -/
def MiniBucketElimLH.getHeur (self : MiniBucketElimLH) (var : Nat)
    (assignment : Assignment) : Val × MiniBucketElimLH :=
  let lhHelper := self._Lookahead var
  if 0 = lhHelper._SubtreeNodes.length ∨ !self.lookahead_subtree_ok_ then
    (MiniBucketElim.getHeur self var assignment, self)
  else
    (lhHelper.GetHeuristic assignment,
      { self with
        _Stats_NumNodesLookahead :=
          Function.update self._Stats_NumNodesLookahead var
            (self._Stats_NumNodesLookahead var + 1) })

/-- The local variables of the comparison loop of `getHeurAll` (lines 821-847)
together with `out` and the assignment. -/
structure GetHeurAllLoop where
  /-- Local `no_lh_argmax`. -/
  no_lh_argmax : Int
  /-- Local `no_lh_max`. -/
  no_lh_max : Val
  /-- Local `lh_argmax`. -/
  lh_argmax : Int
  /-- Local `lh_max`. -/
  lh_max : Val
  /-- The output vector. -/
  out : List Val
  /-- The assignment vector. -/
  assignment : Assignment

/-- One iteration of the loop of lines 828-847 for the value `i`; `none` when
`out` has no entry `i`. -/
def getHeurAll_compareStep (lhHelper : MBLHSubtree) (var : Nat)
    (st : GetHeurAllLoop) (i : Nat) : Option GetHeurAllLoop :=
  let assignment := Function.update st.assignment var (i : Int)
  let lh_value := lhHelper.GetHeuristic assignment
  match st.out[i]? with
  | none => none
  | some out_i =>
    let no_lh := if out_i > st.no_lh_max then ((i : Int), out_i)
      else (st.no_lh_argmax, st.no_lh_max)
    let lh := if lh_value > st.lh_max then ((i : Int), out_i)
      else (st.lh_argmax, st.lh_max)
    some { no_lh_argmax := no_lh.1, no_lh_max := no_lh.2,
           lh_argmax := lh.1, lh_max := lh.2,
           out := st.out.set i lh_value, assignment := assignment }

/-- One iteration of the loop of lines 860-863 for the value `i`; `none` when
`out` has no entry `i`. -/
def getHeurAll_overwriteStep (lhHelper : MBLHSubtree) (var : Nat)
    (st : List Val × Assignment) (i : Nat) : Option (List Val × Assignment) :=
  let assignment := Function.update st.2 var (i : Int)
  if i < st.1.length then
    some (st.1.set i (lhHelper.GetHeuristic assignment), assignment)
  else none

/-- What `getHeurAll` leaves: the output vector, the assignment and the
state. -/
structure GetHeurAllResult where
  /-- The output vector `out`. -/
  out : List Val
  /-- The assignment on return. -/
  assignment : Assignment
  /-- The heuristic's state on return. -/
  state : MiniBucketElimLH

/-- `MiniBucketElimLH::getHeurAll(var, assignment, search_node, out)` (lines
782-868).  The probabilities are exact rationals; the division by a call count
0, which gives an infinity or NaN in IEEE arithmetic, gives 0 here. -/
def MiniBucketElimLH.getHeurAll (self : MiniBucketElimLH) (flags : Flags)
    (var : Nat) (assignment : Assignment) : Option GetHeurAllResult :=
  let old_value := assignment var
  let var_domain_size := self.m_problem.getDomainSize var
  let out := MiniBucketElim.getHeurAll self var assignment
  let lhHelper := self._Lookahead var
  if lhHelper._SubtreeNodes.length > 0 ∧ self.lookahead_subtree_ok_ then
    if !flags.lookahead_always_compute then
      match (List.range var_domain_size).foldlM
          (getHeurAll_compareStep lhHelper var)
          { no_lh_argmax := -1, no_lh_max := ELEM_ZERO, lh_argmax := -1,
            lh_max := ELEM_ZERO, out := out, assignment := assignment } with
      | none => none
      | some st =>
        let state :=
          if st.no_lh_argmax ≠ st.lh_argmax then
            let count := self.count_better_ordering_ var + 1
            let s1 := { self with
              count_better_ordering_ :=
                Function.update self.count_better_ordering_ var count }
            if !flags.lookahead_fix_probability then
              { s1 with
                lookahead_probability_ :=
                  Function.update s1.lookahead_probability_ var
                    (max flags.lookahead_min_probability
                      ((count : ℚ) / (s1._nLHcalls var : ℚ))) }
            else s1
          else self
        some { out := st.out,
               assignment := Function.update st.assignment var old_value,
               state := state }
    else
      match (List.range var_domain_size).foldlM
          (getHeurAll_overwriteStep lhHelper var) (out, assignment) with
      | none => none
      | some st =>
        some { out := st.1,
               assignment := Function.update st.2 var old_value,
               state := self }
  else
    some { out := out,
           assignment := Function.update assignment var old_value,
           state := self }

/-- The entries of a vector of rationals as a total map, 0 outside the
vector. -/
def vecFun (v : List ℚ) : Nat → ℚ := fun i => v.getD i 0

/-- The parent variable as a total map (0 where the parent is null). -/
def Pseudotree.parentVar (pt : Pseudotree) (c : Nat) : Nat :=
  (pt.parent c).getD 0

/-! ## `noteOrNodeExpansionBeginning` -/

/-- The list `path` holds the variables met when going up from `v` to
`target`: it starts at the parent of `v`, follows the parent pointers and ends
at `target`, which does not occur earlier. -/
def Pseudotree.isPathUpTo (pt : Pseudotree) (target : Nat) :
    Nat → List Nat → Prop
  | _, [] => False
  | v, [a] => pt.parent v = some a ∧ a = target
  | v, a :: b :: rest =>
    pt.parent v = some a ∧ a ≠ target ∧ pt.isPathUpTo target a (b :: rest)

/-- The `do ... while (v != earlier_subtree_var)` loop of lines 664-669: it
goes up from `v` and records the assignment of every variable met, the root of
the earlier subtree included.  The fuel bounds the number of iterations; the
result is `none` when it runs out or a parent is null. -/
def noteOrNodeExpansionBeginning_backup (pt : Pseudotree)
    (assignment : Assignment) (earlier_subtree_var : Nat) :
    Nat → Nat → List val_t → Option (List val_t)
  | 0, _, _ => none
  | fuel + 1, v, assignment_backup =>
    match pt.parent v with
    | none => none
    | some p =>
      if p ≠ earlier_subtree_var then
        noteOrNodeExpansionBeginning_backup pt assignment earlier_subtree_var
          fuel p (assignment_backup ++ [assignment p])
      else some (assignment_backup ++ [assignment p])

/-- The decision of lines 708-712 to compute the lookahead; `next_unif` is the
value that `rand::next_unif()` returns when it is drawn. -/
def MiniBucketElimLH.lookaheadDecision (self : MiniBucketElimLH) (flags : Flags)
    (next_unif : ℚ) (var : Nat) : Bool :=
  flags.lookahead_always_compute ||
    decide (self._nLHcalls var < self.max_lookahead_trials_) ||
    (flags.lookahead_always_perform_if_better_once &&
      decide (self.count_better_ordering_ var > 0)) ||
    decide (next_unif ≤ self.lookahead_probability_ var)

/-- `MiniBucketElimLH::noteOrNodeExpansionBeginning(var, assignment,
search_node)` (lines 649-723): the state and the assignment it leaves.  The
fuel bounds the walk to the root of the earlier subtree. -/
def MiniBucketElimLH.noteOrNodeExpansionBeginning (self : MiniBucketElimLH)
    (flags : Flags) (ops : LookaheadOps) (fuel : Nat) (next_unif : ℚ)
    (var : Nat) (assignment : Assignment) :
    Option (MiniBucketElimLH × Assignment) :=
  let lhHelper := self._Lookahead var
  let s0 := { self with lookahead_subtree_ok_ := false }
  match lhHelper._IsCopyOfEarlierSubtree with
  | some earlier =>
    match noteOrNodeExpansionBeginning_backup self.m_pseudotree assignment
        earlier._RootVar fuel var [] with
    | none => none
    | some _ =>
      if earlier._Children.all (fun c => c._IsValidForCurrentContext) then
        some ({ s0 with
                lookahead_subtree_ok_ := true,
                _nLHcalls :=
                  Function.update self._nLHcalls var (self._nLHcalls var + 1) },
              assignment)
      else
        some ({ s0 with
                _nLHcallsSkipped :=
                  Function.update self._nLHcallsSkipped var
                    (self._nLHcallsSkipped var + 1) },
              assignment)
  | none =>
    if lhHelper._SubtreeNodes.length > 0 then
      if self.lookaheadDecision flags next_unif var then
        let computed := ops.ComputeHeuristic lhHelper assignment
        some ({ s0 with
                _nLHcalls :=
                  Function.update self._nLHcalls var (self._nLHcalls var + 1),
                _Lookahead := Function.update self._Lookahead var computed.1,
                lookahead_subtree_ok_ := true },
              computed.2)
      else
        some ({ s0 with
                _Lookahead :=
                  Function.update self._Lookahead var (ops.Invalidate lhHelper),
                _nLHcallsSkipped :=
                  Function.update self._nLHcallsSkipped var
                    (self._nLHcallsSkipped var + 1) },
              assignment)
    else some (s0, assignment)

/-! ## The comparison of `getHeurAll` and the claim's arg-max -/

/-- The comparison loop of `getHeurAll` (lines 821-847) on its own: the local
variables it leaves. -/
def MiniBucketElimLH.getHeurAll_compare (self : MiniBucketElimLH) (var : Nat)
    (assignment : Assignment) : Option GetHeurAllLoop :=
  (List.range (self.m_problem.getDomainSize var)).foldlM
    (getHeurAll_compareStep (self._Lookahead var) var)
    { no_lh_argmax := -1, no_lh_max := ELEM_ZERO, lh_argmax := -1,
      lh_max := ELEM_ZERO,
      out := MiniBucketElim.getHeurAll self var assignment,
      assignment := assignment }

/-- Whether `getHeurAll` reaches the test of line 850 and finds the two
recorded arg-max values different. -/
def MiniBucketElimLH.getHeurAll_detects (self : MiniBucketElimLH) (flags : Flags)
    (var : Nat) (assignment : Assignment) : Bool :=
  decide ((self._Lookahead var)._SubtreeNodes.length > 0) &&
    self.lookahead_subtree_ok_ && !flags.lookahead_always_compute &&
    match self.getHeurAll_compare var assignment with
    | some st => decide (st.no_lh_argmax ≠ st.lh_argmax)
    | none => false

/-- The scan behind `firstArgmax`: the rest of the list, the index of its
head, and the best index and value so far. -/
def firstArgmaxFrom : List Val → Nat → Int → Val → Int
  | [], _, best, _ => best
  | y :: ys, i, best, bestVal =>
    if y > bestVal then firstArgmaxFrom ys (i + 1) (i : Int) y
    else firstArgmaxFrom ys (i + 1) best bestVal

/-- The claim's "domain value that maximises" a list of per-value bounds, the
first maximiser; -1 for the empty list. -/
def firstArgmax : List Val → Int
  | [] => -1
  | x :: xs => firstArgmaxFrom xs 1 0 x

/-- The lookahead values of `var`, one for every value of its domain. -/
def MiniBucketElimLH.lookaheadValues (self : MiniBucketElimLH) (var : Nat)
    (assignment : Assignment) : List Val :=
  (List.range (self.m_problem.getDomainSize var)).map
    (fun (i : Nat) => (self._Lookahead var).GetHeuristic
      (Function.update assignment var (i : Int)))

/-! ## `getOrderingHeur` -/

/-- A rational as a `double`. -/
def dbl (q : ℚ) : Val := ((q : WithTop ℚ) : Val)

/-- `MiniBucketElimLH::getOrderingHeur(var, assignment, n)` (lines 875-906).
The result is `none` where the source reads outside a vector. -/
def MiniBucketElimLH.getOrderingHeur (self : MiniBucketElimLH) (var : Nat)
    (assignment : Assignment) (n : SearchNode) : Option Val :=
  if self.m_options.aobf_subordering = "static_be" then
    (self._SubtreeError[var]?).map dbl
  else if self.m_options.aobf_subordering = "sampled_be" then
    match self._TrueSlicedBucketErrorFunctions var with
    | none => some 0
    | some errorFn => some (errorFn.getValue assignment)
  else if self.m_options.aobf_subordering = "sampled_st_be" then
    match self._SubtreeErrorFunctions var with
    | none => some 0
    | some errorFn => some (errorFn.getValue assignment)
  else
    if 0 ≤ assignment var then n.getOrderingHeurCache[(assignment var).toNat]?
    else none

/-! ## The pointer maps of a bucket (`computeMBOutFnArgsVectorPtrMap`) -/

/-- What lines 97-126 keep for function `j`: the list `idxMap[j]` of pointers
into the tuple, a pointer being the position of the tuple that it points to,
and `iterators[j]`, the part of the sorted scope of the function from
`iterators[j].first` to the end. -/
structure PtrMapEntry where
  /-- The list `idxMap[j]`. -/
  idxMap : List Nat
  /-- The scope from `iterators[j].first` on. -/
  iterator : List Nat

/-- Lines 111-113 for one function: the pointer `elimVal`, which points to
`tuple[n]`, is pushed and the iterator is incremented. -/
def computeMBOutFnArgsVectorPtrMap_skip (n : Nat) (en : PtrMapEntry) : PtrMapEntry :=
  { idxMap := en.idxMap ++ [n], iterator := en.iterator.tail }

/-- Lines 119-123 for one function, at position `i` of the scope, which holds
the variable `x`. -/
def computeMBOutFnArgsVectorPtrMap_match (i x : Nat) (en : PtrMapEntry) : PtrMapEntry :=
  match en.iterator with
  | [] => en
  | y :: rest => if x = y then { idxMap := en.idxMap ++ [i], iterator := rest } else en

/-- One iteration of the loop of lines 108-126, for the position `item.1` of
the scope, which holds the variable `item.2`; the flag is `bucketVarPassed`.
The result is `none` where line 112 increments an iterator that is at the
end. -/
def computeMBOutFnArgsVectorPtrMap_step (elim_var : Int) (n : Nat)
    (st : List PtrMapEntry × Bool) (item : Nat × Nat) :
    Option (List PtrMapEntry × Bool) :=
  let skipped : Option (List PtrMapEntry × Bool) :=
    if st.2 = false ∧ (item.2 : Int) > elim_var then
      if st.1.all (fun en => !en.iterator.isEmpty) then
        some (st.1.map (computeMBOutFnArgsVectorPtrMap_skip n), true)
      else none
    else some st
  skipped.map
    (fun st1 => (st1.1.map (computeMBOutFnArgsVectorPtrMap_match item.1 item.2), st1.2))

/-- The outputs of `computeMBOutFnArgsVectorPtrMap`. -/
structure PtrMapResult where
  /-- Output `scope`. -/
  scope : List Nat
  /-- Output `n`. -/
  n : Nat
  /-- Output `tuple`: the number of elements of the array, `none` for NULL. -/
  tuple : Option Nat
  /-- Output `idxMap`. -/
  idxMap : List (List Nat)

/-- `computeMBOutFnArgsVectorPtrMap(elim_var, Functions, scope, n, tuple,
idxMap)` (lines 73-135); `tuple` is the number of elements of the array that is
passed in, `none` for NULL.  The result is `none` where an iterator is moved
past the end: `sit` when `n` is larger than the scope, and line 112. -/
def computeMBOutFnArgsVectorPtrMap (elim_var : Int) (Functions : List Function)
    (n : Nat) (tuple : Option Nat) : Option PtrMapResult :=
  let scope_ := Functions.foldl (fun s f => s ∪ f.scope) (∅ : Finset Nat)
  let scope := (scope_.filter (fun (u : Nat) => (u : Int) ≠ elim_var)).sort (fun a b => a ≤ b)
  let n1 : Nat := if tuple = none then scope.length else n
  let tuple1 : Option Nat := if tuple = none then some (scope.length + 1) else tuple
  if n1 > scope.length then none
  else
    match (scope.take n1).enum.foldlM (computeMBOutFnArgsVectorPtrMap_step elim_var n1)
        (Functions.map
          (fun f => { idxMap := [], iterator := f.scope.sort (fun a b => a ≤ b) }),
          false) with
    | none => none
    | some st =>
      some
        { scope := scope,
          n := n1,
          tuple := tuple1,
          idxMap :=
            if st.2 = false ∧ elim_var < INT_MAX then
              st.1.map (fun en => en.idxMap ++ [n1])
            else st.1.map (fun en => en.idxMap) }

/-- The position of the tuple that the pointer for the variable `u` points to,
as the specification has it: `tuple[n]` for `elim_var` and `tuple[i]` for
`scope[i]`. -/
def pointerOf (elim_var : Int) (n : Nat) (scope : List Nat) (u : Nat) : Nat :=
  if (u : Int) = elim_var then n else scope.indexOf u

/-- The invariant of the loop of lines 108-126 for one function with the
sorted scope `s`, when the variables `pre` of the scope of the bucket are done
and `post` are to come: the pointers are those of the variables that the
iterator has passed, which are variables of `pre` or `elim_var` when it is
passed, and the variables that the iterator has not passed are variables of
`post` or `elim_var` when it is not passed. -/
def PtrMapEntry.invariant (en : PtrMapEntry) (elim_var : Int) (n : Nat) (scope : List Nat)
    (pre post : List Nat) (passed : Bool) (s : List Nat) : Prop :=
  ∃ done, s = done ++ en.iterator ∧
    en.idxMap = done.map (pointerOf elim_var n scope) ∧
    (∀ u ∈ done, u ∈ pre ∨ ((u : Int) = elim_var ∧ passed = true)) ∧
    (∀ u ∈ en.iterator, u ∈ post ∨ ((u : Int) = elim_var ∧ passed = false))

/-! ## Local-error estimation (`computeLocalErrorTable`) -/

/-- The constant `DBL_MIN` of `<cfloat>`: the smallest positive normalised
double. -/
def DBL_MIN : ℚ := 1 / 2 ^ 1022

/-- The constant `DBL_MAX` of `<cfloat>`: the largest finite double. -/
def DBL_MAX : ℚ := (2 ^ 53 - 1) * 2 ^ 971

/-- The sum `x + y` of two doubles, `none` where IEEE gives NaN (the sum of
infinities of opposite sign). -/
def addDouble : Val → Val → Option Val
  | none, some none => none
  | some none, none => none
  | x, y => some (x + y)

/-- The quotient of a double by a positive count (`avgError / numErrorItems`,
line 1316): an infinity stays what it is. -/
def divByCount : Val → ℚ → Val
  | none, _ => ⊥
  | some none, _ => ⊤
  | some (some x), n => dbl (x / n)

/-- The rational that a finite double holds (0 for an infinity); it is read
only where the double is known to be finite. -/
def finiteValue : Val → ℚ
  | some (some x) => x
  | _ => 0

/-- The functions `log10` and `pow(10.0, .)` of the C library at finite
arguments, and the rounded sum and difference of two finite doubles where the
source compares a running sum of logarithms with a limit (lines 1888-1920);
they are parameters of the embedding.  The sum and the difference are the exact
ones unless an instance says otherwise. -/
structure Libm where
  /-- The value `log10(x)` for `x > 0`. -/
  log10 : ℚ → ℚ
  /-- The value `pow(10.0, x)`. -/
  pow10 : ℚ → ℚ
  /-- The double `x + y` of two finite doubles. -/
  add : ℚ → ℚ → ℚ := fun x y => x + y
  /-- The double `x - y` of two finite doubles. -/
  sub : ℚ → ℚ → ℚ := fun x y => x - y

/-- The call `log10(x)` on a double: `-inf` at 0, `+inf` at `+inf`, and NaN
(`none`) at a negative argument. -/
def Libm.log10D (libm : Libm) : Val → Option Val
  | none => none
  | some none => some ⊤
  | some (some x) =>
    if x < 0 then none else if x = 0 then some ⊥ else some (dbl (libm.log10 x))

/-- The call `log10(m_problem->getDomainSize(u))` on a domain size. -/
def Libm.log10_int (libm : Libm) (k : Nat) : Val :=
  if k = 0 then ⊥ else dbl (libm.log10 (k : ℚ))

/-- The statement `x += y` on doubles, as the C library rounds it: the
parameter `add` on finite doubles; with an infinity the sum is the one of the
extended numbers (`+inf` does not arise where it is used, the logarithm of a
domain size being finite or `-inf`). -/
def Libm.addD (libm : Libm) : Val → Val → Val
  | some (some x), some (some y) => ((libm.add x y : WithTop ℚ) : Val)
  | x, y => x + y

/-- The statement `x -= y` on doubles, as the C library rounds it: the
parameter `sub` on finite doubles, and `OP_DIVIDE` with an infinity (`none` is
NaN). -/
def Libm.subD (libm : Libm) : Val → Val → Option Val
  | some (some x), some (some y) => some ((libm.sub x y : WithTop ℚ) : Val)
  | x, y => OP_DIVIDE x y

/-- The call `pow(10.0, x)` on a double: 0 at `-inf`, `+inf` at `+inf`. -/
def Libm.pow10D (libm : Libm) : Val → Val
  | none => 0
  | some none => ⊤
  | some (some x) => dbl (libm.pow10 x)

/-- The conversion `(int64) x` of a double: the fraction is dropped; `none`
for an infinity or a value outside of the range of `int64`, where the
conversion is undefined. -/
def toInt64 : Val → Option Int
  | some (some x) =>
    let t : Int := if 0 ≤ x then Int.floor x else -Int.floor (-x)
    if -(2 : Int) ^ 63 ≤ t ∧ t < (2 : Int) ^ 63 then some t else none
  | _ => none

/-- The value that a product of type `int64` wraps to. -/
def wrapInt64 (x : Int) : Int := (x + 2 ^ 63) % 2 ^ 64 - 2 ^ 63

/-- The product `TableSize` of lines 1124-1128, in `int64`. -/
def computeLocalErrorTable_TableSize (problem : Problem) (scope : List Nat) :
    Int :=
  scope.foldl (fun acc u => wrapInt64 (acc * (problem.getDomainSize u : Int))) 1

/-- The sum `TableSizeLog` of lines 1090-1101; `none` is the exit of line 1094
at a domain size whose logarithm is negative. -/
def computeLocalErrorTable_TableSizeLog (libm : Libm) (problem : Problem)
    (scope : List Nat) : Option Val :=
  scope.foldlM
    (fun acc u =>
      let dsLog := libm.log10_int (problem.getDomainSize u)
      if dsLog < 0 then none else some (acc + dsLog))
    (0 : Val)

/-- The vector `scope` that `computeMBOutFnArgsVectorPtrMap` (lines 73-135)
fills: the union of the scopes of the functions without `elim_var`, in
increasing order.  Position `i` of the tuple holds the value of the `i`-th
variable of this vector. -/
def computeMBOutFnArgsVectorPtrMap_scope (elim_var : Option Nat)
    (Functions : List Function) : List Nat :=
  let scope_ := Functions.foldl (fun s f => s ∪ f.scope) (∅ : Finset Nat)
  match elim_var with
  | some v => (scope_.erase v).sort (fun a b => a ≤ b)
  | none => scope_.sort (fun a b => a ≤ b)

/-- The assignment that the pointers of `idxMap` read: the variable at
position `i` of `scope` has the value `tuple[i]`.  The value of the bucket
variable, `tuple[n]`, is set by the enumeration of lines 1241-1246. -/
def tupleAssignment (scope : List Nat) (tuple : List Int) : Assignment :=
  fun v => tuple.getD (scope.indexOf v) 0

/-- The step "find next combination" on the tuple and the domain sizes, both
reversed: `for (i = n - 1; i >= 0; i--) { if (++tuple[i] < domains[i]) break;
tuple[i] = 0; }` (lines 1227-1230). -/
def computeLocalErrorTable_nextTupleRev : List Int → List Int → List Int
  | t :: ts, d :: ds =>
    if t + 1 < d then (t + 1) :: ts
    else 0 :: computeLocalErrorTable_nextTupleRev ts ds
  | ts, _ => ts

/-- The step "find next combination" of lines 1227-1230. -/
def computeLocalErrorTable_nextTuple (domains tuple : List Int) : List Int :=
  (computeLocalErrorTable_nextTupleRev tuple.reverse domains.reverse).reverse

/-- The random tuple of lines 1233-1236 for entry `j`; `rand j i k` is what
`rand::next(k)` returns when it is drawn for position `i` of entry `j`. -/
def computeLocalErrorTable_randomTuple (problem : Problem)
    (rand : Nat → Nat → Nat → Int) (scopeB : List Nat) (j : Nat) : List Int :=
  (List.range scopeB.length).map
    (fun (i : Nat) => rand j i (problem.getDomainSize (scopeB.getD i 0)))

/-- The index of the entry of a table over `scope` that an assignment selects:
the last variable of the scope runs fastest, as in the enumeration of lines
1227-1230. -/
def tableIndex (problem : Problem) (scope : List Nat) (a : Assignment) : Int :=
  scope.foldl (fun idx u => idx * (problem.getDomainSize u : Int) + a u) 0

/-- Modelled from the spec: the class `FunctionBayes` is missing from the
sources.  `FunctionBayes(id, problem, scope, table, size)` is the function
over `scope` that looks its value up in `table`; an entry that was never
written reads 0 here. -/
def FunctionBayes (id : Int) (problem : Problem) (scope : List Nat)
    (table : List Val) (size : Int) : Function :=
  { id := id,
    scope := scope.toFinset,
    getValue := fun a => table.getD (tableIndex problem scope a).toNat 0,
    getTableSize := size.toNat }

/-- The local variables of the loop of lines 1223-1295. -/
structure LocalErrorTableLoop where
  /-- The first `n` positions of `tuple`. -/
  tuple : List Int
  /-- Local `total_sample_weight_noninf`. -/
  total_sample_weight_noninf : ℚ := 0
  /-- Local `avgError_non_inf`. -/
  avgError_non_inf : ℚ := 0
  /-- Local `avgExact_non_inf`. -/
  avgExact_non_inf : ℚ := 0
  /-- Local `errorAbsMin`. -/
  errorAbsMin : Val := ⊤
  /-- Local `errorAbsMax`. -/
  errorAbsMax : Val := ⊥
  /-- Local `numErrorItems`. -/
  numErrorItems : ℚ := 0
  /-- Output `avgError`, the running sum; `none` is NaN. -/
  avgError : Option Val := some 0
  /-- Output `avgExact`, the running sum; `none` is NaN. -/
  avgExact : Option Val := some 0
  /-- Output `nEntriesGenerated`. -/
  nEntriesGenerated : Nat := 0
  /-- The entries written to `newTable`, `none` when it is NULL; an entry `none`
  is NaN. -/
  newTable : Option (List (Option Val)) := none
  /-- Local `nEntries_B_inf`; no statement of the loop changes it. -/
  nEntries_B_inf : Int := 0

/-- The statement `x += y` on doubles that may be NaN (`none`). -/
def addNaN : Option Val → Option Val → Option Val
  | some x, some y => addDouble x y
  | _, _ => none

/-- One iteration of the loop of lines 1223-1295, for entry `j`.  The entry
error `e` of line 1256 and the two running sums may be NaN (`none`): a NaN fails
every comparison, it is added to the sums and it is stored in the table.  Inside
the test of line 1257 the values are finite and the weighted sums are exact
rationals. -/
def computeLocalErrorTable_loopStep (problem : Problem) (libm : Libm)
    (flags : Flags) (rand : Nat → Nat → Nat → Int) (var : Nat)
    (funs_B : List Function) (minibuckets : List MiniBucket)
    (scopeB scopeMB : List Nat) (domains : List Int) (enumerate_table : Bool)
    (st : LocalErrorTableLoop) (j : Nat) : LocalErrorTableLoop :=
  let tuple :=
    if enumerate_table then computeLocalErrorTable_nextTuple domains st.tuple
    else computeLocalErrorTable_randomTuple problem rand scopeB j
  let tableentryB :=
    computeLocalErrorTable_tableentryB problem funs_B var
      (tupleAssignment scopeB tuple)
  let tableentryMB :=
    computeLocalErrorTable_tableentryMB minibuckets
      (tupleAssignment scopeMB tuple)
  let sample_weight : ℚ :=
    if flags.bee_importance_sampling then libm.pow10 (finiteValue tableentryMB)
    else 1
  let e : Option Val := OP_DIVIDE tableentryMB tableentryB
  let noninf : Bool :=
    match e with
    | some x =>
      decide (x ≥ 0) && decide (x < ⊤) && decide (tableentryB ≠ OUR_OWN_nInfinity)
    | none => false
  { tuple := tuple,
    total_sample_weight_noninf :=
      if noninf then st.total_sample_weight_noninf + sample_weight
      else st.total_sample_weight_noninf,
    avgError_non_inf :=
      if noninf then st.avgError_non_inf + sample_weight * finiteValue (e.getD 0)
      else st.avgError_non_inf,
    avgExact_non_inf :=
      if noninf then
        st.avgExact_non_inf + sample_weight * finiteValue tableentryB
      else st.avgExact_non_inf,
    errorAbsMin :=
      match e with
      | some x => if x < st.errorAbsMin then x else st.errorAbsMin
      | none => st.errorAbsMin,
    errorAbsMax :=
      match e with
      | some x => if x > st.errorAbsMax then x else st.errorAbsMax
      | none => st.errorAbsMax,
    numErrorItems := st.numErrorItems + 1,
    avgError := addNaN st.avgError e,
    avgExact := addNaN st.avgExact (some tableentryB),
    nEntriesGenerated := st.nEntriesGenerated + 1,
    newTable := st.newTable.map (fun t => t ++ [e]),
    nEntries_B_inf := st.nEntries_B_inf }

/-- The test `x <= y` on a double that may be NaN (`none`), which fails it. -/
def leNaN : Option Val → Val → Bool
  | some x, y => decide (x ≤ y)
  | none, _ => false

/-- The classification of lines 1348-1359: the quality tag and what is left of
`build_table`. -/
def computeLocalErrorTable_classify (nEntries_B_inf : Int)
    (rel_error threshold : ℚ) (avgError : Option Val) (enumerate_table : Bool)
    (nEntriesGenerated : Nat) (build_table : Bool) : Int × Bool :=
  if nEntries_B_inf > 0 ∨ rel_error > threshold then (2, build_table)
  else if leNaN avgError (dbl DBL_MIN) = true ∧ enumerate_table = true then (0, false)
  else if leNaN avgError (dbl DBL_MIN) = true ∧ nEntriesGenerated > 0 then (0, false)
  else (1, build_table)

/-- What `new FunctionBayes(id, m_problem, scope, table, size)` is made of, for
the table of an estimation, whose entries may be NaN (`none`). -/
structure ErrorFunctionBayes where
  /-- The id. -/
  id : Int
  /-- The scope, in increasing order. -/
  scope : List Nat
  /-- The table. -/
  table : List (Option Val)
  /-- The number of entries. -/
  size : Int

/-- The entries of a table when none of them is NaN. -/
def tableValues : List (Option Val) → Option (List Val)
  | [] => some []
  | none :: _ => none
  | some x :: rest => (tableValues rest).map (fun t => x :: t)

/-- The `Function` that an error function is; `none` when its table holds a
NaN, which no `Function` of the embedding does. -/
def ErrorFunctionBayes.toFunction (problem : Problem) (f : ErrorFunctionBayes) :
    Option Function :=
  (tableValues f.table).map (fun t => FunctionBayes f.id problem f.scope t f.size)

/-- What `computeLocalErrorTable` and `computeLocalErrorTableSlice` leave: the
return value, the state, and the output parameters. -/
structure LocalErrorTableResult where
  /-- The return value. -/
  ret : Int
  /-- The state of the heuristic. -/
  state : MiniBucketElimLH
  /-- Output `TableSizeLog`. -/
  TableSizeLog : Val
  /-- Output `avgError`; `none` is NaN. -/
  avgError : Option Val
  /-- Output `avgExact`; `none` is NaN. -/
  avgExact : Option Val
  /-- Output `errorFn`, `none` for NULL. -/
  errorFn : Option ErrorFunctionBayes
  /-- Output `nEntriesGenerated`. -/
  nEntriesGenerated : Nat

/-- The part of `computeLocalErrorTable` after the loop (lines 1296-1392). -/
def MiniBucketElimLH.computeLocalErrorTable_finish (self : MiniBucketElimLH)
    (var : Nat) (build_table enumerate_table : Bool) (scope : List Nat)
    (TableSize : Int) (TableSizeLog : Val) (st : LocalErrorTableLoop) :
    LocalErrorTableResult :=
  if st.nEntriesGenerated ≤ 0 then
    { ret := 0, state := self, TableSizeLog := TableSizeLog,
      avgError := st.avgError, avgExact := st.avgExact, errorFn := none,
      nEntriesGenerated := st.nEntriesGenerated }
  else
    let avgError_non_inf :=
      if st.total_sample_weight_noninf > 0 then
        st.avgError_non_inf / st.total_sample_weight_noninf
      else st.avgError_non_inf
    let avgExact_non_inf :=
      if st.total_sample_weight_noninf > 0 then
        st.avgExact_non_inf / st.total_sample_weight_noninf
      else st.avgExact_non_inf
    let rel_error : ℚ :=
      if |avgExact_non_inf| > 0 then |100 * avgError_non_inf / avgExact_non_inf|
      else -1
    let s1 := { self with
      _BucketError_Rel := Function.update self._BucketError_Rel var rel_error }
    let counted : Bool := decide (st.numErrorItems > 0)
    let avgError :=
      if counted then st.avgError.map (fun x => divByCount x st.numErrorItems)
      else st.avgError
    let avgExact :=
      if counted then st.avgExact.map (fun x => divByCount x st.numErrorItems)
      else st.avgExact
    let s2 :=
      if counted then
        { s1 with
          _BucketError_AbsAvg :=
            Function.update s1._BucketError_AbsAvg var
              (if st.total_sample_weight_noninf > 0 then
                ((avgError_non_inf : ℚ) : WithBot ℚ)
              else ⊥),
          _BucketError_AbsMin :=
            Function.update s1._BucketError_AbsMin var st.errorAbsMin,
          _BucketError_AbsMax :=
            Function.update s1._BucketError_AbsMax var st.errorAbsMax }
      else s1
    let build_table1 := if counted then build_table else false
    let threshold := max DBL_MIN self.m_options.lookahead_LE_IgnoreThreshold
    let cls := computeLocalErrorTable_classify st.nEntries_B_inf rel_error
      threshold avgError enumerate_table st.nEntriesGenerated build_table1
    let errorFn :=
      match cls.2, st.newTable with
      | true, some newTable =>
        some { id := -(var : Int), scope := scope, table := newTable, size := TableSize }
      | _, _ => none
    { ret := 0,
      state := { s2 with
        _BucketErrorQuality := Function.update s2._BucketErrorQuality var cls.1,
        _Stats_LEMemorySizeMB :=
          s2._Stats_LEMemorySizeMB +
            (st.nEntriesGenerated : ℚ) * 8 / (1024 * 1024) },
      TableSizeLog := TableSizeLog,
      avgError := avgError,
      avgExact := avgExact,
      errorFn := errorFn,
      nEntriesGenerated := st.nEntriesGenerated }

/-- `MiniBucketElimLH::computeLocalErrorTable(var, build_table,
sample_table_if_not_computed, TableMemoryLimitAsNumElementsLog, TableSizeLog,
avgError, avgExact, errorFn, nEntriesGenerated)` (lines 1030-1393).

The result is `none` where the behaviour is undefined: where one of the two
calls of `computeMBOutFnArgsVectorPtrMap` (lines 1150 and 1153) moves an
iterator past the end, the second one walking `n` positions of the scope of the
mini-bucket outputs, where the conversion to `int64` is undefined, and for an
empty scope, where line 1169 writes `tuple[-1]`.  The entries are read at the
values that the tuple gives to the variables of the two scopes, which is what
the pointer maps do when every bucket function holds the bucket variable.  The
counters `nFNsBEexact` and `nFNsBEsampled`, which are only printed, are left
out. -/
def MiniBucketElimLH.computeLocalErrorTable (self : MiniBucketElimLH)
    (libm : Libm) (flags : Flags) (rand : Nat → Nat → Nat → Int) (var : Nat)
    (build_table sample_table_if_not_computed : Bool)
    (TableMemoryLimitAsNumElementsLog : Val) : Option LocalErrorTableResult :=
  let limit : Val :=
    if TableMemoryLimitAsNumElementsLog > dbl 9 then dbl 9
    else TableMemoryLimitAsNumElementsLog
  let minibuckets := self._MiniBuckets var
  let jointScope := self._BucketScopes var
  let exit (quality : Int) (ret : Int) (TableSizeLog : Val) :
      Option LocalErrorTableResult :=
    some
      { ret := ret,
        state := { self with
          _BucketErrorQuality :=
            Function.update self._BucketErrorQuality var quality },
        TableSizeLog := TableSizeLog, avgError := some 0,
        avgExact := some (dbl DBL_MAX), errorFn := none, nEntriesGenerated := 0 }
  if minibuckets.length ≤ 1 then
    exit (if self.m_options.lookahead_use_full_subtree then 99 else 0) 0
      OUR_OWN_nInfinity
  else if self.m_options.force_compute_tables = false ∧ build_table = false ∧
      limit ≤ 0 then
    exit 99 0 OUR_OWN_nInfinity
  else
    let scope := (jointScope.erase var).sort (fun a b => a ≤ b)
    match computeLocalErrorTable_TableSizeLog libm self.m_problem scope with
    | none => exit 0 0 OUR_OWN_nInfinity
    | some TableSizeLog =>
      if TableSizeLog < 0 then exit 0 0 OUR_OWN_nInfinity
      else if TableSizeLog > limit ∧ sample_table_if_not_computed = false then
        exit 99 1 TableSizeLog
      else
        let build_table1 : Bool :=
          if TableSizeLog > limit then false else build_table
        let domains : List Int :=
          scope.map (fun u => (self.m_problem.getDomainSize u : Int))
        let TableSize := computeLocalErrorTable_TableSize self.m_problem scope
        if TableSize ≤ 0 then exit 0 0 OUR_OWN_nInfinity
        else
          let funs_B := self._BucketFunctions var
          let funs_MB := collect_funs_MB minibuckets
          match computeMBOutFnArgsVectorPtrMap (var : Int) funs_B 0 none with
          | none => none
          | some mapB =>
            match computeMBOutFnArgsVectorPtrMap INT_MAX funs_MB mapB.n mapB.tuple with
            | none => none
            | some mapMB =>
              let scopeB := mapB.scope
              let scopeMB := mapMB.scope
              let n := mapMB.n
              let early : LocalErrorTableResult :=
                { ret := 1, state := self, TableSizeLog := TableSizeLog,
                  avgError := some (dbl DBL_MAX), avgExact := some (dbl DBL_MAX),
                  errorFn := none, nEntriesGenerated := 0 }
              if scopeB.length ≠ scopeMB.length then some early
              else if scopeB.length ≠ scope.length then some early
              else if scope.length ≠ n then some early
              else
                let s1 :=
                  if self._Stats_EnforcedPseudoWidth < scope.length then
                    { self with _Stats_EnforcedPseudoWidth := scope.length }
                  else self
                if n = 0 then none
                else
                  match toInt64 (libm.pow10D limit) with
                  | none => none
                  | some requested =>
                    let nEntriesRequested : Int :=
                      min TableSize (if requested < 1024 then 1024 else requested)
                    let enumerate_table : Bool :=
                      build_table1 || decide (nEntriesRequested ≥ TableSize)
                    let init : LocalErrorTableLoop :=
                      { tuple := List.replicate (n - 1) 0 ++ [-1],
                        newTable := if build_table1 then some [] else none }
                    let st := (List.range nEntriesRequested.toNat).foldl
                      (computeLocalErrorTable_loopStep self.m_problem libm flags
                        rand var funs_B minibuckets scopeB scopeMB domains
                        enumerate_table)
                      init
                    some (s1.computeLocalErrorTable_finish var build_table1
                      enumerate_table scope TableSize TableSizeLog st)

/-! ## Local-error estimation of all buckets (`computeLocalErrorTables`) -/

/-- The code that the estimation of all buckets calls and that is not
embedded: it is a parameter.  `deleteLocalErrorFNs` and `findDfsOrder` are
missing from the sources; the sampling of `computeLocalErrorTableSlice` and
the two functions that compute subtree error functions need the helper
`IdxMapIncrement`, which is missing from the sources. -/
structure LocalErrorExternals where
  /-- The state that `deleteLocalErrorFNs()` leaves. -/
  deleteLocalErrorFNs : MiniBucketElimLH → MiniBucketElimLH
  /-- The order that `findDfsOrder(elimOrder)` computes. -/
  findDfsOrder : MiniBucketElimLH → List Nat
  /-- Lines 1456-1775 of `computeLocalErrorTableSlice(var, output_scope,
  TableMemoryLimitAsNumElementsLog, ...)`, for a bucket with more than one
  mini-bucket whose scopes pass the assertions of lines 1492-1493; `none` when
  another assertion fails. -/
  computeLocalErrorTableSlice_sample :
    MiniBucketElimLH → Nat → Finset Nat → Val → Option LocalErrorTableResult
  /-- The state that `ComputeSubtreeErrorFns(_BucketErrorFunctions)` leaves. -/
  ComputeSubtreeErrorFns : MiniBucketElimLH → Option MiniBucketElimLH
  /-- The state that `ComputeDepthLimitedSubtreeErrorFns(_BucketErrorFunctions,
  depth_limit)` leaves. -/
  ComputeDepthLimitedSubtreeErrorFns :
    MiniBucketElimLH → Int → Option MiniBucketElimLH

/-- `MiniBucketElimLH::computeLocalErrorTableSlice(var, output_scope,
TableMemoryLimitAsNumElementsLog, ...)` (lines 1396-1776): the checks, the
table size of the slice, the exit for a bucket with at most one mini-bucket and
the assertions of lines 1492-1493 on the sizes of the scopes are embedded; the
rest of lines 1456-1775 is the parameter.  The assertions are compiled in
(`NDEBUG` is not defined): a failed assertion gives `none`, as do an allocation
of a negative size and the walk of the second call of
`computeMBOutFnArgsVectorPtrMap` (line 1485) past the end of a scope of the
mini-bucket outputs that is shorter than the one of the bucket functions. -/
def MiniBucketElimLH.computeLocalErrorTableSlice (self : MiniBucketElimLH)
    (ext : LocalErrorExternals) (var : Nat) (output_scope : Finset Nat)
    (TableMemoryLimitAsNumElementsLog : Val) : Option LocalErrorTableResult :=
  if output_scope.card > self.m_ibound then none
  else
    let minibuckets := self._MiniBuckets var
    let jointScope := self._BucketScopes var
    if ¬ output_scope ⊆ jointScope then none
    else
      let scope_slice := (output_scope.erase var).sort (fun a b => a ≤ b)
      let TableSize := computeLocalErrorTable_TableSize self.m_problem scope_slice
      if minibuckets.length ≤ 1 then
        if TableSize < 0 then none
        else
          some
            { ret := 0, state := self, TableSizeLog := OUR_OWN_nInfinity,
              avgError := some 0, avgExact := some (dbl DBL_MAX),
              errorFn :=
                some { id := -(var : Int), scope := scope_slice,
                       table := List.replicate TableSize.toNat (some 0),
                       size := TableSize },
              nEntriesGenerated := 0 }
      else
        let scope := (jointScope.erase var).sort (fun a b => a ≤ b)
        let scopeB :=
          computeMBOutFnArgsVectorPtrMap_scope (some var) (self._BucketFunctions var)
        let scopeMB :=
          computeMBOutFnArgsVectorPtrMap_scope none (collect_funs_MB minibuckets)
        if scopeB.length ≠ scopeMB.length then none
        else if scopeB.length ≠ scope.length then none
        else
          ext.computeLocalErrorTableSlice_sample self var output_scope
            TableMemoryLimitAsNumElementsLog

/-- The local `table_space_left` of lines 1849-1856. -/
def computeLocalErrorTables_table_space_left (libm : Libm)
    (TotalMemoryLimitAsNumElementsLog Precomputed : Val) : Option Val :=
  if TotalMemoryLimitAsNumElementsLog > 0 ∧
      TotalMemoryLimitAsNumElementsLog > Precomputed then
    (OP_DIVIDE Precomputed TotalMemoryLimitAsNumElementsLog).bind fun d =>
    (OP_DIVIDE 1 (libm.pow10D d)).bind fun x =>
    (libm.log10D x).bind fun l =>
    addDouble TotalMemoryLimitAsNumElementsLog l
  else some OUR_OWN_nInfinity

/-- The sum in logarithmic space `acc + log10(1.0 + pow(10.0, x - acc))` of
lines 1936-1939. -/
def computeLocalErrorTables_logAdd (libm : Libm) (acc x : Val) : Option Val :=
  (OP_DIVIDE x acc).bind fun d =>
  (addDouble 1 (libm.pow10D d)).bind fun y =>
  (libm.log10D y).bind fun l =>
  addDouble acc l

/-- The loops of lines 1902-1920 that remove variables from the scope of the
slice, over the elimination order in the chosen direction; the running size
`current_table_size_log` is a double, and `-=` rounds as the parameter `sub`
says.  The result is `none` where a NaN arises. -/
def computeLocalErrorTables_sliceLoop (libm : Libm) (problem : Problem)
    (v target_scope_size : Nat) (table_size_actual_limit : Val) :
    List Nat → Finset Nat → Val → Option (Finset Nat)
  | [], output_scope, _ => some output_scope
  | u :: rest, output_scope, current_table_size_log =>
    if output_scope.card ≤ target_scope_size ∧
        current_table_size_log ≤ table_size_actual_limit then
      some output_scope
    else if u ≠ v ∧ u ∈ output_scope then
      match libm.subD current_table_size_log
          (libm.log10_int (problem.getDomainSize u)) with
      | none => none
      | some smaller =>
        computeLocalErrorTables_sliceLoop libm problem v target_scope_size
          table_size_actual_limit rest (output_scope.erase u) smaller
    else
      computeLocalErrorTables_sliceLoop libm problem v target_scope_size
        table_size_actual_limit rest output_scope current_table_size_log

/-- The scope of the slice of bucket `v` (lines 1888-1921); the sum of line
1892 rounds as the parameter `add` says. -/
def MiniBucketElimLH.computeLocalErrorTables_sliceScope (self : MiniBucketElimLH)
    (libm : Libm) (v : Nat) (table_size_actual_limit : Val) :
    Option (Finset Nat) :=
  let output_scope := self._BucketScopes v
  let current_table_size_log : Val :=
    (output_scope.sort (fun a b => a ≤ b)).foldl
      (fun acc u => libm.addD acc (libm.log10_int (self.m_problem.getDomainSize u))) 0
  let target_scope_size :=
    min self.m_options.bee_slice_sample_scope_size self.m_ibound
  let elim_order := self.m_pseudotree.elimOrder
  computeLocalErrorTables_sliceLoop libm self.m_problem v target_scope_size
    table_size_actual_limit
    (if self.m_options.bee_slice_sample_closest_first then elim_order.reverse
     else elim_order)
    output_scope current_table_size_log

/-- The value of `current_table_size_log` where the loops of lines 1902-1920
have gone over the variables `pre` of the order without stopping, from the value
`cur` at the scope `scope`, for domains that are not empty: every variable of
`pre` other than `v` that the scope holds is erased and its logarithm
subtracted, rounded as the parameter `sub` says. -/
def computeLocalErrorTables_sliceLogAfter (libm : Libm) (problem : Problem) (v : Nat) :
    List Nat → Finset Nat → ℚ → ℚ
  | [], _, cur => cur
  | u :: pre, scope, cur =>
    if u ≠ v ∧ u ∈ scope then
      computeLocalErrorTables_sliceLogAfter libm problem v pre (scope.erase u)
        (libm.sub cur (libm.log10 (problem.getDomainSize u : ℚ)))
    else computeLocalErrorTables_sliceLogAfter libm problem v pre scope cur

/-- The value of `current_table_size_log` for the bucket scope `scope` where the
variables `pre` of the order have been gone over: the sum of lines 1890-1892
over the scope in increasing order, rounded as the parameter `add` says, and
then the subtractions of lines 1908 and 1918. -/
def computeLocalErrorTables_sliceSizeLog (libm : Libm) (problem : Problem) (v : Nat)
    (pre : List Nat) (scope : Finset Nat) : ℚ :=
  computeLocalErrorTables_sliceLogAfter libm problem v pre scope
    ((scope.sort (fun a b => a ≤ b)).foldl
      (fun acc u => libm.add acc (libm.log10 (problem.getDomainSize u : ℚ))) 0)

/-- The estimation for one bucket `v` in `computeLocalErrorTables` (lines
1848-1929): the quality tag is reset to -1 and `computeLocalErrorTableSlice`
or `computeLocalErrorTable` is called (`NO_LH_PREPROCESSING` undefined). -/
def MiniBucketElimLH.computeLocalErrorTables_call (self : MiniBucketElimLH)
    (ext : LocalErrorExternals) (libm : Libm) (flags : Flags)
    (rand : Nat → Nat → Nat → Int) (build_tables : Bool)
    (TotalMemoryLimitAsNumElementsLog TableMemoryLimitAsNumElementsLog : Val)
    (v : Nat) : Option LocalErrorTableResult :=
  let s0 := { self with
    _BucketErrorQuality := Function.update self._BucketErrorQuality v (-1) }
  match computeLocalErrorTables_table_space_left libm
      TotalMemoryLimitAsNumElementsLog
      self._BucketErrorFnTableSizes_Precomputed with
  | none => none
  | some table_space_left =>
    let limit0 : Val :=
      if table_space_left < TableMemoryLimitAsNumElementsLog then table_space_left
      else TableMemoryLimitAsNumElementsLog
    let build_table : Bool := if limit0 ≤ 0 then false else build_tables
    let table_size_actual_limit : Val :=
      if limit0 ≤ 0 then TableMemoryLimitAsNumElementsLog else limit0
    let do_sample : Bool :=
      if self.m_options.lookahead_use_full_subtree then false else true
    if self.m_options.aobf_subordering = "sampled_be" ∨
        self.m_options.aobf_subordering = "sampled_st_be" then
      match s0.computeLocalErrorTables_sliceScope libm v
          table_size_actual_limit with
      | none => none
      | some output_scope =>
        s0.computeLocalErrorTableSlice ext v output_scope table_size_actual_limit
    else
      s0.computeLocalErrorTable libm flags rand v build_table do_sample
        table_size_actual_limit

/-- What the statement `_BucketErrorFunctions[v] = errorFn` of line 1931
stores: the `Function` that the error function is.  The result is `none` when
its table holds a NaN: the state of the embedding holds no such function. -/
def computeLocalErrorTables_stored (problem : Problem) :
    Option ErrorFunctionBayes → Option (Option Function)
  | none => some none
  | some f => (f.toFunction problem).map some

/-- One iteration of the loop of lines 1845-1968 for the bucket `v`: the
estimation and what is stored of it.  The second component is the local
`nTotalEntriesGenerated`.  The standard deviation and the accumulator
`_BucketErrorFnTableSizes_Ignored`, which are only printed, are left out. -/
def computeLocalErrorTables_step (ext : LocalErrorExternals) (libm : Libm)
    (flags : Flags) (rand : Nat → Nat → Nat → Int) (build_tables : Bool)
    (TotalMemoryLimitAsNumElementsLog TableMemoryLimitAsNumElementsLog : Val)
    (acc : MiniBucketElimLH × Nat) (v : Nat) :
    Option (MiniBucketElimLH × Nat) :=
  match acc.1.computeLocalErrorTables_call ext libm flags rand build_tables
      TotalMemoryLimitAsNumElementsLog TableMemoryLimitAsNumElementsLog v with
  | none => none
  | some r =>
    match computeLocalErrorTables_stored r.state.m_problem r.errorFn with
    | none => none
    | some errorFn =>
      let s1 := { r.state with
        _BucketErrorFunctions :=
          Function.update r.state._BucketErrorFunctions v errorFn,
        _nBucketsWithNonZeroBucketError :=
          if r.state._BucketErrorQuality v > 1 then
            r.state._nBucketsWithNonZeroBucketError + 1
          else r.state._nBucketsWithNonZeroBucketError }
      let precomputed : Option Val :=
        if r.errorFn.isSome ∧ r.TableSizeLog > 0 then
          computeLocalErrorTables_logAdd libm
            s1._BucketErrorFnTableSizes_Precomputed r.TableSizeLog
        else some s1._BucketErrorFnTableSizes_Precomputed
      precomputed.map fun p =>
        ({ s1 with _BucketErrorFnTableSizes_Precomputed := p },
          acc.2 + r.nEntriesGenerated)

/-- The estimation of `computeLocalErrorTables` (lines 1796-1968): the stored
error functions are deleted, the counters are reset and every bucket of the
order of `findDfsOrder`, taken backwards, is estimated.  The vectors are total
maps here, so the two calls of `resize` change nothing; the accumulator
`_BucketErrorFnTableSizes_Total`, which is only printed, is left out. -/
def MiniBucketElimLH.computeLocalErrorTables_estimate (self : MiniBucketElimLH)
    (ext : LocalErrorExternals) (libm : Libm) (flags : Flags)
    (rand : Nat → Nat → Nat → Int) (build_tables : Bool)
    (TotalMemoryLimitAsNumElementsLog TableMemoryLimitAsNumElementsLog : Val) :
    Option (MiniBucketElimLH × Nat) :=
  let elimOrder := ext.findDfsOrder self
  let s0 := ext.deleteLocalErrorFNs self
  let s1 := { s0 with
    _BucketErrorFnTableSizes_Precomputed := dbl (-DBL_MIN),
    _nBucketsWithNonZeroBucketError := 0,
    _nBucketsWithMoreThan1MB :=
      (elimOrder.reverse.filter
        (fun v => decide ((s0._MiniBuckets v).length > 1))).length }
  elimOrder.reverse.foldlM
    (computeLocalErrorTables_step ext libm flags rand build_tables
      TotalMemoryLimitAsNumElementsLog TableMemoryLimitAsNumElementsLog)
    (s1, 0)

/-- `MiniBucketElimLH::computeLocalErrorTables(build_tables,
TotalMemoryLimitAsNumElementsLog, TableMemoryLimitAsNumElementsLog)` (lines
1778-2114): the estimation, then the subtree errors (lines 2067-2108). -/
def MiniBucketElimLH.computeLocalErrorTables (self : MiniBucketElimLH)
    (ext : LocalErrorExternals) (libm : Libm) (flags : Flags)
    (rand : Nat → Nat → Nat → Int) (build_tables : Bool)
    (TotalMemoryLimitAsNumElementsLog TableMemoryLimitAsNumElementsLog : Val) :
    Option MiniBucketElimLH :=
  match self.computeLocalErrorTables_estimate ext libm flags rand build_tables
      TotalMemoryLimitAsNumElementsLog TableMemoryLimitAsNumElementsLog with
  | none => none
  | some (s1, _) =>
    match (if flags.aobf_subordering_use_relative_error then
        s1.ComputeSubtreeErrors s1._BucketError_Rel
      else s1.ComputeSubtreeErrors s1._BucketError_AbsAvg) with
    | none => none
    | some s2 =>
      if s2.m_options.aobf_subordering = "sampled_st_be" then
        if flags.aobf_subordering_depth_limit < 0 then
          ext.ComputeSubtreeErrorFns s2
        else
          ext.ComputeDepthLimitedSubtreeErrorFns s2
            flags.aobf_subordering_depth_limit
      else some s2

/-! ## `build`: moment matching (lines 376-414) -/

/-- Modelled from the spec: the macro `OP_ROOT` is missing from the sources;
it is "the m-th root", which is "in log space the sum divided by m". -/
def OP_ROOT (x : Val) (n : Nat) : Val := divByCount x (n : ℚ)

/-- The local `scope_intersection` of lines 378-387; the flag is
`first_mini_bucket`. -/
def build_scope_intersection (minibuckets : List MiniBucket) : Finset Nat :=
  (minibuckets.foldl
    (fun (acc : Finset Nat × Bool) mini_bucket =>
      if acc.2 then (mini_bucket.m_jointScope, false)
      else (acc.1 ∩ mini_bucket.m_jointScope, false))
    ((∅ : Finset Nat), true)).1

/-- The local `table_size` of lines 396-398, a `size_t`. -/
def build_table_size (problem : Problem) (scope_intersection : Finset Nat) : Nat :=
  (scope_intersection.sort (fun a b => a ≤ b)).foldl
    (fun table_size var => table_size * problem.getDomainSize var % 2 ^ 64) 1

/-- The table `average_mm_table` of lines 400-409 from the tables of the
max-marginals, for `nMB` mini-buckets: every entry starts at `ELEM_ONE`, is
combined with the entry of every max-marginal, and then `OP_ROOT` is taken.
The result is `none` when a table is read past its end. -/
def build_average_mm_table (table_size : Nat) (max_marginals : List (List Val))
    (nMB : Nat) : Option (List Val) :=
  (max_marginals.foldlM
      (fun average_mm_table max_marginal =>
        if max_marginal.length < table_size then none
        else some (List.zipWith OP_TIMES average_mm_table max_marginal))
      (List.replicate table_size ELEM_ONE)).map
    (fun average_mm_table => average_mm_table.map (fun x => OP_ROOT x nMB))

/-- The moment-matching step of `build` (lines 377-413) for the mini-buckets of
one bucket: the max-marginals and the function `average_mm_function`.  The
two-argument `MiniBucket::eliminate` (called with `computeTables` true) and
`Function::getTable` are missing from the sources and are parameters. -/
def build_momentMatching (problem : Problem)
    (eliminate : MiniBucket → Finset Nat → Function)
    (getTable : Function → List Val) (minibuckets : List MiniBucket) :
    Option (List Function × Function) :=
  let scope_intersection := build_scope_intersection minibuckets
  let max_marginals :=
    minibuckets.map
      (fun mini_bucket =>
        eliminate mini_bucket (mini_bucket.m_jointScope \ scope_intersection))
  let table_size := build_table_size problem scope_intersection
  (build_average_mm_table table_size (max_marginals.map getTable)
      minibuckets.length).map
    (fun average_mm_table =>
      (max_marginals,
        FunctionBayes 0 problem (scope_intersection.sort (fun a b => a ≤ b))
          average_mm_table table_size))

/-! ## `reset` (lines 138-154) and `build` (lines 196-596) -/

/-- Modelled from the spec: `MBLHSubtree::Delete` is missing from the sources;
the "previous state is fully released", which leaves the subtree empty. -/
def MBLHSubtree.Delete (_ : MBLHSubtree) : MBLHSubtree := {}

/-- Modelled from the spec: `_Stats.reset()`, whose class is missing from the
sources, leaves the statistics of a newly constructed object. -/
def MiniBucketElimLH.Stats_reset (self : MiniBucketElimLH) : MiniBucketElimLH :=
  { self with
    _Stats_iBound := -1,
    _Stats_MemorySize := 0,
    _Stats_Width := -1,
    _Stats_PseudoWidth := -1,
    _Stats_EnforcedPseudoWidth := 0,
    _Stats_MaxNumMBs := -1,
    _Stats_NumBucketsWithMoreThan1MB := 0,
    _Stats_LEMemorySizeMB := 0,
    _Stats_NumNodesLookahead := fun _ => 0,
    _Stats_NumNodesLookaheadSkipped := fun _ => 0 }

/-- Modelled from the spec: `MiniBucketElim::reset()` of the base class is
missing from the sources; it releases the routed functions of every bucket. -/
def MiniBucketElim.reset (self : MiniBucketElimLH) : MiniBucketElimLH :=
  { self with m_augmented := fun _ => [], m_intermediate := fun _ => [] }

/-- `MiniBucketElimLH::reset()` (lines 138-154).  The two calls of `resize` on
the cleared statistics change nothing on total maps. -/
def MiniBucketElimLH.reset (self : MiniBucketElimLH) (ext : LocalErrorExternals) :
    MiniBucketElimLH :=
  let s1 := { self with _Lookahead := fun v => (self._Lookahead v).Delete }
  let s2 := ext.deleteLocalErrorFNs s1
  let s3 := { s2 with _BucketScopes := fun _ => ∅, _BucketFunctions := fun _ => [] }
  MiniBucketElim.reset s3.Stats_reset

/-- The call `resize(n, z)` on a per-variable vector of `size` elements that is
held as a total map: the elements below `size` are kept and the new ones are
`z`. -/
def vector_resize_map {α : Type} (v : Nat → α) (size : Nat) (z : α) : Nat → α :=
  fun i => if i < size then v i else z

/-- The code that `build` calls and that is not embedded, next to the code of
`LocalErrorExternals`; it is missing from the sources and is a parameter. -/
structure BuildExternals extends LocalErrorExternals where
  /-- The problem and the pseudo tree that `LPReparameterization()` leaves; it
  re-parameterises the functions of the problem. -/
  LPReparameterization : MiniBucketElimLH → Problem × Pseudotree
  /-- The max-marginal `mini_bucket.eliminate(computeTables, elim_vars)` with
  `computeTables` true. -/
  eliminate_vars : MiniBucket → Finset Nat → Function
  /-- The table `getTable()` of a function. -/
  getTable : Function → List Val
  /-- The output `eliminateMM(computeTables, max_marginal, average_mm_function)`
  of a mini-bucket with `computeTables` true. -/
  eliminateMM : MiniBucket → Function → Function → Function
  /-- The value `m_problem->globalConstInfo()`. -/
  globalConstInfo : Val
  /-- The state that `SetupLookaheadStructure_FractionOfLargestAbsErrorNodesOnly(
  *this, lookaheadDepth, lookaheadSubtreeSizeLimit)` leaves. -/
  SetupLookaheadStructure_FractionOfLargestAbsErrorNodesOnly :
    MiniBucketElimLH → Option MiniBucketElimLH

/-- One iteration of the loop of lines 228-241: the depth of `v` and the
largest depth so far. -/
def build_depthStep (pt : Pseudotree) (acc : (Nat → Int) × Int) (v : Nat) :
    (Nat → Int) × Int :=
  let d : Int :=
    match pt.parent v with
    | none => 0
    | some u => 1 + acc.1 u
  (Function.update acc.1 v d, if d > acc.2 then d else acc.2)

/-- The scopes of `funs` inserted into `jointScope` (lines 298-301 and
308-311). -/
def build_insertScopes (jointScope : Finset Nat) (funs : List Function) :
    Finset Nat :=
  funs.foldl (fun s f => s ∪ f.scope) jointScope

/-- The body of the loop of lines 423-448 for the mini-bucket `item.2` of `v`
at position `item.1`: its output `newf` is computed, by `eliminate` when there
was no moment matching and by `eliminateMM` when there was, and routed.  The
second component collects the mini-buckets with their outputs. -/
def build_processMiniBucket (ext : BuildExternals) (fuel v : Nat)
    (mm : Option (List Function × Function))
    (acc : MiniBucketElimLH × List MiniBucket) (item : Nat × MiniBucket) :
    Option (MiniBucketElimLH × List MiniBucket) :=
  let newf : Option Function :=
    match mm with
    | none => some (item.2.eliminate acc.1.m_problem)
    | some (max_marginals, average_mm_function) =>
      (max_marginals[item.1]?).map
        (fun max_marginal => ext.eliminateMM item.2 max_marginal average_mm_function)
  match newf with
  | none => none
  | some newf =>
    (acc.1.build_route fuel v newf).map
      (fun s => (s, acc.2 ++ [{ item.2 with m_outputFn := some newf }]))

/-- The body of the loop of lines 272-450 for the bucket of `v`; `dummy` is
`elimOrder[0]`, the dummy root variable.  The result is `none` where `build`
has no defined result: a NaN, a null parent, or fuel that runs out. -/
def MiniBucketElimLH.build_bucket (self : MiniBucketElimLH) (ext : BuildExternals)
    (fuel : Nat) (assignment : Option Assignment) (computeTables : Bool)
    (dummy v : Nat) : Option MiniBucketElimLH :=
  let fnlist := self.m_pseudotree.getFunctions v
  let scope0 := build_insertScopes ∅ fnlist
  let funs := fnlist ++ self.m_augmented v
  let jointScope := build_insertScopes scope0 (self.m_augmented v)
  let s1 : MiniBucketElimLH :=
    { self with
      _MiniBuckets := Function.update self._MiniBuckets v [],
      _BucketFunctions := Function.update self._BucketFunctions v funs,
      _BucketScopes := Function.update self._BucketScopes v jointScope,
      _Stats_Width :=
        if self._Stats_Width < (scope0.card : Int) then (scope0.card : Int)
        else self._Stats_Width,
      _Pseudowidth := Function.update self._Pseudowidth v (jointScope.card : Int),
      _Stats_PseudoWidth :=
        if self._Stats_PseudoWidth < (jointScope.card : Int) then
          (jointScope.card : Int)
        else self._Stats_PseudoWidth }
  if v = dummy then
    match computeTables, assignment with
    | true, some a =>
      (OP_DIVIDE (combineValues funs a) ext.globalConstInfo).map
        (fun ub => { s1 with m_globalUB := ub })
    | _, _ => some s1
  else
    let minibuckets := build_partition v self.m_ibound funs
    let mm : Option (Option (List Function × Function)) :=
      if computeTables = true ∧ self.m_options.match_ = true ∧
          minibuckets.length > 1 then
        (build_momentMatching self.m_problem ext.eliminate_vars ext.getTable
          minibuckets).map some
      else some none
    match mm with
    | none => none
    | some mm =>
      let nMBs : Int := (minibuckets.length : Int)
      let s2 : MiniBucketElimLH :=
        { s1 with
          _BucketFunctions :=
            Function.update s1._BucketFunctions v (build_sortFunctions funs),
          _MiniBuckets := Function.update s1._MiniBuckets v minibuckets,
          _Stats_MaxNumMBs :=
            if s1._Stats_MaxNumMBs < nMBs then nMBs else s1._Stats_MaxNumMBs,
          _Stats_NumBucketsWithMoreThan1MB :=
            if nMBs > 1 then s1._Stats_NumBucketsWithMoreThan1MB + 1
            else s1._Stats_NumBucketsWithMoreThan1MB }
      (minibuckets.enum.foldlM (build_processMiniBucket ext fuel v mm) (s2, [])).map
        (fun r => { r.1 with _MiniBuckets := Function.update r.1._MiniBuckets v r.2 })

/-- One iteration of the loop of lines 464-478: the distance of the parent of
`v` to its closest descendant with more than one mini-bucket. -/
def build_distStep (pt : Pseudotree) (minibuckets : Nat → List MiniBucket)
    (dist : Nat → Int) (v : Nat) : Nat → Int :=
  match pt.parent v with
  | none => dist
  | some parent_v =>
    let d2parent_v : Int := if (minibuckets v).length > 1 then 0 else dist v
    if d2parent_v ≥ INT_MAX then dist
    else if d2parent_v + 1 < dist parent_v then
      Function.update dist parent_v (d2parent_v + 1)
    else dist

/-- Lines 203-269 of `build`: the reset, the order, the depths and the
vectors.  The second component is the local `elimOrder`.  The vectors of lines
221-250 hold empty elements after `reset` or keep their elements, so their
`resize` changes nothing on total maps. -/
def MiniBucketElimLH.build_prepare (self : MiniBucketElimLH) (ext : BuildExternals)
    (flags : Flags) (computeTables : Bool) : MiniBucketElimLH × List Nat :=
  let s0 := self.reset ext.toLocalErrorExternals
  let s1 : MiniBucketElimLH :=
    if computeTables then
      { s0 with m_problem := (ext.LPReparameterization s0).1,
                m_pseudotree := (ext.LPReparameterization s0).2 }
    else s0
  let elimOrder := ext.findDfsOrder s1
  let depth := elimOrder.foldl (build_depthStep s1.m_pseudotree) (fun _ => -1, -1)
  let size := s1.perVariableSize
  let s2 : MiniBucketElimLH :=
    { s1 with
      _Stats_iBound := (s1.m_ibound : Int),
      _MaxDepth := depth.2,
      _Depth := depth.1,
      _Stats_MemorySize := 0,
      _BucketErrorQuality := vector_resize_map s1._BucketErrorQuality size (-1),
      _BucketError_AbsAvg := vector_resize_map s1._BucketError_AbsAvg size ⊥,
      _BucketError_AbsMin :=
        vector_resize_map s1._BucketError_AbsMin size OUR_OWN_nInfinity,
      _BucketError_AbsMax :=
        vector_resize_map s1._BucketError_AbsMax size OUR_OWN_nInfinity,
      _BucketError_Rel := vector_resize_map s1._BucketError_Rel size 0,
      _Pseudowidth := vector_resize_map s1._Pseudowidth size (-1),
      _distToClosestDescendantWithMBs :=
        vector_resize_map s1._distToClosestDescendantWithMBs size INT_MAX,
      _nLHcalls := vector_resize_map s1._nLHcalls size 0,
      _nLHcallsSkipped := vector_resize_map s1._nLHcallsSkipped size 0,
      _distToClosestDescendantWithLE :=
        vector_resize_map s1._distToClosestDescendantWithLE size INT_MAX,
      lookahead_probability_ :=
        vector_resize_map s1.lookahead_probability_ size
          flags.lookahead_starting_probability,
      count_better_ordering_ := vector_resize_map s1.count_better_ordering_ size 0,
      perVariableSize := s1.m_problem.N }
  let s3 := ext.deleteLocalErrorFNs s2
  ({ s3 with _Lookahead := fun i => (s3._Lookahead i).Delete }, elimOrder)

/-- Lines 203-478 of `build`: the preparation, the buckets from the leaves to
the root, and the distances to the closest descendant with more than one
mini-bucket.  The second component is the local `elimOrder`. -/
def MiniBucketElimLH.build_structure (self : MiniBucketElimLH) (ext : BuildExternals)
    (flags : Flags) (fuel : Nat) (assignment : Option Assignment)
    (computeTables : Bool) : Option (MiniBucketElimLH × List Nat) :=
  let prepared := self.build_prepare ext flags computeTables
  let elimOrder := prepared.2
  match elimOrder.reverse.foldlM
      (fun s v => s.build_bucket ext fuel assignment computeTables (elimOrder.headD 0) v)
      prepared.1 with
  | none => none
  | some s5 =>
    some
      ({ s5 with
          _distToClosestDescendantWithMBs :=
            elimOrder.reverse.foldl (build_distStep s5.m_pseudotree s5._MiniBuckets)
              s5._distToClosestDescendantWithMBs },
        elimOrder)

/-- `MiniBucketElimLH::build(assignment, computeTables)` (lines 196-596): the
state it leaves and the value it returns.  The statistics of lines 480-482 and
521-591, which are only printed, are left out. -/
def MiniBucketElimLH.build (self : MiniBucketElimLH) (ext : BuildExternals)
    (libm : Libm) (flags : Flags) (rand : Nat → Nat → Nat → Int) (fuel : Nat)
    (assignment : Option Assignment) (computeTables : Bool) :
    Option (MiniBucketElimLH × Nat) :=
  match self.build_structure ext flags fuel assignment computeTables with
  | none => none
  | some (s, elimOrder) =>
    let mem_size := s._Stats_MemorySize
    if computeTables = false then
      some (s.reset ext.toLocalErrorExternals, mem_size)
    else
      let estimated : Option MiniBucketElimLH :=
        if s.m_options.lookahead_use_full_subtree = false ∨
            s.m_options.aobf_subordering ≠ "" then
          s.computeLocalErrorTables ext.toLocalErrorExternals libm flags rand true
            s.m_options.lookahead_LE_AllTablesTotalLimit
            s.m_options.lookahead_LE_SingleTableLimit
        else
          some { s with
            _BucketErrorQuality :=
              elimOrder.foldl (fun q v => Function.update q v 99)
                s._BucketErrorQuality }
      match estimated with
      | none => none
      | some s1 =>
        if s1.m_options.lookaheadDepth > 0 ∨
            s1.m_options.lookaheadSubtreeSizeLimit > 0 then
          (ext.SetupLookaheadStructure_FractionOfLargestAbsErrorNodesOnly s1).map
            (fun s2 => (s2, mem_size))
        else some (s1, mem_size)

/-- The table size of the output function of a mini-bucket, 0 while there is
none. -/
def MiniBucket.outputTableSize (mb : MiniBucket) : Nat :=
  match mb.m_outputFn with
  | some f => f.getTableSize
  | none => 0

/-- The members of the heuristic that the estimation of the local errors
(`computeLocalErrorTables`) does not write. -/
def MiniBucketElimLH.estimationFrame (self : MiniBucketElimLH) :=
  (self.m_problem, self.m_pseudotree, self.m_ibound, self.m_options,
    self.m_augmented, self.m_intermediate, self._MiniBuckets, self._nLHcalls,
    self._nLHcallsSkipped, self.count_better_ordering_, self.lookahead_probability_,
    self._distToClosestDescendantWithMBs, self._Stats_Width, self._Stats_PseudoWidth,
    self._Pseudowidth, self._Stats_MemorySize, self.perVariableSize)

/-- The code that the estimation calls and that is not embedded leaves the
members of `estimationFrame` as they are. -/
def LocalErrorExternals.keepsEstimationFrame (ext : LocalErrorExternals) : Prop :=
  (∀ s : MiniBucketElimLH,
    (ext.deleteLocalErrorFNs s).estimationFrame = s.estimationFrame) ∧
  (∀ (s : MiniBucketElimLH) (var : Nat) (output_scope : Finset Nat) (limit : Val)
      (r : LocalErrorTableResult),
    ext.computeLocalErrorTableSlice_sample s var output_scope limit = some r →
      r.state.estimationFrame = s.estimationFrame) ∧
  (∀ s s1 : MiniBucketElimLH, ext.ComputeSubtreeErrorFns s = some s1 →
    s1.estimationFrame = s.estimationFrame) ∧
  (∀ (s s1 : MiniBucketElimLH) (depth_limit : Int),
    ext.ComputeDepthLimitedSubtreeErrorFns s depth_limit = some s1 →
      s1.estimationFrame = s.estimationFrame)

/-- The members of the heuristic that the loop over the buckets of `build` does
not write. -/
def MiniBucketElimLH.bucketFrame (self : MiniBucketElimLH) :=
  (self.m_problem, self.m_pseudotree, self.m_ibound, self.m_options, self._nLHcalls,
    self._nLHcallsSkipped, self.count_better_ordering_, self.lookahead_probability_,
    self._distToClosestDescendantWithMBs, self.perVariableSize)

/-! ## `ComputeSubtreeErrorFns`: the message to the parent (lines 2172-2268) -/

/-- Modelled from the spec: the class `Function` is missing from the sources.
A table of finite doubles over a scope; an entry is selected by the values of
the scope variables, and the arithmetic on the entries is exact. -/
structure ErrorTable where
  /-- Scope `getScopeSet()`. -/
  scope : Finset Nat
  /-- The entries, by the values of the scope variables. -/
  table : Assignment → ℚ

/-- Modelled from the spec: `getValuePtr(idx_map)`, where the index map points
at the positions of the scope variables in `tuple`: the entry that the values
of the scope variables in `tuple` select. -/
def ErrorTable.getValuePtr (f : ErrorTable) (tuple : Assignment) : ℚ :=
  f.table (fun u => if u ∈ f.scope then tuple u else 0)

/-- Modelled from the spec: `setValuePtr(idx_map, x)`: the entry that the values
of the scope variables in `tuple` select becomes `x`. -/
def ErrorTable.setValuePtr (f : ErrorTable) (tuple : Assignment) (x : ℚ) : ErrorTable :=
  { f with
    table := fun a => if ∀ u ∈ f.scope, a u = tuple u then x else f.table a }

/-- Modelled from the spec: the helper `IdxMapIncrement` is missing from the
sources; it steps the positions of an index map through their domains like an
odometer and reports the wrap-around.  The list holds the tuples that a loop of
as many rounds as there are combinations visits from `tuple`, which has the
value 0 at the variables `vars`. -/
def assignmentsOver (problem : Problem) : List Nat → Assignment → List Assignment
  | [], tuple => [tuple]
  | u :: rest, tuple =>
    ((List.range (problem.getDomainSize u)).map
      (fun (x : Nat) => assignmentsOver problem rest (Function.update tuple u (x : Int)))).flatten

/-- The local `value` of lines 2241-2249 at `tuple`: the sum of the table of `v`
over the assignments of the variables that only `v` has, divided by their
number `v_only_cardinality`. -/
def ComputeSubtreeErrorFns_value (problem : Problem) (current_fn : ErrorTable)
    (v_only : List Nat) (tuple : Assignment) : ℚ :=
  (assignmentsOver problem v_only tuple).foldl
      (fun value t => value + current_fn.getValuePtr t) 0 /
    ((v_only.map (fun u => (problem.getDomainSize u : ℚ))).prod)

/-- Lines 2172-2268 of `ComputeSubtreeErrorFns` for a variable with the table
`current_fn` and the parent variable `p_var` with the table `parent_fn`: the
table of the parent after the message.  The result is `none` when a variable of
the two scopes has an empty domain, where an assertion fails, and when the
domain of `p_var` is empty, where `value / child_penalty` is an infinity or a
NaN, which the tables of the embedding do not hold. -/
def ComputeSubtreeErrorFns_message (problem : Problem) (p_var : Nat)
    (current_fn parent_fn : ErrorTable) : Option ErrorTable :=
  let var_scope := current_fn.scope
  let p_var_scope := parent_fn.scope
  let intersecting := (var_scope ∩ p_var_scope).sort (fun a b => a ≤ b)
  let v_only := (var_scope \ p_var_scope).sort (fun a b => a ≤ b)
  let p_only := (p_var_scope \ var_scope).sort (fun a b => a ≤ b)
  if ∃ u ∈ var_scope ∪ p_var_scope, problem.getDomainSize u = 0 then none
  else if problem.getDomainSize p_var = 0 then none
  else
    let child_penalty : ℚ := (problem.getDomainSize p_var : ℚ)
    some
      ((assignmentsOver problem intersecting (fun _ => 0)).foldl
        (fun parent_fn tuple =>
          let value := ComputeSubtreeErrorFns_value problem current_fn v_only tuple
          (assignmentsOver problem p_only tuple).foldl
            (fun parent_fn t =>
              parent_fn.setValuePtr t (parent_fn.getValuePtr t + value / child_penalty))
            parent_fn)
        parent_fn)

/-! ## Rounds of the search at an OR node -/

/-- Modelled from the spec: the search that calls the heuristic is missing from
the sources.  A round at an OR node of `var` is the call
`noteOrNodeExpansionBeginning(var, assignment, node)` followed by the call
`getHeurAll(var, assignment, node, out)` on the same assignment vector; the
first component of `round` is the uniform draw of the round. -/
def MiniBucketElimLH.lookaheadRound (self : MiniBucketElimLH) (flags : Flags)
    (ops : LookaheadOps) (fuel : Nat) (round : ℚ × Nat × Assignment) :
    Option MiniBucketElimLH :=
  match self.noteOrNodeExpansionBeginning flags ops fuel round.1 round.2.1 round.2.2 with
  | none => none
  | some (s1, a1) => (s1.getHeurAll flags round.2.1 a1).map (fun r => r.state)

/-- Modelled from the spec: a sequence of rounds of the search, each on the
state that the round before left. -/
def MiniBucketElimLH.lookaheadRounds (self : MiniBucketElimLH) (flags : Flags)
    (ops : LookaheadOps) (fuel : Nat) (rounds : List (ℚ × Nat × Assignment)) :
    Option MiniBucketElimLH :=
  rounds.foldlM (fun s round => s.lookaheadRound flags ops fuel round) self

/-! ## The enumeration of a table (lines 1167-1169, 1227-1230) -/

/-- The mixed-radix digits of `j` over the domain sizes `domains`, both lists
reversed: the position that runs fastest comes first. -/
def mixedRadixRev : List Nat → Nat → List Int
  | [], _ => []
  | d :: ds, j => ((j % d : Nat) : Int) :: mixedRadixRev ds (j / d)

/-- The tuple "whose mixed-radix index (over the scope's domain sizes) is `j`":
the digits of `j` over the domain sizes, the last position running fastest. -/
def mixedRadixTuple (domains : List Nat) (j : Nat) : List Int :=
  (mixedRadixRev domains.reverse j).reverse

/-- The index that the digits `xs` have over the domain sizes `ds`, both lists
reversed: the position that runs fastest comes first. -/
def hornerRev : List Nat → List Int → Int
  | d :: ds, x :: xs => x + (d : Int) * hornerRev ds xs
  | _, _ => 0

/-- The first `m` iterations of the loop of lines 1223-1295 of
`computeLocalErrorTable`, started from the tuple of lines 1168-1169 over the
sorted `scope` of the table; `build_table` and `enumerate_table` have the
values they hold at line 1223. -/
def MiniBucketElimLH.computeLocalErrorTable_loop (self : MiniBucketElimLH)
    (libm : Libm) (flags : Flags) (rand : Nat → Nat → Nat → Int) (var : Nat)
    (scope : List Nat) (build_table enumerate_table : Bool) (m : Nat) :
    LocalErrorTableLoop :=
  (List.range m).foldl
    (computeLocalErrorTable_loopStep self.m_problem libm flags rand var
      (self._BucketFunctions var) (self._MiniBuckets var) scope scope
      (scope.map (fun u => (self.m_problem.getDomainSize u : Int)))
      enumerate_table)
    { tuple := List.replicate (scope.length - 1) 0 ++ [-1],
      newTable := if build_table then some [] else none }

/-! ## `getLocalError` for every value of the parent -/

/-- The statement `out[k] OP_DIVIDEEQ x`, in logarithmic space `out[k] -= x`;
`none` past the end of `out` and where a NaN arises. -/
def getLocalError_divideEq (out : List Val) (k : Nat) (x : Val) : Option (List Val) :=
  match out[k]? with
  | none => none
  | some o => (OP_DIVIDE o x).map (fun d => out.set k d)

/-- One iteration of the loop of lines 1012-1026, for the value `k` of the
parent; the state is the assignment vector and `out`.  The result is `none`
where `sum_vals[0]` is read from an empty vector. -/
def getLocalError_vectorStep (funs_B : List Function) (parent var var_domain_size : Nat)
    (mb_vals : List Val) (st : Assignment × List Val) (k : Nat) :
    Option (Assignment × List Val) :=
  let assignment := Function.update st.1 parent (k : Int)
  match getLocalError_sumVals funs_B assignment var var_domain_size with
  | [] => none
  | front :: rest =>
    let tableentryB := rest.foldl (fun acc s => max acc s) front
    match mb_vals[k]? with
    | none => none
    | some mb =>
      if mb ≤ tableentryB then some (assignment, st.2)
      else
        match OP_DIVIDE mb tableentryB with
        | none => none
        | some d => (getLocalError_divideEq st.2 k d).map (fun out => (assignment, out))

/-- `MiniBucketElimLH::getLocalError(parent, var, assignment, out)` (lines
969-1028), the overload that fills a vector: the result is the assignment
vector and `out` on return.  The vector `mb_vals` of lines 991-1000 is built
like `sumVals`, over the values of `parent` and from the outputs of the
mini-buckets. -/
def MiniBucketElimLH.getLocalError_vector (self : MiniBucketElimLH) (parent var : Nat)
    (assignment : Assignment) (out : List Val) : Option (Assignment × List Val) :=
  let minibuckets := self._MiniBuckets var
  if minibuckets.length ≤ 1 ∨ 0 = self._BucketErrorQuality var then some (assignment, out)
  else
    let parent_domain_size := self.m_problem.getDomainSize parent
    match self._BucketErrorFunctions var with
    | some errorFn =>
      let fun_vals := errorFn.getValues assignment parent parent_domain_size
      ((List.range parent_domain_size).foldlM
        (fun (st : Assignment × List Val) (k : Nat) =>
          match fun_vals[k]? with
          | none => none
          | some f => (getLocalError_divideEq st.2 k f).map (fun out => (st.1, out)))
        (assignment, out))
    | none =>
      let mb_vals := getLocalError_sumVals (collect_funs_MB minibuckets) assignment parent
        parent_domain_size
      let parent_original_value := assignment parent
      let var_domain_size := self.m_problem.getDomainSize var
      ((List.range parent_domain_size).foldlM
        (getLocalError_vectorStep (self._BucketFunctions var) parent var var_domain_size
          mb_vals)
        (assignment, out)).map
        (fun st => (Function.update st.1 parent parent_original_value, st.2))

/-! ## The routing invariant -/

/-- The order in which the loop of lines 2303-2326 pops the nodes from the
stack `dfs`, started with `c_var` on top and `depth` levels left before
`depth_limit`: the node, and then, the children being pushed in their order,
the nodes that are reached through the last child, down to those that are
reached through the first. -/
def ComputeDepthLimitedSubtreeErrorFns_dfs (pt : Pseudotree) : Nat → Nat → List Nat
  | 0, c_var => [c_var]
  | depth + 1, c_var =>
    c_var ::
      ((pt.children c_var).reverse.map
        (fun c => ComputeDepthLimitedSubtreeErrorFns_dfs pt depth c)).flatten

/-- Lines 2280-2289: the tables of zeros over the scopes of the bucket error
functions, which `_SubtreeErrorFunctions` and `buckets` both start with; `none`
where a bucket error function is null. -/
def ComputeDepthLimitedSubtreeErrorFns_init (N : Nat)
    (bucket_error_fns : Nat → Option ErrorTable) : Option (Nat → Option ErrorTable) :=
  if ∀ i, i < N → (bucket_error_fns i).isSome = true then
    some (fun i =>
      if i < N then
        (bucket_error_fns i).map (fun current_fn => { scope := current_fn.scope, table := fun _ => 0 })
      else none)
  else none

/-- Lines 2309-2312: the table of the bucket error function of `c_var` is
copied into `buckets[c_var]`; `none` past the end of the vectors and for a null
function. -/
def ComputeDepthLimitedSubtreeErrorFns_copy (N : Nat)
    (bucket_error_fns : Nat → Option ErrorTable) (buckets : Nat → Option ErrorTable)
    (c_var : Nat) : Option (Nat → Option ErrorTable) :=
  if c_var < N then
    match buckets c_var, bucket_error_fns c_var with
    | some b, some f => some (Function.update buckets c_var (some { b with table := f.table }))
    | _, _ => none
  else none

/-- The local `value` of lines 2404-2407 at `tuple`: the minimum, started at
`+inf`, of the table of `v` over the combinations of the variables that only
`v` has, of which the loop visits at least one. -/
def ComputeDepthLimitedSubtreeErrorFns_value (problem : Problem) (v_fn : ErrorTable)
    (agg_scope : List Nat) (tuple : Assignment) : ℚ :=
  match (assignmentsOver problem agg_scope tuple).map v_fn.getValuePtr with
  | [] => 0
  | x :: xs => xs.foldl (fun value y => min value y) x

/-- Lines 2340-2421: the message from `v` to its parent: the table of the
parent after it.  The result is `none` when a variable of the two scopes has
an empty domain, where the tables have no entry to read. -/
def ComputeDepthLimitedSubtreeErrorFns_message (problem : Problem)
    (v_fn p_fn : ErrorTable) : Option ErrorTable :=
  let v_scope := v_fn.scope
  let p_scope := p_fn.scope
  let agg_scope := (v_scope \ p_scope).sort (fun a b => a ≤ b)
  let dupe_scope := (p_scope \ v_scope).sort (fun a b => a ≤ b)
  let both_scope := (v_scope ∩ p_scope).sort (fun a b => a ≤ b)
  if ∃ u ∈ v_scope ∪ p_scope, problem.getDomainSize u = 0 then none
  else
    some
      ((assignmentsOver problem both_scope (fun _ => 0)).foldl
        (fun p_fn tuple =>
          (assignmentsOver problem dupe_scope tuple).foldl
            (fun p_fn t =>
              p_fn.setValuePtr t (p_fn.getValuePtr t +
                ComputeDepthLimitedSubtreeErrorFns_value problem v_fn agg_scope tuple))
            p_fn)
        p_fn)

/-- Lines 2329-2422 for the variable `v` that is popped from
`processing_stack`: the message from `v` to its parent `p` changes
`buckets[p]`.  The result is `none` for a null parent, past the end of the
vector, for a null function, and for a variable that is its own parent, whose
two functions are one object. -/
def ComputeDepthLimitedSubtreeErrorFns_send (problem : Problem) (pt : Pseudotree)
    (buckets : Nat → Option ErrorTable) (v : Nat) : Option (Nat → Option ErrorTable) :=
  match pt.parent v with
  | none => none
  | some p =>
    if v < problem.N ∧ p < problem.N ∧ p ≠ v then
      match buckets v, buckets p with
      | some v_fn, some p_fn =>
        (ComputeDepthLimitedSubtreeErrorFns_message problem v_fn p_fn).map
          (fun f => Function.update buckets p (some f))
      | _, _ => none
    else none

/-- The body of the loop of lines 2291-2426 for `var`; the state holds
`_SubtreeErrorFunctions` and `buckets`.  All nodes are popped from `dfs`, which
copies their tables, before the first message is sent; `processing_stack` is
popped in the reverse of the order in which the nodes other than `var` were
pushed. -/
def ComputeDepthLimitedSubtreeErrorFns_var (problem : Problem) (pt : Pseudotree)
    (bucket_error_fns : Nat → Option ErrorTable) (depth_limit : Int)
    (st : (Nat → Option ErrorTable) × (Nat → Option ErrorTable)) (var : Nat) :
    Option ((Nat → Option ErrorTable) × (Nat → Option ErrorTable)) :=
  let buffer_bucket := st.2 var
  let buckets := Function.update st.2 var (st.1 var)
  let order := ComputeDepthLimitedSubtreeErrorFns_dfs pt depth_limit.toNat var
  match order.foldlM (ComputeDepthLimitedSubtreeErrorFns_copy problem.N bucket_error_fns)
      buckets with
  | none => none
  | some buckets1 =>
    let processing_stack := order.filter (fun c_var => decide (c_var ≠ var))
    match processing_stack.reverse.foldlM
        (ComputeDepthLimitedSubtreeErrorFns_send problem pt) buckets1 with
    | none => none
    | some buckets2 =>
      some (Function.update st.1 var (buckets2 var),
        Function.update buckets2 var buffer_bucket)

/-- `MiniBucketElimLH::ComputeDepthLimitedSubtreeErrorFns(bucket_error_fns,
depth_limit)` (lines 2273-2429), on tables of finite values: the vector
`_SubtreeErrorFunctions` that it leaves. -/
def ComputeDepthLimitedSubtreeErrorFns (problem : Problem) (pt : Pseudotree)
    (bucket_error_fns : Nat → Option ErrorTable) (depth_limit : Int) :
    Option (Nat → Option ErrorTable) :=
  match ComputeDepthLimitedSubtreeErrorFns_init problem.N bucket_error_fns with
  | none => none
  | some zeros =>
    (pt.elimOrder.foldlM
      (ComputeDepthLimitedSubtreeErrorFns_var problem pt bucket_error_fns depth_limit)
      (zeros, zeros)).map (fun st => st.1)

/-- The functions of a vector are over the scopes of the bucket error
functions, and their entries are not negative in case `nonneg` holds. -/
def ComputeDepthLimitedSubtreeErrorFns_valid (nonneg : Prop) (N : Nat)
    (bucket_error_fns m : Nat → Option ErrorTable) : Prop :=
  ∀ i, i < N → ∃ b f, m i = some b ∧ bucket_error_fns i = some f ∧ b.scope = f.scope ∧
    (nonneg → ∀ a, 0 ≤ b.getValuePtr a)

/-- The function of `var` in a vector is over the scope of the bucket error
function of `var`, and its entries are at least those of the bucket error
function in case `nonneg` holds. -/
def ComputeDepthLimitedSubtreeErrorFns_atLeast (nonneg : Prop)
    (bucket_error_fns m : Nat → Option ErrorTable) (var : Nat) : Prop :=
  ∃ b f, m var = some b ∧ bucket_error_fns var = some f ∧ b.scope = f.scope ∧
    (nonneg → ∀ a, f.getValuePtr a ≤ b.getValuePtr a)

/-! ## A small model used to instantiate the theorems -/

/-- Three binary variables. -/
def exProblem : Problem := { N := 3, getDomainSize := fun _ => 2 }

/-- A function over the variables 0 and 1: value 1 where they agree. -/
def exF1 : Function :=
  { id := 1, scope := {0, 1}, getValue := fun a => if a 0 = a 1 then 1 else 0 }

/-- A function over the variables 0 and 2: value 1 where they differ. -/
def exF2 : Function :=
  { id := 2, scope := {0, 2}, getValue := fun a => if a 0 = a 2 then 0 else 1 }

/-- The mini-bucket of variable 0 that holds `exF1`, with its output. -/
def exMB1 : MiniBucket :=
  let mb := (MiniBucket.new 0 2).addFunction exF1
  { mb with m_outputFn := some (mb.eliminate exProblem) }

/-- The mini-bucket of variable 0 that holds `exF2`, with its output. -/
def exMB2 : MiniBucket :=
  let mb := (MiniBucket.new 0 2).addFunction exF2
  { mb with m_outputFn := some (mb.eliminate exProblem) }

/-- The chain 0 - 1 - 2 rooted at 2, leaves first. -/
def exTree : Pseudotree :=
  { root := 2,
    parent := fun v => if v = 0 then some 1 else if v = 1 then some 2 else none,
    elimOrder := [0, 1, 2] }

/-- A heuristic state over the small model whose bucket 0 is split in two
mini-buckets. -/
def exState : MiniBucketElimLH :=
  { m_problem := exProblem, m_pseudotree := exTree, m_ibound := 2,
    _MiniBuckets := fun v => if v = 0 then [exMB1, exMB2] else [],
    _BucketFunctions := fun v => if v = 0 then [exF1, exF2] else [] }

/-- A function over three variables, wider than an i-bound of 1. -/
def exWide : Function :=
  { id := 3, scope := {0, 1, 2}, getValue := fun _ => 0 }

/-- A function over variable 2 alone. -/
def exF3 : Function :=
  { id := 4, scope := {2}, getValue := fun _ => 0 }

/-- Bucket errors for the small model: 3 at variable 0, none estimated at
variable 1, 1 at variable 2. -/
def exBucketError : Nat → WithBot ℚ :=
  fun v => if v = 0 then ((3 : ℚ) : WithBot ℚ)
    else if v = 2 then ((1 : ℚ) : WithBot ℚ) else ⊥

/-- Larger bucket errors for the small model. -/
def exBucketError2 : Nat → WithBot ℚ :=
  fun v => if v = 0 then ((4 : ℚ) : WithBot ℚ)
    else if v = 2 then ((1 : ℚ) : WithBot ℚ) else ⊥

/-- A routed function over variable 1: plain bound 1 at value 0 and 0 at
value 1. -/
def exPlain : Function :=
  { id := 5, scope := {1},
    getValue := fun a => if a 1 = 0 then dbl 1 else dbl 0 }

/-- A lookahead subtree of variable 1 with the values 5 at value 0 and 3 at
value 1. -/
def exSubtree : MBLHSubtree :=
  { _SubtreeNodes := [0],
    GetHeuristic := fun a => if a 1 = 0 then dbl 5 else dbl 3 }

/-- A freshly built state over the small model: variable 1 has the plain
bounds of `exPlain` and the lookahead subtree `exSubtree`, no lookahead call
was made, and its trigger probability is at the floor 0; the minimum trial
count is 1. -/
def exFresh : MiniBucketElimLH :=
  { m_problem := exProblem, m_pseudotree := exTree,
    m_augmented := fun v => if v = 1 then [exPlain] else [],
    _Lookahead := fun v => if v = 1 then exSubtree else {},
    lookahead_probability_ := fun _ => 0,
    max_lookahead_trials_ := 1 }

/-- The state `exFresh` after one validated lookahead computation for
variable 1. -/
def exValidated : MiniBucketElimLH :=
  { exFresh with
    lookahead_subtree_ok_ := true,
    _nLHcalls := fun v => if v = 1 then 1 else 0 }

/-- A state whose lookahead subtree of variable 0 is a copy of the subtree
rooted at variable 2, with two valid nodes. -/
def exCopy : MiniBucketElimLH :=
  { m_problem := exProblem, m_pseudotree := exTree,
    _Lookahead := fun v =>
      if v = 0 then
        { _SubtreeNodes := [0],
          _IsCopyOfEarlierSubtree :=
            some { _RootVar := 2,
                   _Children := [{ _Var := 1, _IsValidForCurrentContext := true },
                                 { _Var := 0, _IsValidForCurrentContext := true }] } }
      else {} }

/-- The values of the C library at the arguments that the examples use, rounded
to one decimal. -/
def exLibm : Libm :=
  { log10 := fun x =>
      if x = 2 then 3 / 10 else if x = 5 then 7 / 10
      else if x = 2000 then 33 / 10 else 0,
    pow10 := fun x =>
      if x = 3 then 1000 else if x = 3 / 5 then 4
      else if x = -6 then 1 / 1000000 else 1 }

/-- The state `exState` with the joint scope of bucket 0. -/
def exScoped : MiniBucketElimLH :=
  { exState with _BucketScopes := fun v => if v = 0 then {0, 1, 2} else ∅ }

/-- A function over the variables 0 and 1 that is the semiring zero unless
variable 0 has the value 0. -/
def exG1 : Function :=
  { id := 6, scope := {0, 1}, getValue := fun a => if a 0 = 0 then dbl 0 else ⊥ }

/-- A function over the variables 0 and 2 that is the semiring zero where
variable 0 has the value 0. -/
def exG2 : Function :=
  { id := 7, scope := {0, 2}, getValue := fun a => if a 0 = 0 then ⊥ else dbl 0 }

/-- The mini-bucket of variable 0 that holds `exG1`, with its output. -/
def exMBG1 : MiniBucket :=
  let mb := (MiniBucket.new 0 2).addFunction exG1
  { mb with m_outputFn := some (mb.eliminate exProblem) }

/-- The mini-bucket of variable 0 that holds `exG2`, with its output. -/
def exMBG2 : MiniBucket :=
  let mb := (MiniBucket.new 0 2).addFunction exG2
  { mb with m_outputFn := some (mb.eliminate exProblem) }

/-- A state whose bucket 0 holds `exG1` and `exG2` in two mini-buckets: no
value of variable 0 is consistent with both, so the exact bucket value is
`-inf` at every entry, while the mini-bucket value is 0. -/
def exInf : MiniBucketElimLH :=
  { m_problem := exProblem, m_pseudotree := exTree, m_ibound := 2,
    _MiniBuckets := fun v => if v = 0 then [exMBG1, exMBG2] else [],
    _BucketFunctions := fun v => if v = 0 then [exG1, exG2] else [],
    _BucketScopes := fun v => if v = 0 then {0, 1, 2} else ∅ }

/-- The function over the variables 0 and 1 that is 0 everywhere. -/
def exZ1 : Function :=
  { id := 8, scope := {0, 1}, getValue := fun _ => dbl 0 }

/-- The function over the variables 0 and 2 that is 0 everywhere. -/
def exZ2 : Function :=
  { id := 9, scope := {0, 2}, getValue := fun _ => dbl 0 }

/-- An output function over variable 1 that lies below the exact value 0
where variable 1 is 0. -/
def exLow : Function :=
  { id := 10, scope := {1},
    getValue := fun a => if a 1 = 0 then dbl (-1) else dbl 3 }

/-- The output function over variable 2 that is 0 everywhere. -/
def exZero2 : Function :=
  { id := 11, scope := {2}, getValue := fun _ => dbl 0 }

/-- A state whose bucket 0 holds `exZ1` and `exZ2` in two mini-buckets with
the output functions `exLow` and `exZero2`: at the entries where variable 1 is
0 the mini-bucket value -1 is below the exact bucket value 0. -/
def exBelow : MiniBucketElimLH :=
  { m_problem := exProblem, m_pseudotree := exTree, m_ibound := 2,
    _MiniBuckets := fun v =>
      if v = 0 then
        [{ (MiniBucket.new 0 2).addFunction exZ1 with m_outputFn := some exLow },
         { (MiniBucket.new 0 2).addFunction exZ2 with m_outputFn := some exZero2 }]
      else [],
    _BucketFunctions := fun v => if v = 0 then [exZ1, exZ2] else [],
    _BucketScopes := fun v => if v = 0 then {0, 1, 2} else ∅ }

/-- Three variables, the second with 2000 values. -/
def exBigProblem : Problem :=
  { N := 3, getDomainSize := fun v => if v = 1 then 2000 else 2 }

/-- The output function over variable 1 that is 0 everywhere. -/
def exZero1 : Function :=
  { id := 12, scope := {1}, getValue := fun _ => dbl 0 }

/-- A state over `exBigProblem` whose bucket 0 holds `exZ1` and `exZ2` in two
mini-buckets; all functions are 0 everywhere, so there is no error, and the
table of the bucket has 4000 entries. -/
def exBig : MiniBucketElimLH :=
  { m_problem := exBigProblem, m_pseudotree := exTree, m_ibound := 2,
    _MiniBuckets := fun v =>
      if v = 0 then
        [{ (MiniBucket.new 0 2).addFunction exZ1 with m_outputFn := some exZero1 },
         { (MiniBucket.new 0 2).addFunction exZ2 with m_outputFn := some exZero2 }]
      else [],
    _BucketFunctions := fun v => if v = 0 then [exZ1, exZ2] else [],
    _BucketScopes := fun v => if v = 0 then {0, 1, 2} else ∅ }

/-- The state `exFresh` with the full-subtree option on. -/
def exFullSubtree : MiniBucketElimLH :=
  { exFresh with m_options := { lookahead_use_full_subtree := true } }

/-- An instance of the code that is not embedded: `deleteLocalErrorFNs` leaves
no stored error function, `findDfsOrder` gives the elimination order, the
sampling of a slice finds the error 3 at every entry, and the subtree error
functions are left as they are. -/
def exExternals : LocalErrorExternals :=
  { deleteLocalErrorFNs := fun s =>
      { s with _BucketErrorFunctions := fun _ => none,
               _TrueSlicedBucketErrorFunctions := fun _ => none,
               _SubtreeErrorFunctions := fun _ => none },
    findDfsOrder := fun s => s.m_pseudotree.elimOrder,
    computeLocalErrorTableSlice_sample := fun s var output_scope _ =>
      some
        { ret := 0,
          state := { s with
            _BucketErrorQuality := Function.update s._BucketErrorQuality var 2 },
          TableSizeLog := dbl (3 / 10), avgError := some (dbl 3),
          avgExact := some (dbl 0),
          errorFn :=
            some { id := -(var : Int),
                   scope := (output_scope.erase var).sort (fun a b => a ≤ b),
                   table := [some (dbl 3), some (dbl 3)], size := 2 },
          nEntriesGenerated := 4 },
    ComputeSubtreeErrorFns := fun s => some s,
    ComputeDepthLimitedSubtreeErrorFns := fun s _ => some s }

/-- The state `exScoped` with the ordering-score source "sampled_be" and the
slice target scope size 2. -/
def exSampledBe : MiniBucketElimLH :=
  { exScoped with
    m_options := { aobf_subordering := "sampled_be",
                   bee_slice_sample_scope_size := 2 } }

/-- The state `exScoped` whose second mini-bucket of bucket 0 has no output
function: the bucket functions without the bucket variable are over the
variables 1 and 2, the outputs of the mini-buckets over variable 1 alone. -/
def exMismatch : MiniBucketElimLH :=
  { exScoped with
    _MiniBuckets := fun v =>
      if v = 0 then [exMB1, { exMB2 with m_outputFn := none }] else [] }

/-- The state `exScoped` whose bucket 0 holds the function `exF1` alone: the
bucket functions without the bucket variable are over variable 1, the outputs of
the mini-buckets over the variables 1 and 2. -/
def exWiderOutputs : MiniBucketElimLH :=
  { exScoped with _BucketFunctions := fun v => if v = 0 then [exF1] else [] }

/-- A function over the variables 0 and 1 that is the semiring zero where
variable 1 has the value 0, and 0 elsewhere. -/
def exH1 : Function :=
  { id := 14, scope := {0, 1}, getValue := fun a => if a 1 = 0 then ⊥ else dbl 0 }

/-- A state whose bucket 0 holds `exH1` and `exZ2` in two mini-buckets, with
their outputs: where variable 1 has the value 0 the exact bucket value and the
mini-bucket value are both the semiring zero `-inf`. -/
def exZeroRow : MiniBucketElimLH :=
  { m_problem := exProblem, m_pseudotree := exTree, m_ibound := 2,
    _MiniBuckets := fun v =>
      if v = 0 then
        [{ (MiniBucket.new 0 2).addFunction exH1 with
            m_outputFn := some (((MiniBucket.new 0 2).addFunction exH1).eliminate exProblem) },
         { (MiniBucket.new 0 2).addFunction exZ2 with
            m_outputFn := some (((MiniBucket.new 0 2).addFunction exZ2).eliminate exProblem) }]
      else [],
    _BucketFunctions := fun v => if v = 0 then [exH1, exZ2] else [],
    _BucketScopes := fun v => if v = 0 then {0, 1, 2} else ∅ }

/-- A problem with one binary variable. -/
def exSingleProblem : Problem := { N := 1, getDomainSize := fun _ => 2 }

/-- The pseudo tree of the problem with one variable. -/
def exSingleTree : Pseudotree :=
  { root := 0, parent := fun _ => none, elimOrder := [0] }

/-- A function over variable 0 that is 0 everywhere. -/
def exUnary : Function :=
  { id := 13, scope := {0}, getValue := fun _ => dbl 0 }

/-- A state over the problem with one variable, whose bucket holds `exUnary` in
one mini-bucket, with the ordering-score source "sampled_be". -/
def exSliced : MiniBucketElimLH :=
  { m_problem := exSingleProblem, m_pseudotree := exSingleTree, m_ibound := 1,
    _MiniBuckets := fun v =>
      if v = 0 then
        [{ (MiniBucket.new 0 1).addFunction exUnary with
            m_outputFn := some (((MiniBucket.new 0 1).addFunction exUnary).eliminate
              exSingleProblem) }]
      else [],
    _BucketFunctions := fun v => if v = 0 then [exUnary] else [],
    _BucketScopes := fun v => if v = 0 then {0} else ∅,
    m_options := { aobf_subordering := "sampled_be" } }

/-- An instance of the two-argument `MiniBucket::eliminate` for the small
model, whose mini-buckets of bucket 0 share variable 0 alone: the maximum of
the combination of the functions of the mini-bucket over the values of the
variables 1 and 2. -/
def exEliminateVars (mb : MiniBucket) (elim_vars : Finset Nat) : Function :=
  { id := 0, scope := mb.m_jointScope \ elim_vars,
    getValue := fun a =>
      maxOverVar mb.m_functions 1 2
        (fun u => if u = 2 then 0 else a u) ⊔
      maxOverVar mb.m_functions 1 2
        (fun u => if u = 2 then 1 else a u),
    getTableSize := 2 }

/-- An instance of `Function::getTable` for the functions over variable 0 of
the small model. -/
def exGetTable (f : Function) : List Val :=
  [f.getValue (fun _ => 0), f.getValue (fun u => if u = 0 then 1 else 0)]

/-- The pseudo tree of the small model with the functions `exF1` and `exF2` in
the bucket of variable 0. -/
def exBuildTree : Pseudotree :=
  { exTree with getFunctions := fun v => if v = 0 then [exF1, exF2] else [] }

/-- An instance of the code that `build` calls and that is not embedded:
`findDfsOrder` gives the elimination order backwards, the root first;
`LPReparameterization` leaves the problem as it is; the output of a mini-bucket
after moment matching is its plain output; the lookahead structure is left as
it is. -/
def exBuildExternals : BuildExternals :=
  { toLocalErrorExternals :=
      { exExternals with findDfsOrder := fun s => s.m_pseudotree.elimOrder.reverse },
    LPReparameterization := fun s => (s.m_problem, s.m_pseudotree),
    eliminate_vars := exEliminateVars,
    getTable := exGetTable,
    eliminateMM := fun mb _ _ => mb.eliminate exProblem,
    globalConstInfo := 0,
    SetupLookaheadStructure_FractionOfLargestAbsErrorNodesOnly := fun s => some s }

/-- A newly constructed heuristic over the small model with the i-bound 2. -/
def exUnbuilt : MiniBucketElimLH :=
  { m_problem := exProblem, m_pseudotree := exBuildTree, m_ibound := 2 }

/-- A table over variable 0 with the entries 1 and 5. -/
def exChildTable : ErrorTable :=
  { scope := {0}, table := fun a => if a 0 = 0 then 1 else 5 }

/-- A table of zeros over variable 1. -/
def exParentTable : ErrorTable :=
  { scope := {1}, table := fun _ => 0 }

/-- The bucket error functions of the small model: the entries 1 and 5 over
variable 0, and zeros over variable 1 and over variable 2. -/
def exErrorFns : Nat → Option ErrorTable :=
  fun i =>
    if i = 0 then some exChildTable
    else if i = 1 then some exParentTable
    else if i = 2 then some { scope := {2}, table := fun _ => 0 }
    else none

/-! ## Theorems -/

/-- The combination of a list of functions is the sum of their values. -/
theorem combineValues_eq_sum (funs : List Function) (a : Assignment) :
    combineValues funs a = (funs.map (fun f => f.getValue a)).sum := by
  unfold combineValues OP_TIMES ELEM_ONE
  rw [List.sum_eq_foldl, List.foldl_map]

/-- A running maximum stays below a bound that dominates its start and every
element. -/
theorem foldl_max_le {α : Type} (g : α → Val) (M : Val) :
    ∀ (l : List α) (acc : Val), acc ≤ M → (∀ x ∈ l, g x ≤ M) →
      l.foldl (fun acc x => max acc (g x)) acc ≤ M := by
  intro l
  induction l with
  | nil => intro acc h _; simpa using h
  | cons y t ih =>
    intro acc h hall
    simp only [List.foldl_cons]
    apply ih
    · exact max_le h (hall y (List.mem_cons_self y t))
    · intro x hx
      exact hall x (List.mem_cons_of_mem y hx)

/-- A running maximum dominates its start and every element. -/
theorem le_foldl_max {α : Type} (g : α → Val) :
    ∀ (l : List α) (acc : Val),
      acc ≤ l.foldl (fun acc x => max acc (g x)) acc ∧
      ∀ x ∈ l, g x ≤ l.foldl (fun acc x => max acc (g x)) acc := by
  intro l
  induction l with
  | nil => intro acc; simp
  | cons y t ih =>
    intro acc
    simp only [List.foldl_cons]
    obtain ⟨h1, h2⟩ := ih (max acc (g y))
    refine ⟨le_trans (le_max_left _ _) h1, ?_⟩
    intro x hx
    rcases List.mem_cons.mp hx with rfl | hx
    · exact le_trans (le_max_right _ _) h1
    · exact h2 x hx

/-- The maximum over the values of a variable dominates the combination at
each value of the domain. -/
theorem combineValues_le_maxOverVar (funs : List Function) (var d : Nat)
    (tuple : Assignment) (x : Nat) (hx : x < d) :
    combineValues funs (Function.update tuple var (x : Int)) ≤
      maxOverVar funs var d tuple := by
  unfold maxOverVar
  exact (le_foldl_max
    (fun x : Nat => combineValues funs (Function.update tuple var (x : Int)))
    (List.range d) ELEM_ZERO).2 x (List.mem_range.mpr hx)

/-- A difference of doubles whose subtrahend is the smaller one is not
negative. -/
theorem OP_DIVIDE_nonneg (x y e : Val) (h : OP_DIVIDE x y = some e)
    (hle : y ≤ x) : 0 ≤ e := by
  rcases x with _ | _ | x <;> rcases y with _ | _ | y <;>
    simp only [OP_DIVIDE, Option.some.injEq, reduceCtorEq] at h
  all_goals subst h
  · exact absurd (le_bot_iff.mp hle) (WithBot.coe_ne_bot)
  · exact absurd (le_bot_iff.mp hle) (WithBot.coe_ne_bot)
  · exact le_top
  · exact le_top
  · exact le_top
  · have h1 : (⊤ : WithTop ℚ) ≤ (x : WithTop ℚ) := WithBot.coe_le_coe.mp hle
    exact absurd (top_le_iff.mp h1) (WithTop.coe_ne_top)
  · have h1 : (y : WithTop ℚ) ≤ (x : WithTop ℚ) := WithBot.coe_le_coe.mp hle
    have h2 : y ≤ x := WithTop.coe_le_coe.mp h1
    have h3 : (0 : ℚ) ≤ x - y := sub_nonneg.mpr h2
    exact WithBot.coe_le_coe.mpr (WithTop.coe_le_coe.mpr h3)

/-- When every output function is present and has the values of the
eliminated mini-bucket, the combination of `funs_MB` is the sum of those
values. -/
theorem combineValues_collect_funs_MB (problem : Problem) (a : Assignment) :
    ∀ (minibuckets : List MiniBucket),
      (∀ mb ∈ minibuckets, ∃ fMB, mb.m_outputFn = some fMB ∧
        ∀ t, fMB.getValue t = (mb.eliminate problem).getValue t) →
      combineValues (collect_funs_MB minibuckets) a =
        (minibuckets.map (fun mb => (mb.eliminate problem).getValue a)).sum := by
  intro minibuckets
  induction minibuckets with
  | nil => intro _; simp [collect_funs_MB, combineValues, ELEM_ONE]
  | cons mb t ih =>
    intro h
    obtain ⟨fMB, h1, h2⟩ := h mb (List.mem_cons_self mb t)
    have h3 := ih (fun m hm => h m (List.mem_cons_of_mem mb hm))
    rw [combineValues_eq_sum] at h3 ⊢
    unfold collect_funs_MB at h3 ⊢
    rw [List.filterMap_cons, h1]
    simp only [List.map_cons, List.sum_cons, h3, h2]

/-- The upper-bound property of the mini-bucket approximation: when the
mini-buckets of the bucket of `var` partition the bucket's functions and each
output function is the maximum over the values of `var` of the combination of
the mini-bucket's functions, then at every tuple the combination of the outputs
(`tableentryMB`) is at least the exact bucket value (`tableentryB`), and the
entry error `e = tableentryMB - tableentryB`, where it is a number, is not
negative.  Where both values are `-inf` the entry error is NaN. -/
theorem computeLocalErrorTable_e_nonneg (problem : Problem)
    (funs_B : List Function) (minibuckets : List MiniBucket) (var : Nat)
    (tuple : Assignment)
    (hpart : ((minibuckets.map (fun mb => mb.m_functions)).flatten).Perm funs_B)
    (hvar : ∀ mb ∈ minibuckets, mb.m_bucketVar = var)
    (hout : ∀ mb ∈ minibuckets, ∃ fMB, mb.m_outputFn = some fMB ∧
      ∀ t, fMB.getValue t = (mb.eliminate problem).getValue t) :
    computeLocalErrorTable_tableentryB problem funs_B var tuple ≤
        computeLocalErrorTable_tableentryMB minibuckets tuple ∧
      ∀ e, computeLocalErrorTable_e problem funs_B minibuckets var tuple = some e →
        0 ≤ e := by
  have hle : computeLocalErrorTable_tableentryB problem funs_B var tuple ≤
      computeLocalErrorTable_tableentryMB minibuckets tuple := by
    unfold computeLocalErrorTable_tableentryB computeLocalErrorTable_tableentryMB
    rw [combineValues_collect_funs_MB problem tuple minibuckets hout]
    unfold maxOverVar
    apply foldl_max_le
      (fun x : Nat => combineValues funs_B (Function.update tuple var (x : Int)))
    · exact bot_le
    · intro x hx
      have hx : x < problem.getDomainSize var := List.mem_range.mp hx
      show combineValues funs_B (Function.update tuple var (x : Int)) ≤ _
      rw [combineValues_eq_sum,
        ← (hpart.map (fun f : Function =>
            f.getValue (Function.update tuple var (x : Int)))).sum_eq,
        List.map_flatten, List.sum_flatten, List.map_map, List.map_map]
      apply List.sum_le_sum
      intro mb hmb
      have hv := hvar mb hmb
      simp only [Function.comp_apply, MiniBucket.eliminate]
      rw [← combineValues_eq_sum, hv]
      exact combineValues_le_maxOverVar mb.m_functions var _ tuple x hx
  refine ⟨hle, ?_⟩
  intro e he
  exact OP_DIVIDE_nonneg _ _ e he hle

/-- The exact bucket value of bucket 0 of the small model at the all-zero
tuple. -/
theorem exState_tableentryB :
    computeLocalErrorTable_tableentryB exProblem [exF1, exF2] 0 (fun _ => 0) = 1 := by
  simp [computeLocalErrorTable_tableentryB, maxOverVar, combineValues, exProblem,
    exF1, exF2, List.range, List.range.loop, OP_TIMES, ELEM_ONE, ELEM_ZERO,
    Function.update]

/-- The mini-bucket value of bucket 0 of the small model at the all-zero
tuple. -/
theorem exState_tableentryMB :
    computeLocalErrorTable_tableentryMB [exMB1, exMB2] (fun _ => 0) = 2 := by
  simp [computeLocalErrorTable_tableentryMB, collect_funs_MB, exMB1, exMB2,
    MiniBucket.eliminate, MiniBucket.addFunction, MiniBucket.new, maxOverVar,
    combineValues, exProblem, exF1, exF2, List.range, List.range.loop, OP_TIMES,
    ELEM_ONE, ELEM_ZERO, Function.update]
  norm_num

/-- The entry error of bucket 0 of the small model at the all-zero tuple
is 1. -/
theorem exState_e :
    computeLocalErrorTable_e exProblem [exF1, exF2] [exMB1, exMB2] 0 (fun _ => 0) =
      some 1 := by
  unfold computeLocalErrorTable_e
  rw [exState_tableentryB, exState_tableentryMB]
  show OP_DIVIDE (((2 : ℚ) : WithTop ℚ) : Val) (((1 : ℚ) : WithTop ℚ) : Val) =
    some (((1 : ℚ) : WithTop ℚ) : Val)
  simp only [OP_DIVIDE]
  norm_num

/-- The upper-bound property on the small model, where the entry error is the
number 1. -/
theorem computeLocalErrorTable_e_nonneg_witness :
    ((([exMB1, exMB2].map (fun mb => mb.m_functions)).flatten).Perm [exF1, exF2] ∧
      (∀ mb ∈ [exMB1, exMB2], mb.m_bucketVar = 0) ∧
      (∀ mb ∈ [exMB1, exMB2], ∃ fMB, mb.m_outputFn = some fMB ∧
        ∀ t, fMB.getValue t = (mb.eliminate exProblem).getValue t)) ∧
    computeLocalErrorTable_e exProblem [exF1, exF2] [exMB1, exMB2] 0 (fun _ => 0) =
      some 1 ∧
    (computeLocalErrorTable_tableentryB exProblem [exF1, exF2] 0 (fun _ => 0) ≤
        computeLocalErrorTable_tableentryMB [exMB1, exMB2] (fun _ => 0) ∧
      ∀ e, computeLocalErrorTable_e exProblem [exF1, exF2] [exMB1, exMB2] 0
          (fun _ => 0) = some e → 0 ≤ e) :=
  have h1 : (([exMB1, exMB2].map (fun mb => mb.m_functions)).flatten).Perm
      [exF1, exF2] := List.Perm.refl _
  have h2 : ∀ mb ∈ [exMB1, exMB2], mb.m_bucketVar = 0 := by
    intro mb hmb
    simp only [List.mem_cons, List.mem_singleton, List.not_mem_nil, or_false] at hmb
    rcases hmb with rfl | rfl <;> rfl
  have h3 : ∀ mb ∈ [exMB1, exMB2], ∃ fMB, mb.m_outputFn = some fMB ∧
      ∀ t, fMB.getValue t = (mb.eliminate exProblem).getValue t := by
    intro mb hmb
    simp only [List.mem_cons, List.mem_singleton, List.not_mem_nil, or_false] at hmb
    rcases hmb with rfl | rfl <;> exact ⟨_, rfl, fun _ => rfl⟩
  ⟨⟨h1, h2, h3⟩, exState_e,
    computeLocalErrorTable_e_nonneg exProblem [exF1, exF2] [exMB1, exMB2] 0
      (fun _ => 0) h1 h2 h3⟩

/-- C2. `getLocalError(var, assignment)` returns exactly 0 whenever the bucket
of `var` has at most one mini-bucket or its error-quality tag is 0, whatever
the stored error function and the bucket's functions are. -/
theorem getLocalError_zero (self : MiniBucketElimLH) (var : Nat)
    (assignment : Assignment)
    (h : (self._MiniBuckets var).length ≤ 1 ∨ self._BucketErrorQuality var = 0) :
    self.getLocalError var assignment = some 0 := by
  have h0 : (self._MiniBuckets var).length ≤ 1 ∨ 0 = self._BucketErrorQuality var := by
    rcases h with h | h
    · exact Or.inl h
    · exact Or.inr h.symm
  unfold MiniBucketElimLH.getLocalError
  simp only [h0, if_true]

/-- C2 instantiated: bucket 1 of the small model has no mini-bucket. -/
theorem getLocalError_zero_witness :
    ((exState._MiniBuckets 1).length ≤ 1 ∨ exState._BucketErrorQuality 1 = 0) ∧
      exState.getLocalError 1 (fun _ => 0) = some 0 :=
  have h : (exState._MiniBuckets 1).length ≤ 1 ∨ exState._BucketErrorQuality 1 = 0 :=
    Or.inl (by decide)
  ⟨h, getLocalError_zero exState 1 (fun _ => 0) h⟩

/-! ### The scalar subtree-error loop on total maps -/

/-- The loop leaves untouched an entry that is neither processed nor the
parent of a processed non-root variable. -/
theorem subtreeStep_foldl_frozen (root : Nat) (par : Nat → Nat)
    (dom e : Nat → ℚ) :
    ∀ (l : List Nat) (st : Nat → ℚ) (v : Nat), v ∉ l →
      (∀ c ∈ l, c ≠ root → par c ≠ v) →
      (l.foldl (subtreeStep root par dom e) st) v = st v := by
  intro l
  induction l with
  | nil => intro st v _ _; rfl
  | cons a t ih =>
    intro st v hv hpar
    have hva : v ≠ a := fun h => hv (h ▸ List.mem_cons_self a t)
    have hvt : v ∉ t := fun h => hv (List.mem_cons_of_mem a h)
    rw [List.foldl_cons,
      ih (subtreeStep root par dom e st a) v hvt
        (fun c hc => hpar c (List.mem_cons_of_mem a hc))]
    unfold subtreeStep
    by_cases hroot : a = root
    · simp [hroot, Function.update_apply, hroot ▸ hva]
    · have hp : v ≠ par a := fun h => hpar a (List.mem_cons_self a t) hroot h.symm
      simp [hroot, Function.update_apply, hva, hp]

/-- The value the loop leaves at `v`: the start value, the own error when `v`
is processed, and the final values of the processed children divided by their
domain sizes. -/
theorem subtreeStep_foldl_eq (root : Nat) (par : Nat → Nat) (dom e : Nat → ℚ) :
    ∀ (l : List Nat) (st : Nat → ℚ), l.Nodup →
      (∀ c ∈ l, c ≠ root → par c ≠ c) →
      l.Pairwise (fun a b => b ≠ root → par b ≠ a) →
      ∀ v, (l.foldl (subtreeStep root par dom e) st) v =
        st v + (if v ∈ l then e v else 0) +
          ((l.filter (fun c => decide (c ≠ root ∧ par c = v))).map
            (fun c => (l.foldl (subtreeStep root par dom e) st) c / dom c)).sum := by
  intro l
  induction l with
  | nil => intro st _ _ _ v; simp
  | cons a t ih =>
    intro st hnd hself hpw v
    have hat : a ∉ t := (List.nodup_cons.mp hnd).1
    have hndt : t.Nodup := (List.nodup_cons.mp hnd).2
    have hpwa : ∀ b ∈ t, b ≠ root → par b ≠ a := (List.pairwise_cons.mp hpw).1
    have hpwt := (List.pairwise_cons.mp hpw).2
    have hIH := ih (subtreeStep root par dom e st a) hndt
      (fun c hc => hself c (List.mem_cons_of_mem a hc)) hpwt
    have hfin_a : (t.foldl (subtreeStep root par dom e)
        (subtreeStep root par dom e st a)) a = subtreeStep root par dom e st a a :=
      subtreeStep_foldl_frozen root par dom e t _ a hat hpwa
    rw [List.foldl_cons, hIH v, List.filter_cons]
    by_cases hroot : a = root
    · have hstep : subtreeStep root par dom e st a =
          Function.update st a (st a + e a) := by
        unfold subtreeStep; simp [hroot]
      have hdec : decide (a ≠ root ∧ par a = v) = false := by simp [hroot]
      rw [hdec]
      simp only [Bool.false_eq_true, if_false]
      by_cases hva : v = a
      · subst hva
        simp [hstep, hat]
      · have hva2 : ¬ a = v := fun h => hva h.symm
        simp [hstep, Function.update_apply, hva, hva2, List.mem_cons]
    · have hpa : par a ≠ a := hself a (List.mem_cons_self a t) hroot
      have hstep : subtreeStep root par dom e st a =
          Function.update (Function.update st a (st a + e a)) (par a)
            (st (par a) + (st a + e a) / dom a) := by
        unfold subtreeStep
        simp [hroot, Function.update_apply, hpa]
      have hstep_a : subtreeStep root par dom e st a a = st a + e a := by
        rw [hstep]; simp [Function.update_apply, hpa.symm]
      by_cases hva : v = a
      · subst hva
        have hdec : decide (v ≠ root ∧ par v = v) = false := by simp [hpa]
        rw [hdec]
        simp [hstep_a, hat]
      · have hva2 : ¬ a = v := fun h => hva h.symm
        by_cases hvp : par a = v
        · have hdec : decide (a ≠ root ∧ par a = v) = true := by simp [hroot, hvp]
          rw [hdec]
          simp only [if_true, List.map_cons, List.sum_cons]
          rw [hfin_a, hstep_a]
          have : subtreeStep root par dom e st a v = st v + (st a + e a) / dom a := by
            rw [hstep, ← hvp]; simp [Function.update_apply, hpa]
          rw [this]
          simp only [List.mem_cons, hva, false_or]
          ring
        · have hdec : decide (a ≠ root ∧ par a = v) = false := by simp [hvp]
          rw [hdec]
          have hvp2 : ¬ v = par a := fun h => hvp h.symm
          have : subtreeStep root par dom e st a v = st v := by
            rw [hstep]; simp [Function.update_apply, hva, hvp2]
          rw [this]
          simp [List.mem_cons, hva]

/-- The loop is monotone in the start values and in the errors, for domain
sizes that are not negative. -/
theorem subtreeStep_foldl_mono (root : Nat) (par : Nat → Nat) (dom : Nat → ℚ)
    (hdom : ∀ c, 0 ≤ dom c) (e1 e2 : Nat → ℚ) (he : ∀ c, e1 c ≤ e2 c) :
    ∀ (l : List Nat) (st1 st2 : Nat → ℚ), (∀ c, st1 c ≤ st2 c) →
      ∀ v, (l.foldl (subtreeStep root par dom e1) st1) v ≤
        (l.foldl (subtreeStep root par dom e2) st2) v := by
  intro l
  induction l with
  | nil => intro st1 st2 h v; exact h v
  | cons a t ih =>
    intro st1 st2 h v
    rw [List.foldl_cons, List.foldl_cons]
    apply ih
    intro c
    have h1 : st1 a + e1 a ≤ st2 a + e2 a := add_le_add (h a) (he a)
    have hu : ∀ c, Function.update st1 a (st1 a + e1 a) c ≤
        Function.update st2 a (st2 a + e2 a) c := by
      intro c
      by_cases hc : c = a
      · subst hc; simpa using h1
      · simpa [Function.update_apply, hc] using h c
    unfold subtreeStep
    by_cases hroot : a = root
    · simpa [hroot] using hu c
    · simp only [ne_eq, hroot, not_false_eq_true, if_true]
      by_cases hc : c = par a
      · subst hc
        simp only [Function.update_same]
        exact add_le_add (hu _) (div_le_div_of_nonneg_right h1 (hdom a))
      · simpa [Function.update_apply, hc] using hu c

/-! ### The loop on vectors refines the loop on total maps -/

/-- Writing an entry inside a vector updates its map. -/
theorem vecFun_set (se : List ℚ) (v : Nat) (x : ℚ) (hv : v < se.length) :
    vecFun (se.set v x) = Function.update (vecFun se) v x := by
  funext i
  simp only [vecFun, List.getD_eq_getElem?_getD, List.getElem?_set,
    Function.update_apply]
  by_cases h : v = i
  · subst h; simp [hv]
  · have h2 : ¬ i = v := fun h3 => h h3.symm
    simp [h, h2]

/-- An entry inside a vector is the value of its map. -/
theorem getElem?_eq_vecFun (se : List ℚ) (v : Nat) (hv : v < se.length) :
    se[v]? = some (vecFun se v) := by
  simp only [vecFun, List.getD_eq_getElem?_getD, List.getElem?_eq_getElem hv,
    Option.getD_some]

/-- One iteration on a vector succeeds when the variable and its parent are in
range, keeps the length and acts on the map as `subtreeStep`. -/
theorem ComputeSubtreeErrors_step_refines (pt : Pseudotree) (problem : Problem)
    (be : Nat → WithBot ℚ) (se : List ℚ) (v : Nat) (hv : v < se.length)
    (hpar : v ≠ pt.root → ∃ p, pt.parent v = some p ∧ p < se.length) :
    ∃ se', ComputeSubtreeErrors_step pt problem be se v = some se' ∧
      se'.length = se.length ∧
      vecFun se' = subtreeStep pt.root pt.parentVar
        (fun c => (problem.getDomainSize c : ℚ)) (fun c => clampError (be c))
        (vecFun se) v := by
  unfold ComputeSubtreeErrors_step subtreeStep
  rw [getElem?_eq_vecFun se v hv]
  simp only []
  by_cases hroot : v = pt.root
  · simp only [hroot, ne_eq, not_true_eq_false, if_false]
    refine ⟨_, rfl, ?_, ?_⟩
    · simp
    · exact vecFun_set se pt.root _ (hroot ▸ hv)
  · obtain ⟨p, hp, hplt⟩ := hpar hroot
    have hlen : (se.set v (vecFun se v + clampError (be v))).length = se.length :=
      List.length_set _ _ _
    have hpv : pt.parentVar v = p := by unfold Pseudotree.parentVar; rw [hp]; rfl
    simp only [ne_eq, hroot, not_false_eq_true, if_true, hp, hpv]
    rw [getElem?_eq_vecFun _ p (hlen ▸ hplt), getElem?_eq_vecFun _ v (hlen ▸ hv)]
    refine ⟨_, rfl, ?_, ?_⟩
    · simp
    · rw [vecFun_set _ p _ (hlen ▸ hplt), vecFun_set se v _ hv, hpv]

/-- The whole loop on a vector succeeds when every variable of the order and
its parent are in range, keeps the length and acts on the map as the fold of
`subtreeStep`. -/
theorem ComputeSubtreeErrors_foldlM_refines (pt : Pseudotree) (problem : Problem)
    (be : Nat → WithBot ℚ) :
    ∀ (l : List Nat) (se : List ℚ),
      (∀ v ∈ l, v < se.length ∧
        (v ≠ pt.root → ∃ p, pt.parent v = some p ∧ p < se.length)) →
      ∃ se', l.foldlM (ComputeSubtreeErrors_step pt problem be) se = some se' ∧
        se'.length = se.length ∧
        vecFun se' = l.foldl (subtreeStep pt.root pt.parentVar
          (fun c => (problem.getDomainSize c : ℚ)) (fun c => clampError (be c)))
          (vecFun se) := by
  intro l
  induction l with
  | nil => intro se _; exact ⟨se, rfl, rfl, rfl⟩
  | cons a t ih =>
    intro se h
    obtain ⟨ha, hpa⟩ := h a (List.mem_cons_self a t)
    obtain ⟨se1, h1, hlen1, hf1⟩ :=
      ComputeSubtreeErrors_step_refines pt problem be se a ha hpa
    obtain ⟨se2, h2, hlen2, hf2⟩ := ih se1 (by
      intro v hv
      rw [hlen1]
      exact h v (List.mem_cons_of_mem a hv))
    refine ⟨se2, ?_, hlen2.trans hlen1, ?_⟩
    · rw [List.foldlM_cons, h1]
      exact h2
    · rw [hf2, hf1, List.foldl_cons]

/-- Resizing a vector of zeros with zeros gives the given length. -/
theorem vector_resize_length (se : List ℚ) (n : Nat) :
    (vector_resize se n 0).length = n := by
  unfold vector_resize
  simp only [List.length_append, List.length_take, List.length_replicate]
  omega

/-- Resizing a vector of zeros with zeros gives a vector of zeros. -/
theorem vecFun_vector_resize_zero (se : List ℚ) (n : Nat)
    (hzero : ∀ x ∈ se, x = 0) : vecFun (vector_resize se n 0) = fun _ => 0 := by
  funext i
  simp only [vecFun, List.getD_eq_getElem?_getD]
  cases hi : (vector_resize se n 0)[i]? with
  | none => rfl
  | some x =>
    have hmem : x ∈ vector_resize se n 0 := List.getElem?_mem hi
    unfold vector_resize at hmem
    rcases List.mem_append.mp hmem with h | h
    · simpa using hzero x (List.mem_of_mem_take h)
    · simpa using (List.mem_replicate.mp h).2

/-- In an order where every variable precedes its parent, no processed
variable is its own parent and no parent comes before its child. -/
theorem precedesParent_pairwise (pt : Pseudotree) (hnodup : pt.elimOrder.Nodup)
    (hprec : pt.precedesParent) :
    (∀ c ∈ pt.elimOrder, c ≠ pt.root → pt.parentVar c ≠ c) ∧
    pt.elimOrder.Pairwise (fun a b => b ≠ pt.root → pt.parentVar b ≠ a) := by
  constructor
  · intro c hc hroot
    obtain ⟨p, hp, _, hlt⟩ := hprec c hc hroot
    have hpv : pt.parentVar c = p := by unfold Pseudotree.parentVar; rw [hp]; rfl
    rw [hpv]
    intro h
    rw [h] at hlt
    exact lt_irrefl _ hlt
  · rw [List.pairwise_iff_getElem]
    intro i j hi hj hij hroot
    obtain ⟨p, hp, _, hlt⟩ := hprec _ (List.getElem_mem hj) hroot
    have hpv : pt.parentVar pt.elimOrder[j] = p := by
      unfold Pseudotree.parentVar; rw [hp]; rfl
    rw [hpv]
    intro h
    rw [h, List.indexOf_getElem hnodup j hj, List.indexOf_getElem hnodup i hi] at hlt
    omega

/-- The children selected through the total parent map are the pseudo-tree
children. -/
theorem children_eq_filter_parentVar (pt : Pseudotree) (v : Nat)
    (hpar : ∀ c ∈ pt.elimOrder, c ≠ pt.root → ∃ p, pt.parent c = some p) :
    pt.elimOrder.filter (fun c => decide (c ≠ pt.root ∧ pt.parentVar c = v)) =
      pt.children v := by
  unfold Pseudotree.children
  apply List.filter_congr
  intro c hc
  by_cases hroot : c = pt.root
  · simp [hroot]
  · obtain ⟨p, hp⟩ := hpar c hc hroot
    have hpv : pt.parentVar c = p := by unfold Pseudotree.parentVar; rw [hp]; rfl
    simp [hroot, hp, hpv]

/-- `ComputeSubtreeErrors` returns when every variable of the order is in range
and every non-root one has its parent in the order; the summary it leaves is
the fold of `subtreeStep` over the resized vector. -/
theorem ComputeSubtreeErrors_returns (self : MiniBucketElimLH)
    (be : Nat → WithBot ℚ)
    (hrange : ∀ v ∈ self.m_pseudotree.elimOrder, v < self.m_problem.N)
    (hpar : ∀ v ∈ self.m_pseudotree.elimOrder, v ≠ self.m_pseudotree.root →
      ∃ p, self.m_pseudotree.parent v = some p ∧ p ∈ self.m_pseudotree.elimOrder) :
    ∃ s', self.ComputeSubtreeErrors be = some s' ∧
      s'._SubtreeError.length = self.m_problem.N ∧
      vecFun s'._SubtreeError =
        self.m_pseudotree.elimOrder.foldl
          (subtreeStep self.m_pseudotree.root self.m_pseudotree.parentVar
            (fun c => (self.m_problem.getDomainSize c : ℚ))
            (fun c => clampError (be c)))
          (vecFun (vector_resize self._SubtreeError self.m_problem.N 0)) := by
  have hlen := vector_resize_length self._SubtreeError self.m_problem.N
  obtain ⟨se', h1, h2, h3⟩ := ComputeSubtreeErrors_foldlM_refines
    self.m_pseudotree self.m_problem be self.m_pseudotree.elimOrder
    (vector_resize self._SubtreeError self.m_problem.N 0) (by
      intro v hv
      rw [hlen]
      refine ⟨hrange v hv, ?_⟩
      intro hroot
      obtain ⟨p, hp, hmem⟩ := hpar v hv hroot
      exact ⟨p, hp, hrange p hmem⟩)
  refine ⟨{ self with _SubtreeError := se' }, ?_, h2.trans hlen, h3⟩
  unfold MiniBucketElimLH.ComputeSubtreeErrors
  simp only [h1, Option.map_some']

/-- C3. Scalar subtree-error aggregation: started from an all-zero summary,
with an elimination order that lists each variable once, within range, and
before its parent, and with a domain that is not empty for every variable of
the order other than the root (the divisors of line 2135, so that no quotient
is an infinity or a NaN), `ComputeSubtreeErrors` returns and leaves for every
variable `v` of the order `subtreeError[v] = max(0, bucketError[v]) +` the sum
over the pseudo-tree children `c` of `v` of `subtreeError[c] / domainSize(c)`. -/
theorem ComputeSubtreeErrors_spec (self : MiniBucketElimLH)
    (be : Nat → WithBot ℚ)
    (hzero : ∀ x ∈ self._SubtreeError, x = 0)
    (hnodup : self.m_pseudotree.elimOrder.Nodup)
    (hrange : ∀ v ∈ self.m_pseudotree.elimOrder, v < self.m_problem.N)
    (hprec : self.m_pseudotree.precedesParent)
    (hdom : ∀ c ∈ self.m_pseudotree.elimOrder, c ≠ self.m_pseudotree.root →
      0 < self.m_problem.getDomainSize c) :
    ∃ s', self.ComputeSubtreeErrors be = some s' ∧
      ∀ v ∈ self.m_pseudotree.elimOrder,
        s'._SubtreeError[v]? = some (clampError (be v) +
          ((self.m_pseudotree.children v).map
            (fun c => s'._SubtreeError.getD c 0 /
              (self.m_problem.getDomainSize c : ℚ))).sum) := by
  have hpar : ∀ v ∈ self.m_pseudotree.elimOrder, v ≠ self.m_pseudotree.root →
      ∃ p, self.m_pseudotree.parent v = some p ∧
        p ∈ self.m_pseudotree.elimOrder := by
    intro v hv hroot
    obtain ⟨p, hp, hmem, _⟩ := hprec v hv hroot
    exact ⟨p, hp, hmem⟩
  obtain ⟨s', hs, hlen, hfun⟩ := ComputeSubtreeErrors_returns self be hrange hpar
  refine ⟨s', hs, ?_⟩
  intro v hv
  obtain ⟨hself, hpw⟩ := precedesParent_pairwise self.m_pseudotree hnodup hprec
  have hmain := subtreeStep_foldl_eq self.m_pseudotree.root
    self.m_pseudotree.parentVar (fun c => (self.m_problem.getDomainSize c : ℚ))
    (fun c => clampError (be c)) self.m_pseudotree.elimOrder
    (vecFun (vector_resize self._SubtreeError self.m_problem.N 0)) hnodup hself hpw v
  rw [← hfun, vecFun_vector_resize_zero _ _ hzero,
    children_eq_filter_parentVar self.m_pseudotree v
      (fun c hc hroot => (hpar c hc hroot).imp (fun _ h => h.1))] at hmain
  rw [getElem?_eq_vecFun _ v (hlen ▸ hrange v hv), hmain]
  simp only [hv, if_true, zero_add]
  rfl

/-- C4. Scalar subtree-error aggregation is monotonic: for a fixed pseudo tree
and fixed domain sizes, if two bucket-error vectors satisfy `e[d] <= e'[d]` for
every variable `d`, then `ComputeSubtreeErrors` returns for both from the same
state and every entry of the summary computed from `e` is at most the entry
computed from `e'`. -/
theorem ComputeSubtreeErrors_mono (self : MiniBucketElimLH)
    (be1 be2 : Nat → WithBot ℚ)
    (hrange : ∀ v ∈ self.m_pseudotree.elimOrder, v < self.m_problem.N)
    (hpar : ∀ v ∈ self.m_pseudotree.elimOrder, v ≠ self.m_pseudotree.root →
      ∃ p, self.m_pseudotree.parent v = some p ∧ p ∈ self.m_pseudotree.elimOrder)
    (hle : ∀ d, be1 d ≤ be2 d) :
    ∃ s1 s2, self.ComputeSubtreeErrors be1 = some s1 ∧
      self.ComputeSubtreeErrors be2 = some s2 ∧
      s1._SubtreeError.length = self.m_problem.N ∧
      s2._SubtreeError.length = self.m_problem.N ∧
      ∀ v, s1._SubtreeError.getD v 0 ≤ s2._SubtreeError.getD v 0 := by
  obtain ⟨s1, hs1, hlen1, hf1⟩ := ComputeSubtreeErrors_returns self be1 hrange hpar
  obtain ⟨s2, hs2, hlen2, hf2⟩ := ComputeSubtreeErrors_returns self be2 hrange hpar
  refine ⟨s1, s2, hs1, hs2, hlen1, hlen2, ?_⟩
  intro v
  show vecFun s1._SubtreeError v ≤ vecFun s2._SubtreeError v
  rw [hf1, hf2]
  apply subtreeStep_foldl_mono
  · intro c; exact Nat.cast_nonneg _
  · intro c
    have h := hle c
    rcases h1 : be1 c with _ | q1 <;> rcases h2 : be2 c with _ | q2
    · exact le_refl _
    · exact le_max_left _ _
    · rw [h1, h2] at h
      exact absurd (le_bot_iff.mp h) WithBot.coe_ne_bot
    · rw [h1, h2] at h
      have hq : q1 ≤ q2 := WithBot.coe_le_coe.mp h
      exact max_le_max (le_refl 0) hq
  · intro c; exact le_refl _

/-! ### Packing -/

/-- The member functions of a list of mini-buckets, bucket after bucket. -/
theorem placeInExisting_members (f : Function) :
    ∀ (mbs : List MiniBucket),
      ((build_placeInExisting f mbs).2 = true →
        (((build_placeInExisting f mbs).1.map (fun mb => mb.m_functions)).flatten).Perm
          ((mbs.map (fun mb => mb.m_functions)).flatten ++ [f])) ∧
      ((build_placeInExisting f mbs).2 = false →
        (build_placeInExisting f mbs).1 = mbs) := by
  intro mbs
  induction mbs with
  | nil => simp [build_placeInExisting]
  | cons mb rest ih =>
    unfold build_placeInExisting
    by_cases h : mb.allowsFunction f = true
    · simp only [h, if_true, List.map_cons, List.flatten_cons, MiniBucket.addFunction,
        true_implies, reduceCtorEq, false_implies, and_true]
      rw [List.append_assoc, List.append_assoc]
      exact List.Perm.append_left _ List.perm_append_comm
    · simp only [h, if_false, Bool.false_eq_true, List.map_cons, List.flatten_cons]
      constructor
      · intro h2
        rw [List.append_assoc]
        exact List.Perm.append_left _ (ih.1 h2)
      · intro h2
        rw [ih.2 h2]

/-- Placing a function adds it to the members and to nothing else. -/
theorem placeFunction_members (v ibound : Nat) (mbs : List MiniBucket)
    (f : Function) :
    (((build_placeFunction v ibound mbs f).map (fun mb => mb.m_functions)).flatten).Perm
      ((mbs.map (fun mb => mb.m_functions)).flatten ++ [f]) := by
  unfold build_placeFunction
  obtain ⟨h1, h2⟩ := placeInExisting_members f mbs
  cases h : (build_placeInExisting f mbs).2 with
  | true => simpa [h] using h1 h
  | false =>
    simp only [h, Bool.false_eq_true, if_false, h2 h, List.map_append, List.map_cons,
      List.map_nil, List.flatten_append, List.flatten_cons, List.flatten_nil,
      List.append_nil, MiniBucket.addFunction, MiniBucket.new, List.nil_append]
    exact List.Perm.refl _

/-- The members after placing a list of functions. -/
theorem foldl_placeFunction_members (v ibound : Nat) :
    ∀ (l : List Function) (mbs : List MiniBucket),
      (((l.foldl (build_placeFunction v ibound) mbs).map
          (fun mb => mb.m_functions)).flatten).Perm
        ((mbs.map (fun mb => mb.m_functions)).flatten ++ l) := by
  intro l
  induction l with
  | nil => intro mbs; simp
  | cons f t ih =>
    intro mbs
    rw [List.foldl_cons]
    refine (ih _).trans ?_
    refine ((placeFunction_members v ibound mbs f).append_right t).trans ?_
    rw [List.append_assoc]
    exact List.Perm.refl _

/-- When no mini-bucket allows the function, none is changed and the function
is not placed. -/
theorem placeInExisting_none (f : Function) :
    ∀ (mbs : List MiniBucket), (∀ mb ∈ mbs, mb.allowsFunction f = false) →
      build_placeInExisting f mbs = (mbs, false) := by
  intro mbs
  induction mbs with
  | nil => intro _; rfl
  | cons mb rest ih =>
    intro h
    unfold build_placeInExisting
    rw [h mb (List.mem_cons_self mb rest),
      ih (fun m hm => h m (List.mem_cons_of_mem mb hm))]
    simp

/-- The function goes to the first mini-bucket that allows it. -/
theorem placeInExisting_first (f : Function) (mb : MiniBucket)
    (post : List MiniBucket) (hmb : mb.allowsFunction f = true) :
    ∀ (pre : List MiniBucket), (∀ m ∈ pre, m.allowsFunction f = false) →
      build_placeInExisting f (pre ++ mb :: post) =
        (pre ++ mb.addFunction f :: post, true) := by
  intro pre
  induction pre with
  | nil =>
    intro _
    simp [build_placeInExisting, hmb]
  | cons m rest ih =>
    intro h
    rw [List.cons_append]
    unfold build_placeInExisting
    rw [h m (List.mem_cons_self m rest),
      ih (fun x hx => h x (List.mem_cons_of_mem m hx))]
    simp

/-- The mini-buckets that the inner loop leaves are the old ones, one of them
possibly with the function added. -/
theorem placeInExisting_mem (f : Function) :
    ∀ (mbs : List MiniBucket) (mb : MiniBucket),
      mb ∈ (build_placeInExisting f mbs).1 →
      mb ∈ mbs ∨ ∃ m ∈ mbs, m.allowsFunction f = true ∧ mb = m.addFunction f := by
  intro mbs
  induction mbs with
  | nil => intro mb h; simp [build_placeInExisting] at h
  | cons m rest ih =>
    intro mb h
    unfold build_placeInExisting at h
    by_cases ha : m.allowsFunction f = true
    · simp only [ha, if_true, List.mem_cons] at h
      rcases h with h | h
      · exact Or.inr ⟨m, List.mem_cons_self m rest, ha, h⟩
      · exact Or.inl (List.mem_cons_of_mem m h)
    · simp only [ha, if_false, Bool.false_eq_true, List.mem_cons] at h
      rcases h with h | h
      · exact Or.inl (h ▸ List.mem_cons_self m rest)
      · rcases ih mb h with h2 | ⟨x, hx, hxa, hxe⟩
        · exact Or.inl (List.mem_cons_of_mem m h2)
        · exact Or.inr ⟨x, List.mem_cons_of_mem m hx, hxa, hxe⟩

/-- The mini-buckets after placing a function are old ones, an old one that
allowed the function with the function added, or a new one that holds only the
function. -/
theorem placeFunction_mem (v ibound : Nat) (mbs : List MiniBucket)
    (f : Function) (mb : MiniBucket)
    (h : mb ∈ build_placeFunction v ibound mbs f) :
    mb ∈ mbs ∨ (∃ m ∈ mbs, m.allowsFunction f = true ∧ mb = m.addFunction f) ∨
      mb = (MiniBucket.new v ibound).addFunction f := by
  unfold build_placeFunction at h
  cases hp : (build_placeInExisting f mbs).2 with
  | true =>
    simp only [hp, if_true] at h
    rcases placeInExisting_mem f mbs mb h with h2 | h2
    · exact Or.inl h2
    · exact Or.inr (Or.inl h2)
  | false =>
    simp only [hp, Bool.false_eq_true, if_false, List.mem_append,
      List.mem_singleton] at h
    rcases h with h | h
    · rcases placeInExisting_mem f mbs mb h with h2 | h2
      · exact Or.inl h2
      · exact Or.inr (Or.inl h2)
    · exact Or.inr (Or.inr h)

/-- A property of mini-buckets that placing a function keeps holds for every
mini-bucket of the packing. -/
theorem foldl_placeFunction_invariant (v ibound : Nat) (P : MiniBucket → Prop)
    (hadd : ∀ (m : MiniBucket) (f : Function), P m → m.allowsFunction f = true →
      P (m.addFunction f))
    (hnew : ∀ f : Function, P ((MiniBucket.new v ibound).addFunction f)) :
    ∀ (l : List Function) (mbs : List MiniBucket), (∀ mb ∈ mbs, P mb) →
      ∀ mb ∈ l.foldl (build_placeFunction v ibound) mbs, P mb := by
  intro l
  induction l with
  | nil => intro mbs h; simpa using h
  | cons f t ih =>
    intro mbs h
    rw [List.foldl_cons]
    apply ih
    intro mb hmb
    rcases placeFunction_mem v ibound mbs f mb hmb with h1 | ⟨m, hm, ha, he⟩ | h1
    · exact h mb h1
    · rw [he]; exact hadd m f (h m hm) ha
    · rw [h1]; exact hnew f

/-- C5. First-fit packing in `build`: the functions are placed one after the
other in order of non-increasing scope size (a reordering of the bucket's
functions), starting with no mini-bucket; each function is added to the first
mini-bucket, in creation order, that allows it, and a new mini-bucket holding
it is appended when no mini-bucket allows it; the mini-buckets partition the
bucket's function list (their members, taken together, are the bucket's
functions, each as often as it is listed) and no mini-bucket is empty. -/
theorem build_partition_first_fit (v ibound : Nat) (funs : List Function) :
    (build_partition v ibound funs =
        (build_sortFunctions funs).foldl (build_placeFunction v ibound) [] ∧
      (build_sortFunctions funs).Perm funs ∧
      (build_sortFunctions funs).Pairwise
        (fun p q => q.scope.card ≤ p.scope.card)) ∧
    (∀ (mbs : List MiniBucket) (f : Function),
      (∀ mb ∈ mbs, mb.allowsFunction f = false) →
      build_placeFunction v ibound mbs f =
        mbs ++ [(MiniBucket.new v ibound).addFunction f]) ∧
    (∀ (pre : List MiniBucket) (mb : MiniBucket) (post : List MiniBucket)
      (f : Function), (∀ m ∈ pre, m.allowsFunction f = false) →
      mb.allowsFunction f = true →
      build_placeFunction v ibound (pre ++ mb :: post) f =
        pre ++ mb.addFunction f :: post) ∧
    (((build_partition v ibound funs).map (fun mb => mb.m_functions)).flatten).Perm
      funs ∧
    ∀ mb ∈ build_partition v ibound funs, mb.m_functions ≠ [] := by
  refine ⟨⟨rfl, List.mergeSort_perm _ _, ?_⟩, ?_, ?_, ?_, ?_⟩
  · have h := @List.sorted_mergeSort Function
      (fun p q : Function => !scopeIsLarger q p)
      (by
        intro a b c hab hbc
        simp only [scopeIsLarger, Bool.not_eq_true', decide_eq_false_iff_not,
          not_lt] at hab hbc ⊢
        exact le_trans hbc hab)
      (by
        intro a b
        simp only [scopeIsLarger, Bool.or_eq_true, Bool.not_eq_true',
          decide_eq_false_iff_not, not_lt]
        exact le_total _ _)
      funs
    refine List.Pairwise.imp ?_ h
    intro a b hab
    simpa [scopeIsLarger] using hab
  · intro mbs f h
    unfold build_placeFunction
    rw [placeInExisting_none f mbs h]
    simp
  · intro pre mb post f hpre hmb
    unfold build_placeFunction
    rw [placeInExisting_first f mb post hmb pre hpre]
    simp
  · unfold build_partition
    refine (foldl_placeFunction_members v ibound (build_sortFunctions funs) []).trans ?_
    simpa using List.mergeSort_perm funs _
  · unfold build_partition
    apply foldl_placeFunction_invariant v ibound (fun mb => mb.m_functions ≠ [])
    · intro m f _ _
      simp [MiniBucket.addFunction]
    · intro f
      simp [MiniBucket.addFunction, MiniBucket.new]
    · intro mb h
      simp at h

/-- C6 as stated fails: with i-bound 1, the bucket that holds one function over
three variables is packed into a mini-bucket of scope width 3. -/
theorem build_partition_width_counterexample :
    ¬ (∀ mb ∈ build_partition 0 1 [exWide], mb.m_jointScope.card ≤ 1) := by
  intro h
  have hmem : (MiniBucket.new 0 1).addFunction exWide ∈
      build_partition 0 1 [exWide] := by
    simp [build_partition, build_sortFunctions, build_placeFunction,
      build_placeInExisting]
  have h3 := h _ hmem
  revert h3
  decide

/-- C6, amended. After the packing step every mini-bucket has the bucket's
i-bound and either its combined scope width is within the i-bound, or it was
opened for a function whose own scope is wider than the i-bound and its scope
is the scope of that function, its first member. -/
theorem build_partition_width (v ibound : Nat) (funs : List Function) :
    ∀ mb ∈ build_partition v ibound funs,
      mb.m_ibound = ibound ∧
      (mb.m_jointScope.card ≤ ibound ∨
        ∃ f rest, mb.m_functions = f :: rest ∧ mb.m_jointScope = f.scope ∧
          ibound < f.scope.card) := by
  unfold build_partition
  apply foldl_placeFunction_invariant v ibound
    (fun mb => mb.m_ibound = ibound ∧
      (mb.m_jointScope.card ≤ ibound ∨
        ∃ f rest, mb.m_functions = f :: rest ∧ mb.m_jointScope = f.scope ∧
          ibound < f.scope.card))
  · intro m f hm ha
    refine ⟨hm.1, Or.inl ?_⟩
    have h := ha
    simp only [MiniBucket.allowsFunction, decide_eq_true_eq] at h
    rw [hm.1] at h
    exact h
  · intro f
    refine ⟨rfl, ?_⟩
    by_cases h : f.scope.card ≤ ibound
    · left
      simpa [MiniBucket.addFunction, MiniBucket.new] using h
    · right
      exact ⟨f, [], by simp [MiniBucket.addFunction, MiniBucket.new],
        by simp [MiniBucket.addFunction, MiniBucket.new], not_le.mp h⟩
  · intro mb h
    simp at h

/-! ### Ancestor paths -/

/-- The path starts at the parent. -/
theorem isAncestorPath_parent (pt : Pseudotree) (v a : Nat) (rest : List Nat)
    (h : pt.isAncestorPath v (a :: rest)) : pt.parent v = some a := by
  cases rest with
  | nil => exact h.1
  | cons b r => exact h.1

/-- The ancestor paths of a variable coincide. -/
theorem isAncestorPath_unique (pt : Pseudotree) :
    ∀ (p : List Nat) (v : Nat) (q : List Nat),
      pt.isAncestorPath v p → pt.isAncestorPath v q → p = q := by
  intro p
  induction p with
  | nil => intro v q h _; exact absurd h (by simp [Pseudotree.isAncestorPath])
  | cons a rest ih =>
    intro v q hp hq
    cases q with
    | nil => exact absurd hq (by simp [Pseudotree.isAncestorPath])
    | cons a2 rest2 =>
      have h1 := isAncestorPath_parent pt v a rest hp
      have h2 := isAncestorPath_parent pt v a2 rest2 hq
      have ha : a = a2 := Option.some.inj (h1.symm.trans h2)
      subst ha
      cases rest with
      | nil =>
        cases rest2 with
        | nil => rfl
        | cons b2 r2 => exact absurd hp.2 hq.2.1
      | cons b r =>
        cases rest2 with
        | nil => exact absurd hq.2 hp.2.1
        | cons b2 r2 =>
          rw [ih a (b2 :: r2) hp.2.2 hq.2.2]

/-- An element of an ancestor path is the root and the last one, or it is not
the root and the rest of the path is its own ancestor path. -/
theorem isAncestorPath_suffix (pt : Pseudotree) :
    ∀ (pre : List Nat) (v x : Nat) (post : List Nat),
      pt.isAncestorPath v (pre ++ x :: post) →
      (post = [] ∧ x = pt.root) ∨
        (post ≠ [] ∧ x ≠ pt.root ∧ pt.isAncestorPath x post) := by
  intro pre
  induction pre with
  | nil =>
    intro v x post h
    cases post with
    | nil => exact Or.inl ⟨rfl, h.2⟩
    | cons b r => exact Or.inr ⟨by simp, h.2.1, h.2.2⟩
  | cons c pre2 ih =>
    intro v x post h
    cases hrest : pre2 ++ x :: post with
    | nil => simp at hrest
    | cons b r =>
      rw [List.cons_append, hrest] at h
      exact ih c x post (hrest ▸ h.2.2)

/-- An ancestor path lists no variable twice. -/
theorem isAncestorPath_nodup (pt : Pseudotree) :
    ∀ (path : List Nat) (v : Nat), pt.isAncestorPath v path → path.Nodup := by
  intro path
  induction path with
  | nil => intro _ _; exact List.nodup_nil
  | cons a rest ih =>
    intro v h
    cases rest with
    | nil => simp
    | cons b r =>
      refine List.nodup_cons.mpr ⟨?_, ih a h.2.2⟩
      intro hmem
      obtain ⟨pre, post, hsplit⟩ := List.append_of_mem hmem
      have h2 : pt.isAncestorPath a (pre ++ a :: post) := hsplit ▸ h.2.2
      rcases isAncestorPath_suffix pt pre a a post h2 with ⟨_, hroot⟩ | ⟨_, _, h3⟩
      · exact h.2.1 hroot
      · have heq := isAncestorPath_unique pt _ a _ h2 h3
        have hlen := congrArg List.length heq
        simp at hlen
        omega

/-- A non-root variable is not on its own ancestor path. -/
theorem not_mem_isAncestorPath (pt : Pseudotree) (v : Nat) (path : List Nat)
    (h : pt.isAncestorPath v path) (hv : v ≠ pt.root) : v ∉ path := by
  intro hmem
  obtain ⟨pre, post, hsplit⟩ := List.append_of_mem hmem
  have h2 : pt.isAncestorPath v (pre ++ v :: post) := hsplit ▸ h
  rcases isAncestorPath_suffix pt pre v v post h2 with ⟨_, hroot⟩ | ⟨_, _, h3⟩
  · exact hv hroot
  · have heq := isAncestorPath_unique pt _ v _ h2 h3
    have hlen := congrArg List.length heq
    simp at hlen
    omega

/-! ### Routing -/

/-- The loop of lines 441-445 along an ancestor path: with enough fuel it
returns the recipient and has appended the function to the intermediate list
of every ancestor passed. -/
theorem build_routeLoop_path (pt : Pseudotree) (newf : Function) :
    ∀ (rest : List Nat) (a v fuel : Nat) (inter : Nat → List Function),
      pt.isAncestorPath v (a :: rest) → (a :: rest).length ≤ fuel →
      build_routeLoop pt newf fuel a inter =
        some (routeTarget pt (a :: rest) newf,
          (routeSkipped pt (a :: rest) newf).foldl (pushAt newf) inter) := by
  intro rest
  induction rest with
  | nil =>
    intro a v fuel inter h hfuel
    have hroot : a = pt.root := h.2
    obtain ⟨f, rfl⟩ : ∃ f, fuel = f + 1 := ⟨fuel - 1, by simp at hfuel; omega⟩
    unfold build_routeLoop
    simp only [hroot, ne_eq, not_true_eq_false, and_false, if_false, routeTarget,
      routeSkipped, List.takeWhile_cons, List.find?_cons, decide_False,
      List.foldl_nil, List.find?_nil]
    by_cases hs : pt.root ∈ newf.scope <;> simp [hs]
  | cons b r ih =>
    intro a v fuel inter h hfuel
    obtain ⟨f, rfl⟩ : ∃ f, fuel = f + 1 := ⟨fuel - 1, by simp at hfuel; omega⟩
    have hne : a ≠ pt.root := h.2.1
    have hpar : pt.parent a = some b := isAncestorPath_parent pt a b r h.2.2
    have hf : (b :: r).length ≤ f := by simp at hfuel ⊢; omega
    unfold build_routeLoop
    by_cases hs : a ∈ newf.scope
    · simp [hs, routeTarget, routeSkipped]
    · have hcond : a ∉ newf.scope ∧ a ≠ pt.root := ⟨hs, hne⟩
      simp only [hcond, and_self, if_true, hpar]
      rw [ih b a f _ h.2.2 hf]
      simp [routeTarget, routeSkipped, hs, hne, pushAt]

/-- Appending along a list without repetition appends once to each listed
bucket and leaves the others. -/
theorem foldl_pushAt_apply (newf : Function) :
    ∀ (l : List Nat) (m : Nat → List Function), l.Nodup → ∀ w,
      (l.foldl (pushAt newf) m) w = if w ∈ l then m w ++ [newf] else m w := by
  intro l
  induction l with
  | nil => intro m _ w; simp
  | cons a t ih =>
    intro m hnd w
    have hat : a ∉ t := (List.nodup_cons.mp hnd).1
    rw [List.foldl_cons, ih _ (List.nodup_cons.mp hnd).2 w]
    unfold pushAt
    by_cases hwa : w = a
    · subst hwa
      simp [hat]
    · simp [Function.update_apply, hwa, List.mem_cons]

/-- On an ancestor path the ancestors passed are the ones strictly before the
recipient. -/
theorem routeSkipped_eq_takeWhile (pt : Pseudotree) (newf : Function) :
    ∀ (path : List Nat) (v : Nat), pt.isAncestorPath v path →
      routeSkipped pt path newf =
        path.takeWhile (fun a => decide (a ≠ routeTarget pt path newf)) := by
  intro path
  induction path with
  | nil => intro _ _; rfl
  | cons a rest ih =>
    intro v h
    cases rest with
    | nil =>
      have hroot : a = pt.root := h.2
      by_cases hs : pt.root ∈ newf.scope <;>
        simp [routeSkipped, routeTarget, hroot, hs]
    | cons b r =>
      have hne : a ≠ pt.root := h.2.1
      have hih := ih a h.2.2
      by_cases hs : a ∈ newf.scope
      · simp [routeSkipped, routeTarget, hs]
      · have htgt : routeTarget pt (a :: b :: r) newf =
            routeTarget pt (b :: r) newf := by
          simp [routeTarget, hs]
        have hat : a ≠ routeTarget pt (b :: r) newf := by
          unfold routeTarget
          cases hfind : (b :: r).find? (fun a => decide (a ∈ newf.scope)) with
          | none => simpa using hne
          | some t =>
            have := List.find?_some hfind
            simp only [decide_eq_true_eq] at this
            simp only [Option.getD_some]
            intro hat
            exact hs (hat ▸ this)
        rw [htgt]
        unfold routeSkipped at hih ⊢
        have e1 : List.takeWhile (fun a => decide (a ∉ newf.scope ∧ a ≠ pt.root))
            (a :: b :: r) =
            a :: List.takeWhile (fun a => decide (a ∉ newf.scope ∧ a ≠ pt.root))
              (b :: r) :=
          List.takeWhile_cons_of_pos (by simp [hs, hne])
        have e2 : List.takeWhile
            (fun a => decide (a ≠ routeTarget pt (b :: r) newf)) (a :: b :: r) =
            a :: List.takeWhile
              (fun a => decide (a ≠ routeTarget pt (b :: r) newf)) (b :: r) :=
          List.takeWhile_cons_of_pos (by simp [hat])
        rw [e1, e2, hih]

/-- The routing step along an ancestor path, with enough fuel. -/
theorem build_route_eq (self : MiniBucketElimLH) (fuel v : Nat)
    (path : List Nat) (newf : Function)
    (hpath : self.m_pseudotree.isAncestorPath v path)
    (hfuel : path.length ≤ fuel) :
    self.build_route fuel v newf =
      some { self with
        _Stats_MemorySize := self._Stats_MemorySize + newf.getTableSize,
        m_intermediate :=
          (routeSkipped self.m_pseudotree path newf).foldl (pushAt newf)
            self.m_intermediate,
        m_augmented :=
          Function.update self.m_augmented
            (routeTarget self.m_pseudotree path newf)
            (self.m_augmented (routeTarget self.m_pseudotree path newf) ++
              [newf]) } := by
  cases path with
  | nil => exact absurd hpath (by simp [Pseudotree.isAncestorPath])
  | cons a rest =>
    unfold MiniBucketElimLH.build_route
    rw [isAncestorPath_parent _ v a rest hpath]
    simp only []
    rw [build_routeLoop_path _ newf rest a v fuel _ hpath hfuel]

/-- The root is on every ancestor path. -/
theorem root_mem_isAncestorPath (pt : Pseudotree) :
    ∀ (path : List Nat) (v : Nat), pt.isAncestorPath v path → pt.root ∈ path := by
  intro path
  induction path with
  | nil => intro v h; exact absurd h (by simp [Pseudotree.isAncestorPath])
  | cons a rest ih =>
    intro v h
    cases rest with
    | nil => rw [← h.2]; exact List.mem_cons_self a []
    | cons b r => exact List.mem_cons_of_mem a (ih a h.2.2)

/-- C7. Routing of a mini-bucket output in `build`: for a non-root variable
`v` with its ancestor path and enough fuel for the walk, the output function
is appended to the augmented list of exactly one variable and no other
augmented list changes; that variable is a strict ancestor of `v`, no ancestor
nearer to `v` has its variable in the output's scope, and it is the nearest
ancestor whose variable occurs in the output's scope, or the pseudo-tree root
when no ancestor's variable occurs in it. -/
theorem build_route_augmented (self : MiniBucketElimLH) (fuel v : Nat)
    (path : List Nat) (newf : Function)
    (hv : v ≠ self.m_pseudotree.root)
    (hpath : self.m_pseudotree.isAncestorPath v path)
    (hfuel : path.length ≤ fuel) :
    ∃ s', self.build_route fuel v newf = some s' ∧
      s'.m_augmented =
        Function.update self.m_augmented
          (routeTarget self.m_pseudotree path newf)
          (self.m_augmented (routeTarget self.m_pseudotree path newf) ++ [newf]) ∧
      routeTarget self.m_pseudotree path newf ∈ path ∧
      routeTarget self.m_pseudotree path newf ≠ v ∧
      (∀ a ∈ path.takeWhile
          (fun a => decide (a ≠ routeTarget self.m_pseudotree path newf)),
        a ∉ newf.scope) ∧
      (routeTarget self.m_pseudotree path newf ∈ newf.scope ∨
        (routeTarget self.m_pseudotree path newf = self.m_pseudotree.root ∧
          ∀ a ∈ path, a ∉ newf.scope)) := by
  have hmem : routeTarget self.m_pseudotree path newf ∈ path := by
    unfold routeTarget
    cases hfind : path.find? (fun a => decide (a ∈ newf.scope)) with
    | none => exact root_mem_isAncestorPath _ path v hpath
    | some t => exact List.mem_of_find?_eq_some hfind
  refine ⟨_, build_route_eq self fuel v path newf hpath hfuel, rfl, hmem, ?_, ?_, ?_⟩
  · intro h
    exact not_mem_isAncestorPath _ v path hpath hv (h ▸ hmem)
  · intro a ha
    rw [← routeSkipped_eq_takeWhile _ newf path v hpath] at ha
    have := List.mem_takeWhile_imp ha
    simp only [decide_eq_true_eq] at this
    exact this.1
  · unfold routeTarget
    cases hfind : path.find? (fun a => decide (a ∈ newf.scope)) with
    | none =>
      right
      refine ⟨rfl, ?_⟩
      intro a ha
      have := List.find?_eq_none.mp hfind a ha
      simpa using this
    | some t =>
      left
      have := List.find?_some hfind
      simpa using this

/-- C7 instantiated: in the chain 0 - 1 - 2 the output over variable 2 of a
mini-bucket of variable 0 is placed in bucket 2. -/
theorem build_route_augmented_witness :
    (0 ≠ exState.m_pseudotree.root ∧
      exState.m_pseudotree.isAncestorPath 0 [1, 2] ∧ [1, 2].length ≤ 2) ∧
    ∃ s', exState.build_route 2 0 exF3 = some s' ∧
      s'.m_augmented =
        Function.update exState.m_augmented
          (routeTarget exState.m_pseudotree [1, 2] exF3)
          (exState.m_augmented (routeTarget exState.m_pseudotree [1, 2] exF3) ++
            [exF3]) ∧
      routeTarget exState.m_pseudotree [1, 2] exF3 ∈ [1, 2] ∧
      routeTarget exState.m_pseudotree [1, 2] exF3 ≠ 0 ∧
      (∀ a ∈ [1, 2].takeWhile
          (fun a => decide (a ≠ routeTarget exState.m_pseudotree [1, 2] exF3)),
        a ∉ exF3.scope) ∧
      (routeTarget exState.m_pseudotree [1, 2] exF3 ∈ exF3.scope ∨
        (routeTarget exState.m_pseudotree [1, 2] exF3 = exState.m_pseudotree.root ∧
          ∀ a ∈ [1, 2], a ∉ exF3.scope)) :=
  have h1 : 0 ≠ exState.m_pseudotree.root := by decide
  have h2 : exState.m_pseudotree.isAncestorPath 0 [1, 2] :=
    ⟨rfl, by decide, rfl, rfl⟩
  have h3 : [1, 2].length ≤ 2 := by decide
  ⟨⟨h1, h2, h3⟩, build_route_augmented exState 2 0 [1, 2] exF3 h1 h2 h3⟩

/-- C8. Intermediate recipients in `build`: for a non-root variable `v` with
its ancestor path and enough fuel for the walk, the output function routed to
the ancestor `u` is appended exactly once to the intermediate list of every
variable strictly between `v` and `u` on the path, and the intermediate list of
every other variable is unchanged; neither `v` nor `u` is among them. -/
theorem build_route_intermediate (self : MiniBucketElimLH) (fuel v : Nat)
    (path : List Nat) (newf : Function)
    (hv : v ≠ self.m_pseudotree.root)
    (hpath : self.m_pseudotree.isAncestorPath v path)
    (hfuel : path.length ≤ fuel) :
    ∃ s', self.build_route fuel v newf = some s' ∧
      (∀ w, s'.m_intermediate w =
        if w ∈ path.takeWhile
            (fun a => decide (a ≠ routeTarget self.m_pseudotree path newf))
        then self.m_intermediate w ++ [newf] else self.m_intermediate w) ∧
      v ∉ path.takeWhile
        (fun a => decide (a ≠ routeTarget self.m_pseudotree path newf)) ∧
      routeTarget self.m_pseudotree path newf ∉ path.takeWhile
        (fun a => decide (a ≠ routeTarget self.m_pseudotree path newf)) := by
  refine ⟨_, build_route_eq self fuel v path newf hpath hfuel, ?_, ?_, ?_⟩
  · intro w
    show ((routeSkipped self.m_pseudotree path newf).foldl (pushAt newf)
      self.m_intermediate) w = _
    rw [routeSkipped_eq_takeWhile _ newf path v hpath]
    apply foldl_pushAt_apply
    exact (isAncestorPath_nodup _ path v hpath).sublist (List.takeWhile_sublist _)
  · intro h
    exact not_mem_isAncestorPath _ v path hpath hv
      ((List.takeWhile_sublist _).subset h)
  · intro h
    have := List.mem_takeWhile_imp h
    simp at this

/-- C8 instantiated: in the chain 0 - 1 - 2 the output over variable 2 of a
mini-bucket of variable 0 passes bucket 1. -/
theorem build_route_intermediate_witness :
    (0 ≠ exState.m_pseudotree.root ∧
      exState.m_pseudotree.isAncestorPath 0 [1, 2] ∧ [1, 2].length ≤ 2) ∧
    ∃ s', exState.build_route 2 0 exF3 = some s' ∧
      (∀ w, s'.m_intermediate w =
        if w ∈ [1, 2].takeWhile
            (fun a => decide (a ≠ routeTarget exState.m_pseudotree [1, 2] exF3))
        then exState.m_intermediate w ++ [exF3] else exState.m_intermediate w) ∧
      0 ∉ [1, 2].takeWhile
        (fun a => decide (a ≠ routeTarget exState.m_pseudotree [1, 2] exF3)) ∧
      routeTarget exState.m_pseudotree [1, 2] exF3 ∉ [1, 2].takeWhile
        (fun a => decide (a ≠ routeTarget exState.m_pseudotree [1, 2] exF3)) :=
  have h1 : 0 ≠ exState.m_pseudotree.root := by decide
  have h2 : exState.m_pseudotree.isAncestorPath 0 [1, 2] :=
    ⟨rfl, by decide, rfl, rfl⟩
  have h3 : [1, 2].length ≤ 2 := by decide
  ⟨⟨h1, h2, h3⟩, build_route_intermediate exState 2 0 [1, 2] exF3 h1 h2 h3⟩

/-! ### Heuristic queries -/

/-- C9. `getHeur(var, assignment, node)` returns the lookahead subtree's value
`GetHeuristic(assignment)` when the lookahead subtree of `var` has at least one
node and the lookahead was validated in this round, and in every other case
exactly the plain mini-bucket value `MiniBucketElim::getHeur(var, assignment,
node)`. -/
theorem getHeur_value (self : MiniBucketElimLH) (var : Nat)
    (assignment : Assignment) :
    (self.getHeur var assignment).1 =
      if 0 < (self._Lookahead var)._SubtreeNodes.length ∧
          self.lookahead_subtree_ok_ = true
      then (self._Lookahead var).GetHeuristic assignment
      else MiniBucketElim.getHeur self var assignment := by
  unfold MiniBucketElimLH.getHeur
  by_cases hn : (self._Lookahead var)._SubtreeNodes.length = 0
  · simp [hn]
  · have hpos : 0 < (self._Lookahead var)._SubtreeNodes.length :=
      Nat.pos_of_ne_zero hn
    have hn2 : ¬ 0 = (self._Lookahead var)._SubtreeNodes.length :=
      fun h => hn h.symm
    cases hok : self.lookahead_subtree_ok_ <;> simp [hn2, hpos, hok]

/-- Overwriting the entries listed in `l` with the values of `g`: an entry of
the vector is overwritten when its index is listed. -/
theorem foldl_set_getElem? (g : Nat → Val) :
    ∀ (l : List Nat) (o : List Val) (j : Nat),
      (l.foldl (fun o i => o.set i (g i)) o)[j]? =
        if j ∈ l ∧ j < o.length then some (g j) else o[j]? := by
  intro l
  induction l with
  | nil => intro o j; simp
  | cons a t ih =>
    intro o j
    rw [List.foldl_cons, ih, List.length_set, List.getElem?_set]
    by_cases hj : j < o.length
    · by_cases hja : a = j
      · subst hja
        by_cases hmem : a ∈ t <;> simp [hj, hmem]
      · have hja2 : ¬ j = a := fun h => hja h.symm
        simp [hj, hja, hja2, List.mem_cons]
    · have hnone : o[j]? = none := List.getElem?_eq_none (not_lt.mp hj)
      by_cases hja : a = j
      · subst hja
        simp [hj, hnone]
      · simp [hj, hja, hnone]

/-- Overwriting every entry of a vector of length `d` gives the list of the
new values. -/
theorem foldl_set_range (g : Nat → Val) (d : Nat) (o : List Val)
    (hlen : o.length = d) :
    (List.range d).foldl (fun o i => o.set i (g i)) o = (List.range d).map g := by
  apply List.ext_getElem?
  intro j
  rw [foldl_set_getElem?, hlen]
  by_cases hj : j < d
  · simp [hj, List.getElem?_range hj]
  · have h1 : o[j]? = none := List.getElem?_eq_none (by omega)
    have h2 : ((List.range d).map g)[j]? = none :=
      List.getElem?_eq_none (by simp; omega)
    simp [hj, h1, h2]

/-- The comparison loop of `getHeurAll` over indices inside `out` returns; it
overwrites the listed entries with the lookahead values and changes the
assignment at `var` only. -/
theorem getHeurAll_compareLoop (lhHelper : MBLHSubtree) (var : Nat)
    (a : Assignment) :
    ∀ (l : List Nat) (st : GetHeurAllLoop), (∀ i ∈ l, i < st.out.length) →
      (∀ x, Function.update st.assignment var x = Function.update a var x) →
      ∃ st', l.foldlM (getHeurAll_compareStep lhHelper var) st = some st' ∧
        st'.out = l.foldl (fun o i => o.set i
          (lhHelper.GetHeuristic (Function.update a var (i : Int)))) st.out ∧
        (∀ x, Function.update st'.assignment var x = Function.update a var x) := by
  intro l
  induction l with
  | nil => intro st _ h; exact ⟨st, rfl, rfl, h⟩
  | cons i t ih =>
    intro st hlt hasg
    have hi : i < st.out.length := hlt i (List.mem_cons_self i t)
    rw [List.foldlM_cons]
    unfold getHeurAll_compareStep
    rw [List.getElem?_eq_getElem hi]
    simp only [Option.bind_eq_bind, Option.some_bind]
    obtain ⟨st', h1, h2, h3⟩ := ih
      { no_lh_argmax := (if st.out[i] > st.no_lh_max then ((i : Int), st.out[i])
          else (st.no_lh_argmax, st.no_lh_max)).1,
        no_lh_max := (if st.out[i] > st.no_lh_max then ((i : Int), st.out[i])
          else (st.no_lh_argmax, st.no_lh_max)).2,
        lh_argmax := (if lhHelper.GetHeuristic
            (Function.update st.assignment var (i : Int)) > st.lh_max
          then ((i : Int), st.out[i]) else (st.lh_argmax, st.lh_max)).1,
        lh_max := (if lhHelper.GetHeuristic
            (Function.update st.assignment var (i : Int)) > st.lh_max
          then ((i : Int), st.out[i]) else (st.lh_argmax, st.lh_max)).2,
        out := st.out.set i
          (lhHelper.GetHeuristic (Function.update st.assignment var (i : Int))),
        assignment := Function.update st.assignment var (i : Int) }
      (by
        intro k hk
        simp only [List.length_set]
        exact hlt k (List.mem_cons_of_mem i hk))
      (by
        intro x
        simp only [Function.update_idem]
        exact hasg x)
    refine ⟨st', h1, ?_, h3⟩
    rw [h2, List.foldl_cons, hasg]

/-- The overwriting loop of `getHeurAll` over indices inside `out` returns; it
overwrites the listed entries with the lookahead values and changes the
assignment at `var` only. -/
theorem getHeurAll_overwriteLoop (lhHelper : MBLHSubtree) (var : Nat)
    (a : Assignment) :
    ∀ (l : List Nat) (st : List Val × Assignment), (∀ i ∈ l, i < st.1.length) →
      (∀ x, Function.update st.2 var x = Function.update a var x) →
      ∃ st', l.foldlM (getHeurAll_overwriteStep lhHelper var) st = some st' ∧
        st'.1 = l.foldl (fun o i => o.set i
          (lhHelper.GetHeuristic (Function.update a var (i : Int)))) st.1 ∧
        (∀ x, Function.update st'.2 var x = Function.update a var x) := by
  intro l
  induction l with
  | nil => intro st _ h; exact ⟨st, rfl, rfl, h⟩
  | cons i t ih =>
    intro st hlt hasg
    have hi : i < st.1.length := hlt i (List.mem_cons_self i t)
    rw [List.foldlM_cons]
    unfold getHeurAll_overwriteStep
    simp only [hi, if_true, Option.bind_eq_bind, Option.some_bind]
    obtain ⟨st', h1, h2, h3⟩ := ih
      (st.1.set i (lhHelper.GetHeuristic (Function.update st.2 var (i : Int))),
        Function.update st.2 var (i : Int))
      (by
        intro k hk
        simp only [List.length_set]
        exact hlt k (List.mem_cons_of_mem i hk))
      (by
        intro x
        simp only [Function.update_idem]
        exact hasg x)
    refine ⟨st', h1, ?_, h3⟩
    rw [h2, List.foldl_cons, hasg]

/-- C10. `getHeurAll(var, assignment, node, out)` returns, and: if the
lookahead subtree of `var` is empty or the lookahead is not validated, `out`
holds the plain per-value bounds of `MiniBucketElim::getHeurAll`; otherwise
`out` has one entry for every value `i` of the domain of `var` and that entry
is the lookahead value `GetHeuristic(assignment with var := i)`, whether the
always-compute override is set or not. -/
theorem getHeurAll_out (self : MiniBucketElimLH) (flags : Flags) (var : Nat)
    (assignment : Assignment) :
    ∃ r, self.getHeurAll flags var assignment = some r ∧
      r.out =
        if 0 < (self._Lookahead var)._SubtreeNodes.length ∧
            self.lookahead_subtree_ok_ = true
        then (List.range (self.m_problem.getDomainSize var)).map
          (fun (i : Nat) => (self._Lookahead var).GetHeuristic
            (Function.update assignment var (i : Int)))
        else MiniBucketElim.getHeurAll self var assignment := by
  have hlen : (MiniBucketElim.getHeurAll self var assignment).length =
      self.m_problem.getDomainSize var := by
    simp [MiniBucketElim.getHeurAll]
  unfold MiniBucketElimLH.getHeurAll
  by_cases hc : (self._Lookahead var)._SubtreeNodes.length > 0 ∧
      self.lookahead_subtree_ok_ = true
  · have hc2 : 0 < (self._Lookahead var)._SubtreeNodes.length ∧
        self.lookahead_subtree_ok_ = true := hc
    simp only [hc, hc2, and_self, if_true]
    cases hflag : flags.lookahead_always_compute
    · obtain ⟨st', h1, h2, _⟩ := getHeurAll_compareLoop (self._Lookahead var) var
        assignment (List.range (self.m_problem.getDomainSize var))
        { no_lh_argmax := -1, no_lh_max := ELEM_ZERO, lh_argmax := -1,
          lh_max := ELEM_ZERO,
          out := MiniBucketElim.getHeurAll self var assignment,
          assignment := assignment }
        (by
          intro i hi
          simp only [hlen]
          exact List.mem_range.mp hi)
        (fun _ => rfl)
      simp only [Bool.not_false, if_true, h1]
      refine ⟨_, rfl, ?_⟩
      simp only [h2]
      exact foldl_set_range _ _ _ hlen
    · obtain ⟨st', h1, h2, _⟩ := getHeurAll_overwriteLoop (self._Lookahead var)
        var assignment (List.range (self.m_problem.getDomainSize var))
        (MiniBucketElim.getHeurAll self var assignment, assignment)
        (by
          intro i hi
          simp only [hlen]
          exact List.mem_range.mp hi)
        (fun _ => rfl)
      simp only [Bool.not_true, Bool.false_eq_true, if_false, h1]
      refine ⟨_, rfl, ?_⟩
      simp only [h2]
      exact foldl_set_range _ _ _ hlen
  · have hc2 : ¬ (0 < (self._Lookahead var)._SubtreeNodes.length ∧
        self.lookahead_subtree_ok_ = true) := hc
    simp only [hc, hc2, if_false]
    exact ⟨_, rfl, rfl⟩

/-! ### Instances of the subtree-error theorems on the small model -/

/-- The order 0, 1, 2 of the small model lists every variable before its
parent. -/
theorem exTree_precedesParent : exState.m_pseudotree.precedesParent := by
  intro v hv hroot
  have hv2 : v = 0 ∨ v = 1 ∨ v = 2 := by
    simpa [exState, exTree] using hv
  rcases hv2 with rfl | rfl | rfl
  · exact ⟨1, rfl, by decide, by decide⟩
  · exact ⟨2, rfl, by decide, by decide⟩
  · exact absurd rfl hroot

/-- C3 instantiated on the chain 0 - 1 - 2 of the small model. -/
theorem ComputeSubtreeErrors_spec_witness :
    ((∀ x ∈ exState._SubtreeError, x = 0) ∧
      exState.m_pseudotree.elimOrder.Nodup ∧
      (∀ v ∈ exState.m_pseudotree.elimOrder, v < exState.m_problem.N) ∧
      exState.m_pseudotree.precedesParent ∧
      (∀ c ∈ exState.m_pseudotree.elimOrder, c ≠ exState.m_pseudotree.root →
        0 < exState.m_problem.getDomainSize c)) ∧
    ∃ s', exState.ComputeSubtreeErrors exBucketError = some s' ∧
      ∀ v ∈ exState.m_pseudotree.elimOrder,
        s'._SubtreeError[v]? = some (clampError (exBucketError v) +
          ((exState.m_pseudotree.children v).map
            (fun c => s'._SubtreeError.getD c 0 /
              (exState.m_problem.getDomainSize c : ℚ))).sum) :=
  have h1 : ∀ x ∈ exState._SubtreeError, x = 0 := by
    intro x hx
    simp [exState] at hx
  have h2 : exState.m_pseudotree.elimOrder.Nodup := by decide
  have h3 : ∀ v ∈ exState.m_pseudotree.elimOrder, v < exState.m_problem.N := by
    decide
  have h4 : ∀ c ∈ exState.m_pseudotree.elimOrder, c ≠ exState.m_pseudotree.root →
      0 < exState.m_problem.getDomainSize c := fun _ _ _ => Nat.succ_pos 1
  ⟨⟨h1, h2, h3, exTree_precedesParent, h4⟩,
    ComputeSubtreeErrors_spec exState exBucketError h1 h2 h3 exTree_precedesParent h4⟩

/-- C4 instantiated on the small model with two comparable error vectors. -/
theorem ComputeSubtreeErrors_mono_witness :
    ((∀ v ∈ exState.m_pseudotree.elimOrder, v < exState.m_problem.N) ∧
      (∀ v ∈ exState.m_pseudotree.elimOrder, v ≠ exState.m_pseudotree.root →
        ∃ p, exState.m_pseudotree.parent v = some p ∧
          p ∈ exState.m_pseudotree.elimOrder) ∧
      (∀ d, exBucketError d ≤ exBucketError2 d)) ∧
    ∃ s1 s2, exState.ComputeSubtreeErrors exBucketError = some s1 ∧
      exState.ComputeSubtreeErrors exBucketError2 = some s2 ∧
      s1._SubtreeError.length = exState.m_problem.N ∧
      s2._SubtreeError.length = exState.m_problem.N ∧
      ∀ v, s1._SubtreeError.getD v 0 ≤ s2._SubtreeError.getD v 0 :=
  have h1 : ∀ v ∈ exState.m_pseudotree.elimOrder, v < exState.m_problem.N := by
    decide
  have h2 : ∀ v ∈ exState.m_pseudotree.elimOrder,
      v ≠ exState.m_pseudotree.root →
      ∃ p, exState.m_pseudotree.parent v = some p ∧
        p ∈ exState.m_pseudotree.elimOrder := by
    intro v hv hroot
    obtain ⟨p, hp, hmem, _⟩ := exTree_precedesParent v hv hroot
    exact ⟨p, hp, hmem⟩
  have h3 : ∀ d, exBucketError d ≤ exBucketError2 d := by
    intro d
    unfold exBucketError exBucketError2
    by_cases h0 : d = 0
    · simp only [h0, if_true]
      exact WithBot.coe_le_coe.mpr (by norm_num)
    · simp only [h0, if_false]
      exact le_refl _
  ⟨⟨h1, h2, h3⟩,
    ComputeSubtreeErrors_mono exState exBucketError exBucketError2 h1 h2 h3⟩

/-- C6, amended, instantiated: the mini-bucket that holds the function over
three variables alone, under i-bound 1. -/
theorem build_partition_width_witness :
    (MiniBucket.new 0 1).addFunction exWide ∈ build_partition 0 1 [exWide] ∧
    (((MiniBucket.new 0 1).addFunction exWide).m_ibound = 1 ∧
      ((((MiniBucket.new 0 1).addFunction exWide).m_jointScope.card ≤ 1) ∨
        ∃ f rest, ((MiniBucket.new 0 1).addFunction exWide).m_functions = f :: rest ∧
          ((MiniBucket.new 0 1).addFunction exWide).m_jointScope = f.scope ∧
          1 < f.scope.card)) :=
  have hmem : (MiniBucket.new 0 1).addFunction exWide ∈
      build_partition 0 1 [exWide] := by
    simp [build_partition, build_sortFunctions, build_placeFunction,
      build_placeInExisting]
  ⟨hmem, build_partition_width 0 1 [exWide] _ hmem⟩

/-! ### Doubles -/

/-- The order of rationals as doubles. -/
theorem dbl_lt_dbl (a b : ℚ) : dbl a < dbl b ↔ a < b := by
  unfold dbl
  rw [WithBot.coe_lt_coe, WithTop.coe_lt_coe]

/-- The order of rationals as doubles. -/
theorem dbl_le_dbl (a b : ℚ) : dbl a ≤ dbl b ↔ a ≤ b := by
  unfold dbl
  rw [WithBot.coe_le_coe, WithTop.coe_le_coe]

/-- Every rational is above `-inf`. -/
theorem bot_lt_dbl (a : ℚ) : (⊥ : Val) < dbl a := by
  unfold dbl
  exact WithBot.bot_lt_coe _

/-- The sum of rationals as doubles. -/
theorem dbl_add (a b : ℚ) : dbl a + dbl b = dbl (a + b) := by
  unfold dbl
  rfl

/-! ### The ordering-changed statistic and the trigger probability -/

/-- The plain bounds of variable 1 in the state `exValidated`. -/
theorem exValidated_plain :
    MiniBucketElim.getHeurAll exValidated 1 (fun _ => 0) = [dbl 1, dbl 0] := by
  simp [MiniBucketElim.getHeurAll, MiniBucketElim.getHeur, exValidated, exFresh,
    exProblem, combineValues, exPlain, OP_TIMES, ELEM_ONE, List.range_succ,
    Function.update]

/-- The lookahead values of variable 1 in the state `exValidated`. -/
theorem exValidated_lookaheadValues :
    exValidated.lookaheadValues 1 (fun _ => 0) = [dbl 5, dbl 3] := by
  simp [MiniBucketElimLH.lookaheadValues, exValidated, exFresh, exProblem,
    exSubtree, List.range_succ, Function.update]

/-- Both lists of `exValidated` take their maximum at value 0. -/
theorem exValidated_firstArgmax :
    firstArgmax (exValidated.lookaheadValues 1 (fun _ => 0)) = 0 ∧
    firstArgmax (MiniBucketElim.getHeurAll exValidated 1 (fun _ => 0)) = 0 := by
  rw [exValidated_lookaheadValues, exValidated_plain]
  norm_num [firstArgmax, firstArgmaxFrom, dbl_lt_dbl]

/-- The comparison loop of `getHeurAll` on `exValidated` records value 0 as the
plain arg-max and value 1 as the lookahead arg-max. -/
theorem exValidated_compare :
    ∃ st, exValidated.getHeurAll_compare 1 (fun _ => 0) = some st ∧
      st.no_lh_argmax = 0 ∧ st.lh_argmax = 1 := by
  unfold MiniBucketElimLH.getHeurAll_compare
  rw [exValidated_plain]
  norm_num [exValidated, exFresh, exProblem, exSubtree, List.range_succ,
    getHeurAll_compareStep, Function.update, ELEM_ZERO, dbl_lt_dbl, bot_lt_dbl]

/-- What `getHeurAll` leaves on `exValidated`: the better-ordering count of
variable 1 is incremented and its trigger probability is 1. -/
theorem exValidated_getHeurAll :
    ∃ r, exValidated.getHeurAll {} 1 (fun _ => 0) = some r ∧
      r.state.count_better_ordering_ 1 = exValidated.count_better_ordering_ 1 + 1 ∧
      r.state.lookahead_probability_ 1 = 1 := by
  obtain ⟨st, h1, h2, h3⟩ := exValidated_compare
  unfold MiniBucketElimLH.getHeurAll_compare at h1
  unfold MiniBucketElimLH.getHeurAll
  have hc : (exValidated._Lookahead 1)._SubtreeNodes.length > 0 ∧
      exValidated.lookahead_subtree_ok_ = true := by
    simp [exValidated, exFresh, exSubtree]
  simp only [hc, and_self, if_true, h1, h2, h3]
  norm_num [exValidated, exFresh]

/-- C11, the code at a failing input. In the state `exValidated` (always-compute
off, valid non-empty lookahead of variable 1) the lookahead values 5, 3 and the
plain values 1, 0 have the same first maximiser, value 0, and `getHeurAll`
increments `count_better_ordering_[1]` all the same: line 837 records the plain
value `out[i]` as the running lookahead maximum. -/
theorem getHeurAll_count_failing :
    firstArgmax (exValidated.lookaheadValues 1 (fun _ => 0)) =
      firstArgmax (MiniBucketElim.getHeurAll exValidated 1 (fun _ => 0)) ∧
    ∃ r, exValidated.getHeurAll {} 1 (fun _ => 0) = some r ∧
      r.state.count_better_ordering_ 1 =
        exValidated.count_better_ordering_ 1 + 1 := by
  refine ⟨?_, ?_⟩
  · rw [exValidated_firstArgmax.1, exValidated_firstArgmax.2]
  · obtain ⟨r, h1, h2, _⟩ := exValidated_getHeurAll
    exact ⟨r, h1, h2⟩

/-- C12, the code at a failing input. In the state `exValidated` (always-compute
off, valid non-empty lookahead of variable 1, probability not pinned, one call
counted) the lookahead values 5, 3 and the plain values 1, 0 have the same
first maximiser, value 0, so that the two arg-max values coincide, and
`getHeurAll` changes the trigger probability of variable 1 from 0 to
`max(0, 1 / 1) = 1` all the same: line 837 records the plain value `out[i]` as
the running lookahead maximum, and the test of line 850 finds a difference. -/
theorem getHeurAll_probability_failing :
    firstArgmax (exValidated.lookaheadValues 1 (fun _ => 0)) =
      firstArgmax (MiniBucketElim.getHeurAll exValidated 1 (fun _ => 0)) ∧
    ({} : Flags).lookahead_fix_probability = false ∧
    exValidated.lookahead_probability_ 1 = 0 ∧
    ∃ r, exValidated.getHeurAll {} 1 (fun _ => 0) = some r ∧
      r.state.lookahead_probability_ 1 = 1 ∧
      r.state.lookahead_probability_ 1 ≠ exValidated.lookahead_probability_ 1 := by
  have h0 : exValidated.lookahead_probability_ 1 = 0 := by
    simp [exValidated, exFresh]
  refine ⟨?_, rfl, h0, ?_⟩
  · rw [exValidated_firstArgmax.1, exValidated_firstArgmax.2]
  · obtain ⟨r, h1, _, h3⟩ := exValidated_getHeurAll
    refine ⟨r, h1, h3, ?_⟩
    rw [h3, h0]
    norm_num

/-- The update of the trigger probability as the code makes it: `getHeurAll`
returns, and when its own test finds the two recorded arg-max values different
(`getHeurAll_detects`) it increments `count_better_ordering_[var]` and, unless
the probability is pinned fixed, sets `lookahead_probability_[var]` to
`max(minimum-probability floor, count_better_ordering_[var] / _nLHcalls[var])`
with the incremented count; when the probability is pinned fixed or the test
finds no difference the probabilities are unchanged; the probabilities and the
counts of all other variables are never changed. -/
theorem getHeurAll_probability (self : MiniBucketElimLH) (flags : Flags)
    (var : Nat) (assignment : Assignment) :
    ∃ r, self.getHeurAll flags var assignment = some r ∧
      r.state.count_better_ordering_ =
        (if self.getHeurAll_detects flags var assignment = true then
          Function.update self.count_better_ordering_ var
            (self.count_better_ordering_ var + 1)
        else self.count_better_ordering_) ∧
      r.state.lookahead_probability_ =
        (if self.getHeurAll_detects flags var assignment = true ∧
            flags.lookahead_fix_probability = false then
          Function.update self.lookahead_probability_ var
            (max flags.lookahead_min_probability
              ((r.state.count_better_ordering_ var : ℚ) /
                (self._nLHcalls var : ℚ)))
        else self.lookahead_probability_) := by
  have hlen : (MiniBucketElim.getHeurAll self var assignment).length =
      self.m_problem.getDomainSize var := by
    simp [MiniBucketElim.getHeurAll]
  unfold MiniBucketElimLH.getHeurAll_detects MiniBucketElimLH.getHeurAll_compare
    MiniBucketElimLH.getHeurAll
  by_cases hc : (self._Lookahead var)._SubtreeNodes.length > 0 ∧
      self.lookahead_subtree_ok_ = true
  · cases hflag : flags.lookahead_always_compute
    · obtain ⟨st', h1, _, _⟩ := getHeurAll_compareLoop (self._Lookahead var) var
        assignment (List.range (self.m_problem.getDomainSize var))
        { no_lh_argmax := -1, no_lh_max := ELEM_ZERO, lh_argmax := -1,
          lh_max := ELEM_ZERO,
          out := MiniBucketElim.getHeurAll self var assignment,
          assignment := assignment }
        (by
          intro i hi
          simp only [hlen]
          exact List.mem_range.mp hi)
        (fun _ => rfl)
      simp only [hc, and_self, if_true, Bool.not_false, h1, hc.1, hc.2,
        decide_True, Bool.and_self, Bool.true_and]
      refine ⟨_, rfl, ?_, ?_⟩
      · by_cases hd : st'.no_lh_argmax = st'.lh_argmax
        · simp [hd]
        · cases hfix : flags.lookahead_fix_probability <;> simp [hd]
      · by_cases hd : st'.no_lh_argmax = st'.lh_argmax
        · simp [hd]
        · cases hfix : flags.lookahead_fix_probability <;> simp [hd]
    · obtain ⟨st', h1, _, _⟩ := getHeurAll_overwriteLoop (self._Lookahead var)
        var assignment (List.range (self.m_problem.getDomainSize var))
        (MiniBucketElim.getHeurAll self var assignment, assignment)
        (by
          intro i hi
          simp only [hlen]
          exact List.mem_range.mp hi)
        (fun _ => rfl)
      simp only [hc, and_self, if_true, Bool.not_true, Bool.false_eq_true,
        if_false, h1]
      refine ⟨_, rfl, ?_, ?_⟩ <;> simp
  · simp only [hc, if_false]
    refine ⟨_, rfl, ?_, ?_⟩
    · have : (decide ((self._Lookahead var)._SubtreeNodes.length > 0) &&
          self.lookahead_subtree_ok_) = false := by
        simpa [Bool.and_eq_false_iff] using hc
      simp [this]
    · have : (decide ((self._Lookahead var)._SubtreeNodes.length > 0) &&
          self.lookahead_subtree_ok_) = false := by
        simpa [Bool.and_eq_false_iff] using hc
      simp [this]

/-- A lookahead computation for variable 1 takes `exFresh` to `exValidated`:
no call was made yet, so the minimum trial count 1 forces the computation. -/
theorem exFresh_noteOrNodeExpansionBeginning :
    exFresh.noteOrNodeExpansionBeginning {} {} 0 1 1 (fun _ => 0) =
      some (exValidated, fun _ => 0) := by
  have h1 : Function.update exFresh._Lookahead 1 (exFresh._Lookahead 1) =
      exFresh._Lookahead := Function.update_eq_self _ _
  have h2 : Function.update exFresh._nLHcalls 1 (exFresh._nLHcalls 1 + 1) =
      fun v => if v = 1 then 1 else 0 := by
    funext v
    by_cases hv : v = 1 <;> simp [Function.update, hv, exFresh]
  have h3 : (exFresh._Lookahead 1)._IsCopyOfEarlierSubtree = none := rfl
  have h4 : (exFresh._Lookahead 1)._SubtreeNodes.length > 0 := by
    simp [exFresh, exSubtree]
  have h5 : exFresh.lookaheadDecision {} 1 1 = true := by
    simp [MiniBucketElimLH.lookaheadDecision, exFresh]
  unfold MiniBucketElimLH.noteOrNodeExpansionBeginning
  simp only [h3, h4, h5, if_true, h1, h2]
  rfl

/-- C13, the code at a failing input. From `exFresh` (always-compute off,
minimum trial count 1, floor 0, starting probability 0) the call of
`noteOrNodeExpansionBeginning` for variable 1 followed by `getHeurAll` leaves
the trigger probability 1, above the floor, although the lookahead values 5, 3
and the plain values 1, 0 have the same arg-max: the defect of line 837. -/
theorem lookahead_probability_rises_failing :
    ∃ s1 a1 r,
      exFresh.noteOrNodeExpansionBeginning {} {} 0 1 1 (fun _ => 0) =
        some (s1, a1) ∧
      firstArgmax (s1.lookaheadValues 1 a1) =
        firstArgmax (MiniBucketElim.getHeurAll s1 1 a1) ∧
      exFresh.lookahead_probability_ 1 ≤
        ({} : Flags).lookahead_min_probability ∧
      s1.getHeurAll {} 1 a1 = some r ∧
      ({} : Flags).lookahead_min_probability <
        r.state.lookahead_probability_ 1 := by
  obtain ⟨r, h1, _, h3⟩ := exValidated_getHeurAll
  refine ⟨exValidated, fun _ => 0, r, exFresh_noteOrNodeExpansionBeginning, ?_,
    ?_, h1, ?_⟩
  · rw [exValidated_firstArgmax.1, exValidated_firstArgmax.2]
  · simp [exFresh]
  · rw [h3]
    norm_num

/-- C14. Decision rule: for a non-copy, non-empty lookahead subtree,
`noteOrNodeExpansionBeginning` computes the lookahead (`_nLHcalls[var]`
incremented, `ComputeHeuristic` run, the subtree marked valid) when
always-compute is on, or fewer than `max_lookahead_trials_` calls were made for
the variable, or perform-if-better-once is on and the better-ordering count is
positive, or the uniform draw is at most the trigger probability; otherwise it
invalidates the subtree, increments `_nLHcallsSkipped[var]` and leaves the
subtree marked not valid. -/
theorem noteOrNodeExpansionBeginning_decision (self : MiniBucketElimLH)
    (flags : Flags) (ops : LookaheadOps) (fuel : Nat) (next_unif : ℚ)
    (var : Nat) (assignment : Assignment)
    (hcopy : (self._Lookahead var)._IsCopyOfEarlierSubtree = none)
    (hnodes : 0 < (self._Lookahead var)._SubtreeNodes.length) :
    self.noteOrNodeExpansionBeginning flags ops fuel next_unif var assignment =
      if flags.lookahead_always_compute = true ∨
          self._nLHcalls var < self.max_lookahead_trials_ ∨
          (flags.lookahead_always_perform_if_better_once = true ∧
            0 < self.count_better_ordering_ var) ∨
          next_unif ≤ self.lookahead_probability_ var then
        some ({ self with
                lookahead_subtree_ok_ := true,
                _nLHcalls :=
                  Function.update self._nLHcalls var (self._nLHcalls var + 1),
                _Lookahead :=
                  Function.update self._Lookahead var
                    (ops.ComputeHeuristic (self._Lookahead var) assignment).1 },
              (ops.ComputeHeuristic (self._Lookahead var) assignment).2)
      else
        some ({ self with
                lookahead_subtree_ok_ := false,
                _Lookahead :=
                  Function.update self._Lookahead var
                    (ops.Invalidate (self._Lookahead var)),
                _nLHcallsSkipped :=
                  Function.update self._nLHcallsSkipped var
                    (self._nLHcallsSkipped var + 1) },
              assignment) := by
  unfold MiniBucketElimLH.noteOrNodeExpansionBeginning
  simp only [hcopy, gt_iff_lt, hnodes, if_true]
  by_cases hd : self.lookaheadDecision flags next_unif var = true
  · have hd2 := hd
    simp only [MiniBucketElimLH.lookaheadDecision, Bool.or_eq_true,
      Bool.and_eq_true, decide_eq_true_eq, gt_iff_lt, or_assoc] at hd2
    rw [if_pos hd, if_pos hd2]
  · have hd2 := hd
    simp only [MiniBucketElimLH.lookaheadDecision, Bool.or_eq_true,
      Bool.and_eq_true, decide_eq_true_eq, gt_iff_lt, or_assoc] at hd2
    rw [if_neg hd, if_neg hd2]

/-- C14 at the state `exFresh`, variable 1. -/
theorem noteOrNodeExpansionBeginning_decision_witness :
    (exFresh._Lookahead 1)._IsCopyOfEarlierSubtree = none ∧
    0 < (exFresh._Lookahead 1)._SubtreeNodes.length ∧
    exFresh.noteOrNodeExpansionBeginning {} {} 0 1 1 (fun _ => 0) =
      if ({} : Flags).lookahead_always_compute = true ∨
          exFresh._nLHcalls 1 < exFresh.max_lookahead_trials_ ∨
          (({} : Flags).lookahead_always_perform_if_better_once = true ∧
            0 < exFresh.count_better_ordering_ 1) ∨
          (1 : ℚ) ≤ exFresh.lookahead_probability_ 1 then
        some ({ exFresh with
                lookahead_subtree_ok_ := true,
                _nLHcalls :=
                  Function.update exFresh._nLHcalls 1 (exFresh._nLHcalls 1 + 1),
                _Lookahead :=
                  Function.update exFresh._Lookahead 1
                    (({} : LookaheadOps).ComputeHeuristic (exFresh._Lookahead 1)
                      (fun _ => 0)).1 },
              (({} : LookaheadOps).ComputeHeuristic (exFresh._Lookahead 1)
                (fun _ => 0)).2)
      else
        some ({ exFresh with
                lookahead_subtree_ok_ := false,
                _Lookahead :=
                  Function.update exFresh._Lookahead 1
                    (({} : LookaheadOps).Invalidate (exFresh._Lookahead 1)),
                _nLHcallsSkipped :=
                  Function.update exFresh._nLHcallsSkipped 1
                    (exFresh._nLHcallsSkipped 1 + 1) },
              fun _ => 0) :=
  ⟨rfl, by simp [exFresh, exSubtree],
    noteOrNodeExpansionBeginning_decision exFresh {} {} 0 1 1 (fun _ => 0) rfl
      (by simp [exFresh, exSubtree])⟩

/-- The walk of lines 664-669 ends when the parents of `v` lead to the root of
the earlier subtree and the fuel covers the path. -/
theorem noteOrNodeExpansionBeginning_backup_returns (pt : Pseudotree)
    (assignment : Assignment) (target : Nat) (path : List Nat) :
    ∀ (fuel v : Nat) (backup : List val_t), pt.isPathUpTo target v path →
      path.length ≤ fuel →
      ∃ out, noteOrNodeExpansionBeginning_backup pt assignment target fuel v
        backup = some out := by
  induction path with
  | nil =>
    intro fuel v backup h
    exact absurd h (by simp [Pseudotree.isPathUpTo])
  | cons a rest ih =>
    intro fuel v backup h hf
    cases fuel with
    | zero => simp at hf
    | succ fuel =>
      cases rest with
      | nil =>
        obtain ⟨hp, ha⟩ := h
        unfold noteOrNodeExpansionBeginning_backup
        simp [hp, ha]
      | cons b rest =>
        obtain ⟨hp, ha, hrest⟩ := h
        unfold noteOrNodeExpansionBeginning_backup
        simp only [hp, ne_eq, ha, not_false_eq_true, if_true]
        exact ih fuel a _ hrest (by simpa using hf)

/-- C15. Copy reuse: when the lookahead subtree of `var` is a copy of an
earlier subtree (and the parents of `var` lead to the root of that subtree),
`noteOrNodeExpansionBeginning` returns, marks the subtree valid exactly when
every node of the copy carries a valid-for-current-context flag, performs no
recomputation (whatever `ComputeHeuristic` and `Invalidate` are, the lookahead
subtrees are left as they were) and leaves the assignment unmodified. -/
theorem noteOrNodeExpansionBeginning_copy (self : MiniBucketElimLH)
    (flags : Flags) (ops : LookaheadOps) (fuel : Nat) (next_unif : ℚ)
    (var : Nat) (assignment : Assignment) (earlier : MBLHSubtreeRef)
    (path : List Nat)
    (hcopy : (self._Lookahead var)._IsCopyOfEarlierSubtree = some earlier)
    (hpath : self.m_pseudotree.isPathUpTo earlier._RootVar var path)
    (hfuel : path.length ≤ fuel) :
    ∃ s, self.noteOrNodeExpansionBeginning flags ops fuel next_unif var
        assignment = some (s, assignment) ∧
      (s.lookahead_subtree_ok_ = true ↔
        ∀ c ∈ earlier._Children, c._IsValidForCurrentContext = true) ∧
      s._Lookahead = self._Lookahead := by
  obtain ⟨out, hout⟩ := noteOrNodeExpansionBeginning_backup_returns
    self.m_pseudotree assignment earlier._RootVar path fuel var [] hpath hfuel
  unfold MiniBucketElimLH.noteOrNodeExpansionBeginning
  simp only [hcopy, hout]
  by_cases hall : earlier._Children.all (fun c => c._IsValidForCurrentContext)
      = true
  · rw [if_pos hall]
    refine ⟨_, rfl, ?_, rfl⟩
    simpa [List.all_eq_true] using hall
  · rw [if_neg hall]
    refine ⟨_, rfl, ?_, rfl⟩
    simpa [List.all_eq_true] using hall

/-- C15 at the state `exCopy`, variable 0, whose subtree is a copy of the one
rooted at variable 2. -/
theorem noteOrNodeExpansionBeginning_copy_witness :
    ∃ s, exCopy.noteOrNodeExpansionBeginning {} {} 2 1 0 (fun _ => 0) =
        some (s, fun _ => 0) ∧
      (s.lookahead_subtree_ok_ = true ↔
        ∀ c ∈ [({ _Var := 1, _IsValidForCurrentContext := true } :
                  MBLHSubtreeNode),
               { _Var := 0, _IsValidForCurrentContext := true }],
          c._IsValidForCurrentContext = true) ∧
      s._Lookahead = exCopy._Lookahead :=
  noteOrNodeExpansionBeginning_copy exCopy {} {} 2 1 0 (fun _ => 0)
    { _RootVar := 2,
      _Children := [{ _Var := 1, _IsValidForCurrentContext := true },
                    { _Var := 0, _IsValidForCurrentContext := true }] }
    [1, 2] rfl (by simp [Pseudotree.isPathUpTo, exCopy, exTree]) (by simp)

/-! ### The pointer maps of a bucket -/

/-- Lines 111-113 keep the invariant of one function whose scope holds
`elim_var`, when the variables to come are larger than `elim_var`. -/
theorem computeMBOutFnArgsVectorPtrMap_skip_invariant (elim_var : Int) (n : Nat)
    (scope pre post s : List Nat) (en : PtrMapEntry)
    (hs : s.Sorted (fun a b => a < b))
    (hpre : ∀ u ∈ pre, (u : Int) ≠ elim_var)
    (hpost : ∀ u ∈ post, elim_var < (u : Int))
    (he : ∃ v ∈ s, (v : Int) = elim_var)
    (hinv : en.invariant elim_var n scope pre post false s) :
    en.iterator ≠ [] ∧
      (computeMBOutFnArgsVectorPtrMap_skip n en).invariant elim_var n scope pre post true
        s := by
  obtain ⟨done, hsplit, hmap, hdone, hit⟩ := hinv
  obtain ⟨v, hv, hve⟩ := he
  have hvdone : v ∉ done := by
    intro hm
    rcases hdone v hm with h1 | h1
    · exact hpre v h1 hve
    · exact absurd h1.2 (by simp)
  have hvit : v ∈ en.iterator := by
    rw [hsplit, List.mem_append] at hv
    rcases hv with h1 | h1
    · exact absurd h1 hvdone
    · exact h1
  cases hiter : en.iterator with
  | nil =>
    rw [hiter] at hvit
    exact absurd hvit (List.not_mem_nil v)
  | cons y rest =>
    refine ⟨by simp, ?_⟩
    rw [hiter] at hsplit hit hvit
    have hsorted : (y :: rest).Sorted (fun a b => a < b) := by
      rw [hsplit] at hs
      exact (List.pairwise_append.mp hs).2.1
    have hrest : ∀ u ∈ rest, y < u := (List.pairwise_cons.mp hsorted).1
    have hyv : y = v := by
      rcases List.mem_cons.mp hvit with h1 | h1
      · exact h1.symm
      · have hlt := hrest v h1
        rcases hit y (List.mem_cons_self _ _) with h2 | h2
        · have := hpost y h2
          have hlt2 : (y : Int) < (v : Int) := by exact_mod_cast hlt
          omega
        · have : (y : Int) = (v : Int) := by rw [h2.1, hve]
          have : y = v := by exact_mod_cast this
          omega
    refine ⟨done ++ [y], ?_, ?_, ?_, ?_⟩
    · show s = (done ++ [y]) ++ en.iterator.tail
      rw [hiter, hsplit]
      simp
    · show en.idxMap ++ [n] = _
      rw [hmap, List.map_append, List.map_cons, List.map_nil]
      congr 2
      unfold pointerOf
      rw [hyv, if_pos hve]
    · intro u hu
      rcases List.mem_append.mp hu with h1 | h1
      · rcases hdone u h1 with h2 | h2
        · exact Or.inl h2
        · exact absurd h2.2 (by simp)
      · rw [List.mem_singleton] at h1
        rw [h1, hyv]
        exact Or.inr ⟨hve, rfl⟩
    · intro u hu
      have hu1 : u ∈ rest := by
        have : (computeMBOutFnArgsVectorPtrMap_skip n en).iterator = rest := by
          show en.iterator.tail = rest
          rw [hiter]
          rfl
        rw [this] at hu
        exact hu
      rcases hit u (List.mem_cons_of_mem _ hu1) with h2 | h2
      · exact Or.inl h2
      · have hlt := hrest u hu1
        have : (u : Int) = (y : Int) := by rw [h2.1, hyv, hve]
        have : u = y := by exact_mod_cast this
        omega

/-- Lines 119-123 keep the invariant of one function: the variable `x` at the
position after `pre` is done. -/
theorem computeMBOutFnArgsVectorPtrMap_match_invariant (elim_var : Int) (n : Nat)
    (scope pre post s : List Nat) (x : Nat) (passed : Bool) (en : PtrMapEntry)
    (hs : s.Sorted (fun a b => a < b))
    (hscope : scope = pre ++ x :: post)
    (hsorted : scope.Sorted (fun a b => a < b))
    (hx : (x : Int) ≠ elim_var)
    (hlt : passed = false → (x : Int) < elim_var)
    (hinv : en.invariant elim_var n scope pre (x :: post) passed s) :
    (computeMBOutFnArgsVectorPtrMap_match pre.length x en).invariant elim_var n scope
      (pre ++ [x]) post passed s := by
  obtain ⟨done, hsplit, hmap, hdone, hit⟩ := hinv
  have hsc := hsorted
  rw [hscope] at hsc
  have hxpost : ∀ u ∈ post, x < u :=
    (List.pairwise_cons.mp (List.pairwise_append.mp hsc).2.1).1
  have hxpre : x ∉ pre := by
    intro hm
    have := (List.pairwise_append.mp hsc).2.2 x hm x (List.mem_cons_self _ _)
    omega
  have hidx : scope.indexOf x = pre.length := by
    rw [hscope, List.indexOf_append_of_not_mem hxpre, List.indexOf_cons_self, Nat.add_zero]
  have hdone1 : ∀ u ∈ done, u ∈ pre ++ [x] ∨ ((u : Int) = elim_var ∧ passed = true) := by
    intro u hu
    rcases hdone u hu with h1 | h1
    · exact Or.inl (List.mem_append_left _ h1)
    · exact Or.inr h1
  unfold computeMBOutFnArgsVectorPtrMap_match
  cases hiter : en.iterator with
  | nil =>
    simp only
    refine ⟨done, hsplit, hmap, hdone1, ?_⟩
    intro u hu
    rw [hiter] at hu
    exact absurd hu (List.not_mem_nil u)
  | cons y rest =>
    rw [hiter] at hsplit hit
    have hsorted2 : (y :: rest).Sorted (fun a b => a < b) := by
      rw [hsplit] at hs
      exact (List.pairwise_append.mp hs).2.1
    have hrest : ∀ u ∈ rest, y < u := (List.pairwise_cons.mp hsorted2).1
    simp only
    by_cases hxy : x = y
    · rw [if_pos hxy]
      subst hxy
      refine ⟨done ++ [x], by rw [hsplit]; simp, ?_, ?_, ?_⟩
      · show en.idxMap ++ [pre.length] = _
        rw [hmap, List.map_append, List.map_cons, List.map_nil]
        congr 2
        unfold pointerOf
        rw [if_neg hx, hidx]
      · intro u hu
        rcases List.mem_append.mp hu with h1 | h1
        · exact hdone1 u h1
        · rw [List.mem_singleton] at h1
          rw [h1]
          exact Or.inl (List.mem_append_right _ (List.mem_singleton_self _))
      · intro u hu
        have hu1 : u ∈ rest := hu
        have hlt1 := hrest u hu1
        rcases hit u (List.mem_cons_of_mem _ hu1) with h2 | h2
        · rcases List.mem_cons.mp h2 with h3 | h3
          · omega
          · exact Or.inl h3
        · exact Or.inr h2
    · rw [if_neg hxy]
      refine ⟨done, by rw [hsplit, hiter], hmap, hdone1, ?_⟩
      intro u hu
      rw [hiter] at hu
      rcases hit u hu with h2 | h2
      · rcases List.mem_cons.mp h2 with h3 | h3
        · -- `x` would be in the iterator behind a smaller variable
          subst h3
          rcases List.mem_cons.mp hu with h4 | h4
          · exact absurd h4 hxy
          · have hyu := hrest u h4
            rcases hit y (List.mem_cons_self _ _) with h5 | h5
            · rcases List.mem_cons.mp h5 with h6 | h6
              · omega
              · have := hxpost y h6
                omega
            · have h7 := hlt h5.2
              rw [← h5.1] at h7
              have : u < y := by exact_mod_cast h7
              omega
        · exact Or.inl h3
      · exact Or.inr h2

/-- The variables of the union of the scopes of a list of functions. -/
theorem mem_foldl_union_scope (Functions : List Function) :
    ∀ (init : Finset Nat) (u : Nat),
      u ∈ Functions.foldl (fun s f => s ∪ f.scope) init ↔
        u ∈ init ∨ ∃ f ∈ Functions, u ∈ f.scope := by
  induction Functions with
  | nil => intro init u; simp
  | cons f fs ih =>
    intro init u
    rw [List.foldl_cons, ih, Finset.mem_union]
    constructor
    · rintro ((h | h) | ⟨g, hg, h⟩)
      · exact Or.inl h
      · exact Or.inr ⟨f, List.mem_cons_self _ _, h⟩
      · exact Or.inr ⟨g, List.mem_cons_of_mem _ hg, h⟩
    · rintro (h | ⟨g, hg, h⟩)
      · exact Or.inl (Or.inl h)
      · rcases List.mem_cons.mp hg with rfl | hg
        · exact Or.inl (Or.inr h)
        · exact Or.inr ⟨g, hg, h⟩

/-- The loop of lines 108-126 over the whole scope returns and keeps the
invariant of every function, when the bucket variable is in the scope of every
function in case a variable of the scope is larger. -/
theorem computeMBOutFnArgsVectorPtrMap_loop (elim_var : Int) (n : Nat)
    (Functions : List Function) (scope : List Nat)
    (hsorted : scope.Sorted (fun a b => a < b))
    (hne : ∀ u ∈ scope, (u : Int) ≠ elim_var)
    (hA : (∃ u ∈ scope, elim_var < (u : Int)) →
      ∀ f ∈ Functions, ∃ v ∈ f.scope, (v : Int) = elim_var) :
    ∀ (post pre : List Nat) (g : Function → PtrMapEntry) (passed : Bool),
      scope = pre ++ post →
      (∀ f ∈ Functions, (g f).invariant elim_var n scope pre post passed
        (f.scope.sort (fun a b => a ≤ b))) →
      ∃ (g1 : Function → PtrMapEntry) (passed1 : Bool),
        (post.enumFrom pre.length).foldlM (computeMBOutFnArgsVectorPtrMap_step elim_var n)
          (Functions.map g, passed) = some (Functions.map g1, passed1) ∧
        ∀ f ∈ Functions, (g1 f).invariant elim_var n scope scope [] passed1
          (f.scope.sort (fun a b => a ≤ b)) := by
  intro post
  induction post with
  | nil =>
    intro pre g passed hscope hinv
    refine ⟨g, passed, rfl, ?_⟩
    have hp : pre = scope := by rw [hscope, List.append_nil]
    rw [hp] at hinv
    exact hinv
  | cons x post ih =>
    intro pre g passed hscope hinv
    have hxs : x ∈ scope := by
      rw [hscope]
      exact List.mem_append_right _ (List.mem_cons_self _ _)
    have hx : (x : Int) ≠ elim_var := hne x hxs
    have hsc := hsorted
    rw [hscope] at hsc
    have hxpost : ∀ u ∈ post, x < u :=
      (List.pairwise_cons.mp (List.pairwise_append.mp hsc).2.1).1
    have hscope1 : scope = (pre ++ [x]) ++ post := by
      rw [hscope, List.append_assoc, List.singleton_append]
    have hlen : (pre ++ [x]).length = pre.length + 1 := by simp
    rw [List.enumFrom_cons, List.foldlM_cons]
    by_cases hc : passed = false ∧ (x : Int) > elim_var
    · have hskip : ∀ f ∈ Functions, (g f).iterator ≠ [] ∧
          (computeMBOutFnArgsVectorPtrMap_skip n (g f)).invariant elim_var n scope pre
            (x :: post) true (f.scope.sort (fun a b => a ≤ b)) := by
        intro f hf
        have hinvf := hinv f hf
        rw [hc.1] at hinvf
        obtain ⟨v, hv, hve⟩ := hA ⟨x, hxs, hc.2⟩ f hf
        refine computeMBOutFnArgsVectorPtrMap_skip_invariant elim_var n scope pre (x :: post)
          _ (g f) (Finset.sort_sorted_lt _) ?_ ?_ ⟨v, (Finset.mem_sort _).mpr hv, hve⟩ hinvf
        · intro u hu
          exact hne u (by rw [hscope]; exact List.mem_append_left _ hu)
        · intro u hu
          rcases List.mem_cons.mp hu with h1 | h1
          · rw [h1]
            exact hc.2
          · have := hxpost u h1
            have h2 : (x : Int) < (u : Int) := by exact_mod_cast this
            have h3 := hc.2
            omega
      have hall : (Functions.map g).all (fun en => !en.iterator.isEmpty) = true := by
        rw [List.all_eq_true]
        intro en hen
        obtain ⟨f, hf, rfl⟩ := List.mem_map.mp hen
        have := (hskip f hf).1
        cases hi : (g f).iterator with
        | nil => exact absurd hi this
        | cons y rest => rfl
      have hstep : computeMBOutFnArgsVectorPtrMap_step elim_var n (Functions.map g, passed)
          (pre.length, x) =
          some (Functions.map (fun f => computeMBOutFnArgsVectorPtrMap_match pre.length x
            (computeMBOutFnArgsVectorPtrMap_skip n (g f))), true) := by
        unfold computeMBOutFnArgsVectorPtrMap_step
        simp only [hc, and_self, if_true, hall, Option.map_some', List.map_map]
        rfl
      obtain ⟨g1, passed1, h1, h2⟩ := ih (pre ++ [x])
        (fun f => computeMBOutFnArgsVectorPtrMap_match pre.length x
          (computeMBOutFnArgsVectorPtrMap_skip n (g f))) true hscope1
        (by
          intro f hf
          exact computeMBOutFnArgsVectorPtrMap_match_invariant elim_var n scope pre post _ x
            true _ (Finset.sort_sorted_lt _) hscope hsorted hx (fun h => absurd h (by simp))
            (hskip f hf).2)
      refine ⟨g1, passed1, ?_, h2⟩
      rw [hstep]
      rw [hlen] at h1
      exact h1
    · have hstep : computeMBOutFnArgsVectorPtrMap_step elim_var n (Functions.map g, passed)
          (pre.length, x) =
          some (Functions.map (fun f => computeMBOutFnArgsVectorPtrMap_match pre.length x
            (g f)), passed) := by
        unfold computeMBOutFnArgsVectorPtrMap_step
        simp only [hc, if_false, Option.map_some', List.map_map]
        rfl
      have hlt : passed = false → (x : Int) < elim_var := by
        intro hp
        have h1 : ¬ (x : Int) > elim_var := fun h => hc ⟨hp, h⟩
        omega
      obtain ⟨g1, passed1, h1, h2⟩ := ih (pre ++ [x])
        (fun f => computeMBOutFnArgsVectorPtrMap_match pre.length x (g f)) passed hscope1
        (by
          intro f hf
          exact computeMBOutFnArgsVectorPtrMap_match_invariant elim_var n scope pre post _ x
            passed _ (Finset.sort_sorted_lt _) hscope hsorted hx hlt (hinv f hf))
      refine ⟨g1, passed1, ?_, h2⟩
      rw [hstep]
      rw [hlen] at h1
      exact h1

/-- C32: `computeMBOutFnArgsVectorPtrMap(elim_var, Functions, scope, n, tuple,
idxMap)`.  The variables are below `INT_MAX`, as identifiers of type `int`
below the number of variables are.  When every function has `elim_var` in its
scope, or `elim_var` is `INT_MAX` (which no scope holds), and `n` is the size
of the union of the scopes without `elim_var` (it is set to it when `tuple` is
NULL): the call returns; `scope` is the sorted list, without repetition, of the
variables of the scopes other than `elim_var`, the scope of the model of
`computeLocalErrorTable`; and `idxMap[j]` holds one pointer for every variable
of the scope of function `j`, in increasing order of the variables, the one of
`elim_var` pointing to `tuple[n]` and the one of `scope[i]` to `tuple[i]`. -/
theorem computeMBOutFnArgsVectorPtrMap_spec (elim_var : Int) (Functions : List Function)
    (n : Nat) (tuple : Option Nat)
    (hvars : ∀ f ∈ Functions, ∀ u ∈ f.scope, (u : Int) < INT_MAX)
    (hcase : (∀ f ∈ Functions, ∃ v ∈ f.scope, (v : Int) = elim_var) ∨ elim_var = INT_MAX)
    (hn : tuple = none ∨
      n = ((Functions.foldl (fun s f => s ∪ f.scope) (∅ : Finset Nat)).filter
        (fun (u : Nat) => (u : Int) ≠ elim_var)).card) :
    ∃ r, computeMBOutFnArgsVectorPtrMap elim_var Functions n tuple = some r ∧
      r.scope.Sorted (fun a b => a < b) ∧
      (∀ u, u ∈ r.scope ↔ (∃ f ∈ Functions, u ∈ f.scope) ∧ (u : Int) ≠ elim_var) ∧
      r.n = r.scope.length ∧
      (tuple = none → r.tuple = some (r.n + 1)) ∧
      (∀ v : Nat, elim_var = (v : Int) →
        r.scope = computeMBOutFnArgsVectorPtrMap_scope (some v) Functions) ∧
      (elim_var = INT_MAX → r.scope = computeMBOutFnArgsVectorPtrMap_scope none Functions) ∧
      r.idxMap = Functions.map
        (fun f => (f.scope.sort (fun a b => a ≤ b)).map (pointerOf elim_var r.n r.scope)) := by
  have hscope_mem : ∀ u, u ∈ ((Functions.foldl (fun s f => s ∪ f.scope)
      (∅ : Finset Nat)).filter (fun (u : Nat) => (u : Int) ≠ elim_var)).sort
        (fun a b => a ≤ b) ↔
      (∃ f ∈ Functions, u ∈ f.scope) ∧ (u : Int) ≠ elim_var := by
    intro u
    rw [Finset.mem_sort, Finset.mem_filter, mem_foldl_union_scope]
    simp
  generalize hS : ((Functions.foldl (fun s f => s ∪ f.scope)
      (∅ : Finset Nat)).filter (fun (u : Nat) => (u : Int) ≠ elim_var)).sort
        (fun a b => a ≤ b) = scope at hscope_mem
  have hsorted : scope.Sorted (fun a b => a < b) := by
    rw [← hS]
    exact Finset.sort_sorted_lt _
  have hn1 : (if tuple = none then scope.length else n) = scope.length := by
    rcases hn with h | h
    · rw [if_pos h]
    · split_ifs
      · rfl
      · rw [h, ← hS, Finset.length_sort]
  have hne : ∀ u ∈ scope, (u : Int) ≠ elim_var := fun u hu => ((hscope_mem u).mp hu).2
  have hA : (∃ u ∈ scope, elim_var < (u : Int)) →
      ∀ f ∈ Functions, ∃ v ∈ f.scope, (v : Int) = elim_var := by
    rintro ⟨u, hu, hlt⟩
    rcases hcase with h | h
    · exact h
    · obtain ⟨⟨f, hf, huf⟩, _⟩ := (hscope_mem u).mp hu
      have := hvars f hf u huf
      rw [h] at hlt
      omega
  have hinit : ∀ f ∈ Functions,
      ({ idxMap := [], iterator := f.scope.sort (fun a b => a ≤ b) } :
        PtrMapEntry).invariant elim_var scope.length scope [] scope false
        (f.scope.sort (fun a b => a ≤ b)) := by
    intro f hf
    refine ⟨[], rfl, rfl, fun u hu => absurd hu (List.not_mem_nil u), ?_⟩
    intro u hu
    have huf : u ∈ f.scope := (Finset.mem_sort _).mp hu
    by_cases hue : (u : Int) = elim_var
    · exact Or.inr ⟨hue, rfl⟩
    · exact Or.inl ((hscope_mem u).mpr ⟨⟨f, hf, huf⟩, hue⟩)
  obtain ⟨g1, passed1, hloop, hfin⟩ := computeMBOutFnArgsVectorPtrMap_loop elim_var
    scope.length Functions scope hsorted hne hA scope []
    (fun f => { idxMap := [], iterator := f.scope.sort (fun a b => a ≤ b) }) false rfl hinit
  have hcall : computeMBOutFnArgsVectorPtrMap elim_var Functions n tuple =
      some
        { scope := scope,
          n := scope.length,
          tuple := if tuple = none then some (scope.length + 1) else tuple,
          idxMap :=
            if passed1 = false ∧ elim_var < INT_MAX then
              (Functions.map g1).map (fun en => en.idxMap ++ [scope.length])
            else (Functions.map g1).map (fun en => en.idxMap) } := by
    unfold computeMBOutFnArgsVectorPtrMap
    simp only [hS, hn1, gt_iff_lt, lt_irrefl, if_false, List.take_length]
    have henum : scope.enum = scope.enumFrom ([] : List Nat).length := rfl
    rw [henum, hloop]
  have hentry : ∀ f ∈ Functions,
      (passed1 = false ∧ elim_var < INT_MAX →
        (g1 f).idxMap ++ [scope.length] =
          (f.scope.sort (fun a b => a ≤ b)).map (pointerOf elim_var scope.length scope)) ∧
      (¬ (passed1 = false ∧ elim_var < INT_MAX) →
        (g1 f).idxMap =
          (f.scope.sort (fun a b => a ≤ b)).map (pointerOf elim_var scope.length scope)) := by
    intro f hf
    obtain ⟨done, hsplit, hmap, hdone, hit⟩ := hfin f hf
    have hsf : (f.scope.sort (fun a b => a ≤ b)).Sorted (fun a b => a < b) :=
      Finset.sort_sorted_lt _
    have hite : ∀ u ∈ (g1 f).iterator, (u : Int) = elim_var ∧ passed1 = false := by
      intro u hu
      rcases hit u hu with h | h
      · exact absurd h (List.not_mem_nil u)
      · exact h
    have hitf : ∀ u ∈ (g1 f).iterator, u ∈ f.scope := by
      intro u hu
      apply (Finset.mem_sort (fun a b => a ≤ b)).mp
      rw [hsplit]
      exact List.mem_append_right _ hu
    constructor
    · rintro ⟨hp, hlt⟩
      have hcaseA : ∃ v ∈ f.scope, (v : Int) = elim_var := by
        rcases hcase with h | h
        · exact h f hf
        · rw [h] at hlt
          exact absurd hlt (lt_irrefl _)
      obtain ⟨v, hv, hve⟩ := hcaseA
      have hvdone : v ∉ done := by
        intro hm
        rcases hdone v hm with h1 | h1
        · exact hne v h1 hve
        · rw [hp] at h1
          exact absurd h1.2 (by simp)
      have hvit : v ∈ (g1 f).iterator := by
        have hvs : v ∈ f.scope.sort (fun a b => a ≤ b) := (Finset.mem_sort _).mpr hv
        rw [hsplit, List.mem_append] at hvs
        rcases hvs with h1 | h1
        · exact absurd h1 hvdone
        · exact h1
      have hiter : (g1 f).iterator = [v] := by
        have hsi : ((g1 f).iterator).Sorted (fun a b => a < b) := by
          rw [hsplit] at hsf
          exact (List.pairwise_append.mp hsf).2.1
        have hall : ∀ u ∈ (g1 f).iterator, u = v := by
          intro u hu
          have : (u : Int) = (v : Int) := by rw [(hite u hu).1, hve]
          exact_mod_cast this
        cases hi : (g1 f).iterator with
        | nil =>
          rw [hi] at hvit
          exact absurd hvit (List.not_mem_nil v)
        | cons y rest =>
          rw [hi] at hsi hall
          have hy := hall y (List.mem_cons_self _ _)
          cases rest with
          | nil => rw [hy]
          | cons z rest2 =>
            have hz := hall z (List.mem_cons_of_mem _ (List.mem_cons_self _ _))
            have := (List.pairwise_cons.mp hsi).1 z (List.mem_cons_self _ _)
            omega
      rw [hsplit, hiter, hmap, List.map_append, List.map_cons, List.map_nil]
      congr 2
      unfold pointerOf
      rw [if_pos hve]
    · intro hcond
      have hiter : (g1 f).iterator = [] := by
        cases hi : (g1 f).iterator with
        | nil => rfl
        | cons y rest =>
          exfalso
          have hy : y ∈ (g1 f).iterator := by
            rw [hi]
            exact List.mem_cons_self _ _
          apply hcond
          refine ⟨(hite y hy).2, ?_⟩
          rw [← (hite y hy).1]
          exact hvars f hf y (hitf y hy)
      rw [hsplit, hiter, List.append_nil, hmap]
  refine ⟨_, hcall, hsorted, hscope_mem, rfl, ?_, ?_, ?_, ?_⟩
  · intro ht
    show (if tuple = none then some (scope.length + 1) else tuple) = _
    rw [if_pos ht]
  · intro v hv
    show scope = _
    rw [← hS, hv]
    unfold computeMBOutFnArgsVectorPtrMap_scope
    simp only
    congr 1
    ext u
    simp [Finset.mem_filter, Finset.mem_erase, and_comm]
  · intro he
    show scope = _
    rw [← hS, he]
    unfold computeMBOutFnArgsVectorPtrMap_scope
    simp only
    congr 1
    ext u
    rw [Finset.mem_filter, mem_foldl_union_scope]
    constructor
    · exact fun h => h.1
    · intro h
      refine ⟨h, ?_⟩
      rcases h with h | ⟨f, hf, huf⟩
      · exact absurd h (Finset.not_mem_empty u)
      · exact ne_of_lt (hvars f hf u huf)
  · show (if passed1 = false ∧ elim_var < INT_MAX then
        (Functions.map g1).map (fun en => en.idxMap ++ [scope.length])
      else (Functions.map g1).map (fun en => en.idxMap)) = _
    by_cases hcond : passed1 = false ∧ elim_var < INT_MAX
    · rw [if_pos hcond, List.map_map]
      apply List.map_congr_left
      intro f hf
      exact (hentry f hf).1 hcond
    · rw [if_neg hcond, List.map_map]
      apply List.map_congr_left
      intro f hf
      exact (hentry f hf).2 hcond

/-- C32 at the two functions of bucket 0 of the small model, for the bucket
variable 0 and a tuple that is NULL. -/
theorem computeMBOutFnArgsVectorPtrMap_spec_witness :
    ∃ r, computeMBOutFnArgsVectorPtrMap 0 [exF1, exF2] 0 none = some r ∧
      r.scope.Sorted (fun a b => a < b) ∧
      (∀ u, u ∈ r.scope ↔ (∃ f ∈ [exF1, exF2], u ∈ f.scope) ∧ (u : Int) ≠ 0) ∧
      r.n = r.scope.length ∧
      ((none : Option Nat) = none → r.tuple = some (r.n + 1)) ∧
      (∀ v : Nat, (0 : Int) = (v : Int) →
        r.scope = computeMBOutFnArgsVectorPtrMap_scope (some v) [exF1, exF2]) ∧
      ((0 : Int) = INT_MAX →
        r.scope = computeMBOutFnArgsVectorPtrMap_scope none [exF1, exF2]) ∧
      r.idxMap = [exF1, exF2].map
        (fun f => (f.scope.sort (fun a b => a ≤ b)).map (pointerOf 0 r.n r.scope)) :=
  computeMBOutFnArgsVectorPtrMap_spec 0 [exF1, exF2] 0 none
    (by
      intro f hf u hu
      have hu2 : u < 3 := by
        simp only [List.mem_cons, List.mem_singleton, List.not_mem_nil, or_false] at hf
        rcases hf with rfl | rfl <;> simp [exF1, exF2] at hu <;> omega
      have h3 : ((u : Nat) : Int) < 3 := by exact_mod_cast hu2
      have h4 : (3 : Int) ≤ INT_MAX := by
        unfold INT_MAX
        norm_num
      omega)
    (Or.inl (by
      intro f hf
      simp only [List.mem_cons, List.mem_singleton, List.not_mem_nil, or_false] at hf
      rcases hf with rfl | rfl <;> exact ⟨0, by simp [exF1, exF2], rfl⟩))
    (Or.inl rfl)

/-! ### The two calls of `computeMBOutFnArgsVectorPtrMap` in the estimation -/

/-- The scope that a call for the bucket variable `v` fills is the one of
`computeMBOutFnArgsVectorPtrMap_scope`. -/
theorem computeMBOutFnArgsVectorPtrMap_scope_var (v : Nat) (Functions : List Function) :
    ((Functions.foldl (fun s f => s ∪ f.scope) (∅ : Finset Nat)).filter
        (fun (u : Nat) => (u : Int) ≠ (v : Int))).sort (fun a b => a ≤ b) =
      computeMBOutFnArgsVectorPtrMap_scope (some v) Functions := by
  unfold computeMBOutFnArgsVectorPtrMap_scope
  simp only
  congr 1
  ext u
  simp [Finset.mem_filter, Finset.mem_erase, and_comm]

/-- The scope that a call for `INT_MAX` fills is the one of
`computeMBOutFnArgsVectorPtrMap_scope`, the variables being below `INT_MAX`. -/
theorem computeMBOutFnArgsVectorPtrMap_scope_max (Functions : List Function)
    (hvars : ∀ f ∈ Functions, ∀ u ∈ f.scope, (u : Int) < INT_MAX) :
    ((Functions.foldl (fun s f => s ∪ f.scope) (∅ : Finset Nat)).filter
        (fun (u : Nat) => (u : Int) ≠ INT_MAX)).sort (fun a b => a ≤ b) =
      computeMBOutFnArgsVectorPtrMap_scope none Functions := by
  unfold computeMBOutFnArgsVectorPtrMap_scope
  simp only
  congr 1
  ext u
  rw [Finset.mem_filter, mem_foldl_union_scope]
  constructor
  · exact fun h => h.1
  · intro h
    refine ⟨h, ?_⟩
    rcases h with h | ⟨f, hf, huf⟩
    · exact absurd h (Finset.not_mem_empty u)
    · exact ne_of_lt (hvars f hf u huf)

/-- The first call of the estimation (line 1150), with `tuple` NULL, returns
when every bucket function holds the bucket variable: `scope` is the sorted
scope of the bucket functions without the bucket variable, `n` is its size and
`tuple` has `n + 1` elements. -/
theorem computeMBOutFnArgsVectorPtrMap_first (v : Nat) (Functions : List Function)
    (hvar : ∀ f ∈ Functions, v ∈ f.scope) :
    ∃ r, computeMBOutFnArgsVectorPtrMap (v : Int) Functions 0 none = some r ∧
      r.scope = computeMBOutFnArgsVectorPtrMap_scope (some v) Functions ∧
      r.n = (computeMBOutFnArgsVectorPtrMap_scope (some v) Functions).length ∧
      r.tuple = some ((computeMBOutFnArgsVectorPtrMap_scope (some v) Functions).length + 1) := by
  rw [← computeMBOutFnArgsVectorPtrMap_scope_var]
  have hscope_mem : ∀ u, u ∈ ((Functions.foldl (fun s f => s ∪ f.scope)
      (∅ : Finset Nat)).filter (fun (u : Nat) => (u : Int) ≠ (v : Int))).sort
        (fun a b => a ≤ b) ↔
      (∃ f ∈ Functions, u ∈ f.scope) ∧ (u : Int) ≠ (v : Int) := by
    intro u
    rw [Finset.mem_sort, Finset.mem_filter, mem_foldl_union_scope]
    simp
  generalize hS : ((Functions.foldl (fun s f => s ∪ f.scope)
      (∅ : Finset Nat)).filter (fun (u : Nat) => (u : Int) ≠ (v : Int))).sort
        (fun a b => a ≤ b) = scope at hscope_mem
  have hsorted : scope.Sorted (fun a b => a < b) := by
    rw [← hS]
    exact Finset.sort_sorted_lt _
  have hne : ∀ u ∈ scope, (u : Int) ≠ (v : Int) := fun u hu => ((hscope_mem u).mp hu).2
  have hinit : ∀ f ∈ Functions,
      ({ idxMap := [], iterator := f.scope.sort (fun a b => a ≤ b) } :
        PtrMapEntry).invariant (v : Int) scope.length scope [] scope false
        (f.scope.sort (fun a b => a ≤ b)) := by
    intro f hf
    refine ⟨[], rfl, rfl, fun u hu => absurd hu (List.not_mem_nil u), ?_⟩
    intro u hu
    have huf : u ∈ f.scope := (Finset.mem_sort _).mp hu
    by_cases hue : (u : Int) = (v : Int)
    · exact Or.inr ⟨hue, rfl⟩
    · exact Or.inl ((hscope_mem u).mpr ⟨⟨f, hf, huf⟩, hue⟩)
  obtain ⟨g1, passed1, hloop, _⟩ := computeMBOutFnArgsVectorPtrMap_loop (v : Int)
    scope.length Functions scope hsorted hne (fun _ f hf => ⟨v, hvar f hf, rfl⟩) scope []
    (fun f => { idxMap := [], iterator := f.scope.sort (fun a b => a ≤ b) }) false rfl hinit
  refine ⟨{ scope := scope,
            n := scope.length,
            tuple := some (scope.length + 1),
            idxMap :=
              if passed1 = false ∧ (v : Int) < INT_MAX then
                (Functions.map g1).map (fun en => en.idxMap ++ [scope.length])
              else (Functions.map g1).map (fun en => en.idxMap) }, ?_, rfl, rfl, rfl⟩
  unfold computeMBOutFnArgsVectorPtrMap
  simp only [hS, if_true, gt_iff_lt, lt_irrefl, if_false, List.take_length]
  have henum : scope.enum = scope.enumFrom ([] : List Nat).length := rfl
  rw [henum, hloop]

/-- A step of the loop of lines 108-126 for `INT_MAX` at a variable below
`INT_MAX` returns: no variable is past `INT_MAX`. -/
theorem computeMBOutFnArgsVectorPtrMap_step_max (n : Nat) (st : List PtrMapEntry × Bool)
    (item : Nat × Nat) (h : (item.2 : Int) < INT_MAX) :
    ∃ st1, computeMBOutFnArgsVectorPtrMap_step INT_MAX n st item = some st1 := by
  unfold computeMBOutFnArgsVectorPtrMap_step
  have hc : ¬ (st.2 = false ∧ (item.2 : Int) > INT_MAX) := fun hc => by
    have := hc.2
    omega
  simp only [hc, if_false, Option.map_some']
  exact ⟨_, rfl⟩

/-- The loop of lines 108-126 for `INT_MAX` over variables below `INT_MAX`
returns. -/
theorem computeMBOutFnArgsVectorPtrMap_loop_max (n : Nat) :
    ∀ (items : List (Nat × Nat)) (st : List PtrMapEntry × Bool),
      (∀ item ∈ items, (item.2 : Int) < INT_MAX) →
      ∃ st1, items.foldlM (computeMBOutFnArgsVectorPtrMap_step INT_MAX n) st = some st1 := by
  intro items
  induction items with
  | nil => intro st _; exact ⟨st, rfl⟩
  | cons item items ih =>
    intro st h
    obtain ⟨st1, h1⟩ := computeMBOutFnArgsVectorPtrMap_step_max n st item
      (h item (List.mem_cons_self _ _))
    obtain ⟨st2, h2⟩ := ih st1 (fun i hi => h i (List.mem_cons_of_mem _ hi))
    exact ⟨st2, by rw [List.foldlM_cons, h1]; exact h2⟩

/-- The second call of the estimation (line 1153), for `INT_MAX` and with the
`n` and the `tuple` of the first call: it returns when `n` is at most the size
of the scope of the functions, whose variables are below `INT_MAX`, and leaves
`n` and `tuple` as they are; it walks past the end of the scope when `n` is
larger. -/
theorem computeMBOutFnArgsVectorPtrMap_second (Functions : List Function) (n t : Nat)
    (hvars : ∀ f ∈ Functions, ∀ u ∈ f.scope, (u : Int) < INT_MAX) :
    (n ≤ (computeMBOutFnArgsVectorPtrMap_scope none Functions).length →
      ∃ r, computeMBOutFnArgsVectorPtrMap INT_MAX Functions n (some t) = some r ∧
        r.scope = computeMBOutFnArgsVectorPtrMap_scope none Functions ∧
        r.n = n ∧ r.tuple = some t) ∧
    ((computeMBOutFnArgsVectorPtrMap_scope none Functions).length < n →
      computeMBOutFnArgsVectorPtrMap INT_MAX Functions n (some t) = none) := by
  rw [← computeMBOutFnArgsVectorPtrMap_scope_max Functions hvars]
  constructor
  · intro hle
    have hitems : ∀ item ∈ ((((Functions.foldl (fun s f => s ∪ f.scope)
        (∅ : Finset Nat)).filter (fun (u : Nat) => (u : Int) ≠ INT_MAX)).sort
          (fun a b => a ≤ b)).take n).enum, (item.2 : Int) < INT_MAX := by
      intro item hitem
      have hmem : item.2 ∈ (((Functions.foldl (fun s f => s ∪ f.scope)
          (∅ : Finset Nat)).filter (fun (u : Nat) => (u : Int) ≠ INT_MAX)).sort
            (fun a b => a ≤ b)).take n := by
        obtain ⟨hlt, heq⟩ := List.mem_enum hitem
        rw [heq]
        exact List.getElem_mem hlt
      have hmem2 := List.mem_of_mem_take hmem
      rw [Finset.mem_sort, Finset.mem_filter, mem_foldl_union_scope] at hmem2
      rcases hmem2.1 with h | ⟨f, hf, huf⟩
      · exact absurd h (Finset.not_mem_empty _)
      · exact hvars f hf _ huf
    obtain ⟨st1, hst1⟩ := computeMBOutFnArgsVectorPtrMap_loop_max n _
      (Functions.map
        (fun f => ({ idxMap := [], iterator := f.scope.sort (fun a b => a ≤ b) } :
          PtrMapEntry)), false) hitems
    refine ⟨{ scope := ((Functions.foldl (fun s f => s ∪ f.scope)
                (∅ : Finset Nat)).filter (fun (u : Nat) => (u : Int) ≠ INT_MAX)).sort
                  (fun a b => a ≤ b),
              n := n,
              tuple := some t,
              idxMap :=
                if st1.2 = false ∧ INT_MAX < INT_MAX then
                  st1.1.map (fun en => en.idxMap ++ [n])
                else st1.1.map (fun en => en.idxMap) }, ?_, rfl, rfl, rfl⟩
    unfold computeMBOutFnArgsVectorPtrMap
    have hgt : ¬ n > (((Functions.foldl (fun s f => s ∪ f.scope)
        (∅ : Finset Nat)).filter (fun (u : Nat) => (u : Int) ≠ INT_MAX)).sort
          (fun a b => a ≤ b)).length := by omega
    simp only [reduceCtorEq, if_false, hgt, hst1]
  · intro hlt
    unfold computeMBOutFnArgsVectorPtrMap
    have hgt : n > (((Functions.foldl (fun s f => s ∪ f.scope)
        (∅ : Finset Nat)).filter (fun (u : Nat) => (u : Int) ≠ INT_MAX)).sort
          (fun a b => a ≤ b)).length := hlt
    simp only [reduceCtorEq, if_false, hgt, if_true]

/-! ### Arithmetic of doubles -/

/-- The difference of two finite doubles. -/
theorem OP_DIVIDE_dbl (a b : ℚ) :
    OP_DIVIDE (dbl a) (dbl b) = some (dbl (a - b)) := rfl

/-- The sum of two finite doubles. -/
theorem addDouble_dbl (a b : ℚ) :
    addDouble (dbl a) (dbl b) = some (dbl (a + b)) := rfl

/-- The rational of a finite double. -/
theorem finiteValue_dbl (a : ℚ) : finiteValue (dbl a) = a := rfl

/-- The sum of two finite doubles under the exact rounding of `exLibm`. -/
theorem exLibm_addD (a b : ℚ) : exLibm.addD (dbl a) (dbl b) = dbl (a + b) := rfl

/-- The difference of two finite doubles under the exact rounding of `exLibm`. -/
theorem exLibm_subD (a b : ℚ) : exLibm.subD (dbl a) (dbl b) = some (dbl (a - b)) := rfl

/-- A finite double is not `-inf`. -/
theorem dbl_ne_bot (a : ℚ) : dbl a ≠ (⊥ : Val) := by
  unfold dbl
  exact WithBot.coe_ne_bot

/-- A finite double is below `+inf`. -/
theorem dbl_lt_top (a : ℚ) : dbl a < (⊤ : Val) := by
  unfold dbl
  exact WithBot.coe_lt_coe.mpr (WithTop.coe_lt_top a)

/-- The sign of a finite double. -/
theorem zero_le_dbl (a : ℚ) : (0 : Val) ≤ dbl a ↔ 0 ≤ a := dbl_le_dbl 0 a

/-- The sign of a finite double. -/
theorem dbl_le_zero (a : ℚ) : dbl a ≤ (0 : Val) ↔ a ≤ 0 := dbl_le_dbl a 0

/-- The sign of a finite double. -/
theorem zero_lt_dbl (a : ℚ) : (0 : Val) < dbl a ↔ 0 < a := dbl_lt_dbl 0 a

/-- The sign of a finite double. -/
theorem dbl_lt_zero (a : ℚ) : dbl a < (0 : Val) ↔ a < 0 := dbl_lt_dbl a 0

/-- The sorted list of a finite set of numbers is the increasing list of its
elements. -/
theorem sort_eq_of_toFinset (s : Finset Nat) (l : List Nat)
    (hs : l.Sorted (fun a b => a < b)) (h : l.toFinset = s) :
    s.sort (fun a b => a ≤ b) = l := by
  subst h
  have hnd : l.Nodup := hs.imp (fun h => ne_of_lt h)
  apply List.eq_of_perm_of_sorted _ (Finset.sort_sorted _ _) (hs.imp le_of_lt)
  apply List.perm_of_nodup_nodup_toFinset_eq (Finset.sort_nodup _ _) hnd
  simp

/-! ### `computeLocalErrorTable` -/

/-- The path of `computeLocalErrorTable` through the loop: when no early exit
is taken and the two pointer maps are made (every bucket function holds the
bucket variable and the variables of the mini-bucket outputs are below
`INT_MAX`), the result is what lines 1296-1392 make of what the loop leaves. -/
theorem computeLocalErrorTable_run (self : MiniBucketElimLH) (libm : Libm)
    (flags : Flags) (rand : Nat → Nat → Nat → Int) (var : Nat)
    (build_table sample : Bool) (limit : Val) (scope : List Nat) (tsl : Val)
    (req : Int)
    (hmb : ¬ (self._MiniBuckets var).length ≤ 1)
    (hlim9 : ¬ limit > dbl 9)
    (hforce : ¬ (self.m_options.force_compute_tables = false ∧ build_table = false ∧
      limit ≤ 0))
    (hscope : ((self._BucketScopes var).erase var).sort (fun a b => a ≤ b) = scope)
    (htsl : computeLocalErrorTable_TableSizeLog libm self.m_problem scope = some tsl)
    (htsl0 : ¬ tsl < 0)
    (hsample : ¬ (tsl > limit ∧ sample = false))
    (hT : ¬ computeLocalErrorTable_TableSize self.m_problem scope ≤ 0)
    (hvar : ∀ f ∈ self._BucketFunctions var, var ∈ f.scope)
    (hvMB : ∀ f ∈ collect_funs_MB (self._MiniBuckets var), ∀ u ∈ f.scope,
      (u : Int) < INT_MAX)
    (hB : (computeMBOutFnArgsVectorPtrMap_scope (some var)
      (self._BucketFunctions var)).length = scope.length)
    (hMB : (computeMBOutFnArgsVectorPtrMap_scope none
      (collect_funs_MB (self._MiniBuckets var))).length = scope.length)
    (hn : scope.length ≠ 0)
    (hreq : toInt64 (libm.pow10D limit) = some req) :
    self.computeLocalErrorTable libm flags rand var build_table sample limit =
      some ((if self._Stats_EnforcedPseudoWidth < scope.length then
            { self with _Stats_EnforcedPseudoWidth := scope.length }
          else self).computeLocalErrorTable_finish var
        (if tsl > limit then false else build_table)
        ((if tsl > limit then false else build_table) ||
            decide (min (computeLocalErrorTable_TableSize self.m_problem scope)
              (if req < 1024 then 1024 else req) ≥
                computeLocalErrorTable_TableSize self.m_problem scope))
        scope (computeLocalErrorTable_TableSize self.m_problem scope) tsl
        ((List.range (min (computeLocalErrorTable_TableSize self.m_problem scope)
            (if req < 1024 then 1024 else req)).toNat).foldl
          (computeLocalErrorTable_loopStep self.m_problem libm flags rand var
            (self._BucketFunctions var) (self._MiniBuckets var)
            (computeMBOutFnArgsVectorPtrMap_scope (some var) (self._BucketFunctions var))
            (computeMBOutFnArgsVectorPtrMap_scope none
              (collect_funs_MB (self._MiniBuckets var)))
            (scope.map (fun u => (self.m_problem.getDomainSize u : Int)))
            ((if tsl > limit then false else build_table) ||
              decide (min (computeLocalErrorTable_TableSize self.m_problem scope)
                (if req < 1024 then 1024 else req) ≥
                  computeLocalErrorTable_TableSize self.m_problem scope)))
          { tuple := List.replicate (scope.length - 1) 0 ++ [-1],
            newTable := if (if tsl > limit then false else build_table) = true
              then some [] else none })) := by
  obtain ⟨mapB, hmapB, hsB, hnB, htB⟩ := computeMBOutFnArgsVectorPtrMap_first var
    (self._BucketFunctions var) hvar
  obtain ⟨mapMB, hmapMB, hsMB, hnMB, _⟩ := (computeMBOutFnArgsVectorPtrMap_second
    (collect_funs_MB (self._MiniBuckets var))
    (computeMBOutFnArgsVectorPtrMap_scope (some var) (self._BucketFunctions var)).length
    ((computeMBOutFnArgsVectorPtrMap_scope (some var) (self._BucketFunctions var)).length + 1)
    hvMB).1 (by rw [hB, hMB])
  rw [← htB, ← hnB] at hmapMB
  unfold MiniBucketElimLH.computeLocalErrorTable
  simp only [hmb, hlim9, if_false, hforce, hscope, htsl, htsl0, hsample, hT, hmapB, hmapMB,
    hsB, hsMB, hnMB, hB, hMB, ne_eq, not_true_eq_false, hn, not_false_eq_true, hreq]

/-- One iteration of the loop counts one entry and leaves `nEntries_B_inf` as
it is. -/
theorem computeLocalErrorTable_loopStep_counts (problem : Problem) (libm : Libm)
    (flags : Flags) (rand : Nat → Nat → Nat → Int) (var : Nat)
    (funs_B : List Function) (minibuckets : List MiniBucket)
    (scopeB scopeMB : List Nat) (domains : List Int) (enumerate_table : Bool)
    (st : LocalErrorTableLoop) (j : Nat) :
    (computeLocalErrorTable_loopStep problem libm flags rand var funs_B minibuckets
      scopeB scopeMB domains enumerate_table st j).nEntries_B_inf = st.nEntries_B_inf ∧
    (computeLocalErrorTable_loopStep problem libm flags rand var funs_B minibuckets
      scopeB scopeMB domains enumerate_table st j).nEntriesGenerated =
        st.nEntriesGenerated + 1 ∧
    (computeLocalErrorTable_loopStep problem libm flags rand var funs_B minibuckets
      scopeB scopeMB domains enumerate_table st j).numErrorItems =
        st.numErrorItems + 1 :=
  ⟨rfl, rfl, rfl⟩

/-- The loop counts its entries and leaves `nEntries_B_inf` as it is. -/
theorem computeLocalErrorTable_loop_counts (problem : Problem) (libm : Libm)
    (flags : Flags) (rand : Nat → Nat → Nat → Int) (var : Nat)
    (funs_B : List Function) (minibuckets : List MiniBucket)
    (scopeB scopeMB : List Nat) (domains : List Int) (enumerate_table : Bool)
    (js : List Nat) :
    ∀ (st : LocalErrorTableLoop),
      (js.foldl (computeLocalErrorTable_loopStep problem libm flags rand var funs_B
        minibuckets scopeB scopeMB domains enumerate_table) st).nEntries_B_inf =
          st.nEntries_B_inf ∧
      (js.foldl (computeLocalErrorTable_loopStep problem libm flags rand var funs_B
        minibuckets scopeB scopeMB domains enumerate_table) st).nEntriesGenerated =
          st.nEntriesGenerated + js.length ∧
      (js.foldl (computeLocalErrorTable_loopStep problem libm flags rand var funs_B
        minibuckets scopeB scopeMB domains enumerate_table) st).numErrorItems =
          st.numErrorItems + (js.length : ℚ) := by
  induction js with
  | nil =>
    intro st
    simp
  | cons j js ih =>
    intro st
    obtain ⟨a1, a2, a3⟩ := computeLocalErrorTable_loopStep_counts problem libm flags rand
      var funs_B minibuckets scopeB scopeMB domains enumerate_table st j
    obtain ⟨b1, b2, b3⟩ := ih (computeLocalErrorTable_loopStep problem libm flags rand var
      funs_B minibuckets scopeB scopeMB domains enumerate_table st j)
    rw [List.foldl_cons]
    refine ⟨b1.trans a1, ?_, ?_⟩
    · rw [b2, a2, List.length_cons]
      omega
    · rw [b3, a3, List.length_cons]
      push_cast
      ring

/-- The number of entries that lines 1296-1392 report is that of the loop. -/
theorem computeLocalErrorTable_finish_nEntriesGenerated (self : MiniBucketElimLH)
    (var : Nat) (build_table enumerate_table : Bool) (scope : List Nat)
    (TableSize : Int) (TableSizeLog : Val) (st : LocalErrorTableLoop) :
    (self.computeLocalErrorTable_finish var build_table enumerate_table scope TableSize
        TableSizeLog st).nEntriesGenerated = st.nEntriesGenerated := by
  unfold MiniBucketElimLH.computeLocalErrorTable_finish
  split_ifs <;> rfl

/-- The classification of lines 1348-1359 in terms of what the function
leaves, when entries were generated. -/
theorem computeLocalErrorTable_finish_quality (self : MiniBucketElimLH) (var : Nat)
    (build_table enumerate_table : Bool) (scope : List Nat) (TableSize : Int)
    (TableSizeLog : Val) (st : LocalErrorTableLoop)
    (hgen : 0 < st.nEntriesGenerated) (hinf : st.nEntries_B_inf = 0) :
    (self.computeLocalErrorTable_finish var build_table enumerate_table scope TableSize
        TableSizeLog st).state._BucketErrorQuality var =
      if ((max DBL_MIN self.m_options.lookahead_LE_IgnoreThreshold : ℚ) : WithBot ℚ) <
          (self.computeLocalErrorTable_finish var build_table enumerate_table scope
            TableSize TableSizeLog st).state._BucketError_Rel var then 2
      else if leNaN (self.computeLocalErrorTable_finish var build_table enumerate_table
          scope TableSize TableSizeLog st).avgError (dbl DBL_MIN) = true then 0
      else 1 := by
  have hgen' : ¬ st.nEntriesGenerated ≤ 0 := by omega
  unfold MiniBucketElimLH.computeLocalErrorTable_finish
  simp only [hgen', if_false, Function.update_same, computeLocalErrorTable_classify, hinf,
    lt_self_iff_false, false_or, gt_iff_lt, hgen, and_true]
  by_cases hc : 0 < st.numErrorItems <;>
    simp only [hc, decide_True, decide_False, if_true, if_false, Function.update_same,
      WithBot.coe_lt_coe, Bool.false_eq_true] <;>
    split_ifs <;> simp_all

/-- The result of `computeLocalErrorTable` is one of the exits before the loop,
which generate no entry and no error function and change the quality tag of the
bucket at most, or what lines 1296-1392 make of a loop that left
`nEntries_B_inf` at 0, on the state with `_Stats._EnforcedPseudoWidth`
updated. -/
theorem computeLocalErrorTable_shape (self : MiniBucketElimLH) (libm : Libm)
    (flags : Flags) (rand : Nat → Nat → Nat → Int) (var : Nat)
    (build_table sample_table_if_not_computed : Bool)
    (TableMemoryLimitAsNumElementsLog : Val) (r : LocalErrorTableResult)
    (h : self.computeLocalErrorTable libm flags rand var build_table
      sample_table_if_not_computed TableMemoryLimitAsNumElementsLog = some r) :
    (r.errorFn = none ∧ r.nEntriesGenerated = 0 ∧
      (r.state = self ∨ ∃ q, r.state = { self with
        _BucketErrorQuality := Function.update self._BucketErrorQuality var q })) ∨
    ∃ (s1 : MiniBucketElimLH) (b e : Bool) (scope : List Nat) (T : Int) (tsl : Val)
      (st : LocalErrorTableLoop),
      r = s1.computeLocalErrorTable_finish var b e scope T tsl st ∧
      (s1 = self ∨ ∃ w, s1 = { self with _Stats_EnforcedPseudoWidth := w }) ∧
      (build_table = false → b = false) ∧ st.nEntries_B_inf = 0 := by
  unfold MiniBucketElimLH.computeLocalErrorTable at h
  simp only at h
  by_cases c1 : (self._MiniBuckets var).length ≤ 1
  · rw [if_pos c1] at h
    simp only [Option.some.injEq] at h
    subst h
    exact Or.inl ⟨rfl, rfl, Or.inr ⟨_, rfl⟩⟩
  rw [if_neg c1] at h
  by_cases c2 : self.m_options.force_compute_tables = false ∧ build_table = false ∧
      (if TableMemoryLimitAsNumElementsLog > dbl 9 then dbl 9
        else TableMemoryLimitAsNumElementsLog) ≤ 0
  · rw [if_pos c2] at h
    simp only [Option.some.injEq] at h
    subst h
    exact Or.inl ⟨rfl, rfl, Or.inr ⟨_, rfl⟩⟩
  rw [if_neg c2] at h
  cases c3 : computeLocalErrorTable_TableSizeLog libm self.m_problem
      (Finset.sort (fun a b => a ≤ b) ((self._BucketScopes var).erase var)) with
  | none =>
    simp only [c3, Option.some.injEq] at h
    subst h
    exact Or.inl ⟨rfl, rfl, Or.inr ⟨_, rfl⟩⟩
  | some tsl =>
    simp only [c3] at h
    by_cases c4 : tsl < 0
    · rw [if_pos c4] at h
      simp only [Option.some.injEq] at h
      subst h
      exact Or.inl ⟨rfl, rfl, Or.inr ⟨_, rfl⟩⟩
    rw [if_neg c4] at h
    by_cases c5 : (tsl > if TableMemoryLimitAsNumElementsLog > dbl 9 then dbl 9
        else TableMemoryLimitAsNumElementsLog) ∧ sample_table_if_not_computed = false
    · rw [if_pos c5] at h
      simp only [Option.some.injEq] at h
      subst h
      exact Or.inl ⟨rfl, rfl, Or.inr ⟨_, rfl⟩⟩
    rw [if_neg c5] at h
    by_cases c6 : computeLocalErrorTable_TableSize self.m_problem
        (Finset.sort (fun a b => a ≤ b) ((self._BucketScopes var).erase var)) ≤ 0
    · rw [if_pos c6] at h
      simp only [Option.some.injEq] at h
      subst h
      exact Or.inl ⟨rfl, rfl, Or.inr ⟨_, rfl⟩⟩
    rw [if_neg c6] at h
    cases cB : computeMBOutFnArgsVectorPtrMap (var : Int) (self._BucketFunctions var) 0
        none with
    | none =>
      simp only [cB] at h
      exact absurd h (by simp)
    | some mapB =>
      simp only [cB] at h
      cases cMB : computeMBOutFnArgsVectorPtrMap INT_MAX
          (collect_funs_MB (self._MiniBuckets var)) mapB.n mapB.tuple with
      | none =>
        simp only [cMB] at h
        exact absurd h (by simp)
      | some mapMB =>
        simp only [cMB] at h
        by_cases c7 : mapB.scope.length ≠ mapMB.scope.length
        · rw [if_pos c7] at h
          simp only [Option.some.injEq] at h
          subst h
          exact Or.inl ⟨rfl, rfl, Or.inl rfl⟩
        rw [if_neg c7] at h
        by_cases c8 : mapB.scope.length ≠
            (Finset.sort (fun a b => a ≤ b) ((self._BucketScopes var).erase var)).length
        · rw [if_pos c8] at h
          simp only [Option.some.injEq] at h
          subst h
          exact Or.inl ⟨rfl, rfl, Or.inl rfl⟩
        rw [if_neg c8] at h
        by_cases c8b : (Finset.sort (fun a b => a ≤ b)
            ((self._BucketScopes var).erase var)).length ≠ mapMB.n
        · rw [if_pos c8b] at h
          simp only [Option.some.injEq] at h
          subst h
          exact Or.inl ⟨rfl, rfl, Or.inl rfl⟩
        rw [if_neg c8b] at h
        by_cases c9 : mapMB.n = 0
        · rw [if_pos c9] at h
          exact absurd h (by simp)
        rw [if_neg c9] at h
        cases c10 : toInt64 (libm.pow10D (if TableMemoryLimitAsNumElementsLog > dbl 9
            then dbl 9 else TableMemoryLimitAsNumElementsLog)) with
        | none =>
          simp only [c10] at h
          exact absurd h (by simp)
        | some requested =>
          simp only [c10, Option.some.injEq] at h
          refine Or.inr ⟨_, _, _, _, _, _, _, h.symm, ?_, ?_, ?_⟩
          · split_ifs
            · exact Or.inr ⟨_, rfl⟩
            · exact Or.inl rfl
          · intro hbt
            rw [hbt, ite_self]
          · exact (computeLocalErrorTable_loop_counts _ _ _ _ _ _ _ _ _ _ _ _ _).1

/-- The result of `computeLocalErrorTable` is one of the exits before the loop,
which generate no entry, or what lines 1296-1392 make of a loop that left
`nEntries_B_inf` at 0 and counted as many entries as it had iterations. -/
theorem computeLocalErrorTable_cases (self : MiniBucketElimLH) (libm : Libm)
    (flags : Flags) (rand : Nat → Nat → Nat → Int) (var : Nat)
    (build_table sample_table_if_not_computed : Bool)
    (TableMemoryLimitAsNumElementsLog : Val) (r : LocalErrorTableResult)
    (h : self.computeLocalErrorTable libm flags rand var build_table
      sample_table_if_not_computed TableMemoryLimitAsNumElementsLog = some r) :
    r.nEntriesGenerated = 0 ∨
    ∃ (s1 : MiniBucketElimLH) (b e : Bool) (scope : List Nat) (T : Int) (tsl : Val)
      (st : LocalErrorTableLoop),
      r = s1.computeLocalErrorTable_finish var b e scope T tsl st ∧
      s1.m_options = self.m_options ∧ st.nEntries_B_inf = 0 := by
  rcases computeLocalErrorTable_shape self libm flags rand var build_table
    sample_table_if_not_computed TableMemoryLimitAsNumElementsLog r h with h0 | hfin
  · exact Or.inl h0.2.1
  · obtain ⟨s1, b, e, scope, T, tsl, st, hr, hs1, _, hinf⟩ := hfin
    refine Or.inr ⟨s1, b, e, scope, T, tsl, st, hr, ?_, hinf⟩
    rcases hs1 with rfl | ⟨w, rfl⟩ <;> rfl


/-- C19, amended. When `computeLocalErrorTable` generates entries (more than
one mini-bucket, no early exit), the quality it assigns is 2 when the relative
error it stores is above the threshold `max(DBL_MIN,
lookahead_LE_IgnoreThreshold)`, else 0 when the average error it returns is at
most `DBL_MIN` (whether the table was enumerated or sampled; an average that is
NaN, as a row of two zeros makes it, is not), else 1.  The entries are
generated, and the call returns, when the bucket has more than one mini-bucket,
none of the exits before the loop is taken, the two pointer maps are made
(every bucket function holds the bucket variable, the variables of the outputs
are below `INT_MAX`) over a scope that is not empty, and the requested count
converts to `int64`. -/
theorem computeLocalErrorTable_quality (self : MiniBucketElimLH) (libm : Libm)
    (flags : Flags) (rand : Nat → Nat → Nat → Int) (var : Nat)
    (build_table sample_table_if_not_computed : Bool)
    (TableMemoryLimitAsNumElementsLog : Val) :
    (∀ r, self.computeLocalErrorTable libm flags rand var build_table
        sample_table_if_not_computed TableMemoryLimitAsNumElementsLog = some r →
      0 < r.nEntriesGenerated →
      r.state._BucketErrorQuality var =
        if ((max DBL_MIN self.m_options.lookahead_LE_IgnoreThreshold : ℚ) : WithBot ℚ) <
            r.state._BucketError_Rel var then 2
        else if leNaN r.avgError (dbl DBL_MIN) = true then 0
        else 1) ∧
    (∀ (scope : List Nat) (tsl : Val) (req : Int),
      ¬ (self._MiniBuckets var).length ≤ 1 →
      ¬ TableMemoryLimitAsNumElementsLog > dbl 9 →
      ¬ (self.m_options.force_compute_tables = false ∧ build_table = false ∧
        TableMemoryLimitAsNumElementsLog ≤ 0) →
      ((self._BucketScopes var).erase var).sort (fun a b => a ≤ b) = scope →
      computeLocalErrorTable_TableSizeLog libm self.m_problem scope = some tsl →
      ¬ tsl < 0 →
      ¬ (tsl > TableMemoryLimitAsNumElementsLog ∧ sample_table_if_not_computed = false) →
      ¬ computeLocalErrorTable_TableSize self.m_problem scope ≤ 0 →
      (∀ f ∈ self._BucketFunctions var, var ∈ f.scope) →
      (∀ f ∈ collect_funs_MB (self._MiniBuckets var), ∀ u ∈ f.scope, (u : Int) < INT_MAX) →
      (computeMBOutFnArgsVectorPtrMap_scope (some var)
        (self._BucketFunctions var)).length = scope.length →
      (computeMBOutFnArgsVectorPtrMap_scope none
        (collect_funs_MB (self._MiniBuckets var))).length = scope.length →
      scope.length ≠ 0 →
      toInt64 (libm.pow10D TableMemoryLimitAsNumElementsLog) = some req →
      ∃ r, self.computeLocalErrorTable libm flags rand var build_table
          sample_table_if_not_computed TableMemoryLimitAsNumElementsLog = some r ∧
        0 < r.nEntriesGenerated) := by
  refine ⟨?_, ?_⟩
  · intro r h hgen
    rcases computeLocalErrorTable_cases self libm flags rand var build_table
      sample_table_if_not_computed TableMemoryLimitAsNumElementsLog r h with h0 | hfin
    · omega
    · obtain ⟨s1, b, e, scope, T, tsl, st, hr, hopt, hinf⟩ := hfin
      subst hr
      rw [computeLocalErrorTable_finish_nEntriesGenerated] at hgen
      rw [computeLocalErrorTable_finish_quality _ _ _ _ _ _ _ _ hgen hinf, hopt]
  · intro scope tsl req hmb hlim9 hforce hscope htsl htsl0 hsample hT hvar hvMB hB hMB hn hreq
    refine ⟨_, computeLocalErrorTable_run self libm flags rand var build_table
      sample_table_if_not_computed TableMemoryLimitAsNumElementsLog scope tsl req hmb hlim9
      hforce hscope htsl htsl0 hsample hT hvar hvMB hB hMB hn hreq, ?_⟩
    rw [computeLocalErrorTable_finish_nEntriesGenerated,
      (computeLocalErrorTable_loop_counts _ _ _ _ _ _ _ _ _ _ _ _ _).2.1, List.length_range]
    show 0 < 0 + (min (computeLocalErrorTable_TableSize self.m_problem scope)
      (if req < 1024 then 1024 else req)).toNat
    have h1 : 0 < computeLocalErrorTable_TableSize self.m_problem scope := by omega
    have h2 : 0 < (if req < 1024 then 1024 else req) := by split_ifs <;> omega
    have h3 : 0 < min (computeLocalErrorTable_TableSize self.m_problem scope)
        (if req < 1024 then 1024 else req) := lt_min h1 h2
    omega

/-! ### The estimation on the small model -/

/-- The logarithm of the table size of the small model. -/
theorem exLibm_TableSizeLog :
    computeLocalErrorTable_TableSizeLog exLibm exProblem [1, 2] = some (dbl (3 / 5)) := by
  simp only [computeLocalErrorTable_TableSizeLog, List.foldlM_cons, List.foldlM_nil,
    Libm.log10_int, exProblem, exLibm]
  norm_num [dbl_lt_zero, dbl_add, Option.bind]

/-- The table of bucket 0 of the small model has 4 entries. -/
theorem exProblem_TableSize :
    computeLocalErrorTable_TableSize exProblem [1, 2] = 4 := by
  simp [computeLocalErrorTable_TableSize, exProblem, wrapInt64]

/-- The number of entries that the table limit 3 asks for. -/
theorem exLibm_requested : toInt64 (exLibm.pow10D (dbl 3)) = some 1000 := by
  have h : exLibm.pow10D (dbl 3) = dbl 1000 := by
    show dbl (exLibm.pow10 3) = dbl 1000
    simp [exLibm]
  rw [h]
  show (if -(2 : Int) ^ 63 ≤ (if (0 : ℚ) ≤ 1000 then Int.floor (1000 : ℚ)
        else -Int.floor (-(1000 : ℚ))) ∧
      (if (0 : ℚ) ≤ 1000 then Int.floor (1000 : ℚ) else -Int.floor (-(1000 : ℚ))) <
        (2 : Int) ^ 63 then
      some (if (0 : ℚ) ≤ 1000 then Int.floor (1000 : ℚ) else -Int.floor (-(1000 : ℚ)))
      else none) = some 1000
  have hf : Int.floor (1000 : ℚ) = 1000 := by
    exact_mod_cast Int.floor_intCast (1000 : Int)
  norm_num [hf]

/-- The exact value of bucket 0 of `exScoped` at the entries of its table. -/
theorem exScoped_B (t0 t1 : Int) (h0 : t0 = 0 ∨ t0 = 1) (h1 : t1 = 0 ∨ t1 = 1) :
    computeLocalErrorTable_tableentryB exProblem [exF1, exF2] 0
      (tupleAssignment [1, 2] [t0, t1]) = if t0 = t1 then dbl 1 else dbl 2 := by
  rcases h0 with rfl | rfl <;> rcases h1 with rfl | rfl <;>
  simp [computeLocalErrorTable_tableentryB, maxOverVar, combineValues, exProblem,
    exF1, exF2, OP_TIMES, ELEM_ONE, ELEM_ZERO, List.range_succ, Function.update,
    tupleAssignment, List.indexOf_cons] <;> (try norm_num) <;> exact rfl

/-- The mini-bucket value of bucket 0 of `exScoped` at the entries of its
table. -/
theorem exScoped_MB (t0 t1 : Int) (h0 : t0 = 0 ∨ t0 = 1) (h1 : t1 = 0 ∨ t1 = 1) :
    computeLocalErrorTable_tableentryMB [exMB1, exMB2]
      (tupleAssignment [1, 2] [t0, t1]) = dbl 2 := by
  rcases h0 with rfl | rfl <;> rcases h1 with rfl | rfl <;>
  simp [computeLocalErrorTable_tableentryMB, collect_funs_MB, exMB1, exMB2,
    MiniBucket.eliminate, MiniBucket.addFunction, MiniBucket.new, maxOverVar,
    combineValues, exProblem, exF1, exF2, OP_TIMES, ELEM_ONE, ELEM_ZERO,
    List.range_succ, Function.update, tupleAssignment, List.indexOf_cons] <;>
  (try norm_num) <;> exact rfl

/-- The loop of `computeLocalErrorTable` over the 4 entries of bucket 0 of
`exScoped`: the errors are 1, 0, 0, 1. -/
theorem exScoped_loop :
    (List.range 4).foldl
      (computeLocalErrorTable_loopStep exProblem exLibm {} (fun _ _ _ => 0) 0
        [exF1, exF2] [exMB1, exMB2] [1, 2] [1, 2] [2, 2] true)
      { tuple := [0, -1], newTable := some [] } =
      { tuple := [1, 1],
        total_sample_weight_noninf := 4,
        avgError_non_inf := 2,
        avgExact_non_inf := 6,
        errorAbsMin := dbl 0,
        errorAbsMax := dbl 1,
        numErrorItems := 4,
        avgError := some (dbl 2),
        avgExact := some (dbl 6),
        nEntriesGenerated := 4,
        newTable := some [some (dbl 1), some (dbl 0), some (dbl 0), some (dbl 1)] } := by
  have h0 : (some 0 : Option Val) = some (dbl 0) := rfl
  simp only [List.range_succ, List.range_zero, List.nil_append, List.cons_append,
    List.foldl_cons, List.foldl_nil, computeLocalErrorTable_loopStep, if_true,
    computeLocalErrorTable_nextTuple, computeLocalErrorTable_nextTupleRev,
    List.reverse_cons, List.reverse_nil, h0]
  norm_num [computeLocalErrorTable_nextTupleRev, exScoped_B, exScoped_MB, OP_DIVIDE_dbl,
    addDouble_dbl, finiteValue_dbl, dbl_ne_bot, dbl_lt_top, dbl_le_dbl, dbl_lt_dbl,
    bot_lt_dbl, OUR_OWN_nInfinity, zero_le_dbl, addNaN]

/-- What `computeLocalErrorTable` returns for bucket 0 of `exScoped`. -/
theorem exScoped_computeLocalErrorTable :
    exScoped.computeLocalErrorTable exLibm {} (fun _ _ _ => 0) 0 true true (dbl 3) =
      some (({ exScoped with _Stats_EnforcedPseudoWidth := 2 } :
          MiniBucketElimLH).computeLocalErrorTable_finish 0 true true [1, 2] 4
        (dbl (3 / 5))
        { tuple := [1, 1],
          total_sample_weight_noninf := 4,
          avgError_non_inf := 2,
          avgExact_non_inf := 6,
          errorAbsMin := dbl 0,
          errorAbsMax := dbl 1,
          numErrorItems := 4,
          avgError := some (dbl 2),
          avgExact := some (dbl 6),
          nEntriesGenerated := 4,
          newTable := some [some (dbl 1), some (dbl 0), some (dbl 0), some (dbl 1)] }) := by
  have hscope : ((exScoped._BucketScopes 0).erase 0).sort (fun a b => a ≤ b) = [1, 2] :=
    sort_eq_of_toFinset _ _ (by decide) (by decide)
  have hB : computeMBOutFnArgsVectorPtrMap_scope (some 0) (exScoped._BucketFunctions 0) =
      [1, 2] := sort_eq_of_toFinset _ _ (by decide) (by decide)
  have hMB : computeMBOutFnArgsVectorPtrMap_scope none
      (collect_funs_MB (exScoped._MiniBuckets 0)) = [1, 2] :=
    sort_eq_of_toFinset _ _ (by decide) (by decide)
  have hlt : ¬ dbl (3 / 5) > dbl 3 := by
    rw [gt_iff_lt, dbl_lt_dbl]
    norm_num
  have h := computeLocalErrorTable_run exScoped exLibm {} (fun _ _ _ => 0) 0 true true
    (dbl 3) [1, 2] (dbl (3 / 5)) 1000
    (by decide)
    (by rw [gt_iff_lt, dbl_lt_dbl]; norm_num)
    (by simp)
    hscope exLibm_TableSizeLog
    (by rw [dbl_lt_zero]; norm_num)
    (by simp)
    (by rw [show exScoped.m_problem = exProblem from rfl, exProblem_TableSize]; decide)
    (by decide) (by decide)
    (by rw [hB]) (by rw [hMB]) (by decide) exLibm_requested
  rw [h, hB, hMB, show exScoped.m_problem = exProblem from rfl, exProblem_TableSize]
  simp only [if_neg hlt]
  exact congrArg
    (fun st => some (MiniBucketElimLH.computeLocalErrorTable_finish
      ({ exScoped with _Stats_EnforcedPseudoWidth := 2 } : MiniBucketElimLH) 0 true true
      [1, 2] 4 (dbl (3 / 5)) st))
    exScoped_loop

/-- C19 at bucket 0 of `exScoped`, whose 4 entries are enumerated: the call
returns and classifies the bucket as the theorem says. -/
theorem computeLocalErrorTable_quality_witness :
    ∃ r, exScoped.computeLocalErrorTable exLibm {} (fun _ _ _ => 0) 0 true true
        (dbl 3) = some r ∧
      0 < r.nEntriesGenerated ∧
      r.state._BucketErrorQuality 0 =
        if ((max DBL_MIN exScoped.m_options.lookahead_LE_IgnoreThreshold : ℚ) :
            WithBot ℚ) < r.state._BucketError_Rel 0 then 2
        else if leNaN r.avgError (dbl DBL_MIN) = true then 0
        else 1 := by
  have hscope : ((exScoped._BucketScopes 0).erase 0).sort (fun a b => a ≤ b) = [1, 2] :=
    sort_eq_of_toFinset _ _ (by decide) (by decide)
  have hB : computeMBOutFnArgsVectorPtrMap_scope (some 0) (exScoped._BucketFunctions 0) =
      [1, 2] := sort_eq_of_toFinset _ _ (by decide) (by decide)
  have hMB : computeMBOutFnArgsVectorPtrMap_scope none
      (collect_funs_MB (exScoped._MiniBuckets 0)) = [1, 2] :=
    sort_eq_of_toFinset _ _ (by decide) (by decide)
  obtain ⟨r, hr, hgen⟩ := (computeLocalErrorTable_quality exScoped exLibm {}
    (fun _ _ _ => 0) 0 true true (dbl 3)).2 [1, 2] (dbl (3 / 5)) 1000
    (by decide)
    (by rw [gt_iff_lt, dbl_lt_dbl]; norm_num)
    (by simp)
    hscope exLibm_TableSizeLog
    (by rw [dbl_lt_zero]; norm_num)
    (by simp)
    (by rw [show exScoped.m_problem = exProblem from rfl, exProblem_TableSize]; decide)
    (by decide) (by decide)
    (by rw [hB]) (by rw [hMB]) (by decide) exLibm_requested
  exact ⟨r, hr, hgen, (computeLocalErrorTable_quality exScoped exLibm {}
    (fun _ _ _ => 0) 0 true true (dbl 3)).1 r hr hgen⟩

/-- The constant `DBL_MIN` is positive. -/
theorem DBL_MIN_pos : 0 < DBL_MIN := by
  unfold DBL_MIN
  positivity

/-- The threshold of the classification is above -1, the relative error of a
bucket whose exact values average 0. -/
theorem threshold_not_lt (x : ℚ) : ¬ max DBL_MIN x < -1 := by
  have hpos := DBL_MIN_pos
  rw [not_lt]
  exact le_trans (by linarith) (le_max_left _ _)

/-- No finite double is at least `+inf`. -/
theorem not_top_le_dbl (a : ℚ) : ¬ (⊤ : Val) ≤ dbl a :=
  not_le.mpr (dbl_lt_top a)

/-- The exact value of bucket 0 of `exInf` is `-inf` at every entry. -/
theorem exInf_B (a : Assignment) :
    computeLocalErrorTable_tableentryB exProblem [exG1, exG2] 0 a = ⊥ := by
  simp [computeLocalErrorTable_tableentryB, maxOverVar, combineValues, exProblem,
    exG1, exG2, OP_TIMES, ELEM_ONE, ELEM_ZERO, List.range_succ, Function.update]

/-- The mini-bucket value of bucket 0 of `exInf` is 0 at every entry. -/
theorem exInf_MB (a : Assignment) :
    computeLocalErrorTable_tableentryMB [exMBG1, exMBG2] a = dbl 0 := by
  simp [computeLocalErrorTable_tableentryMB, collect_funs_MB, exMBG1, exMBG2,
    MiniBucket.eliminate, MiniBucket.addFunction, MiniBucket.new, maxOverVar,
    combineValues, exProblem, exG1, exG2, OP_TIMES, ELEM_ONE, ELEM_ZERO,
    List.range_succ, Function.update]
  rw [dbl_add, add_zero]

/-- The loop of `computeLocalErrorTable` over the 4 entries of bucket 0 of
`exInf`: every error is `+inf`. -/
theorem exInf_loop :
    (List.range 4).foldl
      (computeLocalErrorTable_loopStep exProblem exLibm {} (fun _ _ _ => 0) 0
        [exG1, exG2] [exMBG1, exMBG2] [1, 2] [1, 2] [2, 2] true)
      { tuple := [0, -1], newTable := some [] } =
      { tuple := [1, 1],
        errorAbsMin := ⊤,
        errorAbsMax := ⊤,
        numErrorItems := 4,
        avgError := some ⊤,
        avgExact := some ⊥,
        nEntriesGenerated := 4,
        newTable := some [some ⊤, some ⊤, some ⊤, some ⊤] } := by
  have e1 : OP_DIVIDE (dbl 0) ⊥ = some ⊤ := rfl
  have e2 : addNaN (some 0) (some ⊤) = some ⊤ := rfl
  have e3 : addNaN (some ⊤) (some ⊤) = some ⊤ := rfl
  have e4 : addNaN (some 0) (some ⊥) = some ⊥ := rfl
  have e5 : addNaN (some ⊥) (some ⊥) = some ⊥ := rfl
  simp only [List.range_succ, List.range_zero, List.nil_append, List.cons_append,
    List.foldl_cons, List.foldl_nil, computeLocalErrorTable_loopStep, if_true,
    computeLocalErrorTable_nextTuple, computeLocalErrorTable_nextTupleRev,
    List.reverse_cons, List.reverse_nil, exInf_B, exInf_MB, e1, e2, e3, e4, e5]
  norm_num [computeLocalErrorTable_nextTupleRev, OUR_OWN_nInfinity, e3, e5]

/-- What `computeLocalErrorTable` returns for bucket 0 of `exInf`. -/
theorem exInf_computeLocalErrorTable :
    exInf.computeLocalErrorTable exLibm {} (fun _ _ _ => 0) 0 true true (dbl 3) =
      some (({ exInf with _Stats_EnforcedPseudoWidth := 2 } :
          MiniBucketElimLH).computeLocalErrorTable_finish 0 true true [1, 2] 4
        (dbl (3 / 5))
        { tuple := [1, 1],
          errorAbsMin := ⊤,
          errorAbsMax := ⊤,
          numErrorItems := 4,
          avgError := some ⊤,
          avgExact := some ⊥,
          nEntriesGenerated := 4,
          newTable := some [some ⊤, some ⊤, some ⊤, some ⊤] }) := by
  have hscope : ((exInf._BucketScopes 0).erase 0).sort (fun a b => a ≤ b) = [1, 2] :=
    sort_eq_of_toFinset _ _ (by decide) (by decide)
  have hB : computeMBOutFnArgsVectorPtrMap_scope (some 0) (exInf._BucketFunctions 0) =
      [1, 2] := sort_eq_of_toFinset _ _ (by decide) (by decide)
  have hMB : computeMBOutFnArgsVectorPtrMap_scope none
      (collect_funs_MB (exInf._MiniBuckets 0)) = [1, 2] :=
    sort_eq_of_toFinset _ _ (by decide) (by decide)
  have hlt : ¬ dbl (3 / 5) > dbl 3 := by
    rw [gt_iff_lt, dbl_lt_dbl]
    norm_num
  have h := computeLocalErrorTable_run exInf exLibm {} (fun _ _ _ => 0) 0 true true
    (dbl 3) [1, 2] (dbl (3 / 5)) 1000
    (by decide)
    (by rw [gt_iff_lt, dbl_lt_dbl]; norm_num)
    (by simp)
    hscope exLibm_TableSizeLog
    (by rw [dbl_lt_zero]; norm_num)
    (by simp)
    (by rw [show exInf.m_problem = exProblem from rfl, exProblem_TableSize]; decide)
    (by decide) (by decide)
    (by rw [hB]) (by rw [hMB]) (by decide) exLibm_requested
  rw [h, hB, hMB, show exInf.m_problem = exProblem from rfl, exProblem_TableSize]
  simp only [if_neg hlt]
  exact congrArg
    (fun st => some (MiniBucketElimLH.computeLocalErrorTable_finish
      ({ exInf with _Stats_EnforcedPseudoWidth := 2 } : MiniBucketElimLH) 0 true true
      [1, 2] 4 (dbl (3 / 5)) st))
    exInf_loop

/-- C18, the code at a failing input. Bucket 0 of `exInf` has two
mini-buckets, and at every entry of its table the exact bucket value is the
semiring zero `-inf` while the combined mini-bucket value is the finite 0;
`computeLocalErrorTable` classifies its quality 1, not 2: no statement
increments `nEntries_B_inf`, which line 1348 tests. -/
theorem computeLocalErrorTable_B_inf_failing :
    ∃ r, exInf.computeLocalErrorTable exLibm {} (fun _ _ _ => 0) 0 true true
        (dbl 3) = some r ∧
      1 < (exInf._MiniBuckets 0).length ∧
      computeLocalErrorTable_tableentryB exInf.m_problem (exInf._BucketFunctions 0) 0
        (tupleAssignment [1, 2] [0, 0]) = ELEM_ZERO ∧
      computeLocalErrorTable_tableentryMB (exInf._MiniBuckets 0)
        (tupleAssignment [1, 2] [0, 0]) = dbl 0 ∧
      r.nEntriesGenerated = 4 ∧
      r.state._BucketErrorQuality 0 = 1 := by
  refine ⟨_, exInf_computeLocalErrorTable, by decide, exInf_B _, exInf_MB _, ?_, ?_⟩
  · rw [computeLocalErrorTable_finish_nEntriesGenerated]
  · have h1 : ¬ max DBL_MIN (0 : ℚ) < -1 := threshold_not_lt 0
    have h2 : ¬ divByCount ⊤ 4 ≤ dbl DBL_MIN := not_top_le_dbl _
    simp [MiniBucketElimLH.computeLocalErrorTable_finish, computeLocalErrorTable_classify,
      exInf, h1, h2, leNaN]

/-! ### Stored entries -/

/-- The exact value of bucket 0 of `exBelow` is 0 at every entry. -/
theorem exBelow_B (a : Assignment) :
    computeLocalErrorTable_tableentryB exProblem [exZ1, exZ2] 0 a = dbl 0 := by
  simp [computeLocalErrorTable_tableentryB, maxOverVar, combineValues, exProblem,
    exZ1, exZ2, OP_TIMES, ELEM_ONE, ELEM_ZERO, List.range_succ, Function.update]
  rw [dbl_add, add_zero]

/-- The mini-bucket value of bucket 0 of `exBelow`: -1 where variable 1 is
0. -/
theorem exBelow_MB (t0 t1 : Int) :
    computeLocalErrorTable_tableentryMB (exBelow._MiniBuckets 0)
      (tupleAssignment [1, 2] [t0, t1]) = if t0 = 0 then dbl (-1) else dbl 3 := by
  simp [computeLocalErrorTable_tableentryMB, collect_funs_MB, exBelow,
    MiniBucket.addFunction, MiniBucket.new,
    combineValues, exLow, exZero2, OP_TIMES, ELEM_ONE,
    tupleAssignment, List.indexOf_cons]
  split_ifs <;> rw [dbl_add, add_zero]

/-- The loop of `computeLocalErrorTable` over the 4 entries of bucket 0 of
`exBelow`: the errors are -1, -1, 3, 3. -/
theorem exBelow_loop :
    (List.range 4).foldl
      (computeLocalErrorTable_loopStep exProblem exLibm {} (fun _ _ _ => 0) 0
        [exZ1, exZ2] (exBelow._MiniBuckets 0) [1, 2] [1, 2] [2, 2] true)
      { tuple := [0, -1], newTable := some [] } =
      { tuple := [1, 1],
        total_sample_weight_noninf := 2,
        avgError_non_inf := 6,
        avgExact_non_inf := 0,
        errorAbsMin := dbl (-1),
        errorAbsMax := dbl 3,
        numErrorItems := 4,
        avgError := some (dbl 4),
        avgExact := some (dbl 0),
        nEntriesGenerated := 4,
        newTable := some [some (dbl (-1)), some (dbl (-1)), some (dbl 3), some (dbl 3)] } := by
  have h0 : (some 0 : Option Val) = some (dbl 0) := rfl
  simp only [List.range_succ, List.range_zero, List.nil_append, List.cons_append,
    List.foldl_cons, List.foldl_nil, computeLocalErrorTable_loopStep, if_true,
    computeLocalErrorTable_nextTuple, computeLocalErrorTable_nextTupleRev,
    List.reverse_cons, List.reverse_nil, h0]
  norm_num [computeLocalErrorTable_nextTupleRev, exBelow_B, exBelow_MB, OP_DIVIDE_dbl,
    addDouble_dbl, finiteValue_dbl, dbl_ne_bot, dbl_lt_top, dbl_le_dbl, dbl_lt_dbl,
    bot_lt_dbl, OUR_OWN_nInfinity, zero_le_dbl, addNaN]

/-- What `computeLocalErrorTable` returns for bucket 0 of `exBelow` after the
reset of the quality tag. -/
theorem exBelow_computeLocalErrorTable :
    ({ exBelow with
        _BucketErrorQuality := Function.update exBelow._BucketErrorQuality 0 (-1) } :
      MiniBucketElimLH).computeLocalErrorTable exLibm {} (fun _ _ _ => 0) 0 true true
        (dbl 3) =
      some (({ exBelow with
          _BucketErrorQuality := Function.update exBelow._BucketErrorQuality 0 (-1),
          _Stats_EnforcedPseudoWidth := 2 } :
          MiniBucketElimLH).computeLocalErrorTable_finish 0 true true [1, 2] 4
        (dbl (3 / 5))
        { tuple := [1, 1],
          total_sample_weight_noninf := 2,
          avgError_non_inf := 6,
          avgExact_non_inf := 0,
          errorAbsMin := dbl (-1),
          errorAbsMax := dbl 3,
          numErrorItems := 4,
          avgError := some (dbl 4),
          avgExact := some (dbl 0),
          nEntriesGenerated := 4,
          newTable := some [some (dbl (-1)), some (dbl (-1)), some (dbl 3), some (dbl 3)] }) := by
  have hscope : ((exBelow._BucketScopes 0).erase 0).sort (fun a b => a ≤ b) = [1, 2] :=
    sort_eq_of_toFinset _ _ (by decide) (by decide)
  have hB : computeMBOutFnArgsVectorPtrMap_scope (some 0) (exBelow._BucketFunctions 0) =
      [1, 2] := sort_eq_of_toFinset _ _ (by decide) (by decide)
  have hMB : computeMBOutFnArgsVectorPtrMap_scope none
      (collect_funs_MB (exBelow._MiniBuckets 0)) = [1, 2] :=
    sort_eq_of_toFinset _ _ (by decide) (by decide)
  have hlt : ¬ dbl (3 / 5) > dbl 3 := by
    rw [gt_iff_lt, dbl_lt_dbl]
    norm_num
  have h := computeLocalErrorTable_run
    ({ exBelow with
        _BucketErrorQuality := Function.update exBelow._BucketErrorQuality 0 (-1) } :
      MiniBucketElimLH) exLibm {} (fun _ _ _ => 0) 0 true true
    (dbl 3) [1, 2] (dbl (3 / 5)) 1000
    (by decide)
    (by rw [gt_iff_lt, dbl_lt_dbl]; norm_num)
    (by simp)
    hscope exLibm_TableSizeLog
    (by rw [dbl_lt_zero]; norm_num)
    (by simp)
    (by
      show ¬ computeLocalErrorTable_TableSize exProblem [1, 2] ≤ 0
      rw [exProblem_TableSize]
      decide)
    (by decide) (by decide)
    (by
      show (computeMBOutFnArgsVectorPtrMap_scope (some 0)
        (exBelow._BucketFunctions 0)).length = _
      rw [hB])
    (by
      show (computeMBOutFnArgsVectorPtrMap_scope none
        (collect_funs_MB (exBelow._MiniBuckets 0))).length = _
      rw [hMB])
    (by decide) exLibm_requested
  rw [h]
  have hT : computeLocalErrorTable_TableSize
      ({ exBelow with
        _BucketErrorQuality := Function.update exBelow._BucketErrorQuality 0 (-1) } :
      MiniBucketElimLH).m_problem [1, 2] = 4 := exProblem_TableSize
  have hB2 : computeMBOutFnArgsVectorPtrMap_scope (some 0)
      (({ exBelow with
        _BucketErrorQuality := Function.update exBelow._BucketErrorQuality 0 (-1) } :
      MiniBucketElimLH)._BucketFunctions 0) = [1, 2] := hB
  have hMB2 : computeMBOutFnArgsVectorPtrMap_scope none
      (collect_funs_MB (({ exBelow with
        _BucketErrorQuality := Function.update exBelow._BucketErrorQuality 0 (-1) } :
      MiniBucketElimLH)._MiniBuckets 0)) = [1, 2] := hMB
  rw [hT, hB2, hMB2]
  simp only [if_neg hlt]
  exact congrArg
    (fun st => some (MiniBucketElimLH.computeLocalErrorTable_finish
      ({ exBelow with
          _BucketErrorQuality := Function.update exBelow._BucketErrorQuality 0 (-1),
          _Stats_EnforcedPseudoWidth := 2 } : MiniBucketElimLH) 0 true true
      [1, 2] 4 (dbl (3 / 5)) st))
    exBelow_loop

/-- The space that is left of a total limit of 6 when nothing was stored. -/
theorem exLibm_table_space_left :
    computeLocalErrorTables_table_space_left exLibm (dbl 6) 0 = some (dbl 6) := by
  have h1 : OP_DIVIDE (0 : Val) (dbl 6) = some (dbl (-6)) := by
    show OP_DIVIDE (dbl 0) (dbl 6) = _
    rw [OP_DIVIDE_dbl]
    norm_num
  have h2 : exLibm.pow10D (dbl (-6)) = dbl (1 / 1000000) := by
    show dbl (exLibm.pow10 (-6)) = _
    norm_num [exLibm]
  have h3 : OP_DIVIDE (1 : Val) (dbl (1 / 1000000)) = some (dbl (999999 / 1000000)) := by
    show OP_DIVIDE (dbl 1) (dbl (1 / 1000000)) = _
    rw [OP_DIVIDE_dbl]
    norm_num
  have h4 : exLibm.log10D (dbl (999999 / 1000000)) = some (dbl 0) := by
    show (if (999999 / 1000000 : ℚ) < 0 then none
      else if (999999 / 1000000 : ℚ) = 0 then some ⊥
      else some (dbl (exLibm.log10 (999999 / 1000000)))) = _
    norm_num [exLibm]
  unfold computeLocalErrorTables_table_space_left
  have hc : (dbl 6 : Val) > 0 ∧ (dbl 6 : Val) > 0 := by
    simp only [gt_iff_lt, zero_lt_dbl]
    norm_num
  rw [if_pos hc]
  simp only [h1, Option.bind, h2, h3, h4, addDouble_dbl]
  norm_num

/-- The accumulation of a table of logarithmic size 3/5. -/
theorem exLibm_logAdd :
    computeLocalErrorTables_logAdd exLibm 0 (dbl (3 / 5)) = some (dbl (7 / 10)) := by
  have h1 : OP_DIVIDE (dbl (3 / 5)) (0 : Val) = some (dbl (3 / 5)) := by
    show OP_DIVIDE (dbl (3 / 5)) (dbl 0) = _
    rw [OP_DIVIDE_dbl]
    norm_num
  have h2 : exLibm.pow10D (dbl (3 / 5)) = dbl 4 := by
    show dbl (exLibm.pow10 (3 / 5)) = _
    norm_num [exLibm]
  have h3 : addDouble (1 : Val) (dbl 4) = some (dbl 5) := by
    show addDouble (dbl 1) (dbl 4) = _
    rw [addDouble_dbl]
    norm_num
  have h4 : exLibm.log10D (dbl 5) = some (dbl (7 / 10)) := by
    show (if (5 : ℚ) < 0 then none
      else if (5 : ℚ) = 0 then some ⊥
      else some (dbl (exLibm.log10 5))) = _
    norm_num [exLibm]
  have h5 : addDouble (0 : Val) (dbl (7 / 10)) = some (dbl (7 / 10)) := by
    show addDouble (dbl 0) (dbl (7 / 10)) = _
    rw [addDouble_dbl]
    norm_num
  unfold computeLocalErrorTables_logAdd
  simp only [h1, Option.bind, h2, h3, h4, h5]

/-- The estimation of bucket 0 of `exBelow` within `computeLocalErrorTables`,
with the table limit 3 and the total limit 6. -/
theorem exBelow_call :
    exBelow.computeLocalErrorTables_call exExternals exLibm {} (fun _ _ _ => 0) true
        (dbl 6) (dbl 3) 0 =
      some (({ exBelow with
          _BucketErrorQuality := Function.update exBelow._BucketErrorQuality 0 (-1),
          _Stats_EnforcedPseudoWidth := 2 } :
          MiniBucketElimLH).computeLocalErrorTable_finish 0 true true [1, 2] 4
        (dbl (3 / 5))
        { tuple := [1, 1],
          total_sample_weight_noninf := 2,
          avgError_non_inf := 6,
          avgExact_non_inf := 0,
          errorAbsMin := dbl (-1),
          errorAbsMax := dbl 3,
          numErrorItems := 4,
          avgError := some (dbl 4),
          avgExact := some (dbl 0),
          nEntriesGenerated := 4,
          newTable := some [some (dbl (-1)), some (dbl (-1)), some (dbl 3), some (dbl 3)] }) := by
  unfold MiniBucketElimLH.computeLocalErrorTables_call
  have hpre : exBelow._BucketErrorFnTableSizes_Precomputed = 0 := rfl
  have h63 : ¬ dbl 6 < dbl 3 := by
    rw [dbl_lt_dbl]
    norm_num
  have h30 : ¬ dbl 3 ≤ (0 : Val) := by
    rw [dbl_le_zero]
    norm_num
  have hopt : ¬ (exBelow.m_options.aobf_subordering = "sampled_be" ∨
      exBelow.m_options.aobf_subordering = "sampled_st_be") := by decide
  have hfull : exBelow.m_options.lookahead_use_full_subtree = false := rfl
  simp only [hpre, exLibm_table_space_left, h63, if_false, h30, hopt, hfull,
    Bool.false_eq_true]
  exact exBelow_computeLocalErrorTable

/-- C20, the code at a failing input. At the entries of bucket 0 of `exBelow`
where variable 1 is 0 the mini-bucket value -1 lies below the exact bucket
value 0; the estimation of the bucket in `computeLocalErrorTables` stores the
error function whose entry there is -1, and `getLocalError` returns this
negative value: line 1294 stores `e` as it was computed. -/
theorem computeLocalErrorTable_stores_negative :
    computeLocalErrorTable_tableentryMB (exBelow._MiniBuckets 0)
        (tupleAssignment [1, 2] [0, 0]) <
      computeLocalErrorTable_tableentryB exBelow.m_problem (exBelow._BucketFunctions 0) 0
        (tupleAssignment [1, 2] [0, 0]) ∧
    ∃ s n, computeLocalErrorTables_step exExternals exLibm {} (fun _ _ _ => 0) true
        (dbl 6) (dbl 3) (exBelow, 0) 0 = some (s, n) ∧
      s._BucketErrorFunctions 0 =
        some (FunctionBayes 0 exProblem [1, 2] [dbl (-1), dbl (-1), dbl 3, dbl 3] 4) ∧
      s.getLocalError 0 (fun _ => 0) = some (dbl (-1)) ∧
      dbl (-1) < (0 : Val) := by
  refine ⟨?_, ?_⟩
  · rw [exBelow_MB, show exBelow.m_problem = exProblem from rfl,
      show exBelow._BucketFunctions 0 = [exZ1, exZ2] from rfl, exBelow_B, if_pos rfl,
      dbl_lt_dbl]
    norm_num
  · have hpos := DBL_MIN_pos
    have h1 : ¬ max DBL_MIN (0 : ℚ) < -1 := threshold_not_lt 0
    have h2 : ¬ divByCount (dbl 4) 4 ≤ dbl DBL_MIN := by
      show ¬ dbl (4 / 4) ≤ dbl DBL_MIN
      rw [dbl_le_dbl, not_le]
      unfold DBL_MIN
      rw [div_self (by norm_num)]
      apply div_lt_self one_pos
      exact one_lt_pow₀ (by norm_num) (by norm_num)
    have h3 : (dbl (3 / 5) : Val) > 0 := by
      rw [gt_iff_lt, zero_lt_dbl]
      norm_num
    have hstep : ∃ s n, computeLocalErrorTables_step exExternals exLibm {}
          (fun _ _ _ => 0) true (dbl 6) (dbl 3) (exBelow, 0) 0 = some (s, n) ∧
        s._BucketErrorFunctions 0 =
          some (FunctionBayes 0 exProblem [1, 2] [dbl (-1), dbl (-1), dbl 3, dbl 3] 4) ∧
        s._BucketErrorQuality 0 = 1 ∧ s._MiniBuckets 0 = exBelow._MiniBuckets 0 := by
      unfold computeLocalErrorTables_step
      simp only [exBelow_call]
      simp [MiniBucketElimLH.computeLocalErrorTable_finish,
        computeLocalErrorTable_classify, exBelow, h1, h2, h3, exLibm_logAdd, leNaN,
        computeLocalErrorTables_stored, ErrorFunctionBayes.toFunction, tableValues]
    obtain ⟨s, n, hs, hf, hq, hmb⟩ := hstep
    refine ⟨s, n, hs, hf, ?_, ?_⟩
    · unfold MiniBucketElimLH.getLocalError
      have hlen : ¬ ((s._MiniBuckets 0).length ≤ 1 ∨ 0 = s._BucketErrorQuality 0) := by
        rw [hmb, hq]
        decide
      simp only [hlen, if_false, hf]
      simp [FunctionBayes, tableIndex]
    · rw [dbl_lt_zero]
      norm_num

/-! ### A row of two zeros -/

/-- The scopes of bucket 0 of `exZeroRow`. -/
theorem exZeroRow_scopes :
    computeMBOutFnArgsVectorPtrMap_scope (some 0) (exZeroRow._BucketFunctions 0) = [1, 2] ∧
    computeMBOutFnArgsVectorPtrMap_scope none
      (collect_funs_MB (exZeroRow._MiniBuckets 0)) = [1, 2] ∧
    ((exZeroRow._BucketScopes 0).erase 0).sort (fun a b => a ≤ b) = [1, 2] :=
  ⟨sort_eq_of_toFinset _ _ (by decide) (by decide),
    sort_eq_of_toFinset _ _ (by decide) (by decide),
    sort_eq_of_toFinset _ _ (by decide) (by decide)⟩

/-- The exact value of bucket 0 of `exZeroRow` at the entries of its table:
the semiring zero where variable 1 has the value 0. -/
theorem exZeroRow_B (t0 t1 : Int) (h0 : t0 = 0 ∨ t0 = 1) (h1 : t1 = 0 ∨ t1 = 1) :
    computeLocalErrorTable_tableentryB exProblem (exZeroRow._BucketFunctions 0) 0
      (tupleAssignment [1, 2] [t0, t1]) = if t0 = 0 then ⊥ else dbl 0 := by
  rcases h0 with rfl | rfl <;> rcases h1 with rfl | rfl <;>
  simp [computeLocalErrorTable_tableentryB, maxOverVar, combineValues, exProblem,
    exZeroRow, exH1, exZ2, OP_TIMES, ELEM_ONE, ELEM_ZERO, List.range_succ, Function.update,
    tupleAssignment, List.indexOf_cons, dbl_add]

/-- The mini-bucket value of bucket 0 of `exZeroRow` at the entries of its
table: the semiring zero where variable 1 has the value 0. -/
theorem exZeroRow_MB (t0 t1 : Int) (h0 : t0 = 0 ∨ t0 = 1) (h1 : t1 = 0 ∨ t1 = 1) :
    computeLocalErrorTable_tableentryMB (exZeroRow._MiniBuckets 0)
      (tupleAssignment [1, 2] [t0, t1]) = if t0 = 0 then ⊥ else dbl 0 := by
  rcases h0 with rfl | rfl <;> rcases h1 with rfl | rfl <;>
  simp [computeLocalErrorTable_tableentryMB, collect_funs_MB, exZeroRow,
    MiniBucket.eliminate, MiniBucket.addFunction, MiniBucket.new, maxOverVar,
    combineValues, exProblem, exH1, exZ2, OP_TIMES, ELEM_ONE, ELEM_ZERO,
    List.range_succ, Function.update, tupleAssignment, List.indexOf_cons, dbl_add]

/-- The loop of `computeLocalErrorTable` over the 4 entries of bucket 0 of
`exZeroRow`: the errors are NaN, NaN, 0, 0, and the sum of the errors is NaN. -/
theorem exZeroRow_loop :
    (List.range 4).foldl
      (computeLocalErrorTable_loopStep exProblem exLibm {} (fun _ _ _ => 0) 0
        (exZeroRow._BucketFunctions 0) (exZeroRow._MiniBuckets 0) [1, 2] [1, 2] [2, 2]
        true)
      { tuple := [0, -1], newTable := some [] } =
      { tuple := [1, 1],
        total_sample_weight_noninf := 2,
        avgError_non_inf := 0,
        avgExact_non_inf := 0,
        errorAbsMin := dbl 0,
        errorAbsMax := dbl 0,
        numErrorItems := 4,
        avgError := none,
        avgExact := some ⊥,
        nEntriesGenerated := 4,
        newTable := some [none, none, some (dbl 0), some (dbl 0)] } := by
  have h0 : (some 0 : Option Val) = some (dbl 0) := rfl
  have e1 : OP_DIVIDE (⊥ : Val) ⊥ = none := rfl
  have e2 : addDouble (dbl 0) ⊥ = some ⊥ := rfl
  have e3 : addDouble ⊥ ⊥ = some ⊥ := rfl
  have e4 : addDouble ⊥ (dbl 0) = some ⊥ := rfl
  simp only [List.range_succ, List.range_zero, List.nil_append, List.cons_append,
    List.foldl_cons, List.foldl_nil, computeLocalErrorTable_loopStep, if_true,
    computeLocalErrorTable_nextTuple, computeLocalErrorTable_nextTupleRev,
    List.reverse_cons, List.reverse_nil, h0]
  norm_num [computeLocalErrorTable_nextTupleRev, exZeroRow_B, exZeroRow_MB, OP_DIVIDE_dbl,
    addDouble_dbl, finiteValue_dbl, dbl_ne_bot, dbl_lt_top, dbl_le_dbl, dbl_lt_dbl,
    bot_lt_dbl, OUR_OWN_nInfinity, zero_le_dbl, addNaN, e1, e2, e3, e4]

/-- What `computeLocalErrorTable` returns for bucket 0 of `exZeroRow`. -/
theorem exZeroRow_computeLocalErrorTable :
    exZeroRow.computeLocalErrorTable exLibm {} (fun _ _ _ => 0) 0 true true (dbl 3) =
      some (({ exZeroRow with _Stats_EnforcedPseudoWidth := 2 } :
          MiniBucketElimLH).computeLocalErrorTable_finish 0 true true [1, 2] 4
        (dbl (3 / 5))
        { tuple := [1, 1],
          total_sample_weight_noninf := 2,
          avgError_non_inf := 0,
          avgExact_non_inf := 0,
          errorAbsMin := dbl 0,
          errorAbsMax := dbl 0,
          numErrorItems := 4,
          avgError := none,
          avgExact := some ⊥,
          nEntriesGenerated := 4,
          newTable := some [none, none, some (dbl 0), some (dbl 0)] }) := by
  obtain ⟨hB, hMB, hscope⟩ := exZeroRow_scopes
  have hlt : ¬ dbl (3 / 5) > dbl 3 := by
    rw [gt_iff_lt, dbl_lt_dbl]
    norm_num
  have h := computeLocalErrorTable_run exZeroRow exLibm {} (fun _ _ _ => 0) 0 true true
    (dbl 3) [1, 2] (dbl (3 / 5)) 1000
    (by decide)
    (by rw [gt_iff_lt, dbl_lt_dbl]; norm_num)
    (by simp)
    hscope exLibm_TableSizeLog
    (by rw [dbl_lt_zero]; norm_num)
    (by simp)
    (by rw [show exZeroRow.m_problem = exProblem from rfl, exProblem_TableSize]; decide)
    (by decide) (by decide)
    (by rw [hB]) (by rw [hMB]) (by decide) exLibm_requested
  rw [h, hB, hMB, show exZeroRow.m_problem = exProblem from rfl, exProblem_TableSize]
  simp only [if_neg hlt]
  exact congrArg
    (fun st => some (MiniBucketElimLH.computeLocalErrorTable_finish
      ({ exZeroRow with _Stats_EnforcedPseudoWidth := 2 } : MiniBucketElimLH) 0 true true
      [1, 2] 4 (dbl (3 / 5)) st))
    exZeroRow_loop

/-- C1, the code at a failing input. In bucket 0 of `exZeroRow` the two
mini-buckets partition the functions of the bucket and their outputs are the
maxima over the bucket variable.  At the entry where the variables 1 and 2 have
the value 0 the exact bucket value and the combined mini-bucket value are both
the semiring zero `-inf`, and the entry error `e = tableentryMB - tableentryB`
of line 1256 is NaN, not a number that is at least 0: `computeLocalErrorTable`
returns with the table NaN, NaN, 0, 0 and the average error NaN.  The statement
that sets `e = 0.0` where `tableentryMB <= tableentryB` is inside the
commented-out block of lines 1263-1285. -/
theorem computeLocalErrorTable_e_nan_failing :
    ((((exZeroRow._MiniBuckets 0).map (fun mb => mb.m_functions)).flatten).Perm
        (exZeroRow._BucketFunctions 0) ∧
      (∀ mb ∈ exZeroRow._MiniBuckets 0, mb.m_bucketVar = 0) ∧
      (∀ mb ∈ exZeroRow._MiniBuckets 0, ∃ fMB, mb.m_outputFn = some fMB ∧
        ∀ t, fMB.getValue t = (mb.eliminate exProblem).getValue t)) ∧
    computeLocalErrorTable_tableentryMB (exZeroRow._MiniBuckets 0)
      (tupleAssignment [1, 2] [0, 0]) = ⊥ ∧
    computeLocalErrorTable_tableentryB exProblem (exZeroRow._BucketFunctions 0) 0
      (tupleAssignment [1, 2] [0, 0]) = ⊥ ∧
    computeLocalErrorTable_e exProblem (exZeroRow._BucketFunctions 0)
      (exZeroRow._MiniBuckets 0) 0 (tupleAssignment [1, 2] [0, 0]) = none ∧
    ∃ r, exZeroRow.computeLocalErrorTable exLibm {} (fun _ _ _ => 0) 0 true true
        (dbl 3) = some r ∧
      r.errorFn.map (fun f => f.table) = some [none, none, some (dbl 0), some (dbl 0)] ∧
      r.avgError = none ∧
      r.state._BucketErrorQuality 0 = 1 := by
  have hMB := exZeroRow_MB 0 0 (Or.inl rfl) (Or.inl rfl)
  have hB := exZeroRow_B 0 0 (Or.inl rfl) (Or.inl rfl)
  rw [if_pos rfl] at hMB hB
  refine ⟨⟨List.Perm.refl _, ?_, ?_⟩, hMB, hB, ?_, ?_⟩
  · intro mb hmb
    simp only [exZeroRow, if_true, List.mem_cons, List.mem_singleton, List.not_mem_nil,
      or_false] at hmb
    rcases hmb with rfl | rfl <;> rfl
  · intro mb hmb
    simp only [exZeroRow, if_true, List.mem_cons, List.mem_singleton, List.not_mem_nil,
      or_false] at hmb
    rcases hmb with rfl | rfl <;> exact ⟨_, rfl, fun _ => rfl⟩
  · unfold computeLocalErrorTable_e
    rw [hMB, hB]
    rfl
  · have hpos := DBL_MIN_pos
    have h1 : ¬ max DBL_MIN (0 : ℚ) < -1 := threshold_not_lt 0
    refine ⟨_, exZeroRow_computeLocalErrorTable, ?_, ?_, ?_⟩ <;>
    simp [MiniBucketElimLH.computeLocalErrorTable_finish, computeLocalErrorTable_classify,
      exZeroRow, h1, leNaN]

/-! ### A sampled table without error -/

/-- The exact value of bucket 0 of `exBig` is 0 at every entry. -/
theorem exBig_B (a : Assignment) :
    computeLocalErrorTable_tableentryB exBigProblem [exZ1, exZ2] 0 a = dbl 0 := by
  simp [computeLocalErrorTable_tableentryB, maxOverVar, combineValues, exBigProblem,
    exZ1, exZ2, OP_TIMES, ELEM_ONE, ELEM_ZERO, List.range_succ, Function.update]
  rw [dbl_add, add_zero]

/-- The mini-bucket value of bucket 0 of `exBig` is 0 at every entry. -/
theorem exBig_MB (a : Assignment) :
    computeLocalErrorTable_tableentryMB (exBig._MiniBuckets 0) a = dbl 0 := by
  simp [computeLocalErrorTable_tableentryMB, collect_funs_MB, exBig,
    MiniBucket.addFunction, MiniBucket.new, combineValues, exZero1, exZero2, OP_TIMES,
    ELEM_ONE]
  rw [dbl_add, add_zero]

/-- The sampling loop of `computeLocalErrorTable` on bucket 0 of `exBig`: all
sums of errors and of exact values stay 0. -/
theorem exBig_loop (js : List Nat) :
    ∀ st : LocalErrorTableLoop, st.avgError = some (dbl 0) → st.avgExact = some (dbl 0) →
      st.avgError_non_inf = 0 → st.avgExact_non_inf = 0 → st.newTable = none →
      ∃ st', js.foldl
          (computeLocalErrorTable_loopStep exBigProblem exLibm {} (fun _ _ _ => 0) 0
            [exZ1, exZ2] (exBig._MiniBuckets 0) [1, 2] [1, 2] [2000, 2] false) st =
          st' ∧
        st'.avgError = some (dbl 0) ∧ st'.avgExact = some (dbl 0) ∧
        st'.avgError_non_inf = 0 ∧
        st'.avgExact_non_inf = 0 ∧ st'.newTable = none ∧
        st'.numErrorItems = st.numErrorItems + js.length := by
  induction js with
  | nil =>
    intro st h1 h2 h3 h4 h5
    exact ⟨st, rfl, h1, h2, h3, h4, h5, by simp⟩
  | cons j js ih =>
    intro st h1 h2 h3 h4 h5
    have hstep : ∃ st1, computeLocalErrorTable_loopStep exBigProblem exLibm {}
          (fun _ _ _ => 0) 0 [exZ1, exZ2] (exBig._MiniBuckets 0) [1, 2] [1, 2] [2000, 2]
          false st j = st1 ∧
        st1.avgError = some (dbl 0) ∧ st1.avgExact = some (dbl 0) ∧
        st1.avgError_non_inf = 0 ∧
        st1.avgExact_non_inf = 0 ∧ st1.newTable = none ∧
        st1.numErrorItems = st.numErrorItems + 1 := by
      refine ⟨_, rfl, ?_⟩
      unfold computeLocalErrorTable_loopStep
      simp only [exBig_B, exBig_MB, OP_DIVIDE_dbl, h1, h2, addNaN, addDouble_dbl, h3, h4,
        h5, finiteValue_dbl, Option.getD_some, Option.map_none']
      norm_num
    obtain ⟨st1, e1, a1, a2, a3, a4, a5, a6⟩ := hstep
    obtain ⟨st', e2, b1, b2, b3, b4, b5, b6⟩ := ih st1 a1 a2 a3 a4 a5
    refine ⟨st', ?_, b1, b2, b3, b4, b5, ?_⟩
    · rw [List.foldl_cons, e1]
      exact e2
    · rw [b6, a6, List.length_cons]
      push_cast
      ring

/-- The logarithm of the table size of bucket 0 of `exBig`. -/
theorem exBig_TableSizeLog :
    computeLocalErrorTable_TableSizeLog exLibm exBigProblem [1, 2] =
      some (dbl (18 / 5)) := by
  simp only [computeLocalErrorTable_TableSizeLog, List.foldlM_cons, List.foldlM_nil,
    Libm.log10_int, exBigProblem, exLibm]
  norm_num [dbl_lt_zero, dbl_add, Option.bind]

/-- The table of bucket 0 of `exBig` has 4000 entries. -/
theorem exBig_TableSize :
    computeLocalErrorTable_TableSize exBigProblem [1, 2] = 4000 := by
  simp [computeLocalErrorTable_TableSize, exBigProblem, wrapInt64]

/-- C19 as stated fails: Bucket 0 of `exBig` has two mini-buckets and a
table of 4000 entries, more than the table limit allows: `computeLocalErrorTable`
samples 1024 entries, finds no error and assigns the quality 0, although the
table was not fully enumerated. -/
theorem computeLocalErrorTable_quality_counterexample :
    ∃ r, exBig.computeLocalErrorTable exLibm {} (fun _ _ _ => 0) 0 true true
        (dbl 3) = some r ∧
      1 < (exBig._MiniBuckets 0).length ∧
      r.nEntriesGenerated = 1024 ∧
      (r.nEntriesGenerated : Int) <
        computeLocalErrorTable_TableSize exBig.m_problem
          (((exBig._BucketScopes 0).erase 0).sort (fun a b => a ≤ b)) ∧
      r.state._BucketErrorQuality 0 = 0 := by
  have hscope : ((exBig._BucketScopes 0).erase 0).sort (fun a b => a ≤ b) = [1, 2] :=
    sort_eq_of_toFinset _ _ (by decide) (by decide)
  have hB : computeMBOutFnArgsVectorPtrMap_scope (some 0) (exBig._BucketFunctions 0) =
      [1, 2] := sort_eq_of_toFinset _ _ (by decide) (by decide)
  have hMB : computeMBOutFnArgsVectorPtrMap_scope none
      (collect_funs_MB (exBig._MiniBuckets 0)) = [1, 2] :=
    sort_eq_of_toFinset _ _ (by decide) (by decide)
  have hgt : dbl (18 / 5) > dbl 3 := by
    rw [gt_iff_lt, dbl_lt_dbl]
    norm_num
  have hp : exBig.m_problem = exBigProblem := rfl
  obtain ⟨st, hst, a1, a2, a3, a4, a5, a6⟩ := exBig_loop (List.range 1024)
    { tuple := [0, -1] } rfl rfl rfl rfl rfl
  obtain ⟨c1, c2, _⟩ := computeLocalErrorTable_loop_counts exBigProblem exLibm {}
    (fun _ _ _ => 0) 0 [exZ1, exZ2] (exBig._MiniBuckets 0) [1, 2] [1, 2] [2000, 2] false
    (List.range 1024) { tuple := [0, -1] }
  rw [hst] at c1 c2
  have h := computeLocalErrorTable_run exBig exLibm {} (fun _ _ _ => 0) 0 true true
    (dbl 3) [1, 2] (dbl (18 / 5)) 1000
    (by decide)
    (by rw [gt_iff_lt, dbl_lt_dbl]; norm_num)
    (by simp)
    hscope (by rw [hp]; exact exBig_TableSizeLog)
    (by rw [dbl_lt_zero]; norm_num)
    (by simp)
    (by rw [hp, exBig_TableSize]; decide)
    (by decide) (by decide)
    (by rw [hB]) (by rw [hMB]) (by decide) exLibm_requested
  rw [hB, hMB, hp, exBig_TableSize] at h
  simp only [if_pos hgt] at h
  have h2 : exBig.computeLocalErrorTable exLibm {} (fun _ _ _ => 0) 0 true true (dbl 3) =
      some ((if exBig._Stats_EnforcedPseudoWidth < ([1, 2] : List Nat).length then
            { exBig with _Stats_EnforcedPseudoWidth := ([1, 2] : List Nat).length }
          else exBig).computeLocalErrorTable_finish 0 false false [1, 2] 4000
        (dbl (18 / 5)) st) := by
    rw [h, ← hst]
    rfl
  have hgen : st.nEntriesGenerated = 1024 := by
    rw [c2, List.length_range]
  refine ⟨_, h2, by decide, ?_, ?_, ?_⟩
  · rw [computeLocalErrorTable_finish_nEntriesGenerated, hgen]
  · rw [computeLocalErrorTable_finish_nEntriesGenerated, hgen, hscope, hp, exBig_TableSize]
    norm_num
  · have hpos := DBL_MIN_pos
    have h1 : ¬ max DBL_MIN (0 : ℚ) < -1 := threshold_not_lt 0
    have hnum : st.numErrorItems = 1024 := by
      rw [a6, List.length_range]
      norm_num
    have h2 : divByCount (dbl 0) 1024 ≤ dbl DBL_MIN := by
      show dbl (0 / 1024) ≤ dbl DBL_MIN
      rw [dbl_le_dbl, zero_div]
      exact le_of_lt hpos
    simp [MiniBucketElimLH.computeLocalErrorTable_finish, computeLocalErrorTable_classify,
      exBig, h1, h2, a1, a3, a4, hnum, hgen, c1, leNaN]

/-! ### Buckets with at most one mini-bucket -/

/-- C17, amended. For a variable whose bucket has at most one mini-bucket, the
estimation in full-table mode (`computeLocalErrorTable`, which
`computeLocalErrorTables` calls when the ordering-score source is neither
"sampled_be" nor "sampled_st_be") generates no entries and builds no error
function, and classifies the quality of the bucket as 0 when the full-subtree
option is off and as 99 when it is on. -/
theorem computeLocalErrorTables_single_minibucket (self : MiniBucketElimLH)
    (ext : LocalErrorExternals) (libm : Libm) (flags : Flags)
    (rand : Nat → Nat → Nat → Int) (build_tables : Bool)
    (TotalMemoryLimitAsNumElementsLog TableMemoryLimitAsNumElementsLog : Val)
    (v : Nat) (space : Val)
    (hmb : (self._MiniBuckets v).length ≤ 1)
    (hmode : ¬ (self.m_options.aobf_subordering = "sampled_be" ∨
      self.m_options.aobf_subordering = "sampled_st_be"))
    (hspace : computeLocalErrorTables_table_space_left libm
      TotalMemoryLimitAsNumElementsLog self._BucketErrorFnTableSizes_Precomputed =
        some space) :
    ∃ r, self.computeLocalErrorTables_call ext libm flags rand build_tables
        TotalMemoryLimitAsNumElementsLog TableMemoryLimitAsNumElementsLog v = some r ∧
      r.nEntriesGenerated = 0 ∧ r.errorFn = none ∧
      r.state._BucketErrorQuality v =
        if self.m_options.lookahead_use_full_subtree = true then 99 else 0 := by
  unfold MiniBucketElimLH.computeLocalErrorTables_call
    MiniBucketElimLH.computeLocalErrorTable
  simp only [hspace, hmode, if_false, hmb, if_true]
  exact ⟨_, rfl, rfl, rfl, by simp⟩

/-- C17 at variable 1 of `exFresh`, whose bucket has no mini-bucket, without a
total limit. -/
theorem computeLocalErrorTables_single_minibucket_witness :
    ∃ r, exFresh.computeLocalErrorTables_call exExternals exLibm {} (fun _ _ _ => 0)
        true 0 (dbl 3) 1 = some r ∧
      r.nEntriesGenerated = 0 ∧ r.errorFn = none ∧
      r.state._BucketErrorQuality 1 =
        if exFresh.m_options.lookahead_use_full_subtree = true then 99 else 0 :=
  computeLocalErrorTables_single_minibucket exFresh exExternals exLibm {}
    (fun _ _ _ => 0) true 0 (dbl 3) 1 ⊥ (by decide) (by decide)
    (by simp [computeLocalErrorTables_table_space_left, OUR_OWN_nInfinity])

/-- C17 as stated fails: With the full-subtree option on, the estimation of
variable 1 of `exFullSubtree`, whose bucket has no mini-bucket, classifies the
quality of the bucket as 99, not 0. -/
theorem computeLocalErrorTables_single_minibucket_counterexample :
    (exFullSubtree._MiniBuckets 1).length ≤ 1 ∧
    ∃ r, exFullSubtree.computeLocalErrorTables_call exExternals exLibm {}
        (fun _ _ _ => 0) true 0 (dbl 3) 1 = some r ∧
      r.state._BucketErrorQuality 1 = 99 := by
  refine ⟨by decide, ?_⟩
  unfold MiniBucketElimLH.computeLocalErrorTables_call
    MiniBucketElimLH.computeLocalErrorTable
  have hspace : computeLocalErrorTables_table_space_left exLibm 0
      exFullSubtree._BucketErrorFnTableSizes_Precomputed = some ⊥ := by
    simp [computeLocalErrorTables_table_space_left, OUR_OWN_nInfinity]
  have hmode : ¬ (exFullSubtree.m_options.aobf_subordering = "sampled_be" ∨
      exFullSubtree.m_options.aobf_subordering = "sampled_st_be") := by decide
  have hmb : (exFullSubtree._MiniBuckets 1).length ≤ 1 := by decide
  simp only [hspace, hmode, if_false, hmb, if_true]
  exact ⟨_, rfl, by simp [exFullSubtree]⟩

/-- In sliced mode the estimation of a bucket with at most one mini-bucket
generates no entries either, builds a table of zeros, and leaves the quality
tag at -1, the value to which `computeLocalErrorTables` resets it. -/
theorem computeLocalErrorTables_call_sliced_single (self : MiniBucketElimLH)
    (ext : LocalErrorExternals) (libm : Libm) (flags : Flags)
    (rand : Nat → Nat → Nat → Int) (build_tables : Bool)
    (TotalMemoryLimitAsNumElementsLog TableMemoryLimitAsNumElementsLog : Val)
    (v : Nat) (r : LocalErrorTableResult)
    (hmb : (self._MiniBuckets v).length ≤ 1)
    (hmode : self.m_options.aobf_subordering = "sampled_be" ∨
      self.m_options.aobf_subordering = "sampled_st_be")
    (h : self.computeLocalErrorTables_call ext libm flags rand build_tables
        TotalMemoryLimitAsNumElementsLog TableMemoryLimitAsNumElementsLog v = some r) :
    r.nEntriesGenerated = 0 ∧ r.state._BucketErrorQuality v = -1 := by
  unfold MiniBucketElimLH.computeLocalErrorTables_call at h
  simp only [hmode, if_true] at h
  cases hs : computeLocalErrorTables_table_space_left libm
      TotalMemoryLimitAsNumElementsLog self._BucketErrorFnTableSizes_Precomputed with
  | none => simp [hs] at h
  | some space =>
    simp only [hs] at h
    revert h
    generalize MiniBucketElimLH.computeLocalErrorTables_sliceScope _ _ _ _ = sc
    intro h
    cases sc with
    | none => simp at h
    | some output_scope =>
      simp only [MiniBucketElimLH.computeLocalErrorTableSlice, hmb, if_true] at h
      split_ifs at h
      simp only [Option.some.injEq] at h
      subst h
      exact ⟨rfl, by simp⟩

/-! ### The ordering score "sampled_be" -/

/-- With the library values of `exLibm` an accumulation in logarithmic space
of finite values is finite. -/
theorem exLibm_logAdd_finite (p x : ℚ) :
    ∃ y, computeLocalErrorTables_logAdd exLibm (dbl p) (dbl x) = some (dbl y) := by
  have hpow : ∀ q : ℚ, 0 < exLibm.pow10 q := by
    intro q
    simp only [exLibm]
    split_ifs <;> norm_num
  have h1 : addDouble (1 : Val) (dbl (exLibm.pow10 (x - p))) =
      some (dbl (1 + exLibm.pow10 (x - p))) := by
    show addDouble (dbl 1) _ = _
    rw [addDouble_dbl]
  have h2 : exLibm.log10D (dbl (1 + exLibm.pow10 (x - p))) =
      some (dbl (exLibm.log10 (1 + exLibm.pow10 (x - p)))) := by
    have hp := hpow (x - p)
    show (if 1 + exLibm.pow10 (x - p) < 0 then none
      else if 1 + exLibm.pow10 (x - p) = 0 then some ⊥
      else some (dbl (exLibm.log10 (1 + exLibm.pow10 (x - p))))) = _
    rw [if_neg (by linarith), if_neg (by linarith)]
  refine ⟨p + exLibm.log10 (1 + exLibm.pow10 (x - p)), ?_⟩
  unfold computeLocalErrorTables_logAdd
  have h0 : exLibm.pow10D (dbl (x - p)) = dbl (exLibm.pow10 (x - p)) := rfl
  simp only [OP_DIVIDE_dbl, Option.some_bind, h0, h1, h2, addDouble_dbl]

/-- `ComputeSubtreeErrors` changes only the scalar subtree errors. -/
theorem ComputeSubtreeErrors_frame (self s' : MiniBucketElimLH)
    (be : Nat → WithBot ℚ) (h : self.ComputeSubtreeErrors be = some s') :
    s'._TrueSlicedBucketErrorFunctions = self._TrueSlicedBucketErrorFunctions ∧
      s'._BucketErrorFunctions = self._BucketErrorFunctions ∧
      s'.m_options = self.m_options := by
  unfold MiniBucketElimLH.ComputeSubtreeErrors at h
  simp only [Option.map_eq_some'] at h
  obtain ⟨se, _, rfl⟩ := h
  exact ⟨rfl, rfl, rfl⟩

/-- The estimation of a bucket without mini-buckets of the small model in
sliced mode: an error function of zeros is stored for it. -/
theorem exSampledBe_step_single (s : MiniBucketElimLH) (n v : Nat) (p : ℚ)
    (hv : v = 1 ∨ v = 2)
    (h1 : s.m_problem = exProblem) (h2 : s.m_pseudotree = exTree)
    (h3 : s.m_ibound = 2) (h4 : s._MiniBuckets = exScoped._MiniBuckets)
    (h5 : s._BucketScopes = exScoped._BucketScopes)
    (h6 : s.m_options = exSampledBe.m_options)
    (h7 : s._TrueSlicedBucketErrorFunctions = fun _ => none)
    (h8 : s._BucketErrorFnTableSizes_Precomputed = dbl p)
    (h9 : s._BucketFunctions = exScoped._BucketFunctions) :
    ∃ s', computeLocalErrorTables_step exExternals exLibm {} (fun _ _ _ => 0) true 0
        (dbl 3) (s, n) v = some (s', n) ∧
      s'.m_problem = exProblem ∧ s'.m_pseudotree = exTree ∧ s'.m_ibound = 2 ∧
      s'._MiniBuckets = exScoped._MiniBuckets ∧
      s'._BucketScopes = exScoped._BucketScopes ∧
      s'.m_options = exSampledBe.m_options ∧
      (s'._TrueSlicedBucketErrorFunctions = fun _ => none) ∧
      s'._BucketErrorFnTableSizes_Precomputed = dbl p ∧
      s'._BucketFunctions = exScoped._BucketFunctions := by
  have hspace : computeLocalErrorTables_table_space_left exLibm 0 (dbl p) = some ⊥ := by
    simp [computeLocalErrorTables_table_space_left, OUR_OWN_nInfinity]
  have hmode : s.m_options.aobf_subordering = "sampled_be" ∨
      s.m_options.aobf_subordering = "sampled_st_be" := by
    rw [h6]
    exact Or.inl rfl
  have hsc : s._BucketScopes v = ∅ := by
    rw [h5]
    rcases hv with rfl | rfl <;> rfl
  have hmb : s._MiniBuckets v = [] := by
    rw [h4]
    rcases hv with rfl | rfl <;> rfl
  have h30 : (0 : Val) ≤ dbl 3 := by
    rw [zero_le_dbl]
    norm_num
  unfold computeLocalErrorTables_step MiniBucketElimLH.computeLocalErrorTables_call
  simp only [h8, hspace, hmode, if_true, MiniBucketElimLH.computeLocalErrorTables_sliceScope,
    hsc, h2, h6]
  simp [computeLocalErrorTables_sliceLoop, exTree, exSampledBe, h30,
    MiniBucketElimLH.computeLocalErrorTableSlice, hsc, hmb, h3,
    computeLocalErrorTable_TableSize, OUR_OWN_nInfinity, h1, h2, h4, h5, h6, h7, h8, h9,
    computeLocalErrorTables_stored, ErrorFunctionBayes.toFunction, tableValues]

/-- The estimation of bucket 0 of the small model in sliced mode: the error
function that the sampling builds is stored in `_BucketErrorFunctions`, and
`_TrueSlicedBucketErrorFunctions` is left as it was. -/
theorem exSampledBe_step_zero (s : MiniBucketElimLH) (n : Nat) (p : ℚ)
    (h1 : s.m_problem = exProblem) (h2 : s.m_pseudotree = exTree)
    (h3 : s.m_ibound = 2) (h4 : s._MiniBuckets = exScoped._MiniBuckets)
    (h5 : s._BucketScopes = exScoped._BucketScopes)
    (h6 : s.m_options = exSampledBe.m_options)
    (h7 : s._TrueSlicedBucketErrorFunctions = fun _ => none)
    (h8 : s._BucketErrorFnTableSizes_Precomputed = dbl p)
    (h9 : s._BucketFunctions = exScoped._BucketFunctions) :
    ∃ s' n' f, computeLocalErrorTables_step exExternals exLibm {} (fun _ _ _ => 0) true 0
        (dbl 3) (s, n) 0 = some (s', n') ∧
      s'.m_problem = exProblem ∧ s'.m_pseudotree = exTree ∧
      s'.m_options = exSampledBe.m_options ∧
      (s'._TrueSlicedBucketErrorFunctions = fun _ => none) ∧
      s'._BucketErrorFunctions 0 = some f ∧
      f.getValue (fun _ => 0) = dbl 3 := by
  have hspace : computeLocalErrorTables_table_space_left exLibm 0 (dbl p) = some ⊥ := by
    simp [computeLocalErrorTables_table_space_left, OUR_OWN_nInfinity]
  have hmode : s.m_options.aobf_subordering = "sampled_be" ∨
      s.m_options.aobf_subordering = "sampled_st_be" := by
    rw [h6]
    exact Or.inl rfl
  have hsc : s._BucketScopes 0 = {0, 1, 2} := by
    rw [h5]
    rfl
  have hsort : ({0, 1, 2} : Finset Nat).sort (fun a b => a ≤ b) = [0, 1, 2] :=
    sort_eq_of_toFinset _ _ (by decide) (by decide)
  have hcur : ([0, 1, 2] : List Nat).foldl
      (fun acc u => exLibm.addD acc (exLibm.log10_int (exProblem.getDomainSize u)))
      (0 : Val) = dbl (9 / 10) := by
    have e : exLibm.log10_int 2 = dbl (3 / 10) := by
      simp [Libm.log10_int, exLibm]
    simp only [List.foldl_cons, List.foldl_nil, exProblem, e]
    show exLibm.addD (exLibm.addD (exLibm.addD (dbl 0) (dbl (3 / 10))) (dbl (3 / 10)))
      (dbl (3 / 10)) = _
    rw [exLibm_addD, exLibm_addD, exLibm_addD]
    norm_num
  have hloop : computeLocalErrorTables_sliceLoop exLibm exProblem 0 2 (dbl 3) [0, 1, 2]
      {0, 1, 2} (dbl (9 / 10)) = some {0, 2} := by
    have e : exLibm.log10_int (exProblem.getDomainSize 1) = dbl (3 / 10) := by
      simp [Libm.log10_int, exLibm, exProblem]
    have c3 : ¬ (({0, 1, 2} : Finset Nat).card ≤ 2 ∧ dbl (9 / 10) ≤ dbl 3) := by
      intro h
      exact absurd h.1 (by decide)
    have c2 : (({0, 1, 2} : Finset Nat).erase 1).card ≤ 2 ∧ dbl (3 / 5) ≤ dbl 3 := by
      refine ⟨by decide, ?_⟩
      rw [dbl_le_dbl]
      norm_num
    have m1 : (1 : Nat) ≠ 0 ∧ 1 ∈ ({0, 1, 2} : Finset Nat) := by decide
    have hd : exLibm.subD (dbl (9 / 10)) (dbl (3 / 10)) = some (dbl (3 / 5)) := by
      rw [exLibm_subD]
      norm_num
    have her : (({0, 1, 2} : Finset Nat).erase 1) = {0, 2} := by decide
    rw [computeLocalErrorTables_sliceLoop, if_neg c3,
      if_neg (by simp : ¬ ((0 : Nat) ≠ 0 ∧ 0 ∈ ({0, 1, 2} : Finset Nat))),
      computeLocalErrorTables_sliceLoop, if_neg c3, if_pos m1, e, hd]
    simp only []
    rw [computeLocalErrorTables_sliceLoop, if_pos c2, her]
  have hcard : ¬ ({0, 2} : Finset Nat).card > 2 := by decide
  have hsub : ({0, 2} : Finset Nat) ⊆ {0, 1, 2} := by decide
  have hmb : ¬ (s._MiniBuckets 0).length ≤ 1 := by
    rw [h4]
    decide
  have hpos : (dbl (3 / 10) : Val) > 0 := by
    rw [gt_iff_lt, zero_lt_dbl]
    norm_num
  have hB : computeMBOutFnArgsVectorPtrMap_scope (some 0) (s._BucketFunctions 0) =
      [1, 2] := by
    rw [h9]
    exact sort_eq_of_toFinset _ _ (by decide) (by decide)
  have hMB : computeMBOutFnArgsVectorPtrMap_scope none
      (collect_funs_MB (s._MiniBuckets 0)) = [1, 2] := by
    rw [h4]
    exact sort_eq_of_toFinset _ _ (by decide) (by decide)
  have hjs : (({0, 1, 2} : Finset Nat).erase 0).sort (fun a b => a ≤ b) = [1, 2] :=
    sort_eq_of_toFinset _ _ (by decide) (by decide)
  obtain ⟨y, hy⟩ := exLibm_logAdd_finite p (3 / 10)
  unfold computeLocalErrorTables_step MiniBucketElimLH.computeLocalErrorTables_call
  simp only [h8, hspace, hmode, if_true, MiniBucketElimLH.computeLocalErrorTables_sliceScope,
    hsc, h2, h6, h1, h3, hsort, hcur]
  have hopt : min exSampledBe.m_options.bee_slice_sample_scope_size 2 = 2 := by decide
  have hdir : exSampledBe.m_options.bee_slice_sample_closest_first = false := rfl
  have hlim : (if (⊥ : Val) < dbl 3 then (⊥ : Val) else dbl 3) = ⊥ := by
    rw [if_pos (bot_lt_dbl 3)]
  simp only [hopt, hdir, hlim, bot_le, if_true, exTree, Bool.false_eq_true, if_false, hloop,
    MiniBucketElimLH.computeLocalErrorTableSlice, h3, hcard, hsc, hsub, not_true_eq_false,
    hmb, hB, hMB, hjs, ne_eq, exExternals]
  have hmode2 : exSampledBe.m_options.aobf_subordering = "sampled_be" ∨
      exSampledBe.m_options.aobf_subordering = "sampled_st_be" := Or.inl rfl
  simp [hpos, h8, hy, h1, h2, h6, h7, exTree, hmode2, computeLocalErrorTables_stored,
    ErrorFunctionBayes.toFunction, tableValues, FunctionBayes, tableIndex]

/-- C16, the code at a failing input. With the ordering-score source
"sampled_be", `computeLocalErrorTables` on `exSampledBe` computes for bucket 0,
which has two mini-buckets, an error function whose value is 3 and stores it in
`_BucketErrorFunctions[0]`; `getOrderingHeur` returns 0 for variable 0 all the
same: it reads `_TrueSlicedBucketErrorFunctions[0]`, which the build never
fills. -/
theorem getOrderingHeur_sampled_be_failing :
    ∃ s f, exSampledBe.computeLocalErrorTables exExternals exLibm {} (fun _ _ _ => 0)
        true 0 (dbl 3) = some s ∧
      s.m_options.aobf_subordering = "sampled_be" ∧
      s._BucketErrorFunctions 0 = some f ∧
      f.getValue (fun _ => 0) = dbl 3 ∧
      s.getOrderingHeur 0 (fun _ => 0) {} = some 0 := by
  obtain ⟨s2, e2, a1, a2, a3, a4, a5, a6, a7, a8, a9⟩ := exSampledBe_step_single
    { exExternals.deleteLocalErrorFNs exSampledBe with
      _BucketErrorFnTableSizes_Precomputed := dbl (-DBL_MIN),
      _nBucketsWithNonZeroBucketError := 0,
      _nBucketsWithMoreThan1MB :=
        (([0, 1, 2] : List Nat).reverse.filter
          (fun v => decide (((exExternals.deleteLocalErrorFNs
            exSampledBe)._MiniBuckets v).length > 1))).length }
    0 2 (-DBL_MIN) (Or.inr rfl) rfl rfl rfl rfl rfl rfl rfl rfl rfl
  obtain ⟨s3, e3, b1, b2, b3, b4, b5, b6, b7, b8, b9⟩ := exSampledBe_step_single s2 0 1
    (-DBL_MIN) (Or.inl rfl) a1 a2 a3 a4 a5 a6 a7 a8 a9
  obtain ⟨s4, n4, f, e4, c1, c2, c3, c4, c5, c6⟩ := exSampledBe_step_zero s3 0
    (-DBL_MIN) b1 b2 b3 b4 b5 b6 b7 b8 b9
  have hest : exSampledBe.computeLocalErrorTables_estimate exExternals exLibm {}
      (fun _ _ _ => 0) true 0 (dbl 3) = some (s4, n4) := by
    unfold MiniBucketElimLH.computeLocalErrorTables_estimate
    have hord : exExternals.findDfsOrder exSampledBe = [0, 1, 2] := rfl
    simp only [hord]
    show ([2, 1, 0] : List Nat).foldlM _ _ = _
    simp only [List.foldlM_cons, List.foldlM_nil, Option.bind_eq_bind]
    rw [e2]
    simp only [Option.some_bind]
    rw [e3]
    simp only [Option.some_bind]
    rw [e4]
    rfl
  obtain ⟨s5, e5, _, _⟩ := ComputeSubtreeErrors_returns s4 s4._BucketError_AbsAvg
    (by
      rw [c1, c2]
      decide)
    (by
      rw [c2]
      intro v hv hroot
      have hv2 : v = 0 ∨ v = 1 ∨ v = 2 := by
        simpa [exTree] using hv
      rcases hv2 with rfl | rfl | rfl
      · exact ⟨1, rfl, by decide⟩
      · exact ⟨2, rfl, by decide⟩
      · exact absurd rfl hroot)
  obtain ⟨d1, d2, d3⟩ := ComputeSubtreeErrors_frame s4 s5 _ e5
  have hopt : s5.m_options.aobf_subordering = "sampled_be" := by
    rw [d3, c3]
    rfl
  refine ⟨s5, f, ?_, hopt, ?_, c6, ?_⟩
  · unfold MiniBucketElimLH.computeLocalErrorTables
    simp only [hest]
    have hrel : ({} : Flags).aobf_subordering_use_relative_error = false := rfl
    simp only [hrel, Bool.false_eq_true, if_false, e5, hopt]
    rfl
  · rw [d2, c5]
  · unfold MiniBucketElimLH.getOrderingHeur
    have hts : s5._TrueSlicedBucketErrorFunctions 0 = none := by
      rw [d1, c4]
    simp only [hopt, hts]
    rfl

/-! ### `getLocalError` on the recompute path -/

/-- A list zipped with itself. -/
theorem zipWith_same {α β : Type} (f : α → α → β) (l : List α) :
    List.zipWith f l l = l.map (fun a => f a a) := by
  induction l with
  | nil => rfl
  | cons a l ih => simp [ih]

/-- The vector `sumVals` of `getLocalError` holds, for every value of `var`, the
combination of the bucket functions. -/
theorem getLocalError_sumVals_eq (funs_B : List Function) (assignment : Assignment)
    (var d : Nat) :
    getLocalError_sumVals funs_B assignment var d =
      (List.range d).map
        (fun (i : Nat) => combineValues funs_B (Function.update assignment var (i : Int))) := by
  have key : ∀ (fs : List Function) (g : Nat → Val),
      fs.foldl (fun sumVals fn =>
          List.zipWith OP_TIMES sumVals (fn.getValues assignment var d))
        ((List.range d).map g) =
      (List.range d).map (fun (i : Nat) =>
        fs.foldl (fun z f => OP_TIMES z (f.getValue (Function.update assignment var (i : Int))))
          (g i)) := by
    intro fs
    induction fs with
    | nil => intro g; rfl
    | cons f fs ih =>
      intro g
      simp only [List.foldl_cons]
      have h1 : List.zipWith OP_TIMES ((List.range d).map g) (f.getValues assignment var d) =
          (List.range d).map (fun (i : Nat) =>
            OP_TIMES (g i) (f.getValue (Function.update assignment var (i : Int)))) := by
        unfold Function.getValues
        rw [List.zipWith_map, zipWith_same]
      rw [h1, ih]
  have hinit : List.replicate d ELEM_ONE = (List.range d).map (fun _ => ELEM_ONE) := by
    rw [List.map_const', List.length_range]
  unfold getLocalError_sumVals combineValues
  rw [hinit, key]

/-- The maximum that lines 944-947 take over a non-empty vector is the maximum
started at `ELEM_ZERO`. -/
theorem foldl_max_front (front : Val) (rest : List Val) :
    rest.foldl (fun acc s => max acc s) front =
      (front :: rest).foldl (fun acc s => max acc s) ELEM_ZERO := by
  simp [ELEM_ZERO]

/-- The difference of a double and a smaller one is a positive number or
`+inf`. -/
theorem OP_DIVIDE_pos (x y : Val) (hlt : y < x) :
    ∃ e, OP_DIVIDE x y = some e ∧ 0 < e := by
  rcases x with _ | _ | x <;> rcases y with _ | _ | y
  · exact absurd hlt (lt_irrefl _)
  · exact absurd hlt (not_lt_bot)
  · exact absurd hlt (not_lt_bot)
  · exact ⟨⊤, rfl, dbl_lt_top 0⟩
  · exact absurd hlt (lt_irrefl _)
  · exact ⟨⊤, rfl, dbl_lt_top 0⟩
  · exact ⟨⊤, rfl, dbl_lt_top 0⟩
  · have h1 : (⊤ : WithTop ℚ) < (x : WithTop ℚ) := WithBot.coe_lt_coe.mp hlt
    exact absurd h1 (not_top_lt)
  · have h1 : (y : WithTop ℚ) < (x : WithTop ℚ) := WithBot.coe_lt_coe.mp hlt
    have h2 : y < x := WithTop.coe_lt_coe.mp h1
    refine ⟨dbl (x - y), rfl, ?_⟩
    rw [zero_lt_dbl]
    linarith

/-- C21. On the recompute path of `getLocalError` (more than one mini-bucket,
a quality other than 0, no stored error function, a domain that is not empty)
the call returns a value that is never negative: it is 0 when the combined
mini-bucket value is `-inf` or is at most the exact bucket value (the maximum
over the values of `var` of the combination of the bucket functions), and
otherwise it is the difference of the two, which is strictly positive. -/
theorem getLocalError_recompute (self : MiniBucketElimLH) (var : Nat)
    (assignment : Assignment)
    (hmb : 1 < (self._MiniBuckets var).length)
    (hq : self._BucketErrorQuality var ≠ 0)
    (hfn : self._BucketErrorFunctions var = none)
    (hdom : 0 < self.m_problem.getDomainSize var) :
    ∃ r, self.getLocalError var assignment = some r ∧ 0 ≤ r ∧
      ((computeLocalErrorTable_tableentryMB (self._MiniBuckets var) assignment =
            OUR_OWN_nInfinity ∨
          computeLocalErrorTable_tableentryMB (self._MiniBuckets var) assignment ≤
            computeLocalErrorTable_tableentryB self.m_problem (self._BucketFunctions var)
              var assignment) → r = 0) ∧
      (¬ (computeLocalErrorTable_tableentryMB (self._MiniBuckets var) assignment =
            OUR_OWN_nInfinity ∨
          computeLocalErrorTable_tableentryMB (self._MiniBuckets var) assignment ≤
            computeLocalErrorTable_tableentryB self.m_problem (self._BucketFunctions var)
              var assignment) →
        0 < r ∧
        OP_DIVIDE (computeLocalErrorTable_tableentryMB (self._MiniBuckets var) assignment)
          (computeLocalErrorTable_tableentryB self.m_problem (self._BucketFunctions var)
            var assignment) = some r) := by
  have hmb1 : ¬ ((self._MiniBuckets var).length ≤ 1 ∨ 0 = self._BucketErrorQuality var) := by
    intro h
    rcases h with h | h
    · omega
    · exact hq h.symm
  obtain ⟨d, hd⟩ : ∃ d, self.m_problem.getDomainSize var = d + 1 :=
    ⟨self.m_problem.getDomainSize var - 1, by omega⟩
  have hB : computeLocalErrorTable_tableentryB self.m_problem (self._BucketFunctions var)
      var assignment =
      ((List.range (d + 1)).map (fun (i : Nat) =>
        combineValues (self._BucketFunctions var)
          (Function.update assignment var (i : Int)))).foldl (fun acc s => max acc s)
        ELEM_ZERO := by
    unfold computeLocalErrorTable_tableentryB maxOverVar
    rw [hd, List.foldl_map]
  unfold MiniBucketElimLH.getLocalError
  simp only [hmb1, if_false, hfn, getLocalError_sumVals_eq, hd]
  unfold computeLocalErrorTable_tableentryMB at *
  generalize combineValues (collect_funs_MB (self._MiniBuckets var)) assignment = MB at *
  rw [hB]
  have hlist : (List.range (d + 1)).map (fun (i : Nat) =>
        combineValues (self._BucketFunctions var)
          (Function.update assignment var (i : Int))) =
      combineValues (self._BucketFunctions var) (Function.update assignment var ((0 : Nat) : Int)) ::
        (List.range d).map (fun (i : Nat) =>
          combineValues (self._BucketFunctions var)
            (Function.update assignment var ((i + 1 : Nat) : Int))) := by
    rw [List.range_succ_eq_map, List.map_cons, List.map_map]
    rfl
  rw [hlist]
  simp only []
  rw [foldl_max_front]
  generalize List.foldl (fun acc s => max acc s) ELEM_ZERO _ = B
  by_cases h1 : OUR_OWN_nInfinity = MB
  · simp [h1.symm]
  · by_cases h2 : MB ≤ B
    · simp [h1, h2]
    · have h1' : ¬ MB = OUR_OWN_nInfinity := fun h => h1 h.symm
      simp only [h1, h2, if_false, h1', or_self, not_false_eq_true, forall_true_left,
        false_implies, true_and]
      have hlt : B < MB := lt_of_not_le h2
      obtain ⟨e, he, hpos⟩ := OP_DIVIDE_pos MB B hlt
      exact ⟨e, he, le_of_lt hpos, hpos, he⟩

/-- C21 at bucket 0 of the small model, which has two mini-buckets and no
stored error function. -/
theorem getLocalError_recompute_witness :
    ∃ r, exState.getLocalError 0 (fun _ => 0) = some r ∧ 0 ≤ r ∧
      ((computeLocalErrorTable_tableentryMB (exState._MiniBuckets 0) (fun _ => 0) =
            OUR_OWN_nInfinity ∨
          computeLocalErrorTable_tableentryMB (exState._MiniBuckets 0) (fun _ => 0) ≤
            computeLocalErrorTable_tableentryB exState.m_problem
              (exState._BucketFunctions 0) 0 (fun _ => 0)) → r = 0) ∧
      (¬ (computeLocalErrorTable_tableentryMB (exState._MiniBuckets 0) (fun _ => 0) =
            OUR_OWN_nInfinity ∨
          computeLocalErrorTable_tableentryMB (exState._MiniBuckets 0) (fun _ => 0) ≤
            computeLocalErrorTable_tableentryB exState.m_problem
              (exState._BucketFunctions 0) 0 (fun _ => 0)) →
        0 < r ∧
        OP_DIVIDE (computeLocalErrorTable_tableentryMB (exState._MiniBuckets 0) (fun _ => 0))
          (computeLocalErrorTable_tableentryB exState.m_problem
            (exState._BucketFunctions 0) 0 (fun _ => 0)) = some r) :=
  getLocalError_recompute exState 0 (fun _ => 0) (by decide) (by decide) rfl (by decide)

/-! ### A second run of `ComputeSubtreeErrors` -/

/-- The first run of `ComputeSubtreeErrors` on the small model. -/
theorem exState_ComputeSubtreeErrors_first :
    exState.ComputeSubtreeErrors exBucketError =
      some { exState with _SubtreeError := [3, 3 / 2, 7 / 4] } := by
  simp [MiniBucketElimLH.ComputeSubtreeErrors, ComputeSubtreeErrors_step, vector_resize,
    exState, exTree, exProblem, exBucketError, clampError, List.foldlM]
  norm_num

/-- C24. A second run of `ComputeSubtreeErrors` with the same bucket errors on
the state left by the first run does not give the summaries of the first run:
`_SubtreeError.resize(N, 0.0)` (line 2118) keeps the entries of the first run
and lines 2122 and 2135 add to them.  On the chain 0 - 1 - 2 with bucket errors
3, none, 1 the first run leaves 3, 3/2, 7/4 and the second run 6, 9/2, 5. -/
theorem ComputeSubtreeErrors_second_run_accumulates :
    ∃ s1 s2, exState.ComputeSubtreeErrors exBucketError = some s1 ∧
      s1.ComputeSubtreeErrors exBucketError = some s2 ∧
      s1._SubtreeError = [3, 3 / 2, 7 / 4] ∧
      s2._SubtreeError = [6, 9 / 2, 5] ∧
      s2._SubtreeError ≠ s1._SubtreeError := by
  refine ⟨_, { exState with _SubtreeError := [6, 9 / 2, 5] },
    exState_ComputeSubtreeErrors_first, ?_, rfl, rfl, ?_⟩
  · simp [MiniBucketElimLH.ComputeSubtreeErrors, ComputeSubtreeErrors_step, vector_resize,
      exState, exTree, exProblem, exBucketError, clampError, List.foldlM]
    norm_num
  · simp

/-! ### Scopes of different sizes -/

/-- When the outputs of the mini-buckets are over more variables than the bucket
functions without the bucket variable, `computeLocalErrorTable` returns: every
path up to the check of lines 1156-1162 returns, both calls of
`computeMBOutFnArgsVectorPtrMap` stay inside the scopes, and the check returns
1. -/
theorem computeLocalErrorTable_mismatch_returns (self : MiniBucketElimLH) (libm : Libm)
    (flags : Flags) (rand : Nat → Nat → Nat → Int) (var : Nat)
    (build_table sample : Bool) (limit : Val)
    (hvar : ∀ f ∈ self._BucketFunctions var, var ∈ f.scope)
    (hvMB : ∀ f ∈ collect_funs_MB (self._MiniBuckets var), ∀ u ∈ f.scope,
      (u : Int) < INT_MAX)
    (hdiff : (computeMBOutFnArgsVectorPtrMap_scope (some var)
        (self._BucketFunctions var)).length <
      (computeMBOutFnArgsVectorPtrMap_scope none
        (collect_funs_MB (self._MiniBuckets var))).length) :
    ∃ r, self.computeLocalErrorTable libm flags rand var build_table sample limit =
        some r ∧ r.errorFn = none ∧ r.nEntriesGenerated = 0 ∧
      ((r.ret = 1 ∧ r.state = self) ∨
        ∃ q, r.state = { self with
          _BucketErrorQuality := Function.update self._BucketErrorQuality var q }) := by
  obtain ⟨mapB, hmapB, hsB, hnB, htB⟩ := computeMBOutFnArgsVectorPtrMap_first var
    (self._BucketFunctions var) hvar
  obtain ⟨mapMB, hmapMB, hsMB, hnMB, _⟩ := (computeMBOutFnArgsVectorPtrMap_second
    (collect_funs_MB (self._MiniBuckets var))
    (computeMBOutFnArgsVectorPtrMap_scope (some var) (self._BucketFunctions var)).length
    ((computeMBOutFnArgsVectorPtrMap_scope (some var) (self._BucketFunctions var)).length + 1)
    hvMB).1 (le_of_lt hdiff)
  rw [← htB, ← hnB] at hmapMB
  have hne := ne_of_lt hdiff
  unfold MiniBucketElimLH.computeLocalErrorTable
  simp only [hmapB, hmapMB, hsB, hsMB, hne, ne_eq, not_false_eq_true, if_true]
  repeat' split
  all_goals first
    | exact ⟨_, rfl, rfl, rfl, Or.inl ⟨rfl, rfl⟩⟩
    | exact ⟨_, rfl, rfl, rfl, Or.inr ⟨_, rfl⟩⟩

/-- When the outputs of the mini-buckets are over fewer variables than the
bucket functions without the bucket variable, the second call of
`computeMBOutFnArgsVectorPtrMap` (line 1153) walks past the end of their scope:
`computeLocalErrorTable` returns only from one of the exits before that call,
and has no defined result otherwise. -/
theorem computeLocalErrorTable_mismatch_undefined (self : MiniBucketElimLH) (libm : Libm)
    (flags : Flags) (rand : Nat → Nat → Nat → Int) (var : Nat)
    (build_table sample : Bool) (limit : Val)
    (hvar : ∀ f ∈ self._BucketFunctions var, var ∈ f.scope)
    (hvMB : ∀ f ∈ collect_funs_MB (self._MiniBuckets var), ∀ u ∈ f.scope,
      (u : Int) < INT_MAX)
    (hdiff : (computeMBOutFnArgsVectorPtrMap_scope none
        (collect_funs_MB (self._MiniBuckets var))).length <
      (computeMBOutFnArgsVectorPtrMap_scope (some var)
        (self._BucketFunctions var)).length) :
    self.computeLocalErrorTable libm flags rand var build_table sample limit = none ∨
    ∃ r q, self.computeLocalErrorTable libm flags rand var build_table sample limit =
        some r ∧ r.errorFn = none ∧ r.nEntriesGenerated = 0 ∧
      r.state = { self with
        _BucketErrorQuality := Function.update self._BucketErrorQuality var q } := by
  obtain ⟨mapB, hmapB, hsB, hnB, htB⟩ := computeMBOutFnArgsVectorPtrMap_first var
    (self._BucketFunctions var) hvar
  have hmapMB := (computeMBOutFnArgsVectorPtrMap_second
    (collect_funs_MB (self._MiniBuckets var))
    (computeMBOutFnArgsVectorPtrMap_scope (some var) (self._BucketFunctions var)).length
    ((computeMBOutFnArgsVectorPtrMap_scope (some var) (self._BucketFunctions var)).length + 1)
    hvMB).2 hdiff
  rw [← htB, ← hnB] at hmapMB
  unfold MiniBucketElimLH.computeLocalErrorTable
  simp only [hmapB, hmapMB]
  repeat' split
  all_goals first
    | exact Or.inl rfl
    | exact Or.inr ⟨_, _, rfl, rfl, rfl, rfl⟩

/-- With scopes of different sizes and more than one mini-bucket
`computeLocalErrorTableSlice` does not return. -/
theorem computeLocalErrorTableSlice_mismatch (self : MiniBucketElimLH)
    (ext : LocalErrorExternals) (var : Nat) (limit : Val) (output_scope : Finset Nat)
    (hdiff : (computeMBOutFnArgsVectorPtrMap_scope (some var)
        (self._BucketFunctions var)).length ≠
      (computeMBOutFnArgsVectorPtrMap_scope none
        (collect_funs_MB (self._MiniBuckets var))).length)
    (hmb : 1 < (self._MiniBuckets var).length) :
    self.computeLocalErrorTableSlice ext var output_scope limit = none := by
  have hmb1 : ¬ (self._MiniBuckets var).length ≤ 1 := by omega
  unfold MiniBucketElimLH.computeLocalErrorTableSlice
  simp only [hmb1, hdiff, ne_eq, not_false_eq_true, if_true, if_false]
  repeat' split
  all_goals rfl

/-- The scopes of bucket 0 of `exMismatch`. -/
theorem exMismatch_scopes :
    computeMBOutFnArgsVectorPtrMap_scope (some 0) (exMismatch._BucketFunctions 0) = [1, 2] ∧
    computeMBOutFnArgsVectorPtrMap_scope none
      (collect_funs_MB (exMismatch._MiniBuckets 0)) = [1] ∧
    ((exMismatch._BucketScopes 0).erase 0).sort (fun a b => a ≤ b) = [1, 2] :=
  ⟨sort_eq_of_toFinset _ _ (by decide) (by decide),
    sort_eq_of_toFinset _ _ (by decide) (by decide),
    sort_eq_of_toFinset _ _ (by decide) (by decide)⟩

/-- The scopes of bucket 0 of `exWiderOutputs`. -/
theorem exWiderOutputs_scopes :
    computeMBOutFnArgsVectorPtrMap_scope (some 0) (exWiderOutputs._BucketFunctions 0) =
      [1] ∧
    computeMBOutFnArgsVectorPtrMap_scope none
      (collect_funs_MB (exWiderOutputs._MiniBuckets 0)) = [1, 2] ∧
    ((exWiderOutputs._BucketScopes 0).erase 0).sort (fun a b => a ≤ b) = [1, 2] :=
  ⟨sort_eq_of_toFinset _ _ (by decide) (by decide),
    sort_eq_of_toFinset _ _ (by decide) (by decide),
    sort_eq_of_toFinset _ _ (by decide) (by decide)⟩

/-- The two calls of `computeMBOutFnArgsVectorPtrMap` on bucket 0 of
`exWiderOutputs` return: the first sets `n` to 1, and the second walks over the
first of the two variables of the outputs of the mini-buckets. -/
theorem exWiderOutputs_maps :
    ∃ mapB mapMB,
      computeMBOutFnArgsVectorPtrMap ((0 : Nat) : Int) (exWiderOutputs._BucketFunctions 0)
        0 none = some mapB ∧
      computeMBOutFnArgsVectorPtrMap INT_MAX
        (collect_funs_MB (exWiderOutputs._MiniBuckets 0)) mapB.n mapB.tuple =
          some mapMB ∧
      mapB.scope = [1] ∧ mapMB.scope = [1, 2] ∧ mapMB.n = 1 := by
  obtain ⟨hB, hMB, _⟩ := exWiderOutputs_scopes
  obtain ⟨mapB, hmapB, hsB, hnB, htB⟩ := computeMBOutFnArgsVectorPtrMap_first 0
    (exWiderOutputs._BucketFunctions 0) (by decide)
  obtain ⟨mapMB, hmapMB, hsMB, hnMB, _⟩ := (computeMBOutFnArgsVectorPtrMap_second
    (collect_funs_MB (exWiderOutputs._MiniBuckets 0)) 1 2 (by decide)).1
    (by rw [hMB]; decide)
  rw [hB] at hsB hnB htB
  rw [hMB] at hsMB
  refine ⟨mapB, mapMB, hmapB, ?_, hsB, hsMB, hnMB⟩
  rw [hnB, htB]
  exact hmapMB

/-- C22, the claim fails for `computeLocalErrorTable`: in bucket 0 of
`exWiderOutputs` the bucket functions without the bucket variable are over one
variable and the outputs of the mini-buckets over two, and the call returns the
value 1 to its caller and leaves the state as it was. -/
theorem computeLocalErrorTable_scope_mismatch_counterexample :
    (computeMBOutFnArgsVectorPtrMap_scope (some 0)
        (exWiderOutputs._BucketFunctions 0)).length ≠
      (computeMBOutFnArgsVectorPtrMap_scope none
        (collect_funs_MB (exWiderOutputs._MiniBuckets 0))).length ∧
    ∃ r, exWiderOutputs.computeLocalErrorTable exLibm {} (fun _ _ _ => 0) 0 true true
        (dbl 3) = some r ∧ r.ret = 1 ∧ r.state = exWiderOutputs ∧ r.errorFn = none := by
  obtain ⟨hB, hMB, hscope⟩ := exWiderOutputs_scopes
  obtain ⟨mapB, mapMB, hmapB, hmapMB, hsB, hsMB, hnMB⟩ := exWiderOutputs_maps
  refine ⟨by rw [hB, hMB]; decide, ?_⟩
  have hmb : ¬ (exWiderOutputs._MiniBuckets 0).length ≤ 1 := by decide
  have hp : exWiderOutputs.m_problem = exProblem := rfl
  have hlim : ¬ (dbl 3 : Val) > dbl 9 := by
    simp only [gt_iff_lt, dbl_lt_dbl]; norm_num
  have h30 : ¬ (dbl 3 : Val) ≤ 0 := by
    simp only [dbl_le_zero]; norm_num
  have htsl0 : ¬ (dbl (3 / 5) : Val) < 0 := by
    simp only [dbl_lt_zero]; norm_num
  have htsl1 : ¬ (dbl (3 / 5) : Val) > dbl 3 := by
    simp only [gt_iff_lt, dbl_lt_dbl]; norm_num
  have hlen : ([1] : List Nat).length ≠ ([1, 2] : List Nat).length := by decide
  unfold MiniBucketElimLH.computeLocalErrorTable
  simp only [hmb, hlim, h30, and_false, if_false, hscope, hp, exLibm_TableSizeLog,
    exProblem_TableSize, htsl0, htsl1, false_and, hmapB, hmapMB, hsB, hsMB, hlen, ne_eq,
    not_false_eq_true, if_true]
  exact ⟨_, rfl, rfl, rfl, rfl⟩

/-- C22, amended.  Take a bucket whose functions all hold the bucket variable,
with variables below `INT_MAX`, in which the scope of the bucket functions
without the bucket variable and the union of the scopes of the mini-bucket
outputs have different sizes.  When the outputs are over more variables,
`computeLocalErrorTable` does not abort: it returns to its caller, with no
error function and no entry generated, either from the check of lines 1156-1162
with the value 1 and the state unchanged, or from one of the earlier exits,
which only set the quality tag of the bucket.  When the outputs
are over fewer variables, it returns only from one of those earlier exits;
otherwise the second call of `computeMBOutFnArgsVectorPtrMap` (line 1153) walks
past the end of their scope before the check is reached, and the call has no
defined result.  `computeLocalErrorTableSlice`, with its assertions compiled in,
does not return in either case when the bucket has more than one mini-bucket
(assertion of lines 1492-1493), and it fails the assertion of lines 1408-1411
whenever the scope of the slice is larger than the i-bound. -/
theorem computeLocalErrorTable_scope_mismatch (self : MiniBucketElimLH)
    (ext : LocalErrorExternals) (libm : Libm) (flags : Flags)
    (rand : Nat → Nat → Nat → Int) (var : Nat) (build_table sample : Bool)
    (limit : Val) (output_scope : Finset Nat)
    (hvar : ∀ f ∈ self._BucketFunctions var, var ∈ f.scope)
    (hvMB : ∀ f ∈ collect_funs_MB (self._MiniBuckets var), ∀ u ∈ f.scope,
      (u : Int) < INT_MAX) :
    ((computeMBOutFnArgsVectorPtrMap_scope (some var)
          (self._BucketFunctions var)).length <
        (computeMBOutFnArgsVectorPtrMap_scope none
          (collect_funs_MB (self._MiniBuckets var))).length →
      ∃ r, self.computeLocalErrorTable libm flags rand var build_table sample limit =
          some r ∧ r.errorFn = none ∧ r.nEntriesGenerated = 0 ∧
        ((r.ret = 1 ∧ r.state = self) ∨
          ∃ q, r.state = { self with
            _BucketErrorQuality := Function.update self._BucketErrorQuality var q })) ∧
    ((computeMBOutFnArgsVectorPtrMap_scope none
          (collect_funs_MB (self._MiniBuckets var))).length <
        (computeMBOutFnArgsVectorPtrMap_scope (some var)
          (self._BucketFunctions var)).length →
      self.computeLocalErrorTable libm flags rand var build_table sample limit = none ∨
      ∃ r q, self.computeLocalErrorTable libm flags rand var build_table sample limit =
          some r ∧ r.errorFn = none ∧ r.nEntriesGenerated = 0 ∧
        r.state = { self with
          _BucketErrorQuality := Function.update self._BucketErrorQuality var q }) ∧
    ((computeMBOutFnArgsVectorPtrMap_scope (some var)
          (self._BucketFunctions var)).length ≠
        (computeMBOutFnArgsVectorPtrMap_scope none
          (collect_funs_MB (self._MiniBuckets var))).length →
      1 < (self._MiniBuckets var).length →
        self.computeLocalErrorTableSlice ext var output_scope limit = none) ∧
    (self.m_ibound < output_scope.card →
      self.computeLocalErrorTableSlice ext var output_scope limit = none) := by
  refine ⟨computeLocalErrorTable_mismatch_returns self libm flags rand var build_table
      sample limit hvar hvMB,
    computeLocalErrorTable_mismatch_undefined self libm flags rand var build_table
      sample limit hvar hvMB,
    fun hdiff hmb => computeLocalErrorTableSlice_mismatch self ext var limit output_scope
      hdiff hmb,
    fun hib => ?_⟩
  unfold MiniBucketElimLH.computeLocalErrorTableSlice
  have h : output_scope.card > self.m_ibound := hib
  simp only [h, if_true]

/-- C22, amended, at bucket 0 of `exWiderOutputs`, whose mini-bucket outputs are
over more variables than its functions, and at a slice over three variables
under the i-bound 2. -/
theorem computeLocalErrorTable_scope_mismatch_witness :
    ((∀ f ∈ exWiderOutputs._BucketFunctions 0, 0 ∈ f.scope) ∧
      (∀ f ∈ collect_funs_MB (exWiderOutputs._MiniBuckets 0), ∀ u ∈ f.scope,
        (u : Int) < INT_MAX) ∧
      (computeMBOutFnArgsVectorPtrMap_scope (some 0)
          (exWiderOutputs._BucketFunctions 0)).length <
        (computeMBOutFnArgsVectorPtrMap_scope none
          (collect_funs_MB (exWiderOutputs._MiniBuckets 0))).length ∧
      1 < (exWiderOutputs._MiniBuckets 0).length ∧
      exWiderOutputs.m_ibound < ({0, 1, 2} : Finset Nat).card) ∧
    (∃ r, exWiderOutputs.computeLocalErrorTable exLibm {} (fun _ _ _ => 0) 0 true true
          (dbl 3) = some r ∧ r.errorFn = none ∧ r.nEntriesGenerated = 0 ∧
        ((r.ret = 1 ∧ r.state = exWiderOutputs) ∨
          ∃ q, r.state = { exWiderOutputs with
            _BucketErrorQuality :=
              Function.update exWiderOutputs._BucketErrorQuality 0 q })) ∧
    exWiderOutputs.computeLocalErrorTableSlice exExternals 0 {0, 1} (dbl 3) = none ∧
    exWiderOutputs.computeLocalErrorTableSlice exExternals 0 {0, 1, 2} (dbl 3) = none :=
  have hvar : ∀ f ∈ exWiderOutputs._BucketFunctions 0, 0 ∈ f.scope := by decide
  have hvMB : ∀ f ∈ collect_funs_MB (exWiderOutputs._MiniBuckets 0), ∀ u ∈ f.scope,
      (u : Int) < INT_MAX := by decide
  have hdiff : (computeMBOutFnArgsVectorPtrMap_scope (some 0)
        (exWiderOutputs._BucketFunctions 0)).length <
      (computeMBOutFnArgsVectorPtrMap_scope none
        (collect_funs_MB (exWiderOutputs._MiniBuckets 0))).length := by
    rw [exWiderOutputs_scopes.1, exWiderOutputs_scopes.2.1]; decide
  have hmb : 1 < (exWiderOutputs._MiniBuckets 0).length := by decide
  have hib : exWiderOutputs.m_ibound < ({0, 1, 2} : Finset Nat).card := by decide
  ⟨⟨hvar, hvMB, hdiff, hmb, hib⟩,
    (computeLocalErrorTable_scope_mismatch exWiderOutputs exExternals exLibm {}
      (fun _ _ _ => 0) 0 true true (dbl 3) {0, 1} hvar hvMB).1 hdiff,
    (computeLocalErrorTable_scope_mismatch exWiderOutputs exExternals exLibm {}
      (fun _ _ _ => 0) 0 true true (dbl 3) {0, 1} hvar hvMB).2.2.1 (ne_of_lt hdiff) hmb,
    (computeLocalErrorTable_scope_mismatch exWiderOutputs exExternals exLibm {}
      (fun _ _ _ => 0) 0 true true (dbl 3) {0, 1, 2} hvar hvMB).2.2.2 hib⟩

/-- With the mini-bucket outputs over fewer variables than the bucket functions
and no earlier exit taken, as in bucket 0 of `exMismatch`, the second call of
`computeMBOutFnArgsVectorPtrMap` walks past the end of the scope of the outputs:
`computeLocalErrorTable` has no defined result. -/
theorem exMismatch_computeLocalErrorTable :
    exMismatch.computeLocalErrorTable exLibm {} (fun _ _ _ => 0) 0 true true (dbl 3) =
      none := by
  obtain ⟨hB, hMB, hscope⟩ := exMismatch_scopes
  obtain ⟨mapB, hmapB, hsB, hnB, htB⟩ := computeMBOutFnArgsVectorPtrMap_first 0
    (exMismatch._BucketFunctions 0) (by decide)
  have hmapMB := (computeMBOutFnArgsVectorPtrMap_second
    (collect_funs_MB (exMismatch._MiniBuckets 0)) 2 3 (by decide)).2
    (by rw [hMB]; decide)
  rw [hB] at hnB htB
  have hmapMB2 : computeMBOutFnArgsVectorPtrMap INT_MAX
      (collect_funs_MB (exMismatch._MiniBuckets 0)) mapB.n mapB.tuple = none := by
    rw [hnB, htB]
    exact hmapMB
  have hmb : ¬ (exMismatch._MiniBuckets 0).length ≤ 1 := by decide
  have hp : exMismatch.m_problem = exProblem := rfl
  have hlim : ¬ (dbl 3 : Val) > dbl 9 := by
    simp only [gt_iff_lt, dbl_lt_dbl]; norm_num
  have h30 : ¬ (dbl 3 : Val) ≤ 0 := by
    simp only [dbl_le_zero]; norm_num
  have htsl0 : ¬ (dbl (3 / 5) : Val) < 0 := by
    simp only [dbl_lt_zero]; norm_num
  have htsl1 : ¬ (dbl (3 / 5) : Val) > dbl 3 := by
    simp only [gt_iff_lt, dbl_lt_dbl]; norm_num
  unfold MiniBucketElimLH.computeLocalErrorTable
  simp only [hmb, hlim, h30, and_false, if_false, hscope, hp, exLibm_TableSizeLog,
    exProblem_TableSize, htsl0, htsl1, false_and, hmapB, hmapMB2]
  rfl

/-! ### A per-table budget of 0 -/

/-- Without a request to build the table the classification of lines 1348-1359
does not ask for one. -/
theorem computeLocalErrorTable_classify_false (nEntries_B_inf : Int)
    (rel_error threshold : ℚ) (avgError : Option Val) (enumerate_table : Bool)
    (nEntriesGenerated : Nat) :
    (computeLocalErrorTable_classify nEntries_B_inf rel_error threshold avgError
      enumerate_table nEntriesGenerated false).2 = false := by
  unfold computeLocalErrorTable_classify
  split_ifs <;> rfl

/-- Without a request to build the table, lines 1296-1392 make no error
function, and they leave the options, the stored error functions and the
accumulated table size as they are. -/
theorem computeLocalErrorTable_finish_no_table (self : MiniBucketElimLH)
    (var : Nat) (enumerate_table : Bool) (scope : List Nat)
    (TableSize : Int) (TableSizeLog : Val) (st : LocalErrorTableLoop) :
    (self.computeLocalErrorTable_finish var false enumerate_table scope TableSize
        TableSizeLog st).errorFn = none ∧
      (self.computeLocalErrorTable_finish var false enumerate_table scope TableSize
        TableSizeLog st).state.m_options = self.m_options ∧
      (self.computeLocalErrorTable_finish var false enumerate_table scope TableSize
        TableSizeLog st).state._BucketErrorFunctions = self._BucketErrorFunctions ∧
      (self.computeLocalErrorTable_finish var false enumerate_table scope TableSize
        TableSizeLog st).state._BucketErrorFnTableSizes_Precomputed =
          self._BucketErrorFnTableSizes_Precomputed := by
  unfold MiniBucketElimLH.computeLocalErrorTable_finish
  by_cases h0 : st.nEntriesGenerated ≤ 0
  · rw [if_pos h0]
    exact ⟨rfl, rfl, rfl, rfl⟩
  · rw [if_neg h0]
    simp only [ite_self, computeLocalErrorTable_classify_false]
    refine ⟨?_, ?_, ?_, ?_⟩ <;> first | trivial | rfl | (split_ifs <;> rfl)

/-- Without a request to build the table `computeLocalErrorTable` makes no error
function, and it leaves the options, the stored error functions and the
accumulated table size as they are. -/
theorem computeLocalErrorTable_no_table (self : MiniBucketElimLH) (libm : Libm)
    (flags : Flags) (rand : Nat → Nat → Nat → Int) (var : Nat)
    (build_table sample_table_if_not_computed : Bool)
    (TableMemoryLimitAsNumElementsLog : Val) (r : LocalErrorTableResult)
    (hbt : build_table = false)
    (h : self.computeLocalErrorTable libm flags rand var build_table
      sample_table_if_not_computed TableMemoryLimitAsNumElementsLog = some r) :
    r.errorFn = none ∧ r.state.m_options = self.m_options ∧
      r.state._BucketErrorFunctions = self._BucketErrorFunctions ∧
      r.state._BucketErrorFnTableSizes_Precomputed =
        self._BucketErrorFnTableSizes_Precomputed := by
  rcases computeLocalErrorTable_shape self libm flags rand var build_table
    sample_table_if_not_computed TableMemoryLimitAsNumElementsLog r h with h0 | hfin
  · obtain ⟨e1, _, hs⟩ := h0
    rcases hs with hs | ⟨q, hs⟩ <;> rw [hs] <;> exact ⟨e1, rfl, rfl, rfl⟩
  · obtain ⟨s1, b, e, scope, T, tsl, st, hr, hs1, hb, _⟩ := hfin
    rw [hr, hb hbt]
    obtain ⟨e1, e2, e3, e4⟩ := computeLocalErrorTable_finish_no_table s1 var e scope T tsl
      st
    refine ⟨e1, ?_, ?_, ?_⟩
    · rw [e2]
      rcases hs1 with rfl | ⟨w, rfl⟩ <;> rfl
    · rw [e3]
      rcases hs1 with rfl | ⟨w, rfl⟩ <;> rfl
    · rw [e4]
      rcases hs1 with rfl | ⟨w, rfl⟩ <;> rfl

/-- With a per-table budget of at most 0 the estimation of a bucket in
full-table mode makes no error function, and it leaves the options and the
stored error functions as they are. -/
theorem computeLocalErrorTables_call_no_budget (self : MiniBucketElimLH)
    (ext : LocalErrorExternals) (libm : Libm) (flags : Flags)
    (rand : Nat → Nat → Nat → Int) (build_tables : Bool)
    (TotalMemoryLimitAsNumElementsLog TableMemoryLimitAsNumElementsLog : Val)
    (v : Nat) (r : LocalErrorTableResult)
    (hmode : ¬ (self.m_options.aobf_subordering = "sampled_be" ∨
      self.m_options.aobf_subordering = "sampled_st_be"))
    (hlimit : TableMemoryLimitAsNumElementsLog ≤ 0)
    (h : self.computeLocalErrorTables_call ext libm flags rand build_tables
        TotalMemoryLimitAsNumElementsLog TableMemoryLimitAsNumElementsLog v = some r) :
    r.errorFn = none ∧ r.state.m_options = self.m_options ∧
      r.state._BucketErrorFunctions = self._BucketErrorFunctions := by
  unfold MiniBucketElimLH.computeLocalErrorTables_call at h
  simp only [hmode, if_false] at h
  cases hs : computeLocalErrorTables_table_space_left libm
      TotalMemoryLimitAsNumElementsLog self._BucketErrorFnTableSizes_Precomputed with
  | none => simp [hs] at h
  | some space =>
    simp only [hs] at h
    have hl0 : (if space < TableMemoryLimitAsNumElementsLog then space
        else TableMemoryLimitAsNumElementsLog) ≤ 0 := by
      split_ifs with hc
      · exact le_trans (le_of_lt hc) hlimit
      · exact hlimit
    have hbt : (if (if space < TableMemoryLimitAsNumElementsLog then space
        else TableMemoryLimitAsNumElementsLog) ≤ 0 then false else build_tables) = false := by
      rw [if_pos hl0]
    obtain ⟨e1, e2, e3, _⟩ := computeLocalErrorTable_no_table _ libm flags rand v _ _ _ r hbt h
    exact ⟨e1, e2, e3⟩

/-- With a per-table budget of at most 0 one iteration of the loop of
`computeLocalErrorTables` in full-table mode stores no error function. -/
theorem computeLocalErrorTables_step_no_budget (ext : LocalErrorExternals)
    (libm : Libm) (flags : Flags) (rand : Nat → Nat → Nat → Int) (build_tables : Bool)
    (TotalMemoryLimitAsNumElementsLog TableMemoryLimitAsNumElementsLog : Val)
    (acc acc1 : MiniBucketElimLH × Nat) (v : Nat)
    (hmode : ¬ (acc.1.m_options.aobf_subordering = "sampled_be" ∨
      acc.1.m_options.aobf_subordering = "sampled_st_be"))
    (hlimit : TableMemoryLimitAsNumElementsLog ≤ 0)
    (h : computeLocalErrorTables_step ext libm flags rand build_tables
        TotalMemoryLimitAsNumElementsLog TableMemoryLimitAsNumElementsLog acc v =
          some acc1) :
    acc1.1.m_options = acc.1.m_options ∧
      acc1.1._BucketErrorFunctions = Function.update acc.1._BucketErrorFunctions v none := by
  unfold computeLocalErrorTables_step at h
  cases hc : acc.1.computeLocalErrorTables_call ext libm flags rand build_tables
      TotalMemoryLimitAsNumElementsLog TableMemoryLimitAsNumElementsLog v with
  | none => simp [hc] at h
  | some r =>
    obtain ⟨e1, e2, e3⟩ := computeLocalErrorTables_call_no_budget acc.1 ext libm flags rand
      build_tables _ _ v r hmode hlimit hc
    simp only [hc, e1, computeLocalErrorTables_stored, Option.isSome_none,
      Bool.false_eq_true, false_and, if_false, Option.map_some', Option.some.injEq] at h
    subst h
    exact ⟨e2, by simp only [e3]⟩

/-- With a per-table budget of at most 0 the loop of `computeLocalErrorTables`
in full-table mode leaves no error function for the buckets it visits, and none
where there was none. -/
theorem computeLocalErrorTables_loop_no_budget (ext : LocalErrorExternals)
    (libm : Libm) (flags : Flags) (rand : Nat → Nat → Nat → Int) (build_tables : Bool)
    (TotalMemoryLimitAsNumElementsLog TableMemoryLimitAsNumElementsLog : Val)
    (hlimit : TableMemoryLimitAsNumElementsLog ≤ 0) :
    ∀ (l : List Nat) (acc acc1 : MiniBucketElimLH × Nat),
      ¬ (acc.1.m_options.aobf_subordering = "sampled_be" ∨
        acc.1.m_options.aobf_subordering = "sampled_st_be") →
      l.foldlM (computeLocalErrorTables_step ext libm flags rand build_tables
        TotalMemoryLimitAsNumElementsLog TableMemoryLimitAsNumElementsLog) acc = some acc1 →
      acc1.1.m_options = acc.1.m_options ∧
        (∀ v ∈ l, acc1.1._BucketErrorFunctions v = none) ∧
        (∀ v, acc.1._BucketErrorFunctions v = none →
          acc1.1._BucketErrorFunctions v = none) := by
  intro l
  induction l with
  | nil =>
    intro acc acc1 _ h
    simp only [List.foldlM_nil, Option.pure_def, Option.some.injEq] at h
    subst h
    exact ⟨rfl, by simp, fun _ hv => hv⟩
  | cons u l ih =>
    intro acc acc1 hmode h
    simp only [List.foldlM_cons, Option.bind_eq_bind] at h
    cases hs : computeLocalErrorTables_step ext libm flags rand build_tables
        TotalMemoryLimitAsNumElementsLog TableMemoryLimitAsNumElementsLog acc u with
    | none => simp [hs] at h
    | some mid =>
      simp only [hs, Option.some_bind] at h
      obtain ⟨m1, m2⟩ := computeLocalErrorTables_step_no_budget ext libm flags rand
        build_tables _ _ acc mid u hmode hlimit hs
      have hmode1 : ¬ (mid.1.m_options.aobf_subordering = "sampled_be" ∨
          mid.1.m_options.aobf_subordering = "sampled_st_be") := by
        rw [m1]; exact hmode
      obtain ⟨i1, i2, i3⟩ := ih mid acc1 hmode1 h
      refine ⟨by rw [i1, m1], ?_, ?_⟩
      · intro v hv
        rcases List.mem_cons.mp hv with rfl | hv
        · apply i3
          rw [m2, Function.update_same]
        · exact i2 v hv
      · intro v hv
        apply i3
        rw [m2]
        by_cases hvu : v = u
        · rw [hvu, Function.update_same]
        · rw [Function.update_noteq hvu]
          exact hv

/-- Without a budget `computeLocalErrorTables_table_space_left` is `-inf`. -/
theorem computeLocalErrorTables_table_space_left_no_budget (libm : Libm)
    (TotalMemoryLimitAsNumElementsLog Precomputed : Val)
    (htotal : TotalMemoryLimitAsNumElementsLog ≤ 0) :
    computeLocalErrorTables_table_space_left libm TotalMemoryLimitAsNumElementsLog
      Precomputed = some OUR_OWN_nInfinity := by
  unfold computeLocalErrorTables_table_space_left
  have hc : ¬ (TotalMemoryLimitAsNumElementsLog > 0 ∧
      TotalMemoryLimitAsNumElementsLog > Precomputed) :=
    fun hx => absurd hx.1 (not_lt.mpr htotal)
  rw [if_neg hc]

/-- With a total budget and a per-table budget of at most 0 and without the
option `force_compute_tables`, the estimation of a bucket in full-table mode
returns, and it only sets the quality tag of the bucket. -/
theorem computeLocalErrorTables_call_no_budget_returns (self : MiniBucketElimLH)
    (ext : LocalErrorExternals) (libm : Libm) (flags : Flags)
    (rand : Nat → Nat → Nat → Int) (build_tables : Bool)
    (TotalMemoryLimitAsNumElementsLog TableMemoryLimitAsNumElementsLog : Val)
    (v : Nat)
    (hmode : ¬ (self.m_options.aobf_subordering = "sampled_be" ∨
      self.m_options.aobf_subordering = "sampled_st_be"))
    (hforce : self.m_options.force_compute_tables = false)
    (htotal : TotalMemoryLimitAsNumElementsLog ≤ 0)
    (hlimit : TableMemoryLimitAsNumElementsLog ≤ 0) :
    ∃ r q, self.computeLocalErrorTables_call ext libm flags rand build_tables
        TotalMemoryLimitAsNumElementsLog TableMemoryLimitAsNumElementsLog v = some r ∧
      r.state = { self with
        _BucketErrorQuality := Function.update self._BucketErrorQuality v q } ∧
      r.errorFn = none := by
  have hl0 : (if OUR_OWN_nInfinity < TableMemoryLimitAsNumElementsLog then OUR_OWN_nInfinity
      else TableMemoryLimitAsNumElementsLog) ≤ 0 := by
    split_ifs with hc
    · exact le_trans (le_of_lt hc) hlimit
    · exact hlimit
  have h9 : ¬ TableMemoryLimitAsNumElementsLog > dbl 9 := by
    intro hx
    have h1 : dbl 9 < (0 : Val) := lt_of_lt_of_le hx hlimit
    rw [dbl_lt_zero] at h1
    norm_num at h1
  unfold MiniBucketElimLH.computeLocalErrorTables_call
  simp only [computeLocalErrorTables_table_space_left_no_budget libm _ _ htotal, hmode,
    if_false, hl0, if_true]
  unfold MiniBucketElimLH.computeLocalErrorTable
  simp only [h9, if_false, hforce, hlimit, and_self, if_true, Function.update_idem]
  split_ifs <;> exact ⟨_, _, rfl, rfl, rfl⟩

/-- With a total budget and a per-table budget of at most 0 and without the
option `force_compute_tables`, one iteration of the loop of
`computeLocalErrorTables` in full-table mode returns. -/
theorem computeLocalErrorTables_step_no_budget_returns (ext : LocalErrorExternals)
    (libm : Libm) (flags : Flags) (rand : Nat → Nat → Nat → Int) (build_tables : Bool)
    (TotalMemoryLimitAsNumElementsLog TableMemoryLimitAsNumElementsLog : Val)
    (acc : MiniBucketElimLH × Nat) (v : Nat)
    (hmode : ¬ (acc.1.m_options.aobf_subordering = "sampled_be" ∨
      acc.1.m_options.aobf_subordering = "sampled_st_be"))
    (hforce : acc.1.m_options.force_compute_tables = false)
    (htotal : TotalMemoryLimitAsNumElementsLog ≤ 0)
    (hlimit : TableMemoryLimitAsNumElementsLog ≤ 0) :
    ∃ acc1, computeLocalErrorTables_step ext libm flags rand build_tables
        TotalMemoryLimitAsNumElementsLog TableMemoryLimitAsNumElementsLog acc v =
          some acc1 ∧
      acc1.1.m_options = acc.1.m_options ∧ acc1.1.m_problem = acc.1.m_problem ∧
      acc1.1.m_pseudotree = acc.1.m_pseudotree := by
  obtain ⟨r, q, hr, hstate, hfn⟩ := computeLocalErrorTables_call_no_budget_returns acc.1 ext
    libm flags rand build_tables _ _ v hmode hforce htotal hlimit
  unfold computeLocalErrorTables_step
  simp only [hr, hfn, Option.isSome_none, Bool.false_eq_true, false_and, if_false,
    Option.map_some', hstate]
  exact ⟨_, rfl, rfl, rfl, rfl⟩

/-- With a total budget and a per-table budget of at most 0 and without the
option `force_compute_tables`, the loop of `computeLocalErrorTables` in
full-table mode returns. -/
theorem computeLocalErrorTables_loop_no_budget_returns (ext : LocalErrorExternals)
    (libm : Libm) (flags : Flags) (rand : Nat → Nat → Nat → Int) (build_tables : Bool)
    (TotalMemoryLimitAsNumElementsLog TableMemoryLimitAsNumElementsLog : Val)
    (htotal : TotalMemoryLimitAsNumElementsLog ≤ 0)
    (hlimit : TableMemoryLimitAsNumElementsLog ≤ 0) :
    ∀ (l : List Nat) (acc : MiniBucketElimLH × Nat),
      ¬ (acc.1.m_options.aobf_subordering = "sampled_be" ∨
        acc.1.m_options.aobf_subordering = "sampled_st_be") →
      acc.1.m_options.force_compute_tables = false →
      ∃ acc1, l.foldlM (computeLocalErrorTables_step ext libm flags rand build_tables
          TotalMemoryLimitAsNumElementsLog TableMemoryLimitAsNumElementsLog) acc =
            some acc1 ∧
        acc1.1.m_options = acc.1.m_options ∧ acc1.1.m_problem = acc.1.m_problem ∧
        acc1.1.m_pseudotree = acc.1.m_pseudotree := by
  intro l
  induction l with
  | nil => intro acc _ _; exact ⟨acc, rfl, rfl, rfl, rfl⟩
  | cons u l ih =>
    intro acc hmode hforce
    obtain ⟨mid, hs, m1, m2, m3⟩ := computeLocalErrorTables_step_no_budget_returns ext libm
      flags rand build_tables _ _ acc u hmode hforce htotal hlimit
    obtain ⟨acc1, hl, i1, i2, i3⟩ := ih mid (by rw [m1]; exact hmode) (by rw [m1]; exact hforce)
    refine ⟨acc1, ?_, by rw [i1, m1], by rw [i2, m2], by rw [i3, m3]⟩
    simp only [List.foldlM_cons, Option.bind_eq_bind, hs, Option.some_bind]
    exact hl

/-- With a total budget and a per-table budget of at most 0 and without the
option `force_compute_tables`, `computeLocalErrorTables` returns in full-table
mode, when every variable of the elimination order is in range and every
non-root one has its parent in the order. -/
theorem computeLocalErrorTables_no_budget_returns (self : MiniBucketElimLH)
    (ext : LocalErrorExternals) (libm : Libm) (flags : Flags)
    (rand : Nat → Nat → Nat → Int) (build_tables : Bool)
    (TotalMemoryLimitAsNumElementsLog TableMemoryLimitAsNumElementsLog : Val)
    (hmode : ¬ ((ext.deleteLocalErrorFNs self).m_options.aobf_subordering = "sampled_be" ∨
      (ext.deleteLocalErrorFNs self).m_options.aobf_subordering = "sampled_st_be"))
    (hforce : (ext.deleteLocalErrorFNs self).m_options.force_compute_tables = false)
    (htotal : TotalMemoryLimitAsNumElementsLog ≤ 0)
    (hlimit : TableMemoryLimitAsNumElementsLog ≤ 0)
    (hrange : ∀ v ∈ (ext.deleteLocalErrorFNs self).m_pseudotree.elimOrder,
      v < (ext.deleteLocalErrorFNs self).m_problem.N)
    (hpar : ∀ v ∈ (ext.deleteLocalErrorFNs self).m_pseudotree.elimOrder,
      v ≠ (ext.deleteLocalErrorFNs self).m_pseudotree.root →
      ∃ p, (ext.deleteLocalErrorFNs self).m_pseudotree.parent v = some p ∧
        p ∈ (ext.deleteLocalErrorFNs self).m_pseudotree.elimOrder) :
    ∃ s1, self.computeLocalErrorTables ext libm flags rand build_tables
        TotalMemoryLimitAsNumElementsLog TableMemoryLimitAsNumElementsLog = some s1 := by
  obtain ⟨acc1, hl, i1, i2, i3⟩ := computeLocalErrorTables_loop_no_budget_returns ext libm
    flags rand build_tables _ _ htotal hlimit (ext.findDfsOrder self).reverse
    ({ ext.deleteLocalErrorFNs self with
        _BucketErrorFnTableSizes_Precomputed := dbl (-DBL_MIN),
        _nBucketsWithNonZeroBucketError := 0,
        _nBucketsWithMoreThan1MB :=
          ((ext.findDfsOrder self).reverse.filter
            (fun v => decide (((ext.deleteLocalErrorFNs self)._MiniBuckets v).length > 1))).length },
      0) hmode hforce
  obtain ⟨s2, n⟩ := acc1
  have i1 : s2.m_options = (ext.deleteLocalErrorFNs self).m_options := i1
  have i2 : s2.m_problem = (ext.deleteLocalErrorFNs self).m_problem := i2
  have i3 : s2.m_pseudotree = (ext.deleteLocalErrorFNs self).m_pseudotree := i3
  have hsub : ∀ be : Nat → WithBot ℚ, ∃ s3, s2.ComputeSubtreeErrors be = some s3 ∧
      s3.m_options = s2.m_options := by
    intro be
    obtain ⟨s3, h3, _⟩ := ComputeSubtreeErrors_returns s2 be (by rw [i2, i3]; exact hrange)
      (by rw [i3]; exact hpar)
    exact ⟨s3, h3, (ComputeSubtreeErrors_frame s2 s3 be h3).2.2⟩
  have he : self.computeLocalErrorTables_estimate ext libm flags rand build_tables
      TotalMemoryLimitAsNumElementsLog TableMemoryLimitAsNumElementsLog = some (s2, n) := hl
  unfold MiniBucketElimLH.computeLocalErrorTables
  simp only [he]
  by_cases hrel : flags.aobf_subordering_use_relative_error = true
  · obtain ⟨s3, h3, o3⟩ := hsub s2._BucketError_Rel
    have hm : ¬ s3.m_options.aobf_subordering = "sampled_st_be" := by
      rw [o3, i1]; exact fun hx => hmode (Or.inr hx)
    simp only [hrel, if_true, h3, hm, if_false]
    exact ⟨_, rfl⟩
  · obtain ⟨s3, h3, o3⟩ := hsub s2._BucketError_AbsAvg
    have hm : ¬ s3.m_options.aobf_subordering = "sampled_st_be" := by
      rw [o3, i1]; exact fun hx => hmode (Or.inr hx)
    have hrel1 : flags.aobf_subordering_use_relative_error = false := by
      simpa using hrel
    simp only [hrel1, Bool.false_eq_true, if_false, h3, hm]
    exact ⟨_, rfl⟩

/-- C23, amended.  In full-table mode (the ordering-score source is neither
"sampled_be" nor "sampled_st_be") with a per-table budget of at most 0, after
`computeLocalErrorTables` returns the stored error function is null for every
bucket of the order that it visits, and for every other variable for which
`deleteLocalErrorFNs` left none. -/
theorem computeLocalErrorTables_no_budget (self s1 : MiniBucketElimLH)
    (ext : LocalErrorExternals) (libm : Libm) (flags : Flags)
    (rand : Nat → Nat → Nat → Int) (build_tables : Bool)
    (TotalMemoryLimitAsNumElementsLog TableMemoryLimitAsNumElementsLog : Val)
    (hmode : ¬ ((ext.deleteLocalErrorFNs self).m_options.aobf_subordering = "sampled_be" ∨
      (ext.deleteLocalErrorFNs self).m_options.aobf_subordering = "sampled_st_be"))
    (hlimit : TableMemoryLimitAsNumElementsLog ≤ 0)
    (h : self.computeLocalErrorTables ext libm flags rand build_tables
        TotalMemoryLimitAsNumElementsLog TableMemoryLimitAsNumElementsLog = some s1) :
    (∀ v ∈ ext.findDfsOrder self, s1._BucketErrorFunctions v = none) ∧
      (∀ v, (ext.deleteLocalErrorFNs self)._BucketErrorFunctions v = none →
        s1._BucketErrorFunctions v = none) := by
  unfold MiniBucketElimLH.computeLocalErrorTables at h
  cases he : self.computeLocalErrorTables_estimate ext libm flags rand build_tables
      TotalMemoryLimitAsNumElementsLog TableMemoryLimitAsNumElementsLog with
  | none => simp [he] at h
  | some acc =>
    obtain ⟨s2, n⟩ := acc
    simp only [he] at h
    have he1 := he
    unfold MiniBucketElimLH.computeLocalErrorTables_estimate at he1
    obtain ⟨i1, i2, i3⟩ := computeLocalErrorTables_loop_no_budget ext libm flags rand
      build_tables _ _ hlimit _ _ _ hmode he1
    have key : ∀ s3 : MiniBucketElimLH, s3._BucketErrorFunctions = s2._BucketErrorFunctions →
        (∀ v ∈ ext.findDfsOrder self, s3._BucketErrorFunctions v = none) ∧
        (∀ v, (ext.deleteLocalErrorFNs self)._BucketErrorFunctions v = none →
          s3._BucketErrorFunctions v = none) := by
      intro s3 h3
      rw [h3]
      exact ⟨fun v hv => i2 v (List.mem_reverse.mpr hv), fun v hv => i3 v hv⟩
    have hsub : ∀ (be : Nat → WithBot ℚ) (s3 : MiniBucketElimLH),
        s2.ComputeSubtreeErrors be = some s3 →
        (if s3.m_options.aobf_subordering = "sampled_st_be" then
          (if flags.aobf_subordering_depth_limit < 0 then ext.ComputeSubtreeErrorFns s3
            else ext.ComputeDepthLimitedSubtreeErrorFns s3
              flags.aobf_subordering_depth_limit)
        else some s3) = some s1 →
        s1._BucketErrorFunctions = s2._BucketErrorFunctions := by
      intro be s3 hc hr
      obtain ⟨_, f2, f3⟩ := ComputeSubtreeErrors_frame s2 s3 be hc
      have hm : ¬ s3.m_options.aobf_subordering = "sampled_st_be" := by
        rw [f3, i1]
        exact fun hx => hmode (Or.inr hx)
      rw [if_neg hm] at hr
      simp only [Option.some.injEq] at hr
      rw [← hr, f2]
    apply key
    by_cases hrel : flags.aobf_subordering_use_relative_error = true
    · simp only [hrel, if_true] at h
      cases hc : s2.ComputeSubtreeErrors s2._BucketError_Rel with
      | none => simp [hc] at h
      | some s3 =>
        simp only [hc] at h
        exact hsub _ s3 hc h
    · simp only [hrel, if_false] at h
      cases hc : s2.ComputeSubtreeErrors s2._BucketError_AbsAvg with
      | none => simp [hc] at h
      | some s3 =>
        simp only [hc] at h
        exact hsub _ s3 hc h

/-- In sliced mode the estimation of the bucket of `exSliced`, which has one
mini-bucket, returns an error function under a per-table budget of 0. -/
theorem exSliced_call (s : MiniBucketElimLH)
    (h1 : s.m_problem = exSingleProblem) (h2 : s.m_pseudotree = exSingleTree)
    (h3 : s.m_ibound = 1) (h4 : s._MiniBuckets = exSliced._MiniBuckets)
    (h5 : s._BucketScopes = exSliced._BucketScopes)
    (h6 : s.m_options = exSliced.m_options) :
    ∃ r f, s.computeLocalErrorTables_call exExternals exLibm {} (fun _ _ _ => 0) true 0 0 0 =
        some r ∧ computeLocalErrorTables_stored r.state.m_problem r.errorFn = some (some f) ∧
      r.TableSizeLog = OUR_OWN_nInfinity ∧
      r.state = { s with _BucketErrorQuality := Function.update s._BucketErrorQuality 0 (-1) } := by
  have hmode : s.m_options.aobf_subordering = "sampled_be" ∨
      s.m_options.aobf_subordering = "sampled_st_be" := by rw [h6]; decide
  have hscope : MiniBucketElimLH.computeLocalErrorTables_sliceScope
      { s with _BucketErrorQuality := Function.update s._BucketErrorQuality 0 (-1) }
      exLibm 0 0 = some {0} := by
    unfold MiniBucketElimLH.computeLocalErrorTables_sliceScope
    simp only [h5, h6, h3, h2, h1]
    simp [exSliced, exSingleTree, computeLocalErrorTables_sliceLoop]
  unfold MiniBucketElimLH.computeLocalErrorTables_call
  simp only [computeLocalErrorTables_table_space_left_no_budget exLibm 0 _ (le_refl _), hmode,
    if_true]
  have hlim : (if (if OUR_OWN_nInfinity < (0 : Val) then OUR_OWN_nInfinity else 0) ≤ 0 then (0 : Val)
      else if OUR_OWN_nInfinity < (0 : Val) then OUR_OWN_nInfinity else 0) = 0 := by
    have hb : OUR_OWN_nInfinity < (0 : Val) := bot_lt_dbl 0
    rw [if_pos hb, if_pos (le_of_lt hb)]
  simp only [hlim, hscope]
  unfold MiniBucketElimLH.computeLocalErrorTableSlice
  simp [h3, h4, h5, exSliced, computeLocalErrorTable_TableSize,
    computeLocalErrorTables_stored, ErrorFunctionBayes.toFunction, tableValues]

/-- C23, the claim fails in the sliced configurations: with the ordering-score
source "sampled_be" and a per-table budget of 0, `computeLocalErrorTables`
stores an error function for the bucket of `exSliced`, the table of zeros that
`computeLocalErrorTableSlice` builds for a bucket with at most one mini-bucket
(lines 1445-1454). -/
theorem computeLocalErrorTables_no_budget_counterexample :
    (0 : Val) ≤ 0 ∧
    ∃ s1 f, exSliced.computeLocalErrorTables exExternals exLibm {} (fun _ _ _ => 0) true 0 0 =
        some s1 ∧ s1._BucketErrorFunctions 0 = some f := by
  refine ⟨le_refl _, ?_⟩
  obtain ⟨s0, hs0⟩ : ∃ s0 : MiniBucketElimLH, s0 =
      { exExternals.deleteLocalErrorFNs exSliced with
        _BucketErrorFnTableSizes_Precomputed := dbl (-DBL_MIN),
        _nBucketsWithNonZeroBucketError := 0,
        _nBucketsWithMoreThan1MB :=
          ((exExternals.findDfsOrder exSliced).reverse.filter
            (fun v => decide (((exExternals.deleteLocalErrorFNs exSliced)._MiniBuckets v).length >
              1))).length } := ⟨_, rfl⟩
  have hfold : exSliced.computeLocalErrorTables_estimate exExternals exLibm {} (fun _ _ _ => 0)
      true 0 0 = [0].foldlM (computeLocalErrorTables_step exExternals exLibm {}
        (fun _ _ _ => 0) true 0 0) (s0, 0) := by
    rw [hs0]; rfl
  obtain ⟨r, f, hr, hf, hts, hstate⟩ := exSliced_call s0
    (by rw [hs0]; rfl) (by rw [hs0]; rfl) (by rw [hs0]; rfl) (by rw [hs0]; rfl)
    (by rw [hs0]; rfl) (by rw [hs0]; rfl)
  have hnot : ¬ (OUR_OWN_nInfinity > (0 : Val)) := not_lt_of_lt (bot_lt_dbl 0)
  obtain ⟨s2, hs2⟩ : ∃ s2 : MiniBucketElimLH, s2 =
      { r.state with
        _BucketErrorFunctions := Function.update r.state._BucketErrorFunctions 0 (some f),
        _nBucketsWithNonZeroBucketError :=
          if r.state._BucketErrorQuality 0 > 1 then r.state._nBucketsWithNonZeroBucketError + 1
          else r.state._nBucketsWithNonZeroBucketError } := ⟨_, rfl⟩
  have hest : exSliced.computeLocalErrorTables_estimate exExternals exLibm {} (fun _ _ _ => 0)
      true 0 0 = some (s2, 0 + r.nEntriesGenerated) := by
    rw [hfold, hs2]
    simp only [List.foldlM_cons, List.foldlM_nil, computeLocalErrorTables_step]
    rw [hr]
    simp only [hf, hts, hnot, and_false, if_false, Option.map_some', Option.bind_eq_bind,
      Option.some_bind, Option.pure_def]
  have hp : s2.m_problem = exSingleProblem := by rw [hs2, hstate, hs0]; rfl
  have ht : s2.m_pseudotree = exSingleTree := by rw [hs2, hstate, hs0]; rfl
  have ho : s2.m_options = exSliced.m_options := by rw [hs2, hstate, hs0]; rfl
  obtain ⟨s3, h3, _⟩ := ComputeSubtreeErrors_returns s2 s2._BucketError_AbsAvg
    (by rw [hp, ht]; decide)
    (by rw [ht]; intro v hv hroot; exact absurd (List.mem_singleton.mp hv) hroot)
  obtain ⟨_, f2, f3⟩ := ComputeSubtreeErrors_frame _ s3 _ h3
  have hm : ¬ s3.m_options.aobf_subordering = "sampled_st_be" := by
    rw [f3, ho]; decide
  refine ⟨s3, f, ?_, ?_⟩
  · unfold MiniBucketElimLH.computeLocalErrorTables
    simp only [hest, Bool.false_eq_true, if_false, h3, hm]
  · rw [f2, hs2]
    simp

/-- C23, amended, on the small model in full-table mode without any budget. -/
theorem computeLocalErrorTables_no_budget_witness :
    (¬ ((exExternals.deleteLocalErrorFNs exScoped).m_options.aobf_subordering = "sampled_be" ∨
        (exExternals.deleteLocalErrorFNs exScoped).m_options.aobf_subordering =
          "sampled_st_be") ∧ (0 : Val) ≤ 0) ∧
    ∃ s1, exScoped.computeLocalErrorTables exExternals exLibm {} (fun _ _ _ => 0) true 0 0 =
        some s1 ∧
      (∀ v ∈ exExternals.findDfsOrder exScoped, s1._BucketErrorFunctions v = none) ∧
      (∀ v, (exExternals.deleteLocalErrorFNs exScoped)._BucketErrorFunctions v = none →
        s1._BucketErrorFunctions v = none) := by
  have hmode : ¬ ((exExternals.deleteLocalErrorFNs exScoped).m_options.aobf_subordering =
        "sampled_be" ∨
      (exExternals.deleteLocalErrorFNs exScoped).m_options.aobf_subordering =
        "sampled_st_be") := by decide
  obtain ⟨s1, h⟩ := computeLocalErrorTables_no_budget_returns exScoped exExternals exLibm {}
    (fun _ _ _ => 0) true 0 0 hmode rfl (le_refl _) (le_refl _) (by decide)
    (by
      intro v hv hroot
      obtain ⟨p, hp, hmem, _⟩ := exTree_precedesParent v hv hroot
      exact ⟨p, hp, hmem⟩)
  exact ⟨⟨hmode, le_refl _⟩, s1, h,
    computeLocalErrorTables_no_budget exScoped s1 exExternals exLibm {} (fun _ _ _ => 0) true
      0 0 hmode (le_refl _) h⟩

/-! ### The scope of a slice -/

/-- The statement `x += y` on two finite doubles. -/
theorem Libm.addD_dbl (libm : Libm) (a b : ℚ) :
    libm.addD (dbl a) (dbl b) = dbl (libm.add a b) := rfl

/-- The statement `x -= y` on two finite doubles. -/
theorem Libm.subD_dbl (libm : Libm) (a b : ℚ) :
    libm.subD (dbl a) (dbl b) = some (dbl (libm.sub a b)) := rfl

/-- The sum of lines 1890-1892 over variables whose domains are not empty is a
finite double: the rounded sums of the logarithms. -/
theorem foldl_log10_int (libm : Libm) (problem : Problem) :
    ∀ (l : List Nat) (a : ℚ), (∀ u ∈ l, 0 < problem.getDomainSize u) →
      l.foldl (fun acc u => libm.addD acc (libm.log10_int (problem.getDomainSize u)))
          (dbl a) =
        dbl (l.foldl
          (fun acc u => libm.add acc (libm.log10 (problem.getDomainSize u : ℚ))) a) := by
  intro l
  induction l with
  | nil => intro a _; rfl
  | cons u l ih =>
    intro a h
    have hu : problem.getDomainSize u ≠ 0 :=
      Nat.pos_iff_ne_zero.mp (h u (List.mem_cons_self u l))
    have hlu : libm.log10_int (problem.getDomainSize u) =
        dbl (libm.log10 (problem.getDomainSize u : ℚ)) := by
      simp only [Libm.log10_int, hu, if_false]
    simp only [List.foldl_cons]
    rw [hlu, Libm.addD_dbl, ih _ (fun x hx => h x (List.mem_cons_of_mem u hx))]

/-- With exact sums, the sum of the logarithms over a list. -/
theorem foldl_log10_exact (f : Nat → ℚ) :
    ∀ (l : List Nat) (a : ℚ),
      l.foldl (fun acc u => (fun x y => x + y) acc (f u)) a = a + (l.map f).sum := by
  intro l
  induction l with
  | nil => intro a; simp
  | cons u l ih =>
    intro a
    simp only [List.foldl_cons, List.map_cons, List.sum_cons]
    rw [ih, add_assoc]

/-- Erasing a variable other than `v` from the scope is leaving it out with
the variables of the prefix. -/
theorem sliceScope_filter_erase (v u : Nat) (scope : Finset Nat) (l : List Nat)
    (hu : u ≠ v ∧ u ∈ scope) :
    (scope.erase u).filter (fun x => x = v ∨ x ∉ l) =
      scope.filter (fun x => x = v ∨ x ∉ u :: l) := by
  ext x
  simp only [Finset.mem_filter, Finset.mem_erase, List.mem_cons, not_or]
  constructor
  · rintro ⟨⟨hxu, hxs⟩, hx⟩
    exact ⟨hxs, hx.imp id (fun h => ⟨hxu, h⟩)⟩
  · rintro ⟨hxs, hx⟩
    rcases hx with hx | hx
    · exact ⟨⟨by rw [hx]; exact fun h => hu.1 h.symm, hxs⟩, Or.inl hx⟩
    · exact ⟨⟨hx.1, hxs⟩, Or.inr hx.2⟩

/-- A variable of the order that is `v` or is not in the scope changes nothing. -/
theorem sliceScope_filter_skip (v u : Nat) (scope : Finset Nat) (l : List Nat)
    (hu : ¬ (u ≠ v ∧ u ∈ scope)) :
    scope.filter (fun x => x = v ∨ x ∉ l) =
      scope.filter (fun x => x = v ∨ x ∉ u :: l) := by
  ext x
  simp only [Finset.mem_filter, List.mem_cons, not_or]
  constructor
  · rintro ⟨hxs, hx⟩
    refine ⟨hxs, ?_⟩
    rcases hx with hx | hx
    · exact Or.inl hx
    · by_cases hxv : x = v
      · exact Or.inl hxv
      · refine Or.inr ⟨?_, hx⟩
        intro hxu
        apply hu
        exact ⟨by rw [← hxu]; exact hxv, by rw [← hxu]; exact hxs⟩
  · rintro ⟨hxs, hx⟩
    exact ⟨hxs, hx.imp id (fun h => h.2)⟩

/-- With exact differences the running size after a prefix of the order is the
sum of the logarithms of the domain sizes of the scope that is left. -/
theorem computeLocalErrorTables_sliceLogAfter_exact (libm : Libm) (problem : Problem)
    (v : Nat) (hsub : libm.sub = fun x y => x - y) :
    ∀ (l : List Nat) (scope : Finset Nat),
      computeLocalErrorTables_sliceLogAfter libm problem v l scope
          (∑ u in scope, libm.log10 (problem.getDomainSize u : ℚ)) =
        ∑ u in scope.filter (fun u => u = v ∨ u ∉ l),
          libm.log10 (problem.getDomainSize u : ℚ) := by
  intro l
  induction l with
  | nil =>
    intro scope
    simp [computeLocalErrorTables_sliceLogAfter]
  | cons u l ih =>
    intro scope
    unfold computeLocalErrorTables_sliceLogAfter
    by_cases hu : u ≠ v ∧ u ∈ scope
    · rw [if_pos hu, ← sliceScope_filter_erase v u scope l hu, ← ih (scope.erase u)]
      congr 1
      rw [hsub, ← Finset.add_sum_erase scope _ hu.2]
      ring
    · rw [if_neg hu, ← sliceScope_filter_skip v u scope l hu, ih scope]

/-- With exact sums and differences the running size after a prefix of the
order is the sum of the logarithms of the domain sizes of the scope that is
left. -/
theorem computeLocalErrorTables_sliceSizeLog_exact (libm : Libm) (problem : Problem)
    (v : Nat) (hadd : libm.add = fun x y => x + y) (hsub : libm.sub = fun x y => x - y)
    (l : List Nat) (scope : Finset Nat) :
    computeLocalErrorTables_sliceSizeLog libm problem v l scope =
      ∑ u in scope.filter (fun u => u = v ∨ u ∉ l),
        libm.log10 (problem.getDomainSize u : ℚ) := by
  unfold computeLocalErrorTables_sliceSizeLog
  rw [← computeLocalErrorTables_sliceLogAfter_exact libm problem v hsub l scope, hadd,
    foldl_log10_exact, zero_add, ← List.sum_toFinset _ (Finset.sort_nodup _ _),
    Finset.sort_toFinset]

/-- The loop of lines 1902-1920 from a scope whose variables have domains that
are not empty and a finite running size `cur`: it returns, and what it returns
is the scope without the variables other than `v` of a prefix of the order; the
loop stopped at the end of the order or at a scope and a running size that pass
the test of lines 1904-1905, and no shorter prefix gives a scope and a running
size that pass it. -/
theorem computeLocalErrorTables_sliceLoop_spec (libm : Libm) (problem : Problem)
    (v target_scope_size : Nat) (table_size_actual_limit : Val) :
    ∀ (order : List Nat) (scope : Finset Nat) (cur : ℚ),
      (∀ u ∈ scope, 0 < problem.getDomainSize u) →
      ∃ pre post, order = pre ++ post ∧
        computeLocalErrorTables_sliceLoop libm problem v target_scope_size
          table_size_actual_limit order scope (dbl cur) =
          some (scope.filter (fun u => u = v ∨ u ∉ pre)) ∧
        (post = [] ∨
          ((scope.filter (fun u => u = v ∨ u ∉ pre)).card ≤ target_scope_size ∧
            dbl (computeLocalErrorTables_sliceLogAfter libm problem v pre scope cur) ≤
              table_size_actual_limit)) ∧
        ∀ n, n < pre.length →
          ¬ ((scope.filter (fun u => u = v ∨ u ∉ pre.take n)).card ≤ target_scope_size ∧
            dbl (computeLocalErrorTables_sliceLogAfter libm problem v (pre.take n) scope
              cur) ≤ table_size_actual_limit) := by
  intro order
  induction order with
  | nil =>
    intro scope cur _
    refine ⟨[], [], rfl, ?_, Or.inl rfl, ?_⟩
    · simp [computeLocalErrorTables_sliceLoop]
    · intro n hn; exact absurd hn (by simp)
  | cons u rest ih =>
    intro scope cur hdom
    have hall : scope.filter (fun x => x = v ∨ x ∉ ([] : List Nat)) = scope := by
      simp
    have hnil : computeLocalErrorTables_sliceLogAfter libm problem v [] scope cur = cur :=
      rfl
    by_cases hc : scope.card ≤ target_scope_size ∧ dbl cur ≤ table_size_actual_limit
    · refine ⟨[], u :: rest, rfl, ?_, Or.inr ?_, ?_⟩
      · rw [hall]
        unfold computeLocalErrorTables_sliceLoop
        rw [if_pos hc]
      · rw [hall, hnil]; exact hc
      · intro n hn; exact absurd hn (by simp)
    · by_cases hu : u ≠ v ∧ u ∈ scope
      · have hdom1 : ∀ x ∈ scope.erase u, 0 < problem.getDomainSize x :=
          fun x hx => hdom x (Finset.mem_of_mem_erase hx)
        obtain ⟨pre, post, hord, hrun, hstop, hmin⟩ := ih (scope.erase u)
          (libm.sub cur (libm.log10 (problem.getDomainSize u : ℚ))) hdom1
        have hstep : ∀ l : List Nat,
            computeLocalErrorTables_sliceLogAfter libm problem v (u :: l) scope cur =
              computeLocalErrorTables_sliceLogAfter libm problem v l (scope.erase u)
                (libm.sub cur (libm.log10 (problem.getDomainSize u : ℚ))) := by
          intro l
          rw [computeLocalErrorTables_sliceLogAfter, if_pos hu]
        have hlog : libm.subD (dbl cur) (libm.log10_int (problem.getDomainSize u)) =
            some (dbl (libm.sub cur (libm.log10 (problem.getDomainSize u : ℚ)))) := by
          have hu0 : problem.getDomainSize u ≠ 0 := Nat.pos_iff_ne_zero.mp (hdom u hu.2)
          simp only [Libm.log10_int, hu0, if_false, Libm.subD_dbl]
        refine ⟨u :: pre, post, by rw [hord]; rfl, ?_, ?_, ?_⟩
        · unfold computeLocalErrorTables_sliceLoop
          rw [if_neg hc, if_pos hu]
          simp only [hlog]
          rw [hrun, sliceScope_filter_erase v u scope pre hu]
        · rw [← sliceScope_filter_erase v u scope pre hu, hstep]; exact hstop
        · intro n hn
          cases n with
          | zero =>
            simp only [List.take_zero]
            rw [hall, hnil]; exact hc
          | succ m =>
            simp only [List.take_succ_cons]
            rw [← sliceScope_filter_erase v u scope _ hu, hstep]
            exact hmin m (by simpa using hn)
      · obtain ⟨pre, post, hord, hrun, hstop, hmin⟩ := ih scope cur hdom
        have hstep : ∀ l : List Nat,
            computeLocalErrorTables_sliceLogAfter libm problem v (u :: l) scope cur =
              computeLocalErrorTables_sliceLogAfter libm problem v l scope cur := by
          intro l
          rw [computeLocalErrorTables_sliceLogAfter, if_neg hu]
        refine ⟨u :: pre, post, by rw [hord]; rfl, ?_, ?_, ?_⟩
        · unfold computeLocalErrorTables_sliceLoop
          rw [if_neg hc, if_neg hu, hrun, sliceScope_filter_skip v u scope pre hu]
        · rw [← sliceScope_filter_skip v u scope pre hu, hstep]; exact hstop
        · intro n hn
          cases n with
          | zero =>
            simp only [List.take_zero]
            rw [hall, hnil]; exact hc
          | succ m =>
            simp only [List.take_succ_cons]
            rw [← sliceScope_filter_skip v u scope _ hu, hstep]
            exact hmin m (by simpa using hn)

/-- C30.  The scope of the slice of bucket `v` (lines 1879-1924), for a bucket
scope whose variables have domains that are not empty.  The selection returns
a scope `out` that is the bucket scope without the variables other than `v` of
a prefix `pre` of the elimination order in the chosen direction (backwards when
`bee_slice_sample_closest_first` is set): `out` is inside the bucket scope, it
holds `v` when the bucket scope does, and every dropped variable comes before
every kept variable other than `v` in that direction.  The dropping stopped at
the end of the order, or at a scope with at most `min(bee_slice_sample_scope_size,
m_ibound)` variables whose log10 table size is within the limit, and no shorter
prefix gives such a scope.  The log10 table size is the one the code tracks,
the double `current_table_size_log`: the rounded sum of the logarithms of the
domain sizes of the bucket scope less, one rounded subtraction at a time, those
of the dropped variables; where sums and differences are exact it is the sum of
the logarithms of the domain sizes of the scope that is left. -/
theorem computeLocalErrorTables_sliceScope_spec (self : MiniBucketElimLH)
    (libm : Libm) (v : Nat) (table_size_actual_limit : Val)
    (hdom : ∀ u ∈ self._BucketScopes v, 0 < self.m_problem.getDomainSize u) :
    ∃ out pre post,
      (if self.m_options.bee_slice_sample_closest_first then
          self.m_pseudotree.elimOrder.reverse
        else self.m_pseudotree.elimOrder) = pre ++ post ∧
      self.computeLocalErrorTables_sliceScope libm v table_size_actual_limit = some out ∧
      out = (self._BucketScopes v).filter (fun u => u = v ∨ u ∉ pre) ∧
      out ⊆ self._BucketScopes v ∧
      (v ∈ self._BucketScopes v → v ∈ out) ∧
      (∀ d ∈ self._BucketScopes v, d ∉ out → ∀ k ∈ out, k ≠ v →
        (pre ++ post).indexOf d < (pre ++ post).indexOf k) ∧
      (post = [] ∨
        (out.card ≤ min self.m_options.bee_slice_sample_scope_size self.m_ibound ∧
          dbl (computeLocalErrorTables_sliceSizeLog libm self.m_problem v pre
            (self._BucketScopes v)) ≤ table_size_actual_limit)) ∧
      (∀ n, n < pre.length →
        ¬ (((self._BucketScopes v).filter (fun u => u = v ∨ u ∉ pre.take n)).card ≤
            min self.m_options.bee_slice_sample_scope_size self.m_ibound ∧
          dbl (computeLocalErrorTables_sliceSizeLog libm self.m_problem v (pre.take n)
            (self._BucketScopes v)) ≤ table_size_actual_limit)) ∧
      ((libm.add = fun x y => x + y) → (libm.sub = fun x y => x - y) →
        ∀ l : List Nat,
          computeLocalErrorTables_sliceSizeLog libm self.m_problem v l
              (self._BucketScopes v) =
            ∑ u in (self._BucketScopes v).filter (fun u => u = v ∨ u ∉ l),
              libm.log10 (self.m_problem.getDomainSize u : ℚ)) := by
  obtain ⟨pre, post, hord, hrun, hstop, hmin⟩ :=
    computeLocalErrorTables_sliceLoop_spec libm self.m_problem v
      (min self.m_options.bee_slice_sample_scope_size self.m_ibound) table_size_actual_limit
      (if self.m_options.bee_slice_sample_closest_first then
          self.m_pseudotree.elimOrder.reverse
        else self.m_pseudotree.elimOrder) (self._BucketScopes v)
      (((self._BucketScopes v).sort (fun a b => a ≤ b)).foldl
        (fun acc u => libm.add acc (libm.log10 (self.m_problem.getDomainSize u : ℚ))) 0)
      hdom
  have hinit : ((self._BucketScopes v).sort (fun a b => a ≤ b)).foldl
      (fun acc u => libm.addD acc (libm.log10_int (self.m_problem.getDomainSize u)))
        (0 : Val) =
      dbl (((self._BucketScopes v).sort (fun a b => a ≤ b)).foldl
        (fun acc u => libm.add acc (libm.log10 (self.m_problem.getDomainSize u : ℚ)))
          0) := by
    have h0 : (0 : Val) = dbl 0 := rfl
    rw [h0, foldl_log10_int libm self.m_problem _ 0
      (fun u hu => hdom u ((Finset.mem_sort _).mp hu))]
  refine ⟨_, pre, post, hord, ?_, rfl, Finset.filter_subset _ _, ?_, ?_, hstop, hmin,
    fun hadd hsub l => computeLocalErrorTables_sliceSizeLog_exact libm self.m_problem v
      hadd hsub l (self._BucketScopes v)⟩
  · unfold MiniBucketElimLH.computeLocalErrorTables_sliceScope
    simp only [hinit]
    exact hrun
  · intro hv
    exact Finset.mem_filter.mpr ⟨hv, Or.inl rfl⟩
  · intro d hd hdout k hk hkv
    have hdpre : d ∈ pre := by
      by_contra hn
      exact hdout (Finset.mem_filter.mpr ⟨hd, Or.inr hn⟩)
    have hkpre : k ∉ pre := by
      rcases (Finset.mem_filter.mp hk).2 with h | h
      · exact absurd h hkv
      · exact h
    rw [List.indexOf_append_of_mem hdpre, List.indexOf_append_of_not_mem hkpre]
    exact lt_of_lt_of_le (List.indexOf_lt_length.mpr hdpre) (Nat.le_add_right _ _)

/-- C30 at bucket 0 of `exSampledBe` with the limit 3, under the exact sums and
differences of `exLibm`. -/
theorem computeLocalErrorTables_sliceScope_spec_witness :
    ((∀ u ∈ exSampledBe._BucketScopes 0, 0 < exSampledBe.m_problem.getDomainSize u) ∧
      (exLibm.add = fun x y => x + y) ∧ (exLibm.sub = fun x y => x - y)) ∧
    ∃ out pre post,
      (if exSampledBe.m_options.bee_slice_sample_closest_first then
          exSampledBe.m_pseudotree.elimOrder.reverse
        else exSampledBe.m_pseudotree.elimOrder) = pre ++ post ∧
      exSampledBe.computeLocalErrorTables_sliceScope exLibm 0 (dbl 3) = some out ∧
      out = (exSampledBe._BucketScopes 0).filter (fun u => u = 0 ∨ u ∉ pre) ∧
      out ⊆ exSampledBe._BucketScopes 0 ∧
      (0 ∈ exSampledBe._BucketScopes 0 → 0 ∈ out) ∧
      (∀ d ∈ exSampledBe._BucketScopes 0, d ∉ out → ∀ k ∈ out, k ≠ 0 →
        (pre ++ post).indexOf d < (pre ++ post).indexOf k) ∧
      (post = [] ∨
        (out.card ≤ min exSampledBe.m_options.bee_slice_sample_scope_size
            exSampledBe.m_ibound ∧
          dbl (computeLocalErrorTables_sliceSizeLog exLibm exSampledBe.m_problem 0 pre
            (exSampledBe._BucketScopes 0)) ≤ dbl 3)) ∧
      (∀ n, n < pre.length →
        ¬ (((exSampledBe._BucketScopes 0).filter (fun u => u = 0 ∨ u ∉ pre.take n)).card ≤
            min exSampledBe.m_options.bee_slice_sample_scope_size exSampledBe.m_ibound ∧
          dbl (computeLocalErrorTables_sliceSizeLog exLibm exSampledBe.m_problem 0
            (pre.take n) (exSampledBe._BucketScopes 0)) ≤ dbl 3)) ∧
      ((exLibm.add = fun x y => x + y) → (exLibm.sub = fun x y => x - y) →
        ∀ l : List Nat,
          computeLocalErrorTables_sliceSizeLog exLibm exSampledBe.m_problem 0 l
              (exSampledBe._BucketScopes 0) =
            ∑ u in (exSampledBe._BucketScopes 0).filter (fun u => u = 0 ∨ u ∉ l),
              exLibm.log10 (exSampledBe.m_problem.getDomainSize u : ℚ)) :=
  have hdom : ∀ u ∈ exSampledBe._BucketScopes 0,
      0 < exSampledBe.m_problem.getDomainSize u :=
    fun _ _ => Nat.succ_pos 1
  ⟨⟨hdom, rfl, rfl⟩,
    computeLocalErrorTables_sliceScope_spec exSampledBe exLibm 0 (dbl 3) hdom⟩

/-! ### Moment matching -/

/-- The routing of an output changes the memory statistic and the routed
functions only. -/
theorem build_route_state (self s1 : MiniBucketElimLH) (fuel v : Nat)
    (newf : Function) (h : self.build_route fuel v newf = some s1) :
    ∃ aug inter, s1 = { self with
      _Stats_MemorySize := self._Stats_MemorySize + newf.getTableSize,
      m_intermediate := inter, m_augmented := aug } := by
  unfold MiniBucketElimLH.build_route at h
  cases hp : self.m_pseudotree.parent v with
  | none => simp [hp] at h
  | some n0 =>
    simp only [hp] at h
    cases hl : build_routeLoop self.m_pseudotree newf fuel n0 self.m_intermediate with
    | none => simp [hl] at h
    | some r =>
      obtain ⟨n, inter⟩ := r
      simp only [hl, Option.some.injEq] at h
      exact ⟨_, inter, h.symm⟩

/-- The loop of lines 423-448 over the mini-buckets of a bucket: it changes the
memory statistic, by the table sizes of the outputs, and the routed functions;
every mini-bucket gets its output, which is the plain output when there was no
moment matching. -/
theorem build_processMiniBuckets_state (ext : BuildExternals) (fuel v : Nat)
    (mm : Option (List Function × Function)) :
    ∀ (items : List (Nat × MiniBucket)) (acc acc1 : MiniBucketElimLH × List MiniBucket),
      items.foldlM (build_processMiniBucket ext fuel v mm) acc = some acc1 →
      ∃ aug inter done,
        acc1 = ({ acc.1 with
            _Stats_MemorySize :=
              acc.1._Stats_MemorySize + (done.map MiniBucket.outputTableSize).sum,
            m_intermediate := inter, m_augmented := aug }, acc.2 ++ done) ∧
        done.length = items.length ∧
        (mm = none → done = items.map
          (fun it => { it.2 with m_outputFn := some (it.2.eliminate acc.1.m_problem) })) := by
  intro items
  induction items with
  | nil =>
    intro acc acc1 h
    simp only [List.foldlM_nil, Option.pure_def, Option.some.injEq] at h
    subst h
    exact ⟨acc.1.m_augmented, acc.1.m_intermediate, [], by simp, rfl, fun _ => rfl⟩
  | cons it items ih =>
    intro acc acc1 h
    simp only [List.foldlM_cons, Option.bind_eq_bind] at h
    cases hs : build_processMiniBucket ext fuel v mm acc it with
    | none => simp [hs] at h
    | some mid =>
      simp only [hs, Option.some_bind] at h
      obtain ⟨aug, inter, done, hacc, hlen, hplain⟩ := ih mid acc1 h
      unfold build_processMiniBucket at hs
      cases hn : (match mm with
          | none => some (it.2.eliminate acc.1.m_problem)
          | some (max_marginals, average_mm_function) =>
            (max_marginals[it.1]?).map
              (fun max_marginal =>
                ext.eliminateMM it.2 max_marginal average_mm_function)) with
      | none => simp [hn] at hs
      | some newf =>
        simp only [hn] at hs
        cases hr : acc.1.build_route fuel v newf with
        | none => simp [hr] at hs
        | some s1 =>
          simp only [hr, Option.map_some', Option.some.injEq] at hs
          obtain ⟨aug1, inter1, hs1⟩ := build_route_state acc.1 s1 fuel v newf hr
          subst hs
          subst hs1
          refine ⟨aug, inter, { it.2 with m_outputFn := some newf } :: done, ?_, ?_, ?_⟩
          · rw [hacc]
            simp only [List.map_cons, List.sum_cons, MiniBucket.outputTableSize,
              List.append_assoc, List.singleton_append, Nat.add_assoc]
          · simp only [List.length_cons, hlen]
          · intro hmm
            subst hmm
            simp only [Option.some.injEq] at hn
            subst hn
            rw [hplain rfl]
            rfl

/-- A map over the second components of an enumeration. -/
theorem enum_map_snd_comp {α β : Type} (g : α → β) (l : List α) :
    l.enum.map (fun it => g it.2) = l.map g := by
  have h : (fun it : Nat × α => g it.2) = g ∘ Prod.snd := rfl
  rw [h, ← List.map_map, List.enum_map_snd]

/-- The body of the loop of lines 272-450 for the bucket of `v`: the members it
writes.  The memory statistic grows by the table sizes of the outputs of the
mini-buckets that the bucket gets, and without `computeTables` these are the
mini-buckets of the packing with their plain outputs. -/
theorem build_bucket_state (self s1 : MiniBucketElimLH) (ext : BuildExternals)
    (fuel : Nat) (assignment : Option Assignment) (computeTables : Bool)
    (dummy v : Nat)
    (h : self.build_bucket ext fuel assignment computeTables dummy v = some s1) :
    ∃ aug inter mbs bfuns ub nmb nmb1,
      s1 = { self with
        _MiniBuckets := Function.update self._MiniBuckets v mbs,
        _BucketFunctions := Function.update self._BucketFunctions v bfuns,
        _BucketScopes := Function.update self._BucketScopes v
          (build_insertScopes (build_insertScopes ∅ (self.m_pseudotree.getFunctions v))
            (self.m_augmented v)),
        _Stats_Width :=
          if self._Stats_Width <
              ((build_insertScopes ∅ (self.m_pseudotree.getFunctions v)).card : Int) then
            ((build_insertScopes ∅ (self.m_pseudotree.getFunctions v)).card : Int)
          else self._Stats_Width,
        _Pseudowidth := Function.update self._Pseudowidth v
          ((build_insertScopes (build_insertScopes ∅ (self.m_pseudotree.getFunctions v))
            (self.m_augmented v)).card : Int),
        _Stats_PseudoWidth :=
          if self._Stats_PseudoWidth <
              ((build_insertScopes (build_insertScopes ∅ (self.m_pseudotree.getFunctions v))
                (self.m_augmented v)).card : Int) then
            ((build_insertScopes (build_insertScopes ∅ (self.m_pseudotree.getFunctions v))
              (self.m_augmented v)).card : Int)
          else self._Stats_PseudoWidth,
        m_globalUB := ub,
        _Stats_MaxNumMBs := nmb,
        _Stats_NumBucketsWithMoreThan1MB := nmb1,
        _Stats_MemorySize :=
          self._Stats_MemorySize + (mbs.map MiniBucket.outputTableSize).sum,
        m_intermediate := inter,
        m_augmented := aug } ∧
      (v = dummy → mbs = []) ∧
      (v ≠ dummy → computeTables = false →
        mbs = (build_partition v self.m_ibound
            (self.m_pseudotree.getFunctions v ++ self.m_augmented v)).map
          (fun mb => { mb with m_outputFn := some (mb.eliminate self.m_problem) })) := by
  unfold MiniBucketElimLH.build_bucket at h
  simp only at h
  by_cases hd : v = dummy
  · rw [if_pos hd] at h
    cases computeTables with
    | false =>
      simp only [Option.some.injEq] at h
      exact ⟨self.m_augmented, self.m_intermediate, [],
        self.m_pseudotree.getFunctions v ++ self.m_augmented v, self.m_globalUB,
        self._Stats_MaxNumMBs, self._Stats_NumBucketsWithMoreThan1MB,
        by rw [← h]; simp, fun _ => rfl, fun hn => absurd hd hn⟩
    | true =>
      cases assignment with
      | none =>
        simp only [Option.some.injEq] at h
        exact ⟨self.m_augmented, self.m_intermediate, [],
          self.m_pseudotree.getFunctions v ++ self.m_augmented v, self.m_globalUB,
          self._Stats_MaxNumMBs, self._Stats_NumBucketsWithMoreThan1MB,
          by rw [← h]; simp, fun _ => rfl, fun hn => absurd hd hn⟩
      | some a =>
        simp only [Option.map_eq_some'] at h
        obtain ⟨ub, _, h⟩ := h
        exact ⟨self.m_augmented, self.m_intermediate, [],
          self.m_pseudotree.getFunctions v ++ self.m_augmented v, ub,
          self._Stats_MaxNumMBs, self._Stats_NumBucketsWithMoreThan1MB,
          by rw [← h]; simp, fun _ => rfl, fun hn => absurd hd hn⟩
  · rw [if_neg hd] at h
    cases hmm : (if computeTables = true ∧ self.m_options.match_ = true ∧
          (build_partition v self.m_ibound
            (self.m_pseudotree.getFunctions v ++ self.m_augmented v)).length > 1 then
        (build_momentMatching self.m_problem ext.eliminate_vars ext.getTable
          (build_partition v self.m_ibound
            (self.m_pseudotree.getFunctions v ++ self.m_augmented v))).map some
        else some none) with
    | none => simp [hmm] at h
    | some mm =>
      simp only [hmm, Option.map_eq_some'] at h
      obtain ⟨r, hr, h⟩ := h
      obtain ⟨aug, inter, done, hacc, hlen, hplain⟩ :=
        build_processMiniBuckets_state ext fuel v mm _ _ r hr
      subst hacc
      subst h
      refine ⟨aug, inter, done,
        build_sortFunctions (self.m_pseudotree.getFunctions v ++ self.m_augmented v),
        self.m_globalUB,
        (if self._Stats_MaxNumMBs <
            ((build_partition v self.m_ibound
              (self.m_pseudotree.getFunctions v ++ self.m_augmented v)).length : Int) then
          ((build_partition v self.m_ibound
            (self.m_pseudotree.getFunctions v ++ self.m_augmented v)).length : Int)
        else self._Stats_MaxNumMBs),
        (if ((build_partition v self.m_ibound
            (self.m_pseudotree.getFunctions v ++ self.m_augmented v)).length : Int) > 1 then
          self._Stats_NumBucketsWithMoreThan1MB + 1
        else self._Stats_NumBucketsWithMoreThan1MB),
        ?_, fun hn => absurd hn hd, ?_⟩
      · simp
      · intro _ hct
        have hnone : mm = none := by
          subst hct
          simp at hmm
          exact hmm.symm
        rw [hplain hnone]
        exact enum_map_snd_comp
          (fun (mb : MiniBucket) =>
            ({ mb with m_outputFn := some (mb.eliminate self.m_problem) } : MiniBucket)) _

/-! ### The members that the estimation leaves alone -/

/-- Lines 1296-1392 leave the members of `estimationFrame` as they are. -/
theorem computeLocalErrorTable_finish_frame (self : MiniBucketElimLH)
    (var : Nat) (build_table enumerate_table : Bool) (scope : List Nat)
    (TableSize : Int) (TableSizeLog : Val) (st : LocalErrorTableLoop) :
    (self.computeLocalErrorTable_finish var build_table enumerate_table scope TableSize
        TableSizeLog st).state.estimationFrame = self.estimationFrame := by
  unfold MiniBucketElimLH.computeLocalErrorTable_finish
  by_cases h0 : st.nEntriesGenerated ≤ 0
  · rw [if_pos h0]
  · rw [if_neg h0]
    simp only [MiniBucketElimLH.estimationFrame]
    split_ifs <;> rfl

/-- The state that `computeLocalErrorTable` leaves: the state of an exit, which
sets the quality tag, the state as it was, or the state that lines 1296-1392
leave. -/
theorem computeLocalErrorTable_state (self : MiniBucketElimLH) (libm : Libm)
    (flags : Flags) (rand : Nat → Nat → Nat → Int) (var : Nat)
    (build_table sample_table_if_not_computed : Bool)
    (TableMemoryLimitAsNumElementsLog : Val) (r : LocalErrorTableResult)
    (h : self.computeLocalErrorTable libm flags rand var build_table
      sample_table_if_not_computed TableMemoryLimitAsNumElementsLog = some r) :
    (∃ q, r.state = { self with
        _BucketErrorQuality := Function.update self._BucketErrorQuality var q }) ∨
      r.state = self ∨
      ∃ (s1 : MiniBucketElimLH) (bt et : Bool) (scope : List Nat) (T : Int) (tsl : Val)
        (st : LocalErrorTableLoop),
        (s1 = self ∨ ∃ w, s1 = { self with _Stats_EnforcedPseudoWidth := w }) ∧
        r = s1.computeLocalErrorTable_finish var bt et scope T tsl st := by
  rcases computeLocalErrorTable_shape self libm flags rand var build_table
    sample_table_if_not_computed TableMemoryLimitAsNumElementsLog r h with h0 | hfin
  · rcases h0.2.2 with hs | hs
    · exact Or.inr (Or.inl hs)
    · exact Or.inl hs
  · obtain ⟨s1, b, e, scope, T, tsl, st, hr, hs1, _, _⟩ := hfin
    exact Or.inr (Or.inr ⟨s1, b, e, scope, T, tsl, st, hs1, hr⟩)

/-- The function `computeLocalErrorTable` leaves the members of
`estimationFrame` as they are. -/
theorem computeLocalErrorTable_frame (self : MiniBucketElimLH) (libm : Libm)
    (flags : Flags) (rand : Nat → Nat → Nat → Int) (var : Nat)
    (build_table sample_table_if_not_computed : Bool)
    (TableMemoryLimitAsNumElementsLog : Val) (r : LocalErrorTableResult)
    (h : self.computeLocalErrorTable libm flags rand var build_table
      sample_table_if_not_computed TableMemoryLimitAsNumElementsLog = some r) :
    r.state.estimationFrame = self.estimationFrame := by
  rcases computeLocalErrorTable_state self libm flags rand var build_table
    sample_table_if_not_computed TableMemoryLimitAsNumElementsLog r h with
    ⟨q, hq⟩ | hs | ⟨s1, bt, et, scope, T, tsl, st, hs1, hr⟩
  · rw [hq]; rfl
  · rw [hs]
  · rw [hr, computeLocalErrorTable_finish_frame]
    rcases hs1 with rfl | ⟨w, rfl⟩ <;> rfl

/-- The function `computeLocalErrorTableSlice` leaves the members of
`estimationFrame` as they are. -/
theorem computeLocalErrorTableSlice_frame (self : MiniBucketElimLH)
    (ext : LocalErrorExternals) (var : Nat) (output_scope : Finset Nat)
    (limit : Val) (r : LocalErrorTableResult) (hext : ext.keepsEstimationFrame)
    (h : self.computeLocalErrorTableSlice ext var output_scope limit = some r) :
    r.state.estimationFrame = self.estimationFrame := by
  unfold MiniBucketElimLH.computeLocalErrorTableSlice at h
  by_cases c1 : output_scope.card > self.m_ibound
  · rw [if_pos c1] at h; exact absurd h (by simp)
  rw [if_neg c1] at h
  simp only at h
  by_cases c2 : ¬ output_scope ⊆ self._BucketScopes var
  · rw [if_pos c2] at h; exact absurd h (by simp)
  rw [if_neg c2] at h
  by_cases c3 : (self._MiniBuckets var).length ≤ 1
  · rw [if_pos c3] at h
    split_ifs at h
    simp only [Option.some.injEq] at h
    rw [← h]
  rw [if_neg c3] at h
  split_ifs at h
  exact hext.2.1 self var output_scope limit r h

/-- The estimation of one bucket leaves the members of `estimationFrame` as
they are. -/
theorem computeLocalErrorTables_call_frame (self : MiniBucketElimLH)
    (ext : LocalErrorExternals) (libm : Libm) (flags : Flags)
    (rand : Nat → Nat → Nat → Int) (build_tables : Bool)
    (TotalMemoryLimitAsNumElementsLog TableMemoryLimitAsNumElementsLog : Val)
    (v : Nat) (r : LocalErrorTableResult) (hext : ext.keepsEstimationFrame)
    (h : self.computeLocalErrorTables_call ext libm flags rand build_tables
        TotalMemoryLimitAsNumElementsLog TableMemoryLimitAsNumElementsLog v = some r) :
    r.state.estimationFrame = self.estimationFrame := by
  unfold MiniBucketElimLH.computeLocalErrorTables_call at h
  cases hs : computeLocalErrorTables_table_space_left libm
      TotalMemoryLimitAsNumElementsLog self._BucketErrorFnTableSizes_Precomputed with
  | none => simp [hs] at h
  | some space =>
    simp only [hs] at h
    by_cases hmode : self.m_options.aobf_subordering = "sampled_be" ∨
        self.m_options.aobf_subordering = "sampled_st_be"
    · rw [if_pos hmode] at h
      revert h
      generalize MiniBucketElimLH.computeLocalErrorTables_sliceScope _ _ _ _ = sc
      intro h
      cases sc with
      | none => simp at h
      | some output_scope =>
        simp only at h
        rw [computeLocalErrorTableSlice_frame _ ext v output_scope _ r hext h]
        rfl
    · rw [if_neg hmode] at h
      rw [computeLocalErrorTable_frame _ libm flags rand v _ _ _ r h]
      rfl

/-- One iteration of the loop of `computeLocalErrorTables` leaves the members of
`estimationFrame` as they are. -/
theorem computeLocalErrorTables_step_frame (ext : LocalErrorExternals)
    (libm : Libm) (flags : Flags) (rand : Nat → Nat → Nat → Int) (build_tables : Bool)
    (TotalMemoryLimitAsNumElementsLog TableMemoryLimitAsNumElementsLog : Val)
    (acc acc1 : MiniBucketElimLH × Nat) (v : Nat) (hext : ext.keepsEstimationFrame)
    (h : computeLocalErrorTables_step ext libm flags rand build_tables
        TotalMemoryLimitAsNumElementsLog TableMemoryLimitAsNumElementsLog acc v =
          some acc1) :
    acc1.1.estimationFrame = acc.1.estimationFrame := by
  unfold computeLocalErrorTables_step at h
  cases hc : acc.1.computeLocalErrorTables_call ext libm flags rand build_tables
      TotalMemoryLimitAsNumElementsLog TableMemoryLimitAsNumElementsLog v with
  | none => simp [hc] at h
  | some r =>
    have hf := computeLocalErrorTables_call_frame acc.1 ext libm flags rand build_tables _ _
      v r hext hc
    simp only [hc] at h
    cases hst : computeLocalErrorTables_stored r.state.m_problem r.errorFn with
    | none => simp [hst] at h
    | some errorFn =>
      simp only [hst, Option.map_eq_some'] at h
      obtain ⟨p, _, h⟩ := h
      rw [← h, ← hf]
      rfl

/-- The loop of `computeLocalErrorTables` leaves the members of
`estimationFrame` as they are. -/
theorem computeLocalErrorTables_loop_frame (ext : LocalErrorExternals)
    (libm : Libm) (flags : Flags) (rand : Nat → Nat → Nat → Int) (build_tables : Bool)
    (TotalMemoryLimitAsNumElementsLog TableMemoryLimitAsNumElementsLog : Val)
    (hext : ext.keepsEstimationFrame) :
    ∀ (l : List Nat) (acc acc1 : MiniBucketElimLH × Nat),
      l.foldlM (computeLocalErrorTables_step ext libm flags rand build_tables
        TotalMemoryLimitAsNumElementsLog TableMemoryLimitAsNumElementsLog) acc = some acc1 →
      acc1.1.estimationFrame = acc.1.estimationFrame := by
  intro l
  induction l with
  | nil =>
    intro acc acc1 h
    simp only [List.foldlM_nil, Option.pure_def, Option.some.injEq] at h
    rw [h]
  | cons u l ih =>
    intro acc acc1 h
    simp only [List.foldlM_cons, Option.bind_eq_bind] at h
    cases hs : computeLocalErrorTables_step ext libm flags rand build_tables
        TotalMemoryLimitAsNumElementsLog TableMemoryLimitAsNumElementsLog acc u with
    | none => simp [hs] at h
    | some mid =>
      simp only [hs, Option.some_bind] at h
      rw [ih mid acc1 h, computeLocalErrorTables_step_frame ext libm flags rand build_tables
        _ _ acc mid u hext hs]

/-- The function `computeLocalErrorTables` leaves the members of
`estimationFrame` as they are. -/
theorem computeLocalErrorTables_frame (self s1 : MiniBucketElimLH)
    (ext : LocalErrorExternals) (libm : Libm) (flags : Flags)
    (rand : Nat → Nat → Nat → Int) (build_tables : Bool)
    (TotalMemoryLimitAsNumElementsLog TableMemoryLimitAsNumElementsLog : Val)
    (hext : ext.keepsEstimationFrame)
    (h : self.computeLocalErrorTables ext libm flags rand build_tables
        TotalMemoryLimitAsNumElementsLog TableMemoryLimitAsNumElementsLog = some s1) :
    s1.estimationFrame = self.estimationFrame := by
  unfold MiniBucketElimLH.computeLocalErrorTables at h
  cases he : self.computeLocalErrorTables_estimate ext libm flags rand build_tables
      TotalMemoryLimitAsNumElementsLog TableMemoryLimitAsNumElementsLog with
  | none => simp [he] at h
  | some acc =>
    obtain ⟨s2, n⟩ := acc
    simp only [he] at h
    have he1 := he
    unfold MiniBucketElimLH.computeLocalErrorTables_estimate at he1
    have h2 : s2.estimationFrame = self.estimationFrame := by
      have := computeLocalErrorTables_loop_frame ext libm flags rand build_tables _ _ hext
        _ _ _ he1
      rw [this, ← hext.1 self]
      rfl
    have hsub : ∀ (be : Nat → WithBot ℚ) (s3 : MiniBucketElimLH),
        s2.ComputeSubtreeErrors be = some s3 →
        (if s3.m_options.aobf_subordering = "sampled_st_be" then
          (if flags.aobf_subordering_depth_limit < 0 then ext.ComputeSubtreeErrorFns s3
            else ext.ComputeDepthLimitedSubtreeErrorFns s3
              flags.aobf_subordering_depth_limit)
        else some s3) = some s1 →
        s1.estimationFrame = s2.estimationFrame := by
      intro be s3 hc hr
      have h3 : s3.estimationFrame = s2.estimationFrame := by
        unfold MiniBucketElimLH.ComputeSubtreeErrors at hc
        simp only [Option.map_eq_some'] at hc
        obtain ⟨se, _, rfl⟩ := hc
        rfl
      split_ifs at hr with hm hd
      · rw [hext.2.2.1 s3 s1 hr, h3]
      · rw [hext.2.2.2 s3 s1 _ hr, h3]
      · simp only [Option.some.injEq] at hr
        rw [← hr, h3]
    rw [← h2]
    by_cases hrel : flags.aobf_subordering_use_relative_error = true
    · simp only [hrel, if_true] at h
      cases hc : s2.ComputeSubtreeErrors s2._BucketError_Rel with
      | none => simp [hc] at h
      | some s3 =>
        simp only [hc] at h
        exact hsub _ s3 hc h
    · have hrel1 : flags.aobf_subordering_use_relative_error = false := by
        simpa using hrel
      simp only [hrel1, Bool.false_eq_true, if_false] at h
      cases hc : s2.ComputeSubtreeErrors s2._BucketError_AbsAvg with
      | none => simp [hc] at h
      | some s3 =>
        simp only [hc] at h
        exact hsub _ s3 hc h

/-! ### The loop over the buckets -/

/-- Inserting scopes keeps what the set holds. -/
theorem build_insertScopes_subset (funs : List Function) :
    ∀ s : Finset Nat, s ⊆ build_insertScopes s funs := by
  unfold build_insertScopes
  induction funs with
  | nil => intro s; exact Finset.Subset.refl s
  | cons f funs ih =>
    intro s
    exact Finset.Subset.trans Finset.subset_union_left (ih (s ∪ f.scope))

/-- The body of the loop over the buckets leaves the members of `bucketFrame`
as they are. -/
theorem build_bucket_frame (self s1 : MiniBucketElimLH) (ext : BuildExternals)
    (fuel : Nat) (assignment : Option Assignment) (computeTables : Bool)
    (dummy v : Nat)
    (h : self.build_bucket ext fuel assignment computeTables dummy v = some s1) :
    s1.bucketFrame = self.bucketFrame := by
  obtain ⟨aug, inter, mbs, bfuns, ub, nmb, nmb1, hs, _, _⟩ :=
    build_bucket_state self s1 ext fuel assignment computeTables dummy v h
  rw [hs]
  rfl

/-- The loop over the buckets leaves the members of `bucketFrame` as they
are. -/
theorem build_bucketLoop_frame (ext : BuildExternals) (fuel : Nat)
    (assignment : Option Assignment) (computeTables : Bool) (dummy : Nat) :
    ∀ (l : List Nat) (s s1 : MiniBucketElimLH),
      l.foldlM (fun s v => s.build_bucket ext fuel assignment computeTables dummy v) s =
        some s1 →
      s1.bucketFrame = s.bucketFrame := by
  intro l
  induction l with
  | nil =>
    intro s s1 h
    simp only [List.foldlM_nil, Option.pure_def, Option.some.injEq] at h
    rw [h]
  | cons u l ih =>
    intro s s1 h
    simp only [List.foldlM_cons, Option.bind_eq_bind] at h
    cases hb : s.build_bucket ext fuel assignment computeTables dummy u with
    | none => simp [hb] at h
    | some mid =>
      simp only [hb, Option.some_bind] at h
      rw [ih mid s1 h, build_bucket_frame s mid ext fuel assignment computeTables dummy u hb]

/-- The loop over the buckets keeps the reported width at most the reported
pseudo-width, and the pseudo-width that it stores for a bucket is at least the
size of the scope of the original functions of the bucket; the stored
pseudo-width of a bucket that it does not visit stays. -/
theorem build_bucketLoop_width (ext : BuildExternals) (fuel : Nat)
    (assignment : Option Assignment) (computeTables : Bool) (dummy : Nat) :
    ∀ (l : List Nat) (s s1 : MiniBucketElimLH),
      l.foldlM (fun s v => s.build_bucket ext fuel assignment computeTables dummy v) s =
        some s1 →
      (s._Stats_Width ≤ s._Stats_PseudoWidth → s1._Stats_Width ≤ s1._Stats_PseudoWidth) ∧
      (∀ v ∈ l,
        ((build_insertScopes ∅ (s.m_pseudotree.getFunctions v)).card : Int) ≤
          s1._Pseudowidth v) ∧
      (∀ v, v ∉ l → s1._Pseudowidth v = s._Pseudowidth v) := by
  intro l
  induction l with
  | nil =>
    intro s s1 h
    simp only [List.foldlM_nil, Option.pure_def, Option.some.injEq] at h
    subst h
    exact ⟨fun hw => hw, fun v hv => absurd hv (List.not_mem_nil v), fun _ _ => rfl⟩
  | cons u l ih =>
    intro s s1 h
    simp only [List.foldlM_cons, Option.bind_eq_bind] at h
    cases hb : s.build_bucket ext fuel assignment computeTables dummy u with
    | none => simp [hb] at h
    | some mid =>
      simp only [hb, Option.some_bind] at h
      obtain ⟨i1, i2, i3⟩ := ih mid s1 h
      obtain ⟨aug, inter, mbs, bfuns, ub, nmb, nmb1, hs, _, _⟩ :=
        build_bucket_state s mid ext fuel assignment computeTables dummy u hb
      have hcard : ((build_insertScopes ∅ (s.m_pseudotree.getFunctions u)).card : Int) ≤
          ((build_insertScopes (build_insertScopes ∅ (s.m_pseudotree.getFunctions u))
            (s.m_augmented u)).card : Int) :=
        Int.ofNat_le.mpr (Finset.card_le_card (build_insertScopes_subset _ _))
      have htree : mid.m_pseudotree = s.m_pseudotree := by rw [hs]
      have hpw : mid._Pseudowidth = Function.update s._Pseudowidth u
          ((build_insertScopes (build_insertScopes ∅ (s.m_pseudotree.getFunctions u))
            (s.m_augmented u)).card : Int) := by rw [hs]
      refine ⟨?_, ?_, ?_⟩
      · intro hw
        apply i1
        rw [hs]
        show (if _ then _ else _) ≤ (if _ then _ else _)
        split_ifs <;> omega
      · intro v hv
        by_cases hvl : v ∈ l
        · have := i2 v hvl
          rw [htree] at this
          exact this
        · have hvu : v = u := by
            rcases List.mem_cons.mp hv with h1 | h1
            · exact h1
            · exact absurd h1 hvl
          rw [i3 v hvl, hpw, hvu, Function.update_same]
          exact hcard
      · intro v hv
        have hvu : v ≠ u := fun h1 => hv (by rw [h1]; exact List.mem_cons_self u l)
        have hvl : v ∉ l := fun h1 => hv (List.mem_cons_of_mem u h1)
        rw [i3 v hvl, hpw, Function.update_noteq hvu]

/-- The loop over the buckets without repetition: the memory statistic grows
by the table sizes of the outputs of the mini-buckets of the buckets visited,
the mini-buckets of the other buckets stay, and without `computeTables` every
mini-bucket of a bucket visited holds its plain output. -/
theorem build_bucketLoop_memory (ext : BuildExternals) (fuel : Nat)
    (assignment : Option Assignment) (computeTables : Bool) (dummy : Nat) :
    ∀ (l : List Nat) (s s1 : MiniBucketElimLH), l.Nodup →
      l.foldlM (fun s v => s.build_bucket ext fuel assignment computeTables dummy v) s =
        some s1 →
      s1._Stats_MemorySize = s._Stats_MemorySize +
        (l.map (fun v => ((s1._MiniBuckets v).map MiniBucket.outputTableSize).sum)).sum ∧
      (∀ v, v ∉ l → s1._MiniBuckets v = s._MiniBuckets v) ∧
      (computeTables = false → ∀ v ∈ l, ∀ mb ∈ s1._MiniBuckets v,
        mb.m_outputFn = some (mb.eliminate s.m_problem)) := by
  intro l
  induction l with
  | nil =>
    intro s s1 _ h
    simp only [List.foldlM_nil, Option.pure_def, Option.some.injEq] at h
    subst h
    exact ⟨by simp, fun _ _ => rfl, fun _ v hv => absurd hv (List.not_mem_nil v)⟩
  | cons u l ih =>
    intro s s1 hnd h
    simp only [List.foldlM_cons, Option.bind_eq_bind] at h
    cases hb : s.build_bucket ext fuel assignment computeTables dummy u with
    | none => simp [hb] at h
    | some mid =>
      simp only [hb, Option.some_bind] at h
      have hul : u ∉ l := (List.nodup_cons.mp hnd).1
      obtain ⟨i1, i2, i3⟩ := ih mid s1 (List.nodup_cons.mp hnd).2 h
      obtain ⟨aug, inter, mbs, bfuns, ub, nmb, nmb1, hs, hdummy, hplain⟩ :=
        build_bucket_state s mid ext fuel assignment computeTables dummy u hb
      have hmem : mid._Stats_MemorySize =
          s._Stats_MemorySize + (mbs.map MiniBucket.outputTableSize).sum := by rw [hs]
      have hmbs : mid._MiniBuckets = Function.update s._MiniBuckets u mbs := by rw [hs]
      have hprob : mid.m_problem = s.m_problem := by rw [hs]
      have hu : s1._MiniBuckets u = mbs := by
        rw [i2 u hul, hmbs, Function.update_same]
      refine ⟨?_, ?_, ?_⟩
      · rw [i1, hmem, List.map_cons, List.sum_cons, hu, Nat.add_assoc]
      · intro v hv
        have hvu : v ≠ u := fun h1 => hv (by rw [h1]; exact List.mem_cons_self u l)
        have hvl : v ∉ l := fun h1 => hv (List.mem_cons_of_mem u h1)
        rw [i2 v hvl, hmbs, Function.update_noteq hvu]
      · intro hct v hv mb hmb
        rcases List.mem_cons.mp hv with h1 | h1
        · rw [h1, hu] at hmb
          by_cases hd : u = dummy
          · rw [hdummy hd] at hmb
            exact absurd hmb (List.not_mem_nil mb)
          · rw [hplain hd hct] at hmb
            obtain ⟨mb0, _, rfl⟩ := List.mem_map.mp hmb
            rfl
        · have := i3 hct v h1 mb hmb
          rw [hprob] at this
          exact this

/-! ### The preparation of `build` -/

/-- Two states with the same `estimationFrame`, member by member. -/
theorem estimationFrame_fields (s t : MiniBucketElimLH)
    (h : s.estimationFrame = t.estimationFrame) :
    s.m_problem = t.m_problem ∧ s.m_pseudotree = t.m_pseudotree ∧
      s.m_ibound = t.m_ibound ∧ s.m_options = t.m_options ∧
      s.m_augmented = t.m_augmented ∧ s.m_intermediate = t.m_intermediate ∧
      s._MiniBuckets = t._MiniBuckets ∧ s._nLHcalls = t._nLHcalls ∧
      s._nLHcallsSkipped = t._nLHcallsSkipped ∧
      s.count_better_ordering_ = t.count_better_ordering_ ∧
      s.lookahead_probability_ = t.lookahead_probability_ ∧
      s._distToClosestDescendantWithMBs = t._distToClosestDescendantWithMBs ∧
      s._Stats_Width = t._Stats_Width ∧ s._Stats_PseudoWidth = t._Stats_PseudoWidth ∧
      s._Pseudowidth = t._Pseudowidth ∧ s._Stats_MemorySize = t._Stats_MemorySize ∧
      s.perVariableSize = t.perVariableSize := by
  simp only [MiniBucketElimLH.estimationFrame, Prod.mk.injEq] at h
  exact h

/-- Two states with the same `bucketFrame`, member by member. -/
theorem bucketFrame_fields (s t : MiniBucketElimLH)
    (h : s.bucketFrame = t.bucketFrame) :
    s.m_problem = t.m_problem ∧ s.m_pseudotree = t.m_pseudotree ∧
      s.m_ibound = t.m_ibound ∧ s.m_options = t.m_options ∧
      s._nLHcalls = t._nLHcalls ∧ s._nLHcallsSkipped = t._nLHcallsSkipped ∧
      s.count_better_ordering_ = t.count_better_ordering_ ∧
      s.lookahead_probability_ = t.lookahead_probability_ ∧
      s._distToClosestDescendantWithMBs = t._distToClosestDescendantWithMBs ∧
      s.perVariableSize = t.perVariableSize := by
  simp only [MiniBucketElimLH.bucketFrame, Prod.mk.injEq] at h
  exact h

/-- The state that `reset` leaves, when `deleteLocalErrorFNs` leaves the
members of `estimationFrame` as they are. -/
theorem reset_fields (self : MiniBucketElimLH) (ext : LocalErrorExternals)
    (hdel : ∀ s : MiniBucketElimLH,
      (ext.deleteLocalErrorFNs s).estimationFrame = s.estimationFrame) :
    (self.reset ext).m_problem = self.m_problem ∧
      (self.reset ext).m_pseudotree = self.m_pseudotree ∧
      (self.reset ext).m_ibound = self.m_ibound ∧
      (self.reset ext).m_options = self.m_options ∧
      (self.reset ext)._MiniBuckets = self._MiniBuckets ∧
      (self.reset ext)._nLHcalls = self._nLHcalls ∧
      (self.reset ext)._nLHcallsSkipped = self._nLHcallsSkipped ∧
      (self.reset ext).count_better_ordering_ = self.count_better_ordering_ ∧
      (self.reset ext).lookahead_probability_ = self.lookahead_probability_ ∧
      (self.reset ext)._distToClosestDescendantWithMBs =
        self._distToClosestDescendantWithMBs ∧
      (self.reset ext)._Pseudowidth = self._Pseudowidth ∧
      (self.reset ext).perVariableSize = self.perVariableSize ∧
      (self.reset ext)._Stats_Width = -1 ∧ (self.reset ext)._Stats_PseudoWidth = -1 ∧
      (self.reset ext)._BucketScopes = (fun _ => ∅) ∧
      (self.reset ext)._BucketFunctions = (fun _ => []) ∧
      (self.reset ext).m_augmented = (fun _ => []) ∧
      (self.reset ext).m_intermediate = (fun _ => []) := by
  have hd := fun s => estimationFrame_fields _ _ (hdel s)
  unfold MiniBucketElimLH.reset MiniBucketElim.reset MiniBucketElimLH.Stats_reset
  simp only [hd, and_self]

/-- The state that lines 203-269 of `build` leave, when `deleteLocalErrorFNs`
leaves the members of `estimationFrame` as they are: the inputs of the build
stay, the widths and the memory statistic are reset, and the vectors of lines
257-264 are resized, which keeps the elements that they had. -/
theorem build_prepare_fields (self : MiniBucketElimLH) (ext : BuildExternals)
    (flags : Flags) (computeTables : Bool)
    (hdel : ∀ s : MiniBucketElimLH,
      (ext.deleteLocalErrorFNs s).estimationFrame = s.estimationFrame) :
    (self.build_prepare ext flags computeTables).1.m_ibound = self.m_ibound ∧
      (self.build_prepare ext flags computeTables).1.m_options = self.m_options ∧
      (self.build_prepare ext flags computeTables).1._Stats_Width = -1 ∧
      (self.build_prepare ext flags computeTables).1._Stats_PseudoWidth = -1 ∧
      (self.build_prepare ext flags computeTables).1._Stats_MemorySize = 0 ∧
      (self.build_prepare ext flags computeTables).1._nLHcalls =
        vector_resize_map self._nLHcalls self.perVariableSize 0 ∧
      (self.build_prepare ext flags computeTables).1._nLHcallsSkipped =
        vector_resize_map self._nLHcallsSkipped self.perVariableSize 0 ∧
      (self.build_prepare ext flags computeTables).1.count_better_ordering_ =
        vector_resize_map self.count_better_ordering_ self.perVariableSize 0 ∧
      (self.build_prepare ext flags computeTables).1.lookahead_probability_ =
        vector_resize_map self.lookahead_probability_ self.perVariableSize
          flags.lookahead_starting_probability ∧
      (self.build_prepare ext flags computeTables).1._distToClosestDescendantWithMBs =
        vector_resize_map self._distToClosestDescendantWithMBs self.perVariableSize
          INT_MAX ∧
      (self.build_prepare ext flags computeTables).1.perVariableSize =
        (self.build_prepare ext flags computeTables).1.m_problem.N ∧
      (computeTables = false →
        (self.build_prepare ext flags computeTables).1.m_problem = self.m_problem ∧
        (self.build_prepare ext flags computeTables).1.m_pseudotree = self.m_pseudotree ∧
        (self.build_prepare ext flags computeTables).2 =
          ext.findDfsOrder (self.reset ext.toLocalErrorExternals)) ∧
      (ext.LPReparameterization (self.reset ext.toLocalErrorExternals) =
          (self.m_problem, self.m_pseudotree) →
        (self.build_prepare ext flags computeTables).1.m_problem = self.m_problem ∧
        (self.build_prepare ext flags computeTables).1.m_pseudotree = self.m_pseudotree ∧
        (self.build_prepare ext flags computeTables).2 =
          ext.findDfsOrder (self.reset ext.toLocalErrorExternals)) := by
  have hd := fun s => estimationFrame_fields _ _ (hdel s)
  obtain ⟨r1, r2, r3, r4, r5, r6, r7, r8, r9, r10, r11, r12, r13, r14, r15, r16, r17, r18⟩ :=
    reset_fields self ext.toLocalErrorExternals hdel
  have hLPstate : ext.LPReparameterization (self.reset ext.toLocalErrorExternals) =
      (self.m_problem, self.m_pseudotree) →
      ({ self.reset ext.toLocalErrorExternals with
          m_problem := (ext.LPReparameterization (self.reset ext.toLocalErrorExternals)).1,
          m_pseudotree :=
            (ext.LPReparameterization (self.reset ext.toLocalErrorExternals)).2 } :
        MiniBucketElimLH) = self.reset ext.toLocalErrorExternals := by
    intro hLP
    rw [hLP]
    simp only
    rw [← r1, ← r2]
  refine ⟨?_, ?_, ?_, ?_, ?_, ?_, ?_, ?_, ?_, ?_, ?_, ?_, ?_⟩
  case refine_12 =>
    intro hct
    subst hct
    unfold MiniBucketElimLH.build_prepare
    simp only [hd, Bool.false_eq_true, if_false, r1, r2, and_self]
  case refine_13 =>
    intro hLP
    have hs := hLPstate hLP
    unfold MiniBucketElimLH.build_prepare
    cases computeTables with
    | false => simp only [hd, Bool.false_eq_true, if_false, r1, r2, and_self]
    | true =>
      simp only [if_true, hs]
      simp only [hd, r1, r2, and_self]
  all_goals
    unfold MiniBucketElimLH.build_prepare
    cases computeTables <;>
      simp only [hd, Bool.false_eq_true, if_false, if_true, r3, r4, r6, r7, r8, r9, r10, r12,
        r13, r14]

/-! ### `build` returns -/

/-- Without moment matching the loop of lines 423-448 returns, for a bucket
whose variable has an ancestor path and with enough fuel for the walks. -/
theorem build_processMiniBuckets_returns (ext : BuildExternals) (fuel v : Nat)
    (path : List Nat) (hfuel : path.length ≤ fuel) :
    ∀ (items : List (Nat × MiniBucket)) (acc : MiniBucketElimLH × List MiniBucket),
      acc.1.m_pseudotree.isAncestorPath v path →
      ∃ acc1, items.foldlM (build_processMiniBucket ext fuel v none) acc = some acc1 := by
  intro items
  induction items with
  | nil => intro acc _; exact ⟨acc, rfl⟩
  | cons it items ih =>
    intro acc hpath
    have hr := build_route_eq acc.1 fuel v path (it.2.eliminate acc.1.m_problem) hpath hfuel
    have hstep : build_processMiniBucket ext fuel v none acc it =
        some ({ acc.1 with
            _Stats_MemorySize :=
              acc.1._Stats_MemorySize + (it.2.eliminate acc.1.m_problem).getTableSize,
            m_intermediate :=
              (routeSkipped acc.1.m_pseudotree path (it.2.eliminate acc.1.m_problem)).foldl
                (pushAt (it.2.eliminate acc.1.m_problem)) acc.1.m_intermediate,
            m_augmented :=
              Function.update acc.1.m_augmented
                (routeTarget acc.1.m_pseudotree path (it.2.eliminate acc.1.m_problem))
                (acc.1.m_augmented
                    (routeTarget acc.1.m_pseudotree path (it.2.eliminate acc.1.m_problem)) ++
                  [it.2.eliminate acc.1.m_problem]) },
          acc.2 ++ [{ it.2 with m_outputFn := some (it.2.eliminate acc.1.m_problem) }]) := by
      unfold build_processMiniBucket
      simp only [hr, Option.map_some']
    obtain ⟨mid, hmid, htree⟩ : ∃ mid, build_processMiniBucket ext fuel v none acc it =
        some mid ∧ mid.1.m_pseudotree = acc.1.m_pseudotree := ⟨_, hstep, rfl⟩
    obtain ⟨acc1, h1⟩ := ih mid (by rw [htree]; exact hpath)
    refine ⟨acc1, ?_⟩
    simp only [List.foldlM_cons, Option.bind_eq_bind, hmid, Option.some_bind]
    exact h1

/-- The body of the loop over the buckets returns when there is no moment
matching and no assignment to evaluate, for a variable that is the dummy root
or has an ancestor path, with enough fuel for the walks. -/
theorem build_bucket_returns (self : MiniBucketElimLH) (ext : BuildExternals)
    (fuel : Nat) (assignment : Option Assignment) (computeTables : Bool)
    (dummy v : Nat)
    (hmatch : computeTables = false ∨ self.m_options.match_ = false)
    (hasg : computeTables = false ∨ assignment = none)
    (hpath : v ≠ dummy →
      ∃ path, self.m_pseudotree.isAncestorPath v path ∧ path.length ≤ fuel) :
    ∃ s1, self.build_bucket ext fuel assignment computeTables dummy v = some s1 := by
  unfold MiniBucketElimLH.build_bucket
  simp only
  by_cases hd : v = dummy
  · rw [if_pos hd]
    rcases hasg with hct | hnone
    · subst hct
      exact ⟨_, rfl⟩
    · subst hnone
      cases computeTables <;> exact ⟨_, rfl⟩
  · rw [if_neg hd]
    obtain ⟨path, hp, hfuel⟩ := hpath hd
    have hmm : ¬ (computeTables = true ∧ self.m_options.match_ = true ∧
        (build_partition v self.m_ibound
          (self.m_pseudotree.getFunctions v ++ self.m_augmented v)).length > 1) := by
      rintro ⟨h1, h2, _⟩
      rcases hmatch with h | h
      · rw [h] at h1; exact absurd h1 (by decide)
      · rw [h] at h2; exact absurd h2 (by decide)
    rw [if_neg hmm]
    simp only
    have hmap : ∀ {α β : Type} (f : α → β) (x : Option α),
        (∃ a, x = some a) → ∃ b, x.map f = some b := by
      intro α β f x ⟨a, ha⟩
      exact ⟨f a, by rw [ha]; rfl⟩
    apply hmap
    exact build_processMiniBuckets_returns ext fuel v path hfuel _ _ hp

/-- The loop over the buckets returns when there is no moment matching and no
assignment to evaluate, for variables that are the dummy root or have an
ancestor path, with enough fuel for the walks. -/
theorem build_bucketLoop_returns (ext : BuildExternals) (fuel : Nat)
    (assignment : Option Assignment) (computeTables : Bool) (dummy : Nat)
    (hasg : computeTables = false ∨ assignment = none) :
    ∀ (l : List Nat) (s : MiniBucketElimLH),
      (computeTables = false ∨ s.m_options.match_ = false) →
      (∀ v ∈ l, v ≠ dummy →
        ∃ path, s.m_pseudotree.isAncestorPath v path ∧ path.length ≤ fuel) →
      ∃ s1, l.foldlM
        (fun s v => s.build_bucket ext fuel assignment computeTables dummy v) s =
          some s1 := by
  intro l
  induction l with
  | nil => intro s _ _; exact ⟨s, rfl⟩
  | cons u l ih =>
    intro s hmatch hpath
    obtain ⟨mid, hb⟩ := build_bucket_returns s ext fuel assignment computeTables dummy u
      hmatch hasg (hpath u (List.mem_cons_self u l))
    obtain ⟨_, f2, _, f4, _⟩ := bucketFrame_fields _ _
      (build_bucket_frame s mid ext fuel assignment computeTables dummy u hb)
    obtain ⟨s1, h1⟩ := ih mid (by rw [f4]; exact hmatch)
      (fun v hv hvd => by rw [f2]; exact hpath v (List.mem_cons_of_mem u hv) hvd)
    refine ⟨s1, ?_⟩
    simp only [List.foldlM_cons, Option.bind_eq_bind, hb, Option.some_bind]
    exact h1

/-- What `build_structure` returns: the state that the loop over the buckets
leaves, with the distances of lines 464-478, and the order of
`findDfsOrder`. -/
theorem build_structure_some (self st : MiniBucketElimLH) (ext : BuildExternals)
    (flags : Flags) (fuel : Nat) (assignment : Option Assignment)
    (computeTables : Bool) (elimOrder : List Nat)
    (h : self.build_structure ext flags fuel assignment computeTables =
      some (st, elimOrder)) :
    elimOrder = (self.build_prepare ext flags computeTables).2 ∧
    ∃ s5, elimOrder.reverse.foldlM
        (fun s v => s.build_bucket ext fuel assignment computeTables (elimOrder.headD 0) v)
        (self.build_prepare ext flags computeTables).1 = some s5 ∧
      st = { s5 with
        _distToClosestDescendantWithMBs :=
          elimOrder.reverse.foldl (build_distStep s5.m_pseudotree s5._MiniBuckets)
            s5._distToClosestDescendantWithMBs } := by
  unfold MiniBucketElimLH.build_structure at h
  simp only at h
  cases hl : (self.build_prepare ext flags computeTables).2.reverse.foldlM
      (fun s v => s.build_bucket ext fuel assignment computeTables
        ((self.build_prepare ext flags computeTables).2.headD 0) v)
      (self.build_prepare ext flags computeTables).1 with
  | none =>
    rw [hl] at h
    cases h
  | some s5 =>
    rw [hl] at h
    simp only [Option.some.injEq, Prod.mk.injEq] at h
    obtain ⟨h1, h2⟩ := h
    subst h2
    exact ⟨rfl, s5, hl, h1.symm⟩

/-- The structure of `build` is computed when there is no moment matching and
no assignment to evaluate, `LPReparameterization` leaves the problem as it is,
and every variable of the order after the first has an ancestor path, with
enough fuel for the walks. -/
theorem build_structure_returns (self : MiniBucketElimLH) (ext : BuildExternals)
    (flags : Flags) (fuel : Nat) (assignment : Option Assignment)
    (computeTables : Bool)
    (hdel : ∀ s : MiniBucketElimLH,
      (ext.deleteLocalErrorFNs s).estimationFrame = s.estimationFrame)
    (hLP : computeTables = false ∨
      ext.LPReparameterization (self.reset ext.toLocalErrorExternals) =
        (self.m_problem, self.m_pseudotree))
    (hmatch : computeTables = false ∨ self.m_options.match_ = false)
    (hasg : computeTables = false ∨ assignment = none)
    (hpath : ∀ v ∈ ext.findDfsOrder (self.reset ext.toLocalErrorExternals),
      v ≠ (ext.findDfsOrder (self.reset ext.toLocalErrorExternals)).headD 0 →
      ∃ path, self.m_pseudotree.isAncestorPath v path ∧ path.length ≤ fuel) :
    ∃ st, self.build_structure ext flags fuel assignment computeTables =
        some (st, ext.findDfsOrder (self.reset ext.toLocalErrorExternals)) ∧
      st.m_problem = self.m_problem ∧ st.m_pseudotree = self.m_pseudotree := by
  obtain ⟨p1, p2, _, _, _, _, _, _, _, _, _, pf, pl⟩ :=
    build_prepare_fields self ext flags computeTables hdel
  have hin : (self.build_prepare ext flags computeTables).1.m_problem = self.m_problem ∧
      (self.build_prepare ext flags computeTables).1.m_pseudotree = self.m_pseudotree ∧
      (self.build_prepare ext flags computeTables).2 =
        ext.findDfsOrder (self.reset ext.toLocalErrorExternals) := by
    rcases hLP with h | h
    · exact pf h
    · exact pl h
  obtain ⟨q1, q2, q3⟩ := hin
  obtain ⟨s5, h5⟩ := build_bucketLoop_returns ext fuel assignment computeTables
    ((ext.findDfsOrder (self.reset ext.toLocalErrorExternals)).headD 0) hasg
    (ext.findDfsOrder (self.reset ext.toLocalErrorExternals)).reverse
    (self.build_prepare ext flags computeTables).1
    (by rw [p2]; exact hmatch)
    (fun v hv hvd => by rw [q2]; exact hpath v (List.mem_reverse.mp hv) hvd)
  obtain ⟨f1, f2, _⟩ := bucketFrame_fields _ _
    (build_bucketLoop_frame ext fuel assignment computeTables _ _ _ s5 h5)
  refine ⟨{ s5 with
      _distToClosestDescendantWithMBs :=
        (ext.findDfsOrder (self.reset ext.toLocalErrorExternals)).reverse.foldl
          (build_distStep s5.m_pseudotree s5._MiniBuckets)
          s5._distToClosestDescendantWithMBs }, ?_, ?_, ?_⟩
  · unfold MiniBucketElimLH.build_structure
    simp only [q3, h5]
  · show s5.m_problem = _
    rw [f1, q1]
  · show s5.m_pseudotree = _
    rw [f2, q2]

/-- The members that lines 203-478 of `build` leave: the widths are ordered,
the stored pseudo-width of a bucket is at least the size of the scope of its
original functions, and the counters of the lookahead and the trigger
probabilities are those of the preparation. -/
theorem build_structure_fields (self st : MiniBucketElimLH) (ext : BuildExternals)
    (flags : Flags) (fuel : Nat) (assignment : Option Assignment)
    (computeTables : Bool) (elimOrder : List Nat)
    (hdel : ∀ s : MiniBucketElimLH,
      (ext.deleteLocalErrorFNs s).estimationFrame = s.estimationFrame)
    (h : self.build_structure ext flags fuel assignment computeTables =
      some (st, elimOrder)) :
    st._Stats_Width ≤ st._Stats_PseudoWidth ∧
      (∀ v ∈ elimOrder,
        ((build_insertScopes ∅ (st.m_pseudotree.getFunctions v)).card : Int) ≤
          st._Pseudowidth v) ∧
      st._nLHcalls = vector_resize_map self._nLHcalls self.perVariableSize 0 ∧
      st._nLHcallsSkipped = vector_resize_map self._nLHcallsSkipped self.perVariableSize 0 ∧
      st.count_better_ordering_ =
        vector_resize_map self.count_better_ordering_ self.perVariableSize 0 ∧
      st.lookahead_probability_ =
        vector_resize_map self.lookahead_probability_ self.perVariableSize
          flags.lookahead_starting_probability ∧
      st.perVariableSize = st.m_problem.N ∧
      st.m_options = self.m_options ∧ st.m_ibound = self.m_ibound ∧
      (elimOrder.Nodup →
        st._Stats_MemorySize =
          (elimOrder.reverse.map
            (fun v => ((st._MiniBuckets v).map MiniBucket.outputTableSize).sum)).sum) ∧
      (elimOrder.Nodup → computeTables = false →
        ∀ v ∈ elimOrder, ∀ mb ∈ st._MiniBuckets v,
          mb.m_outputFn = some (mb.eliminate st.m_problem)) := by
  obtain ⟨hord, s5, h5, hst⟩ :=
    build_structure_some self st ext flags fuel assignment computeTables elimOrder h
  obtain ⟨p1, p2, p3, p4, p5, p6, p7, p8, p9, p10, p11, _, _⟩ :=
    build_prepare_fields self ext flags computeTables hdel
  obtain ⟨f1, f2, f3, f4, f5, f6, f7, f8, f9, f10⟩ := bucketFrame_fields _ _
    (build_bucketLoop_frame ext fuel assignment computeTables _ _ _ s5 h5)
  obtain ⟨w1, w2, _⟩ :=
    build_bucketLoop_width ext fuel assignment computeTables _ _ _ s5 h5
  subst hst
  refine ⟨?_, ?_, ?_, ?_, ?_, ?_, ?_, ?_, ?_, ?_, ?_⟩
  · exact w1 (by rw [p3, p4])
  · intro v hv
    have := w2 v (List.mem_reverse.mpr hv)
    rw [← f2] at this
    exact this
  · show s5._nLHcalls = _
    rw [f5, p6]
  · show s5._nLHcallsSkipped = _
    rw [f6, p7]
  · show s5.count_better_ordering_ = _
    rw [f7, p8]
  · show s5.lookahead_probability_ = _
    rw [f8, p9]
  · show s5.perVariableSize = s5.m_problem.N
    rw [f10, f1, p11]
  · show s5.m_options = _
    rw [f4, p2]
  · show s5.m_ibound = _
    rw [f3, p1]
  · intro hnd
    obtain ⟨m1, _, _⟩ := build_bucketLoop_memory ext fuel assignment computeTables _ _ _ s5
      (List.nodup_reverse.mpr hnd) h5
    show s5._Stats_MemorySize = _
    rw [m1, p5, Nat.zero_add]
  · intro hnd hct v hv mb hmb
    obtain ⟨_, _, m3⟩ := build_bucketLoop_memory ext fuel assignment computeTables _ _ _ s5
      (List.nodup_reverse.mpr hnd) h5
    have := m3 hct v (List.mem_reverse.mpr hv) mb hmb
    rw [← f1] at this
    exact this

/-! ### What `build` returns -/

/-- What `build` returns: the memory statistic of the structure; without
`computeTables` the state is the reset structure, and with it the estimation
and the lookahead setup leave the members of `estimationFrame` as they are. -/
theorem build_some (self s1 : MiniBucketElimLH) (ext : BuildExternals)
    (libm : Libm) (flags : Flags) (rand : Nat → Nat → Nat → Int) (fuel : Nat)
    (assignment : Option Assignment) (computeTables : Bool) (mem : Nat)
    (hext : ext.toLocalErrorExternals.keepsEstimationFrame)
    (hsetup : ∀ s s2 : MiniBucketElimLH,
      ext.SetupLookaheadStructure_FractionOfLargestAbsErrorNodesOnly s = some s2 →
        s2.estimationFrame = s.estimationFrame)
    (h : self.build ext libm flags rand fuel assignment computeTables = some (s1, mem)) :
    ∃ st elimOrder,
      self.build_structure ext flags fuel assignment computeTables = some (st, elimOrder) ∧
      mem = st._Stats_MemorySize ∧
      (computeTables = false → s1 = st.reset ext.toLocalErrorExternals) ∧
      (computeTables = true → s1.estimationFrame = st.estimationFrame) := by
  unfold MiniBucketElimLH.build at h
  cases hs : self.build_structure ext flags fuel assignment computeTables with
  | none =>
    rw [hs] at h
    cases h
  | some p =>
    obtain ⟨st, elimOrder⟩ := p
    rw [hs] at h
    simp only at h
    refine ⟨st, elimOrder, rfl, ?_⟩
    cases computeTables with
    | false =>
      simp only [if_true, Option.some.injEq, Prod.mk.injEq] at h
      exact ⟨h.2.symm, fun _ => h.1.symm, fun hc => absurd hc (by decide)⟩
    | true =>
      simp only [Bool.true_eq_false, if_false] at h
      have key : ∀ e : MiniBucketElimLH, e.estimationFrame = st.estimationFrame →
          (if e.m_options.lookaheadDepth > 0 ∨ e.m_options.lookaheadSubtreeSizeLimit > 0 then
            (ext.SetupLookaheadStructure_FractionOfLargestAbsErrorNodesOnly e).map
              (fun s2 => (s2, st._Stats_MemorySize))
            else some (e, st._Stats_MemorySize)) = some (s1, mem) →
          mem = st._Stats_MemorySize ∧ s1.estimationFrame = st.estimationFrame := by
        intro e he hr
        split_ifs at hr
        · simp only [Option.map_eq_some', Prod.mk.injEq] at hr
          obtain ⟨s2, hs2, h1, h2⟩ := hr
          rw [← h1, hsetup e s2 hs2, he]
          exact ⟨h2.symm, rfl⟩
        · simp only [Option.some.injEq, Prod.mk.injEq] at hr
          rw [← hr.1, he]
          exact ⟨hr.2.symm, rfl⟩
      by_cases hc : st.m_options.lookahead_use_full_subtree = false ∨
          st.m_options.aobf_subordering ≠ ""
      · rw [if_pos hc] at h
        cases he : st.computeLocalErrorTables ext.toLocalErrorExternals libm flags rand true
            st.m_options.lookahead_LE_AllTablesTotalLimit
            st.m_options.lookahead_LE_SingleTableLimit with
        | none =>
          rw [he] at h
          cases h
        | some e =>
          rw [he] at h
          obtain ⟨k1, k2⟩ := key e
            (computeLocalErrorTables_frame st e _ libm flags rand true _ _ hext he) h
          exact ⟨k1, fun hc => absurd hc (by decide), fun _ => k2⟩
      · rw [if_neg hc] at h
        obtain ⟨k1, k2⟩ := key
          { st with
            _BucketErrorQuality :=
              elimOrder.foldl (fun q v => Function.update q v 99) st._BucketErrorQuality }
          rfl h
        exact ⟨k1, fun hc => absurd hc (by decide), fun _ => k2⟩

/-- The function `build` returns, and it leaves the inputs of the build as they
are, when the structure is computed (see `build_structure_returns`) and, with
`computeTables`, the estimation runs in full-table mode without a budget and
without the option `force_compute_tables`, no lookahead structure is asked for,
and every variable of the elimination order is in range and has its parent in
the order. -/
theorem build_returns (self : MiniBucketElimLH) (ext : BuildExternals)
    (libm : Libm) (flags : Flags) (rand : Nat → Nat → Nat → Int) (fuel : Nat)
    (assignment : Option Assignment) (computeTables : Bool)
    (hext : ext.toLocalErrorExternals.keepsEstimationFrame)
    (hLP : computeTables = false ∨
      ext.LPReparameterization (self.reset ext.toLocalErrorExternals) =
        (self.m_problem, self.m_pseudotree))
    (hmatch : computeTables = false ∨ self.m_options.match_ = false)
    (hasg : computeTables = false ∨ assignment = none)
    (hpath : ∀ v ∈ ext.findDfsOrder (self.reset ext.toLocalErrorExternals),
      v ≠ (ext.findDfsOrder (self.reset ext.toLocalErrorExternals)).headD 0 →
      ∃ path, self.m_pseudotree.isAncestorPath v path ∧ path.length ≤ fuel)
    (htail : computeTables = true →
      ¬ (self.m_options.aobf_subordering = "sampled_be" ∨
        self.m_options.aobf_subordering = "sampled_st_be") ∧
      self.m_options.force_compute_tables = false ∧
      self.m_options.lookahead_LE_AllTablesTotalLimit ≤ 0 ∧
      self.m_options.lookahead_LE_SingleTableLimit ≤ 0 ∧
      ¬ (self.m_options.lookaheadDepth > 0 ∨ self.m_options.lookaheadSubtreeSizeLimit > 0) ∧
      (∀ v ∈ self.m_pseudotree.elimOrder, v < self.m_problem.N) ∧
      (∀ v ∈ self.m_pseudotree.elimOrder, v ≠ self.m_pseudotree.root →
        ∃ p, self.m_pseudotree.parent v = some p ∧ p ∈ self.m_pseudotree.elimOrder)) :
    ∃ s1 mem,
      self.build ext libm flags rand fuel assignment computeTables = some (s1, mem) ∧
      s1.m_problem = self.m_problem ∧ s1.m_pseudotree = self.m_pseudotree ∧
      s1.m_options = self.m_options ∧ s1.m_ibound = self.m_ibound := by
  obtain ⟨st, hst, t1, t2⟩ := build_structure_returns self ext flags fuel assignment
    computeTables hext.1 hLP hmatch hasg hpath
  obtain ⟨_, _, _, _, _, _, _, t3, t4, _⟩ := build_structure_fields self st ext flags fuel
    assignment computeTables _ hext.1 hst
  cases computeTables with
  | false =>
    obtain ⟨r1, r2, r3, r4, _⟩ := reset_fields st ext.toLocalErrorExternals hext.1
    refine ⟨st.reset ext.toLocalErrorExternals, st._Stats_MemorySize, ?_, by rw [r1, t1],
      by rw [r2, t2], by rw [r4, t3], by rw [r3, t4]⟩
    unfold MiniBucketElimLH.build
    rw [hst]
    rfl
  | true =>
    obtain ⟨a1, a2, a3, a4, a5, a6, a7⟩ := htail rfl
    obtain ⟨d1, d2, _, d4, _⟩ := estimationFrame_fields _ _ (hext.1 st)
    have hest : ∃ e, (if st.m_options.lookahead_use_full_subtree = false ∨
          st.m_options.aobf_subordering ≠ "" then
        st.computeLocalErrorTables ext.toLocalErrorExternals libm flags rand true
          st.m_options.lookahead_LE_AllTablesTotalLimit
          st.m_options.lookahead_LE_SingleTableLimit
        else
          some { st with
            _BucketErrorQuality :=
              (ext.findDfsOrder (self.reset ext.toLocalErrorExternals)).foldl
                (fun q v => Function.update q v 99) st._BucketErrorQuality }) = some e ∧
        e.estimationFrame = st.estimationFrame := by
      split_ifs
      · obtain ⟨e, he⟩ := computeLocalErrorTables_no_budget_returns st
          ext.toLocalErrorExternals libm flags rand true
          st.m_options.lookahead_LE_AllTablesTotalLimit
          st.m_options.lookahead_LE_SingleTableLimit
          (by rw [d4, t3]; exact a1) (by rw [d4, t3]; exact a2) (by rw [t3]; exact a3)
          (by rw [t3]; exact a4) (by rw [d1, d2, t1, t2]; exact a6)
          (by rw [d2, t2]; exact a7)
        exact ⟨e, he, computeLocalErrorTables_frame st e _ libm flags rand true _ _ hext he⟩
      · exact ⟨_, rfl, rfl⟩
    obtain ⟨e, he, hf⟩ := hest
    obtain ⟨e1, e2, e3, e4, _⟩ := estimationFrame_fields _ _ hf
    have hno : ¬ (e.m_options.lookaheadDepth > 0 ∨
        e.m_options.lookaheadSubtreeSizeLimit > 0) := by
      rw [e4, t3]; exact a5
    refine ⟨e, st._Stats_MemorySize, ?_, by rw [e1, t1], by rw [e2, t2], by rw [e4, t3],
      by rw [e3, t4]⟩
    unfold MiniBucketElimLH.build
    rw [hst]
    simp only [Bool.true_eq_false, if_false, he, hno]

/-- The counters of the lookahead and the trigger probabilities that `build`
leaves are the resized vectors of lines 258-264: below the size that the
vectors had before the build, every element is the one that was there. -/
theorem build_counters (self s1 : MiniBucketElimLH) (ext : BuildExternals)
    (libm : Libm) (flags : Flags) (rand : Nat → Nat → Nat → Int) (fuel : Nat)
    (assignment : Option Assignment) (computeTables : Bool) (mem : Nat)
    (hext : ext.toLocalErrorExternals.keepsEstimationFrame)
    (hsetup : ∀ s s2 : MiniBucketElimLH,
      ext.SetupLookaheadStructure_FractionOfLargestAbsErrorNodesOnly s = some s2 →
        s2.estimationFrame = s.estimationFrame)
    (h : self.build ext libm flags rand fuel assignment computeTables = some (s1, mem)) :
    s1._nLHcalls = vector_resize_map self._nLHcalls self.perVariableSize 0 ∧
      s1._nLHcallsSkipped = vector_resize_map self._nLHcallsSkipped self.perVariableSize 0 ∧
      s1.count_better_ordering_ =
        vector_resize_map self.count_better_ordering_ self.perVariableSize 0 ∧
      s1.lookahead_probability_ =
        vector_resize_map self.lookahead_probability_ self.perVariableSize
          flags.lookahead_starting_probability ∧
      s1.perVariableSize = s1.m_problem.N := by
  obtain ⟨st, elimOrder, hst, _, hfalse, htrue⟩ :=
    build_some self s1 ext libm flags rand fuel assignment computeTables mem hext hsetup h
  obtain ⟨_, _, c1, c2, c3, c4, c5, _⟩ := build_structure_fields self st ext flags fuel
    assignment computeTables elimOrder hext.1 hst
  cases computeTables with
  | false =>
    rw [hfalse rfl]
    obtain ⟨r1, _, _, _, _, r6, r7, r8, r9, _, _, r12, _⟩ :=
      reset_fields st ext.toLocalErrorExternals hext.1
    rw [r6, r7, r8, r9, r12, r1]
    exact ⟨c1, c2, c3, c4, c5⟩
  | true =>
    obtain ⟨e1, _, _, _, _, _, _, e8, e9, e10, e11, _, _, _, _, _, e17⟩ :=
      estimationFrame_fields _ _ (htrue rfl)
    rw [e8, e9, e10, e11, e17, e1]
    exact ⟨c1, c2, c3, c4, c5⟩

/-! ### `build` on the small model -/

/-- The example instance of the code that is not embedded leaves the members of
`estimationFrame` as they are. -/
theorem exBuildExternals_keeps :
    exBuildExternals.toLocalErrorExternals.keepsEstimationFrame := by
  refine ⟨fun s => rfl, ?_, ?_, ?_⟩
  · intro s var output_scope limit r h
    simp only [exBuildExternals, exExternals, Option.some.injEq] at h
    rw [← h]
    rfl
  · intro s s1 h
    simp only [exBuildExternals, exExternals, Option.some.injEq] at h
    rw [h]
  · intro s s1 d h
    simp only [exBuildExternals, exExternals, Option.some.injEq] at h
    rw [h]

/-- The example instance of the lookahead setup leaves the state as it is. -/
theorem exBuildExternals_setup (s s2 : MiniBucketElimLH)
    (h : exBuildExternals.SetupLookaheadStructure_FractionOfLargestAbsErrorNodesOnly s =
      some s2) : s2.estimationFrame = s.estimationFrame := by
  simp only [exBuildExternals, Option.some.injEq] at h
  rw [h]

/-- The order of the buckets of a state over the pseudo tree of the small
model. -/
theorem exBuildExternals_order (s : MiniBucketElimLH) (hs : s.m_pseudotree = exBuildTree) :
    exBuildExternals.findDfsOrder (s.reset exBuildExternals.toLocalErrorExternals) =
      [2, 1, 0] := by
  obtain ⟨_, r2, _⟩ := reset_fields s exBuildExternals.toLocalErrorExternals
    exBuildExternals_keeps.1
  show (s.reset exBuildExternals.toLocalErrorExternals).m_pseudotree.elimOrder.reverse = _
  rw [r2, hs]
  rfl

/-- The ancestor paths in the pseudo tree of the small model. -/
theorem exBuildTree_paths (s : MiniBucketElimLH) (hs : s.m_pseudotree = exBuildTree) :
    ∀ v ∈ exBuildExternals.findDfsOrder (s.reset exBuildExternals.toLocalErrorExternals),
      v ≠ (exBuildExternals.findDfsOrder
        (s.reset exBuildExternals.toLocalErrorExternals)).headD 0 →
      ∃ path, s.m_pseudotree.isAncestorPath v path ∧ path.length ≤ 3 := by
  rw [exBuildExternals_order s hs, hs]
  intro v hv hne
  simp only [List.mem_cons, List.mem_singleton, List.not_mem_nil, or_false] at hv
  rcases hv with rfl | rfl | rfl
  · exact absurd rfl hne
  · exact ⟨[2], by simp [Pseudotree.isAncestorPath, exBuildTree, exTree], by simp⟩
  · exact ⟨[1, 2], by simp [Pseudotree.isAncestorPath, exBuildTree, exTree], by simp⟩

/-- The function `build` with `computeTables` returns on a state over the small
model with the default options, and it leaves the inputs as they are. -/
theorem exBuild_returns (s : MiniBucketElimLH) (hp : s.m_problem = exProblem)
    (ht : s.m_pseudotree = exBuildTree) (ho : s.m_options = {}) :
    ∃ s1 mem,
      s.build exBuildExternals exLibm {} (fun _ _ _ => 0) 3 none true = some (s1, mem) ∧
      s1.m_problem = s.m_problem ∧ s1.m_pseudotree = s.m_pseudotree ∧
      s1.m_options = s.m_options ∧ s1.m_ibound = s.m_ibound := by
  apply build_returns s exBuildExternals exLibm {} (fun _ _ _ => 0) 3 none true
    exBuildExternals_keeps (Or.inr rfl) (Or.inr (by rw [ho])) (Or.inr rfl)
    (exBuildTree_paths s ht)
  intro _
  rw [ho, ht, hp]
  refine ⟨by decide, rfl, le_refl _, le_refl _, by decide, by decide, ?_⟩
  intro v hv hroot
  obtain ⟨p, hp1, hmem, _⟩ := exTree_precedesParent v hv hroot
  exact ⟨p, hp1, hmem⟩

/-- C27.  Estimation-only mode: `build(assignment, computeTables = false)` over
an order without repetition whose variables after the first have ancestor
paths, with enough fuel for the walks.  The call returns the structure of lines
203-478 after `reset`, and the memory statistic of that structure: no local
error is estimated.  Every mini-bucket holds its plain output, so no moment
matching took place.  In the state that is left all bucket scopes and bucket
function lists are empty and the mini-buckets are those of the structure.  The
value returned is the sum of the table sizes of the outputs of all mini-buckets,
and a build with `computeTables` over the same order whose outputs have the same
table sizes returns the same value. -/
theorem build_estimation_only (self : MiniBucketElimLH) (ext : BuildExternals)
    (libm : Libm) (flags : Flags) (rand : Nat → Nat → Nat → Int) (fuel : Nat)
    (assignment : Option Assignment)
    (hext : ext.toLocalErrorExternals.keepsEstimationFrame)
    (hsetup : ∀ s s2 : MiniBucketElimLH,
      ext.SetupLookaheadStructure_FractionOfLargestAbsErrorNodesOnly s = some s2 →
        s2.estimationFrame = s.estimationFrame)
    (hnodup : (ext.findDfsOrder (self.reset ext.toLocalErrorExternals)).Nodup)
    (hpath : ∀ v ∈ ext.findDfsOrder (self.reset ext.toLocalErrorExternals),
      v ≠ (ext.findDfsOrder (self.reset ext.toLocalErrorExternals)).headD 0 →
      ∃ path, self.m_pseudotree.isAncestorPath v path ∧ path.length ≤ fuel) :
    ∃ st,
      self.build_structure ext flags fuel assignment false =
        some (st, ext.findDfsOrder (self.reset ext.toLocalErrorExternals)) ∧
      self.build ext libm flags rand fuel assignment false =
        some (st.reset ext.toLocalErrorExternals, st._Stats_MemorySize) ∧
      (∀ v, (st.reset ext.toLocalErrorExternals)._BucketScopes v = ∅ ∧
        (st.reset ext.toLocalErrorExternals)._BucketFunctions v = []) ∧
      (st.reset ext.toLocalErrorExternals)._MiniBuckets = st._MiniBuckets ∧
      (∀ v ∈ ext.findDfsOrder (self.reset ext.toLocalErrorExternals),
        ∀ mb ∈ st._MiniBuckets v, mb.m_outputFn = some (mb.eliminate self.m_problem)) ∧
      st._Stats_MemorySize =
        ((ext.findDfsOrder (self.reset ext.toLocalErrorExternals)).reverse.map
          (fun v => ((st._MiniBuckets v).map MiniBucket.outputTableSize).sum)).sum ∧
      ∀ (s2 st2 : MiniBucketElimLH) (mem2 : Nat),
        self.build ext libm flags rand fuel assignment true = some (s2, mem2) →
        self.build_structure ext flags fuel assignment true =
          some (st2, ext.findDfsOrder (self.reset ext.toLocalErrorExternals)) →
        (∀ v ∈ ext.findDfsOrder (self.reset ext.toLocalErrorExternals),
          (st2._MiniBuckets v).map MiniBucket.outputTableSize =
            (st._MiniBuckets v).map MiniBucket.outputTableSize) →
        mem2 = st._Stats_MemorySize := by
  obtain ⟨st, hst, t1, _⟩ := build_structure_returns self ext flags fuel assignment false
    hext.1 (Or.inl rfl) (Or.inl rfl) (Or.inl rfl) hpath
  obtain ⟨_, _, _, _, _, _, _, _, _, hmem, hplain⟩ := build_structure_fields self st ext
    flags fuel assignment false _ hext.1 hst
  obtain ⟨_, _, _, _, r5, _, _, _, _, _, _, _, _, _, r15, r16, _⟩ :=
    reset_fields st ext.toLocalErrorExternals hext.1
  refine ⟨st, hst, ?_, ?_, r5, ?_, hmem hnodup, ?_⟩
  · unfold MiniBucketElimLH.build
    rw [hst]
    rfl
  · intro v
    rw [r15, r16]
    exact ⟨rfl, rfl⟩
  · intro v hv mb hmb
    rw [← t1]
    exact hplain hnodup rfl v hv mb hmb
  · intro s2 st2 mem2 h2 hst2 hsame
    obtain ⟨st3, order3, hst3, hm, _⟩ := build_some self s2 ext libm flags rand fuel
      assignment true mem2 hext hsetup h2
    rw [hst2] at hst3
    simp only [Option.some.injEq, Prod.mk.injEq] at hst3
    obtain ⟨rfl, _⟩ := hst3
    obtain ⟨_, _, _, _, _, _, _, _, _, hmem2, _⟩ := build_structure_fields self st2 ext
      flags fuel assignment true _ hext.1 hst2
    rw [hm, hmem2 hnodup, hmem hnodup]
    congr 1
    apply List.map_congr_left
    intro v hv
    rw [hsame v (List.mem_reverse.mp hv)]

/-- C27 on the small model: the estimation-only build of the newly constructed
heuristic. -/
theorem build_estimation_only_witness :
    ((exBuildExternals.findDfsOrder
        (exUnbuilt.reset exBuildExternals.toLocalErrorExternals)).Nodup ∧
      ∀ v ∈ exBuildExternals.findDfsOrder
          (exUnbuilt.reset exBuildExternals.toLocalErrorExternals),
        v ≠ (exBuildExternals.findDfsOrder
          (exUnbuilt.reset exBuildExternals.toLocalErrorExternals)).headD 0 →
        ∃ path, exUnbuilt.m_pseudotree.isAncestorPath v path ∧ path.length ≤ 3) ∧
    ∃ st,
      exUnbuilt.build_structure exBuildExternals {} 3 none false =
        some (st, exBuildExternals.findDfsOrder
          (exUnbuilt.reset exBuildExternals.toLocalErrorExternals)) ∧
      exUnbuilt.build exBuildExternals exLibm {} (fun _ _ _ => 0) 3 none false =
        some (st.reset exBuildExternals.toLocalErrorExternals, st._Stats_MemorySize) ∧
      (∀ v, (st.reset exBuildExternals.toLocalErrorExternals)._BucketScopes v = ∅ ∧
        (st.reset exBuildExternals.toLocalErrorExternals)._BucketFunctions v = []) ∧
      (st.reset exBuildExternals.toLocalErrorExternals)._MiniBuckets = st._MiniBuckets ∧
      (∀ v ∈ exBuildExternals.findDfsOrder
          (exUnbuilt.reset exBuildExternals.toLocalErrorExternals),
        ∀ mb ∈ st._MiniBuckets v,
          mb.m_outputFn = some (mb.eliminate exUnbuilt.m_problem)) ∧
      st._Stats_MemorySize =
        ((exBuildExternals.findDfsOrder
            (exUnbuilt.reset exBuildExternals.toLocalErrorExternals)).reverse.map
          (fun v => ((st._MiniBuckets v).map MiniBucket.outputTableSize).sum)).sum ∧
      ∀ (s2 st2 : MiniBucketElimLH) (mem2 : Nat),
        exUnbuilt.build exBuildExternals exLibm {} (fun _ _ _ => 0) 3 none true =
          some (s2, mem2) →
        exUnbuilt.build_structure exBuildExternals {} 3 none true =
          some (st2, exBuildExternals.findDfsOrder
            (exUnbuilt.reset exBuildExternals.toLocalErrorExternals)) →
        (∀ v ∈ exBuildExternals.findDfsOrder
            (exUnbuilt.reset exBuildExternals.toLocalErrorExternals),
          (st2._MiniBuckets v).map MiniBucket.outputTableSize =
            (st._MiniBuckets v).map MiniBucket.outputTableSize) →
        mem2 = st._Stats_MemorySize :=
  have hnodup : (exBuildExternals.findDfsOrder
      (exUnbuilt.reset exBuildExternals.toLocalErrorExternals)).Nodup := by
    rw [exBuildExternals_order exUnbuilt rfl]
    decide
  ⟨⟨hnodup, exBuildTree_paths exUnbuilt rfl⟩,
    build_estimation_only exUnbuilt exBuildExternals exLibm {} (fun _ _ _ => 0) 3 none
      exBuildExternals_keeps exBuildExternals_setup hnodup (exBuildTree_paths exUnbuilt rfl)⟩

/-! ### The message of `ComputeSubtreeErrorFns` -/

/-- A tuple of `assignmentsOver` has the value of the start tuple at every
variable that is not stepped. -/
theorem assignmentsOver_frame (problem : Problem) (vars : List Nat) :
    ∀ (b t : Assignment), t ∈ assignmentsOver problem vars b →
      ∀ u, u ∉ vars → t u = b u := by
  induction vars with
  | nil =>
    intro b t ht u _
    simp only [assignmentsOver, List.mem_singleton] at ht
    rw [ht]
  | cons w rest ih =>
    intro b t ht u hu
    simp only [assignmentsOver, List.mem_flatten, List.mem_map, List.mem_range] at ht
    obtain ⟨l, ⟨x, _, rfl⟩, htl⟩ := ht
    have h1 := ih _ _ htl u (fun h => hu (List.mem_cons_of_mem _ h))
    rw [h1, Function.update_noteq]
    intro h
    exact hu (h ▸ List.mem_cons_self _ _)

/-- The sum over a range that selects one index. -/
theorem sum_range_select (K : Nat → ℚ) (x0 : Nat) :
    ∀ n : Nat, ((List.range n).map
        (fun (x : Nat) => if (x : Int) = (x0 : Int) then K x else 0)).sum =
      if x0 < n then K x0 else 0 := by
  intro n
  induction n with
  | zero => simp
  | succ n ih =>
    rw [List.range_succ, List.map_append, List.sum_append, ih]
    simp only [List.map_cons, List.map_nil, List.sum_cons, List.sum_nil, add_zero,
      Nat.cast_inj]
    by_cases h1 : x0 < n
    · have h2 : ¬ n = x0 := by omega
      have h3 : x0 < n + 1 := by omega
      simp [h1, h2, h3]
    · by_cases h2 : n = x0
      · subst h2
        simp
      · have h3 : ¬ x0 < n + 1 := by omega
        simp [h1, h2, h3]

/-- Among the tuples of `assignmentsOver` exactly one agrees with an assignment
that is in range at the stepped variables. -/
theorem assignmentsOver_sum_select (problem : Problem) (a : Assignment) (H : Assignment → ℚ)
    (vars : List Nat) :
    vars.Nodup → (∀ u ∈ vars, ∃ x, x < problem.getDomainSize u ∧ a u = (x : Int)) →
    ∀ b : Assignment,
      ((assignmentsOver problem vars b).map
          (fun t => if ∀ u ∈ vars, t u = a u then H t else 0)).sum =
        H (fun u => if u ∈ vars then a u else b u) := by
  induction vars with
  | nil =>
    intro _ _ b
    simp [assignmentsOver]
  | cons w rest ih =>
    intro hnd hr b
    obtain ⟨hw, hnd1⟩ := List.nodup_cons.mp hnd
    obtain ⟨x0, hx0, hax0⟩ := hr w (List.mem_cons_self _ _)
    have hr1 : ∀ u ∈ rest, ∃ x, x < problem.getDomainSize u ∧ a u = (x : Int) :=
      fun u hu => hr u (List.mem_cons_of_mem _ hu)
    simp only [assignmentsOver, List.map_flatten, List.map_map, List.sum_flatten]
    have hinner : ∀ x : Nat,
        ((assignmentsOver problem rest (Function.update b w (x : Int))).map
            (fun t => if ∀ u ∈ w :: rest, t u = a u then H t else 0)).sum =
          if (x : Int) = (x0 : Int) then
            H (fun u => if u ∈ w :: rest then a u else b u) else 0 := by
      intro x
      by_cases hx : (x : Int) = (x0 : Int)
      · rw [if_pos hx]
        have hc : (assignmentsOver problem rest (Function.update b w (x : Int))).map
              (fun t => if ∀ u ∈ w :: rest, t u = a u then H t else 0) =
            (assignmentsOver problem rest (Function.update b w (x : Int))).map
              (fun t => if ∀ u ∈ rest, t u = a u then H t else 0) := by
          apply List.map_congr_left
          intro t ht
          have htw : t w = a w := by
            rw [assignmentsOver_frame problem rest _ t ht w hw, Function.update_same, hax0, hx]
          have hiff : (∀ u ∈ w :: rest, t u = a u) ↔ (∀ u ∈ rest, t u = a u) := by
            constructor
            · intro h u hu
              exact h u (List.mem_cons_of_mem _ hu)
            · intro h u hu
              rcases List.mem_cons.mp hu with rfl | hu
              · exact htw
              · exact h u hu
          simp only [hiff]
        rw [hc, ih hnd1 hr1]
        congr 1
        funext u
        by_cases hu : u ∈ rest
        · simp [hu]
        · by_cases huw : u = w
          · subst huw
            simp [hu, hax0, hx]
          · simp [hu, huw, Function.update_noteq huw]
      · rw [if_neg hx]
        have hc : (assignmentsOver problem rest (Function.update b w (x : Int))).map
              (fun t => if ∀ u ∈ w :: rest, t u = a u then H t else 0) =
            (assignmentsOver problem rest (Function.update b w (x : Int))).map
              (fun _ => (0 : ℚ)) := by
          apply List.map_congr_left
          intro t ht
          have htw : ¬ t w = a w := by
            rw [assignmentsOver_frame problem rest _ t ht w hw, Function.update_same, hax0]
            exact hx
          have hn : ¬ ∀ u ∈ w :: rest, t u = a u :=
            fun h => htw (h w (List.mem_cons_self _ _))
          rw [if_neg hn]
        rw [hc]
        simp
    have hfun : (List.map (List.sum ∘ (List.map
          (fun t => if ∀ u ∈ w :: rest, t u = a u then H t else 0)) ∘
          fun (x : Nat) => assignmentsOver problem rest (Function.update b w (x : Int)))
          (List.range (problem.getDomainSize w))) =
        (List.range (problem.getDomainSize w)).map
          (fun (x : Nat) => if (x : Int) = (x0 : Int) then
            H (fun u => if u ∈ w :: rest then a u else b u) else 0) := by
      apply List.map_congr_left
      intro x _
      exact hinner x
    rw [hfun, sum_range_select (fun _ => H (fun u => if u ∈ w :: rest then a u else b u)) x0,
      if_pos hx0]

/-- Two start tuples that agree at the variables of a set that are not stepped
give the same values of a function that reads the variables of the set only. -/
theorem assignmentsOver_map_congr (problem : Problem) (X : Finset Nat) (F : Assignment → ℚ)
    (hF : ∀ s t : Assignment, (∀ u ∈ X, s u = t u) → F s = F t) (vars : List Nat) :
    ∀ b1 b2 : Assignment, (∀ u ∈ X, u ∉ vars → b1 u = b2 u) →
      (assignmentsOver problem vars b1).map F = (assignmentsOver problem vars b2).map F := by
  induction vars with
  | nil =>
    intro b1 b2 h
    simp only [assignmentsOver, List.map_cons, List.map_nil, List.cons.injEq, and_true]
    exact hF _ _ (fun u hu => h u hu (List.not_mem_nil u))
  | cons w rest ih =>
    intro b1 b2 h
    simp only [assignmentsOver, List.map_flatten, List.map_map]
    congr 1
    apply List.map_congr_left
    intro x _
    apply ih
    intro u hu hur
    by_cases huw : u = w
    · subst huw
      simp
    · rw [Function.update_noteq huw, Function.update_noteq huw]
      apply h u hu
      intro hmem
      rcases List.mem_cons.mp hmem with h1 | h1
      · exact huw h1
      · exact hur h1

/-- A left fold of additions from 0 is the sum. -/
theorem foldl_add_eq_sum (F : Assignment → ℚ) (l : List Assignment) :
    ∀ c : ℚ, l.foldl (fun value t => value + F t) c = c + (l.map F).sum := by
  induction l with
  | nil => intro c; simp
  | cons t l ih =>
    intro c
    simp only [List.foldl_cons, List.map_cons, List.sum_cons]
    rw [ih]
    ring

/-- The inner loop of lines 2255-2262 adds `d` to the entry of an assignment
once for every tuple of the loop that selects this entry. -/
theorem setValuePtr_fold (d : ℚ) (a : Assignment) (ts : List Assignment) :
    ∀ g : ErrorTable,
      (ts.foldl (fun g t => g.setValuePtr t (g.getValuePtr t + d)) g).scope = g.scope ∧
      (ts.foldl (fun g t => g.setValuePtr t (g.getValuePtr t + d)) g).getValuePtr a =
        g.getValuePtr a + (ts.map (fun t => if ∀ u ∈ g.scope, a u = t u then d else 0)).sum := by
  induction ts with
  | nil => intro g; simp
  | cons t ts ih =>
    intro g
    simp only [List.foldl_cons, List.map_cons, List.sum_cons]
    obtain ⟨h1, h2⟩ := ih (g.setValuePtr t (g.getValuePtr t + d))
    have hs : (g.setValuePtr t (g.getValuePtr t + d)).scope = g.scope := rfl
    refine ⟨h1.trans hs, ?_⟩
    rw [h2, hs]
    have hstep : (g.setValuePtr t (g.getValuePtr t + d)).getValuePtr a =
        g.getValuePtr a + (if ∀ u ∈ g.scope, a u = t u then d else 0) := by
      have hiff : (∀ u ∈ g.scope, (fun u => if u ∈ g.scope then a u else 0) u = t u) ↔
          (∀ u ∈ g.scope, a u = t u) := by
        constructor
        · intro h u hu
          have := h u hu
          simpa [hu] using this
        · intro h u hu
          simpa [hu] using h u hu
      by_cases hc : ∀ u ∈ g.scope, a u = t u
      · have heq : (fun u => if u ∈ g.scope then t u else 0) =
            (fun u => if u ∈ g.scope then a u else 0) := by
          funext u
          by_cases hu : u ∈ g.scope
          · simp [hu, hc u hu]
          · simp [hu]
        simp only [ErrorTable.getValuePtr, ErrorTable.setValuePtr]
        rw [if_pos (hiff.mpr hc), if_pos hc, heq]
      · simp only [ErrorTable.getValuePtr, ErrorTable.setValuePtr]
        rw [if_neg (fun h => hc (hiff.mp h)), if_neg hc, add_zero]
    rw [hstep]
    ring

/-- The outer loop of lines 2240-2267 adds to the entry of an assignment the
value of every round for every tuple of the round that selects this entry. -/
theorem setValuePtr_fold_fold (d : Assignment → ℚ) (inner : Assignment → List Assignment)
    (a : Assignment) (taus : List Assignment) :
    ∀ g : ErrorTable,
      (taus.foldl (fun g tau =>
          (inner tau).foldl (fun g t => g.setValuePtr t (g.getValuePtr t + d tau)) g)
        g).scope = g.scope ∧
      (taus.foldl (fun g tau =>
          (inner tau).foldl (fun g t => g.setValuePtr t (g.getValuePtr t + d tau)) g)
        g).getValuePtr a =
        g.getValuePtr a + (taus.map (fun tau =>
          ((inner tau).map (fun t => if ∀ u ∈ g.scope, a u = t u then d tau else 0)).sum)).sum := by
  induction taus with
  | nil => intro g; simp
  | cons tau taus ih =>
    intro g
    simp only [List.foldl_cons, List.map_cons, List.sum_cons]
    obtain ⟨h1, h2⟩ := ih
      ((inner tau).foldl (fun g t => g.setValuePtr t (g.getValuePtr t + d tau)) g)
    obtain ⟨h3, h4⟩ := setValuePtr_fold (d tau) a (inner tau) g
    refine ⟨h1.trans h3, ?_⟩
    rw [h2, h3, h4]
    ring

/-- C26, the claim fails for `ComputeSubtreeErrorFns`: the table of variable 0
has the entries 1 and 5 and shares no variable with the table of its parent,
variable 1, which has two values.  The minimum of the entries is 1, but the
message adds their average divided by the domain size of the parent variable,
3/2, to both entries of the parent. -/
theorem ComputeSubtreeErrorFns_message_counterexample :
    ∃ f, ComputeSubtreeErrorFns_message exProblem 1 exChildTable exParentTable = some f ∧
      f.getValuePtr (fun _ => 0) = 3 / 2 ∧
      f.getValuePtr (fun u => if u = 1 then 1 else 0) = 3 / 2 ∧
      min (exChildTable.getValuePtr (fun _ => 0))
        (exChildTable.getValuePtr (fun u => if u = 0 then 1 else 0)) = 1 := by
  have h1 : ((exChildTable.scope ∩ exParentTable.scope).sort (fun a b => a ≤ b)) = [] :=
    sort_eq_of_toFinset _ _ (by decide) (by decide)
  have h2 : ((exChildTable.scope \ exParentTable.scope).sort (fun a b => a ≤ b)) = [0] :=
    sort_eq_of_toFinset _ _ (by decide) (by decide)
  have h3 : ((exParentTable.scope \ exChildTable.scope).sort (fun a b => a ≤ b)) = [1] :=
    sort_eq_of_toFinset _ _ (by decide) (by decide)
  have h4 : ¬ ∃ u ∈ exChildTable.scope ∪ exParentTable.scope,
      exProblem.getDomainSize u = 0 := by
    simp [exProblem, exChildTable, exParentTable]
  unfold ComputeSubtreeErrorFns_message
  simp only [h1, h2, h3, h4, if_false]
  refine ⟨_, rfl, ?_, ?_, ?_⟩
  · simp [assignmentsOver, ComputeSubtreeErrorFns_value, ErrorTable.setValuePtr,
      ErrorTable.getValuePtr, exProblem, exChildTable, exParentTable, List.range_succ,
      Function.update]
    norm_num
  · simp [assignmentsOver, ComputeSubtreeErrorFns_value, ErrorTable.setValuePtr,
      ErrorTable.getValuePtr, exProblem, exChildTable, exParentTable, List.range_succ,
      Function.update]
    norm_num
  · simp [exChildTable, ErrorTable.getValuePtr]

/-- C26, amended: when every variable of the two scopes and the parent variable
have a non-empty domain,
`ComputeSubtreeErrorFns` returns from the message of a variable to its parent,
the scope of the parent table is unchanged, and for every assignment `a` that is
in range at the variables of the parent scope the parent entry that `a` selects
grows by the average of the table of the variable over all assignments of the
variables that are only in its scope (the shared variables as in `a`), divided
by the domain size of the parent variable. -/
theorem ComputeSubtreeErrorFns_message_average (problem : Problem) (p_var : Nat)
    (current_fn parent_fn : ErrorTable) (a : Assignment)
    (hdom : ∀ u ∈ current_fn.scope ∪ parent_fn.scope, 0 < problem.getDomainSize u)
    (hp : 0 < problem.getDomainSize p_var)
    (ha : ∀ u ∈ parent_fn.scope, ∃ x, x < problem.getDomainSize u ∧ a u = (x : Int)) :
    ∃ f, ComputeSubtreeErrorFns_message problem p_var current_fn parent_fn = some f ∧
      f.scope = parent_fn.scope ∧
      f.getValuePtr a = parent_fn.getValuePtr a +
        (((assignmentsOver problem
              ((current_fn.scope \ parent_fn.scope).sort (fun a b => a ≤ b)) a).map
            current_fn.getValuePtr).sum /
          ((((current_fn.scope \ parent_fn.scope).sort (fun a b => a ≤ b)).map
            (fun u => (problem.getDomainSize u : ℚ))).prod)) /
          (problem.getDomainSize p_var : ℚ) := by
  have h4 : ¬ ∃ u ∈ current_fn.scope ∪ parent_fn.scope, problem.getDomainSize u = 0 := by
    rintro ⟨u, hu, h0⟩
    have := hdom u hu
    omega
  have hp0 : ¬ problem.getDomainSize p_var = 0 := by omega
  unfold ComputeSubtreeErrorFns_message
  simp only [h4, hp0, if_false]
  obtain ⟨hs, hv⟩ := setValuePtr_fold_fold
    (fun tau => ComputeSubtreeErrorFns_value problem current_fn
      ((current_fn.scope \ parent_fn.scope).sort (fun a b => a ≤ b)) tau /
        (problem.getDomainSize p_var : ℚ))
    (fun tau => assignmentsOver problem
      ((parent_fn.scope \ current_fn.scope).sort (fun a b => a ≤ b)) tau)
    a
    (assignmentsOver problem
      ((current_fn.scope ∩ parent_fn.scope).sort (fun a b => a ≤ b)) (fun _ => 0))
    parent_fn
  refine ⟨_, rfl, hs, ?_⟩
  rw [hv]
  congr 1
  -- the rounds of the outer loop
  have hround : ∀ tau ∈ assignmentsOver problem
        ((current_fn.scope ∩ parent_fn.scope).sort (fun a b => a ≤ b)) (fun _ => 0),
      ((assignmentsOver problem
          ((parent_fn.scope \ current_fn.scope).sort (fun a b => a ≤ b)) tau).map
        (fun t => if ∀ u ∈ parent_fn.scope, a u = t u then
          ComputeSubtreeErrorFns_value problem current_fn
            ((current_fn.scope \ parent_fn.scope).sort (fun a b => a ≤ b)) tau /
            (problem.getDomainSize p_var : ℚ) else 0)).sum =
      (fun tau => if ∀ u ∈ (current_fn.scope ∩ parent_fn.scope).sort (fun a b => a ≤ b),
          tau u = a u then
        ComputeSubtreeErrorFns_value problem current_fn
            ((current_fn.scope \ parent_fn.scope).sort (fun a b => a ≤ b)) tau /
            (problem.getDomainSize p_var : ℚ) else 0) tau := by
    intro tau _
    by_cases hc : ∀ u ∈ (current_fn.scope ∩ parent_fn.scope).sort (fun a b => a ≤ b),
        tau u = a u
    · simp only [if_pos hc]
      have hcongr : (assignmentsOver problem
            ((parent_fn.scope \ current_fn.scope).sort (fun a b => a ≤ b)) tau).map
          (fun t => if ∀ u ∈ parent_fn.scope, a u = t u then
            ComputeSubtreeErrorFns_value problem current_fn
              ((current_fn.scope \ parent_fn.scope).sort (fun a b => a ≤ b)) tau /
              (problem.getDomainSize p_var : ℚ) else 0) =
          (assignmentsOver problem
            ((parent_fn.scope \ current_fn.scope).sort (fun a b => a ≤ b)) tau).map
          (fun t => if ∀ u ∈ (parent_fn.scope \ current_fn.scope).sort (fun a b => a ≤ b),
              t u = a u then
            (fun _ => ComputeSubtreeErrorFns_value problem current_fn
              ((current_fn.scope \ parent_fn.scope).sort (fun a b => a ≤ b)) tau /
              (problem.getDomainSize p_var : ℚ)) t else 0) := by
        apply List.map_congr_left
        intro t ht
        have hiff : (∀ u ∈ parent_fn.scope, a u = t u) ↔
            (∀ u ∈ (parent_fn.scope \ current_fn.scope).sort (fun a b => a ≤ b),
              t u = a u) := by
          constructor
          · intro h u hu
            rw [Finset.mem_sort, Finset.mem_sdiff] at hu
            exact (h u hu.1).symm
          · intro h u hu
            by_cases huc : u ∈ current_fn.scope
            · have hnot : u ∉ (parent_fn.scope \ current_fn.scope).sort (fun a b => a ≤ b) := by
                rw [Finset.mem_sort, Finset.mem_sdiff]
                exact fun h => h.2 huc
              rw [assignmentsOver_frame problem _ _ t ht u hnot]
              exact (hc u (by rw [Finset.mem_sort, Finset.mem_inter]; exact ⟨huc, hu⟩)).symm
            · exact (h u (by rw [Finset.mem_sort, Finset.mem_sdiff]; exact ⟨hu, huc⟩)).symm
        simp only [hiff]
      rw [hcongr]
      exact assignmentsOver_sum_select problem a _ _ (Finset.sort_nodup _ _)
        (fun u hu => ha u (by
          rw [Finset.mem_sort, Finset.mem_sdiff] at hu
          exact hu.1)) tau
    · simp only [if_neg hc]
      have hcongr : (assignmentsOver problem
            ((parent_fn.scope \ current_fn.scope).sort (fun a b => a ≤ b)) tau).map
          (fun t => if ∀ u ∈ parent_fn.scope, a u = t u then
            ComputeSubtreeErrorFns_value problem current_fn
              ((current_fn.scope \ parent_fn.scope).sort (fun a b => a ≤ b)) tau /
              (problem.getDomainSize p_var : ℚ) else 0) =
          (assignmentsOver problem
            ((parent_fn.scope \ current_fn.scope).sort (fun a b => a ≤ b)) tau).map
          (fun _ => (0 : ℚ)) := by
        apply List.map_congr_left
        intro t ht
        have hn : ¬ ∀ u ∈ parent_fn.scope, a u = t u := by
          intro h
          apply hc
          intro u hu
          rw [Finset.mem_sort, Finset.mem_inter] at hu
          have hnot : u ∉ (parent_fn.scope \ current_fn.scope).sort (fun a b => a ≤ b) := by
            rw [Finset.mem_sort, Finset.mem_sdiff]
            exact fun h => h.2 hu.1
          rw [← assignmentsOver_frame problem _ _ t ht u hnot]
          exact (h u hu.2).symm
        rw [if_neg hn]
      rw [hcongr]
      simp
  rw [List.map_congr_left hround,
    assignmentsOver_sum_select problem a _ _ (Finset.sort_nodup _ _)
      (fun u hu => ha u (by
        rw [Finset.mem_sort, Finset.mem_inter] at hu
        exact hu.2)) (fun _ => 0)]
  congr 1
  unfold ComputeSubtreeErrorFns_value
  rw [foldl_add_eq_sum, zero_add]
  congr 1
  refine congrArg List.sum ?_
  apply assignmentsOver_map_congr problem current_fn.scope
  · intro s t hst
    unfold ErrorTable.getValuePtr
    congr 1
    funext u
    by_cases hu : u ∈ current_fn.scope
    · simp [hu, hst u hu]
    · simp [hu]
  · intro u hu hnot
    have hup : u ∈ parent_fn.scope := by
      by_contra hup
      exact hnot (by rw [Finset.mem_sort, Finset.mem_sdiff]; exact ⟨hu, hup⟩)
    have hmem : u ∈ (current_fn.scope ∩ parent_fn.scope).sort (fun a b => a ≤ b) := by
      rw [Finset.mem_sort, Finset.mem_inter]; exact ⟨hu, hup⟩
    simp only [hmem, if_true]

/-- C26, amended, at the two example tables: the entry of the parent at the
assignment of zeros grows from 0 by (1 + 5) / 2 / 2. -/
theorem ComputeSubtreeErrorFns_message_average_witness :
    ∃ f, ComputeSubtreeErrorFns_message exProblem 1 exChildTable exParentTable = some f ∧
      f.scope = exParentTable.scope ∧
      f.getValuePtr (fun _ => 0) = exParentTable.getValuePtr (fun _ => 0) +
        (((assignmentsOver exProblem
              ((exChildTable.scope \ exParentTable.scope).sort (fun a b => a ≤ b))
              (fun _ => 0)).map
            exChildTable.getValuePtr).sum /
          ((((exChildTable.scope \ exParentTable.scope).sort (fun a b => a ≤ b)).map
            (fun u => (exProblem.getDomainSize u : ℚ))).prod)) /
          (exProblem.getDomainSize 1 : ℚ) :=
  ComputeSubtreeErrorFns_message_average exProblem 1 exChildTable exParentTable (fun _ => 0)
    (by simp [exProblem, exChildTable, exParentTable])
    (by decide)
    (by
      intro u hu
      exact ⟨0, by
        simp only [exParentTable, Finset.mem_singleton] at hu
        subst hu
        simp [exProblem], rfl⟩)

/-! ### The distances after a rebuild -/

/-- The lists of routed functions are empty after the preparation of `build`. -/
theorem build_prepare_augmented (self : MiniBucketElimLH) (ext : BuildExternals)
    (flags : Flags) (computeTables : Bool)
    (hdel : ∀ s : MiniBucketElimLH,
      (ext.deleteLocalErrorFNs s).estimationFrame = s.estimationFrame) :
    (self.build_prepare ext flags computeTables).1.m_augmented = fun _ => [] := by
  have hd := fun s => estimationFrame_fields _ _ (hdel s)
  obtain ⟨r1, r2, r3, r4, r5, r6, r7, r8, r9, r10, r11, r12, r13, r14, r15, r16, r17, r18⟩ :=
    reset_fields self ext.toLocalErrorExternals hdel
  unfold MiniBucketElimLH.build_prepare
  cases computeTables <;>
    simp only [hd, Bool.false_eq_true, if_false, if_true, r17]

/-- The body of the loop over the buckets writes the mini-buckets of its bucket
only, and a bucket other than the dummy root gets as many mini-buckets as the
packing makes. -/
theorem build_bucket_minibuckets (self s1 : MiniBucketElimLH) (ext : BuildExternals)
    (fuel : Nat) (assignment : Option Assignment) (computeTables : Bool)
    (dummy v : Nat)
    (h : self.build_bucket ext fuel assignment computeTables dummy v = some s1) :
    (∀ u, u ≠ v → s1._MiniBuckets u = self._MiniBuckets u) ∧
      (v ≠ dummy → (s1._MiniBuckets v).length =
        (build_partition v self.m_ibound
          (self.m_pseudotree.getFunctions v ++ self.m_augmented v)).length) := by
  constructor
  · intro u hu
    obtain ⟨aug, inter, mbs, bfuns, ub, nmb, nmb1, hs, _, _⟩ :=
      build_bucket_state self s1 ext fuel assignment computeTables dummy v h
    rw [hs]
    exact Function.update_noteq hu _ _
  · intro hd
    unfold MiniBucketElimLH.build_bucket at h
    simp only at h
    rw [if_neg hd] at h
    cases hmm : (if computeTables = true ∧ self.m_options.match_ = true ∧
          (build_partition v self.m_ibound
            (self.m_pseudotree.getFunctions v ++ self.m_augmented v)).length > 1 then
        (build_momentMatching self.m_problem ext.eliminate_vars ext.getTable
          (build_partition v self.m_ibound
            (self.m_pseudotree.getFunctions v ++ self.m_augmented v))).map some
        else some none) with
    | none => simp [hmm] at h
    | some mm =>
      simp only [hmm, Option.map_eq_some'] at h
      obtain ⟨r, hr, h⟩ := h
      obtain ⟨aug, inter, done, hacc, hlen, _⟩ :=
        build_processMiniBuckets_state ext fuel v mm _ _ r hr
      subst hacc
      subst h
      simp [hlen]

/-- The loop over the buckets leaves the mini-buckets of a variable that it
does not visit. -/
theorem build_bucketLoop_minibuckets (ext : BuildExternals) (fuel : Nat)
    (assignment : Option Assignment) (computeTables : Bool) (dummy u : Nat) :
    ∀ (l : List Nat) (s s1 : MiniBucketElimLH), u ∉ l →
      l.foldlM (fun s v => s.build_bucket ext fuel assignment computeTables dummy v) s =
        some s1 →
      s1._MiniBuckets u = s._MiniBuckets u := by
  intro l
  induction l with
  | nil =>
    intro s s1 _ h
    simp only [List.foldlM_nil, Option.pure_def, Option.some.injEq] at h
    rw [h]
  | cons w l ih =>
    intro s s1 hu h
    rw [List.foldlM_cons] at h
    cases hb : s.build_bucket ext fuel assignment computeTables dummy w with
    | none =>
      rw [hb] at h
      cases h
    | some sa =>
      rw [hb] at h
      have h2 : l.foldlM
          (fun s v => s.build_bucket ext fuel assignment computeTables dummy v) sa =
          some s1 := h
      rw [ih sa s1 (fun hm => hu (List.mem_cons_of_mem _ hm)) h2]
      exact (build_bucket_minibuckets s sa ext fuel assignment computeTables dummy w hb).1 u
        (fun he => hu (he ▸ List.mem_cons_self _ _))

/-- An iteration of the loop of lines 464-478 writes the distance of the parent
only. -/
theorem build_distStep_other (pt : Pseudotree) (minibuckets : Nat → List MiniBucket)
    (dist : Nat → Int) (v u : Nat) (hu : pt.parent v ≠ some u) :
    build_distStep pt minibuckets dist v u = dist u := by
  unfold build_distStep
  cases hpar : pt.parent v with
  | none => rfl
  | some p =>
    have hne : u ≠ p := fun he => hu (by rw [hpar, he])
    simp only
    split_ifs <;> first | rfl | exact Function.update_noteq hne _ _

/-- An iteration of the loop of lines 464-478 reads the number of mini-buckets
of its bucket only. -/
theorem build_distStep_congr (pt : Pseudotree) (mbs1 mbs2 : Nat → List MiniBucket)
    (dist : Nat → Int) (v : Nat) (h : (mbs1 v).length = (mbs2 v).length) :
    build_distStep pt mbs1 dist v = build_distStep pt mbs2 dist v := by
  unfold build_distStep
  rw [h]

/-- The sort of line 357 leaves the two functions of bucket 0 of the small
model in their order. -/
theorem exBuild_sort : build_sortFunctions [exF1, exF2] = [exF1, exF2] := by
  simp [build_sortFunctions, List.mergeSort, scopeIsLarger, exF1, exF2, List.merge]

/-- The packing of bucket 0 of the small model: two mini-buckets under the
i-bound 2, one under the i-bound 3. -/
theorem exBuild_partition :
    (build_partition 0 2 [exF1, exF2]).length = 2 ∧
      (build_partition 0 3 [exF1, exF2]).length = 1 := by
  have ha : ((MiniBucket.new 0 2).addFunction exF1).allowsFunction exF2 = false := by decide
  have hb : ((MiniBucket.new 0 3).addFunction exF1).allowsFunction exF2 = true := by decide
  constructor
  · simp [build_partition, exBuild_sort, build_placeFunction, build_placeInExisting, ha]
  · simp [build_partition, exBuild_sort, build_placeFunction, build_placeInExisting, hb]

/-- The distances of the variables 0 and 1 that `build` leaves on the small
model, from the distances `d` that `resize` (line 257) leaves: variable 0 has
no child and keeps its distance, and variable 1 gets the result of the
iteration of lines 464-478 for its child 0. -/
theorem exBuild_distance (s s1 : MiniBucketElimLH) (mem : Nat)
    (ht : s.m_pseudotree = exBuildTree)
    (h : s.build exBuildExternals exLibm {} (fun _ _ _ => 0) 3 none true = some (s1, mem)) :
    s1._distToClosestDescendantWithMBs 0 =
        vector_resize_map s._distToClosestDescendantWithMBs s.perVariableSize INT_MAX 0 ∧
      s1._distToClosestDescendantWithMBs 1 =
        build_distStep exBuildTree
          (fun _ => build_partition 0 s.m_ibound [exF1, exF2])
          (vector_resize_map s._distToClosestDescendantWithMBs s.perVariableSize INT_MAX)
          0 1 := by
  obtain ⟨st, elimOrder, hst, _, _, htrue⟩ :=
    build_some s s1 exBuildExternals exLibm {} (fun _ _ _ => 0) 3 none true mem
      exBuildExternals_keeps exBuildExternals_setup h
  obtain ⟨_, _, _, _, _, _, _, _, _, _, _, e12, _⟩ := estimationFrame_fields _ _ (htrue rfl)
  obtain ⟨hord, s5, hfold, hst5⟩ :=
    build_structure_some s st exBuildExternals {} 3 none true elimOrder hst
  obtain ⟨p1, _, _, _, _, _, _, _, _, p10, _, _, p13⟩ :=
    build_prepare_fields s exBuildExternals {} true exBuildExternals_keeps.1
  obtain ⟨r1, r2, _⟩ := reset_fields s exBuildExternals.toLocalErrorExternals
    exBuildExternals_keeps.1
  have hLP : exBuildExternals.LPReparameterization
      (s.reset exBuildExternals.toLocalErrorExternals) = (s.m_problem, s.m_pseudotree) := by
    show ((s.reset exBuildExternals.toLocalErrorExternals).m_problem,
      (s.reset exBuildExternals.toLocalErrorExternals).m_pseudotree) = _
    rw [r1, r2]
  obtain ⟨_, q2, q3⟩ := p13 hLP
  have hord2 : elimOrder = [2, 1, 0] := by
    rw [hord, q3]
    exact exBuildExternals_order s ht
  subst hord2
  have haug := build_prepare_augmented s exBuildExternals {} true exBuildExternals_keeps.1
  have hrev : ([2, 1, 0] : List Nat).reverse = [0, 1, 2] := rfl
  have hhead : ([2, 1, 0] : List Nat).headD 0 = 2 := rfl
  rw [hrev, hhead] at hfold
  rw [hrev] at hst5
  obtain ⟨_, f2, _, _, _, _, _, _, f9, _⟩ := bucketFrame_fields _ _
    (build_bucketLoop_frame exBuildExternals 3 none true 2 [0, 1, 2] _ s5 hfold)
  rw [List.foldlM_cons] at hfold
  cases hb : (s.build_prepare exBuildExternals {} true).1.build_bucket exBuildExternals 3
      none true 2 0 with
  | none =>
    rw [hb] at hfold
    cases hfold
  | some sa =>
    rw [hb] at hfold
    have hfold2 : ([1, 2] : List Nat).foldlM
        (fun s v => s.build_bucket exBuildExternals 3 none true 2 v) sa = some s5 := hfold
    have hlen := (build_bucket_minibuckets _ sa exBuildExternals 3 none true 2 0 hb).2
      (by decide)
    have hsame := build_bucketLoop_minibuckets exBuildExternals 3 none true 2 0 [1, 2] sa s5
      (by decide) hfold2
    have hfun : exBuildTree.getFunctions 0 = [exF1, exF2] := rfl
    rw [p1, q2, ht, haug, hfun, List.append_nil] at hlen
    have hdist : st._distToClosestDescendantWithMBs =
        ([0, 1, 2] : List Nat).foldl (build_distStep s5.m_pseudotree s5._MiniBuckets)
          s5._distToClosestDescendantWithMBs := by
      rw [hst5]
    rw [e12, hdist, f2, q2, ht, f9, p10]
    have hp0 : exBuildTree.parent 0 = some 1 := rfl
    have hp1 : exBuildTree.parent 1 = some 2 := rfl
    have hp2 : exBuildTree.parent 2 = none := rfl
    have hcongr := build_distStep_congr exBuildTree s5._MiniBuckets
      (fun _ => build_partition 0 s.m_ibound [exF1, exF2])
      (vector_resize_map s._distToClosestDescendantWithMBs s.perVariableSize INT_MAX) 0
      (by rw [hsame, hlen])
    simp only [List.foldl_cons, List.foldl_nil]
    constructor
    · rw [build_distStep_other _ _ _ 2 0 (by rw [hp2]; exact fun h => nomatch h),
        build_distStep_other _ _ _ 1 0 (by rw [hp1]; decide),
        build_distStep_other _ _ _ 0 0 (by rw [hp0]; decide)]
    · rw [build_distStep_other _ _ _ 2 1 (by rw [hp2]; exact fun h => nomatch h),
        build_distStep_other _ _ _ 1 1 (by rw [hp1]; decide), hcongr]

/-- C25.  A rebuild does not give the state of a first build with the same
inputs.  The heuristic over the small model is built with the i-bound 2, which
splits bucket 0 in two mini-buckets: variable 1 gets the distance 1 to its
closest descendant with more than one mini-bucket.  Queries then leave two
lookahead computations, one skipped computation, one better ordering and the
probability 1/2 at variable 1, and the i-bound is set to 3.  The rebuild returns
with the distance 1 and with these counters, where the first build with the
i-bound 3, under which no bucket is split, leaves the distance `INT_MAX`, the
counters 0 and the starting probability 1: the calls of `resize` of lines
257-264 keep the elements of vectors that have the size of the problem
already, the loop of lines 464-478 only lowers a distance, and neither `reset`
nor `build` clears them. -/
theorem build_rebuild_keeps_state :
    ∃ s1 m1 s2 m2 s3 m3,
      exUnbuilt.build exBuildExternals exLibm {} (fun _ _ _ => 0) 3 none true =
        some (s1, m1) ∧
      (s1.m_problem = exUnbuilt.m_problem ∧ s1.m_pseudotree = exUnbuilt.m_pseudotree ∧
        s1.m_options = exUnbuilt.m_options) ∧
      MiniBucketElimLH.build
        { s1 with
          m_ibound := 3,
          _nLHcalls := Function.update s1._nLHcalls 1 2,
          _nLHcallsSkipped := Function.update s1._nLHcallsSkipped 1 1,
          count_better_ordering_ := Function.update s1.count_better_ordering_ 1 1,
          lookahead_probability_ := Function.update s1.lookahead_probability_ 1 (1 / 2) }
        exBuildExternals exLibm {} (fun _ _ _ => 0) 3 none true = some (s2, m2) ∧
      MiniBucketElimLH.build { exUnbuilt with m_ibound := 3 }
        exBuildExternals exLibm {} (fun _ _ _ => 0) 3 none true = some (s3, m3) ∧
      (s3._distToClosestDescendantWithMBs 1 = INT_MAX ∧
        s3._nLHcalls 1 = 0 ∧ s3._nLHcallsSkipped 1 = 0 ∧ s3.count_better_ordering_ 1 = 0 ∧
        s3.lookahead_probability_ 1 = 1) ∧
      (s2._distToClosestDescendantWithMBs 1 = 1 ∧
        s2._nLHcalls 1 = 2 ∧ s2._nLHcallsSkipped 1 = 1 ∧ s2.count_better_ordering_ 1 = 1 ∧
        s2.lookahead_probability_ 1 = 1 / 2) := by
  have hp0 : exBuildTree.parent 0 = some 1 := rfl
  obtain ⟨s1, m1, h1, i1, i2, i3, i4⟩ := exBuild_returns exUnbuilt rfl rfl rfl
  obtain ⟨_, _, _, _, c5⟩ := build_counters exUnbuilt s1 exBuildExternals exLibm {}
    (fun _ _ _ => 0) 3 none true m1 exBuildExternals_keeps exBuildExternals_setup h1
  have hsize : s1.perVariableSize = 3 := by rw [c5, i1]; rfl
  obtain ⟨g0, g1⟩ := exBuild_distance exUnbuilt s1 m1 rfl h1
  have hd0 : s1._distToClosestDescendantWithMBs 0 = INT_MAX := by
    rw [g0]; rfl
  have hd1 : s1._distToClosestDescendantWithMBs 1 = 1 := by
    rw [g1]
    have hib : exUnbuilt.m_ibound = 2 := rfl
    simp only [build_distStep, hp0, hib, exBuild_partition.1]
    simp [vector_resize_map, exUnbuilt, INT_MAX]
  obtain ⟨s2, m2, h2, _⟩ := exBuild_returns
    { s1 with
      m_ibound := 3,
      _nLHcalls := Function.update s1._nLHcalls 1 2,
      _nLHcallsSkipped := Function.update s1._nLHcallsSkipped 1 1,
      count_better_ordering_ := Function.update s1.count_better_ordering_ 1 1,
      lookahead_probability_ := Function.update s1.lookahead_probability_ 1 (1 / 2) }
    i1 i2 i3
  obtain ⟨d1, d2, d3, d4, _⟩ := build_counters
    { s1 with
      m_ibound := 3,
      _nLHcalls := Function.update s1._nLHcalls 1 2,
      _nLHcallsSkipped := Function.update s1._nLHcallsSkipped 1 1,
      count_better_ordering_ := Function.update s1.count_better_ordering_ 1 1,
      lookahead_probability_ := Function.update s1.lookahead_probability_ 1 (1 / 2) }
    s2 exBuildExternals exLibm {}
    (fun _ _ _ => 0) 3 none true m2 exBuildExternals_keeps exBuildExternals_setup h2
  obtain ⟨_, k1⟩ := exBuild_distance
    { s1 with
      m_ibound := 3,
      _nLHcalls := Function.update s1._nLHcalls 1 2,
      _nLHcallsSkipped := Function.update s1._nLHcallsSkipped 1 1,
      count_better_ordering_ := Function.update s1.count_better_ordering_ 1 1,
      lookahead_probability_ := Function.update s1.lookahead_probability_ 1 (1 / 2) }
    s2 m2 i2 h2
  obtain ⟨s3, m3, h3, _⟩ := exBuild_returns { exUnbuilt with m_ibound := 3 } rfl rfl rfl
  obtain ⟨t1, t2, t3, t4, _⟩ := build_counters { exUnbuilt with m_ibound := 3 } s3
    exBuildExternals exLibm {}
    (fun _ _ _ => 0) 3 none true m3 exBuildExternals_keeps exBuildExternals_setup h3
  obtain ⟨_, u1⟩ := exBuild_distance { exUnbuilt with m_ibound := 3 } s3 m3 rfl h3
  refine ⟨s1, m1, s2, m2, s3, m3, h1, ⟨i1, i2, i3⟩, h2, h3, ⟨?_, ?_⟩, ⟨?_, ?_⟩⟩
  · rw [u1]
    simp only [build_distStep, hp0, exBuild_partition.2]
    simp [vector_resize_map, exUnbuilt, INT_MAX]
  · rw [t1, t2, t3, t4]
    exact ⟨rfl, rfl, rfl, rfl⟩
  · rw [k1]
    simp only [build_distStep, hp0, exBuild_partition.2]
    simp [vector_resize_map, hsize, hd0, hd1, INT_MAX]
  · rw [d1, d2, d3, d4]
    simp only [vector_resize_map, hsize, Function.update_same]
    norm_num

/-! ### The assignment after `getHeurAll` -/

/-- C39.  Frame property of `getHeurAll`: the call returns, and the assignment
on return is the assignment at entry, whether the lookahead values were used
(with or without the always-compute override) or not: the loops write position
`var` only and line 867 restores it. -/
theorem getHeurAll_assignment_restored (self : MiniBucketElimLH) (flags : Flags)
    (var : Nat) (assignment : Assignment) :
    ∃ r, self.getHeurAll flags var assignment = some r ∧ r.assignment = assignment := by
  have hlen : (MiniBucketElim.getHeurAll self var assignment).length =
      self.m_problem.getDomainSize var := by
    simp [MiniBucketElim.getHeurAll]
  unfold MiniBucketElimLH.getHeurAll
  by_cases hc : (self._Lookahead var)._SubtreeNodes.length > 0 ∧
      self.lookahead_subtree_ok_ = true
  · simp only [hc, and_self, if_true]
    cases hflag : flags.lookahead_always_compute
    · obtain ⟨st', h1, _, h3⟩ := getHeurAll_compareLoop (self._Lookahead var) var
        assignment (List.range (self.m_problem.getDomainSize var))
        { no_lh_argmax := -1, no_lh_max := ELEM_ZERO, lh_argmax := -1,
          lh_max := ELEM_ZERO,
          out := MiniBucketElim.getHeurAll self var assignment,
          assignment := assignment }
        (by
          intro i hi
          simp only [hlen]
          exact List.mem_range.mp hi)
        (fun _ => rfl)
      simp only [Bool.not_false, if_true, h1]
      refine ⟨_, rfl, ?_⟩
      show Function.update st'.assignment var (assignment var) = assignment
      rw [h3, Function.update_eq_self]
    · obtain ⟨st', h1, _, h3⟩ := getHeurAll_overwriteLoop (self._Lookahead var)
        var assignment (List.range (self.m_problem.getDomainSize var))
        (MiniBucketElim.getHeurAll self var assignment, assignment)
        (by
          intro i hi
          simp only [hlen]
          exact List.mem_range.mp hi)
        (fun _ => rfl)
      simp only [Bool.not_true, Bool.false_eq_true, if_false, h1]
      refine ⟨_, rfl, ?_⟩
      show Function.update st'.2 var (assignment var) = assignment
      rw [h3, Function.update_eq_self]
  · rw [if_neg hc]
    refine ⟨_, rfl, ?_⟩
    show Function.update assignment var (assignment var) = assignment
    exact Function.update_eq_self _ _

/-! ### The counters of `noteOrNodeExpansionBeginning` -/

/-- C37.  Counter invariant of `noteOrNodeExpansionBeginning`.  A call for a
variable whose lookahead subtree is not a copy returns, and a call for a copy
returns when the parents of `var` lead to the root of the earlier subtree.
When a call returns: for a subtree that is a copy or has nodes, exactly one of
`_nLHcalls[var]` and `_nLHcallsSkipped[var]` is incremented by one, and
`lookahead_subtree_ok_` is true after the call exactly when `_nLHcalls[var]` was
the one; for a subtree that is not a copy and has no nodes, no counter changes
and `lookahead_subtree_ok_` is false; the counters of every other variable and
the better-ordering counts are as they were. -/
theorem noteOrNodeExpansionBeginning_counters (self : MiniBucketElimLH)
    (flags : Flags) (ops : LookaheadOps) (fuel : Nat) (next_unif : ℚ)
    (var : Nat) (assignment : Assignment) :
    ((self._Lookahead var)._IsCopyOfEarlierSubtree = none →
      ∃ r, self.noteOrNodeExpansionBeginning flags ops fuel next_unif var assignment =
        some r) ∧
    (∀ earlier path,
      (self._Lookahead var)._IsCopyOfEarlierSubtree = some earlier →
      self.m_pseudotree.isPathUpTo earlier._RootVar var path → path.length ≤ fuel →
      ∃ r, self.noteOrNodeExpansionBeginning flags ops fuel next_unif var assignment =
        some r) ∧
    ∀ s1 a1,
      self.noteOrNodeExpansionBeginning flags ops fuel next_unif var assignment =
        some (s1, a1) →
      (((self._Lookahead var)._IsCopyOfEarlierSubtree ≠ none ∨
          0 < (self._Lookahead var)._SubtreeNodes.length) →
        (s1._nLHcalls var = self._nLHcalls var + 1 ∧
            s1._nLHcallsSkipped var = self._nLHcallsSkipped var ∧
            s1.lookahead_subtree_ok_ = true) ∨
          (s1._nLHcalls var = self._nLHcalls var ∧
            s1._nLHcallsSkipped var = self._nLHcallsSkipped var + 1 ∧
            s1.lookahead_subtree_ok_ = false)) ∧
      (((self._Lookahead var)._IsCopyOfEarlierSubtree = none ∧
          (self._Lookahead var)._SubtreeNodes.length = 0) →
        s1._nLHcalls = self._nLHcalls ∧ s1._nLHcallsSkipped = self._nLHcallsSkipped ∧
          s1.lookahead_subtree_ok_ = false) ∧
      (∀ u, u ≠ var →
        s1._nLHcalls u = self._nLHcalls u ∧
          s1._nLHcallsSkipped u = self._nLHcallsSkipped u) ∧
      s1.count_better_ordering_ = self.count_better_ordering_ := by
  refine ⟨?_, ?_, ?_⟩
  · intro hcopy
    unfold MiniBucketElimLH.noteOrNodeExpansionBeginning
    simp only [hcopy]
    split_ifs <;> exact ⟨_, rfl⟩
  · intro earlier path hcopy hpath hfuel
    obtain ⟨out, hout⟩ := noteOrNodeExpansionBeginning_backup_returns
      self.m_pseudotree assignment earlier._RootVar path fuel var [] hpath hfuel
    unfold MiniBucketElimLH.noteOrNodeExpansionBeginning
    simp only [hcopy, hout]
    split_ifs <;> exact ⟨_, rfl⟩
  · intro s1 a1 h
    unfold MiniBucketElimLH.noteOrNodeExpansionBeginning at h
    cases hcopy : (self._Lookahead var)._IsCopyOfEarlierSubtree with
    | some earlier =>
      simp only [hcopy] at h
      cases hb : noteOrNodeExpansionBeginning_backup self.m_pseudotree assignment
          earlier._RootVar fuel var [] with
      | none => simp [hb] at h
      | some out =>
        simp only [hb] at h
        by_cases hall : earlier._Children.all (fun c => c._IsValidForCurrentContext) = true
        · rw [if_pos hall] at h
          simp only [Option.some.injEq, Prod.mk.injEq] at h
          obtain ⟨h, _⟩ := h
          subst h
          refine ⟨fun _ => Or.inl ⟨by simp, rfl, rfl⟩, fun hh => by simp at hh, ?_, rfl⟩
          intro u hu
          exact ⟨Function.update_noteq hu _ _, rfl⟩
        · rw [if_neg hall] at h
          simp only [Option.some.injEq, Prod.mk.injEq] at h
          obtain ⟨h, _⟩ := h
          subst h
          refine ⟨fun _ => Or.inr ⟨rfl, by simp, rfl⟩, fun hh => by simp at hh, ?_, rfl⟩
          intro u hu
          exact ⟨rfl, Function.update_noteq hu _ _⟩
    | none =>
      simp only [hcopy] at h
      by_cases hn : (self._Lookahead var)._SubtreeNodes.length > 0
      · rw [if_pos hn] at h
        by_cases hd : self.lookaheadDecision flags next_unif var = true
        · rw [if_pos hd] at h
          simp only [Option.some.injEq, Prod.mk.injEq] at h
          obtain ⟨h, _⟩ := h
          subst h
          refine ⟨fun _ => Or.inl ⟨by simp, rfl, rfl⟩, ?_, ?_, rfl⟩
          · intro hh
            omega
          · intro u hu
            exact ⟨Function.update_noteq hu _ _, rfl⟩
        · rw [if_neg hd] at h
          simp only [Option.some.injEq, Prod.mk.injEq] at h
          obtain ⟨h, _⟩ := h
          subst h
          refine ⟨fun _ => Or.inr ⟨rfl, by simp, rfl⟩, ?_, ?_, rfl⟩
          · intro hh
            omega
          · intro u hu
            exact ⟨rfl, Function.update_noteq hu _ _⟩
      · rw [if_neg hn] at h
        simp only [Option.some.injEq, Prod.mk.injEq] at h
        obtain ⟨h, _⟩ := h
        subst h
        refine ⟨?_, fun _ => ⟨rfl, rfl, rfl⟩, fun u _ => ⟨rfl, rfl⟩, rfl⟩
        intro hh
        rcases hh with hh | hh
        · exact absurd rfl hh
        · exact absurd hh hn

/-! ### The division of the probability update -/

/-- A build from a newly constructed heuristic, whose vectors are empty, leaves
the lookahead counts and the better-ordering counts of every variable at 0. -/
theorem build_fresh_counters (self s0 : MiniBucketElimLH) (ext : BuildExternals)
    (libm : Libm) (flags : Flags) (rand : Nat → Nat → Nat → Int) (fuel : Nat)
    (assignment : Option Assignment) (computeTables : Bool) (mem : Nat)
    (hfresh : self.perVariableSize = 0)
    (hext : ext.toLocalErrorExternals.keepsEstimationFrame)
    (hsetup : ∀ s s2 : MiniBucketElimLH,
      ext.SetupLookaheadStructure_FractionOfLargestAbsErrorNodesOnly s = some s2 →
        s2.estimationFrame = s.estimationFrame)
    (h : self.build ext libm flags rand fuel assignment computeTables = some (s0, mem)) :
    ∀ v, s0.count_better_ordering_ v = 0 ∧ s0._nLHcalls v = 0 := by
  obtain ⟨c1, _, c3, _, _⟩ := build_counters self s0 ext libm flags rand fuel assignment
    computeTables mem hext hsetup h
  intro v
  rw [c1, c3, hfresh]
  exact ⟨rfl, rfl⟩

/-- What `noteOrNodeExpansionBeginning` does to the counts: the better-ordering
counts stay, no lookahead count decreases, and when the lookahead is marked
valid the lookahead count of `var` was incremented. -/
theorem noteOrNodeExpansionBeginning_calls (self s1 : MiniBucketElimLH)
    (flags : Flags) (ops : LookaheadOps) (fuel : Nat) (next_unif : ℚ)
    (var : Nat) (assignment a1 : Assignment)
    (h : self.noteOrNodeExpansionBeginning flags ops fuel next_unif var assignment =
      some (s1, a1)) :
    s1.count_better_ordering_ = self.count_better_ordering_ ∧
      (∀ u, self._nLHcalls u ≤ s1._nLHcalls u) ∧
      (s1.lookahead_subtree_ok_ = true → s1._nLHcalls var = self._nLHcalls var + 1) := by
  have hmono : ∀ u, self._nLHcalls u ≤
      Function.update self._nLHcalls var (self._nLHcalls var + 1) u := by
    intro u
    by_cases hu : u = var
    · subst hu
      simp
    · rw [Function.update_noteq hu]
  unfold MiniBucketElimLH.noteOrNodeExpansionBeginning at h
  cases hcopy : (self._Lookahead var)._IsCopyOfEarlierSubtree with
  | some earlier =>
    simp only [hcopy] at h
    cases hb : noteOrNodeExpansionBeginning_backup self.m_pseudotree assignment
        earlier._RootVar fuel var [] with
    | none => simp [hb] at h
    | some out =>
      simp only [hb] at h
      by_cases hall : earlier._Children.all (fun c => c._IsValidForCurrentContext) = true
      · rw [if_pos hall] at h
        simp only [Option.some.injEq, Prod.mk.injEq] at h
        obtain ⟨h, _⟩ := h
        subst h
        exact ⟨rfl, hmono, fun _ => by simp⟩
      · rw [if_neg hall] at h
        simp only [Option.some.injEq, Prod.mk.injEq] at h
        obtain ⟨h, _⟩ := h
        subst h
        exact ⟨rfl, fun _ => le_refl _, fun hh => by simp at hh⟩
  | none =>
    simp only [hcopy] at h
    by_cases hn : (self._Lookahead var)._SubtreeNodes.length > 0
    · rw [if_pos hn] at h
      by_cases hd : self.lookaheadDecision flags next_unif var = true
      · rw [if_pos hd] at h
        simp only [Option.some.injEq, Prod.mk.injEq] at h
        obtain ⟨h, _⟩ := h
        subst h
        exact ⟨rfl, hmono, fun _ => by simp⟩
      · rw [if_neg hd] at h
        simp only [Option.some.injEq, Prod.mk.injEq] at h
        obtain ⟨h, _⟩ := h
        subst h
        exact ⟨rfl, fun _ => le_refl _, fun hh => by simp at hh⟩
    · rw [if_neg hn] at h
      simp only [Option.some.injEq, Prod.mk.injEq] at h
      obtain ⟨h, _⟩ := h
      subst h
      exact ⟨rfl, fun _ => le_refl _, fun hh => by simp at hh⟩

/-- What `getHeurAll` does to the counts and the probabilities: the lookahead
counts stay; when the test of line 850 is reached and finds a difference, which
needs a lookahead that is marked valid, the better-ordering count of `var` is
incremented and, unless the probability is pinned fixed, the probability of
`var` is set from the quotient of line 855. -/
theorem getHeurAll_state (self : MiniBucketElimLH) (flags : Flags)
    (var : Nat) (assignment : Assignment) :
    ∃ r, self.getHeurAll flags var assignment = some r ∧
      r.state._nLHcalls = self._nLHcalls ∧
      (self.getHeurAll_detects flags var assignment = true →
        self.lookahead_subtree_ok_ = true) ∧
      r.state.count_better_ordering_ =
        (if self.getHeurAll_detects flags var assignment = true then
          Function.update self.count_better_ordering_ var
            (self.count_better_ordering_ var + 1)
        else self.count_better_ordering_) ∧
      r.state.lookahead_probability_ =
        (if self.getHeurAll_detects flags var assignment = true ∧
            flags.lookahead_fix_probability = false then
          Function.update self.lookahead_probability_ var
            (max flags.lookahead_min_probability
              (((self.count_better_ordering_ var + 1 : Nat) : ℚ) /
                (self._nLHcalls var : ℚ)))
        else self.lookahead_probability_) := by
  have hlen : (MiniBucketElim.getHeurAll self var assignment).length =
      self.m_problem.getDomainSize var := by
    simp [MiniBucketElim.getHeurAll]
  unfold MiniBucketElimLH.getHeurAll_detects MiniBucketElimLH.getHeurAll_compare
    MiniBucketElimLH.getHeurAll
  by_cases hc : (self._Lookahead var)._SubtreeNodes.length > 0 ∧
      self.lookahead_subtree_ok_ = true
  · cases hflag : flags.lookahead_always_compute
    · obtain ⟨st', h1, _, _⟩ := getHeurAll_compareLoop (self._Lookahead var) var
        assignment (List.range (self.m_problem.getDomainSize var))
        { no_lh_argmax := -1, no_lh_max := ELEM_ZERO, lh_argmax := -1,
          lh_max := ELEM_ZERO,
          out := MiniBucketElim.getHeurAll self var assignment,
          assignment := assignment }
        (by
          intro i hi
          simp only [hlen]
          exact List.mem_range.mp hi)
        (fun _ => rfl)
      simp only [hc, and_self, if_true, Bool.not_false, h1, hc.1, hc.2,
        decide_True, Bool.and_self, Bool.true_and]
      refine ⟨_, rfl, ?_, fun _ => trivial, ?_, ?_⟩
      · by_cases hd : st'.no_lh_argmax = st'.lh_argmax
        · simp [hd]
        · cases hfix : flags.lookahead_fix_probability <;> simp [hd]
      · by_cases hd : st'.no_lh_argmax = st'.lh_argmax
        · simp [hd]
        · cases hfix : flags.lookahead_fix_probability <;> simp [hd]
      · by_cases hd : st'.no_lh_argmax = st'.lh_argmax
        · simp [hd]
        · cases hfix : flags.lookahead_fix_probability <;> simp [hd]
    · obtain ⟨st', h1, _, _⟩ := getHeurAll_overwriteLoop (self._Lookahead var)
        var assignment (List.range (self.m_problem.getDomainSize var))
        (MiniBucketElim.getHeurAll self var assignment, assignment)
        (by
          intro i hi
          simp only [hlen]
          exact List.mem_range.mp hi)
        (fun _ => rfl)
      simp only [hc, and_self, if_true, Bool.not_true, Bool.false_eq_true,
        if_false, h1]
      refine ⟨_, rfl, ?_, ?_, ?_, ?_⟩ <;> simp
  · simp only [hc, if_false]
    have hf : (decide ((self._Lookahead var)._SubtreeNodes.length > 0) &&
        self.lookahead_subtree_ok_) = false := by
      simpa [Bool.and_eq_false_iff] using hc
    refine ⟨_, rfl, rfl, ?_, ?_, ?_⟩ <;> simp [hf]

/-- A round keeps the better-ordering count of every variable at most its
lookahead count. -/
theorem lookaheadRound_invariant (s s' : MiniBucketElimLH) (flags : Flags)
    (ops : LookaheadOps) (fuel : Nat) (round : ℚ × Nat × Assignment)
    (hinv : ∀ v, s.count_better_ordering_ v ≤ s._nLHcalls v)
    (h : s.lookaheadRound flags ops fuel round = some s') :
    ∀ v, s'.count_better_ordering_ v ≤ s'._nLHcalls v := by
  unfold MiniBucketElimLH.lookaheadRound at h
  cases hn : s.noteOrNodeExpansionBeginning flags ops fuel round.1 round.2.1 round.2.2 with
  | none => simp [hn] at h
  | some p =>
    obtain ⟨s1, a1⟩ := p
    simp only [hn] at h
    obtain ⟨n1, n2, n3⟩ := noteOrNodeExpansionBeginning_calls s s1 flags ops fuel round.1
      round.2.1 round.2.2 a1 hn
    obtain ⟨r, hr, g1, g2, g3, _⟩ := getHeurAll_state s1 flags round.2.1 a1
    rw [hr] at h
    simp only [Option.map_some', Option.some.injEq] at h
    subst h
    intro v
    rw [g1, g3]
    by_cases hd : s1.getHeurAll_detects flags round.2.1 a1 = true
    · rw [if_pos hd]
      by_cases hv : v = round.2.1
      · subst hv
        rw [Function.update_same, n3 (g2 hd), n1]
        exact Nat.succ_le_succ (hinv _)
      · rw [Function.update_noteq hv, n1]
        exact le_trans (hinv v) (n2 v)
    · rw [if_neg hd, n1]
      exact le_trans (hinv v) (n2 v)

/-- Rounds keep the better-ordering count of every variable at most its
lookahead count. -/
theorem lookaheadRounds_invariant (flags : Flags) (ops : LookaheadOps) (fuel : Nat)
    (rounds : List (ℚ × Nat × Assignment)) :
    ∀ s s' : MiniBucketElimLH,
      (∀ v, s.count_better_ordering_ v ≤ s._nLHcalls v) →
      s.lookaheadRounds flags ops fuel rounds = some s' →
      ∀ v, s'.count_better_ordering_ v ≤ s'._nLHcalls v := by
  induction rounds with
  | nil =>
    intro s s' hinv h
    simp only [MiniBucketElimLH.lookaheadRounds, List.foldlM_nil, Option.pure_def,
      Option.some.injEq] at h
    subst h
    exact hinv
  | cons round rounds ih =>
    intro s s' hinv h
    simp only [MiniBucketElimLH.lookaheadRounds, List.foldlM_cons, Option.bind_eq_bind,
      Option.bind_eq_some] at h
    obtain ⟨s1, h1, h2⟩ := h
    exact ih s1 s' (lookaheadRound_invariant s s1 flags ops fuel round hinv h1) h2

/-- C38.  Guarded division in the probability update.  Let `s0` be a state in
which no lookahead was counted, as a build from a newly constructed heuristic
leaves it (`build_fresh_counters`), let `s` be reached from `s0` by rounds of
`noteOrNodeExpansionBeginning(var)` followed by `getHeurAll(var)`, and let the
next round reach the test of line 850 and find a difference, which is where
`getHeurAll` evaluates `count_better_ordering_[var] / _nLHcalls[var]`.  Then
the divisor `_nLHcalls[var]` is at least 1, the incremented count is at most
the divisor, `getHeurAll` returns, and unless the probability is pinned fixed
the updated trigger probability is `max(floor, count / calls)`, which lies
between the floor and `max(floor, 1)`. -/
theorem getHeurAll_division_guarded (s0 s s1 : MiniBucketElimLH) (flags : Flags)
    (ops : LookaheadOps) (fuel : Nat) (rounds : List (ℚ × Nat × Assignment))
    (next_unif : ℚ) (var : Nat) (a a1 : Assignment)
    (hstart : ∀ v, s0.count_better_ordering_ v = 0 ∧ s0._nLHcalls v = 0)
    (hrounds : s0.lookaheadRounds flags ops fuel rounds = some s)
    (hnote : s.noteOrNodeExpansionBeginning flags ops fuel next_unif var a = some (s1, a1))
    (hdet : s1.getHeurAll_detects flags var a1 = true) :
    1 ≤ s1._nLHcalls var ∧
      s1.count_better_ordering_ var + 1 ≤ s1._nLHcalls var ∧
      ∃ r, s1.getHeurAll flags var a1 = some r ∧
        r.state.count_better_ordering_ var = s1.count_better_ordering_ var + 1 ∧
        r.state._nLHcalls var = s1._nLHcalls var ∧
        (flags.lookahead_fix_probability = false →
          r.state.lookahead_probability_ var =
            max flags.lookahead_min_probability
              ((r.state.count_better_ordering_ var : ℚ) / (r.state._nLHcalls var : ℚ)) ∧
          flags.lookahead_min_probability ≤ r.state.lookahead_probability_ var ∧
          r.state.lookahead_probability_ var ≤ max flags.lookahead_min_probability 1) := by
  have hinv0 : ∀ v, s0.count_better_ordering_ v ≤ s0._nLHcalls v := by
    intro v
    rw [(hstart v).1, (hstart v).2]
  have hinv := lookaheadRounds_invariant flags ops fuel rounds s0 s hinv0 hrounds
  obtain ⟨n1, n2, n3⟩ := noteOrNodeExpansionBeginning_calls s s1 flags ops fuel next_unif
    var a a1 hnote
  obtain ⟨r, hr, g1, g2, g3, g4⟩ := getHeurAll_state s1 flags var a1
  have hcalls : s1._nLHcalls var = s._nLHcalls var + 1 := n3 (g2 hdet)
  have hle : s1.count_better_ordering_ var + 1 ≤ s1._nLHcalls var := by
    rw [hcalls, n1]
    exact Nat.succ_le_succ (hinv var)
  have hcount : r.state.count_better_ordering_ var = s1.count_better_ordering_ var + 1 := by
    rw [g3, if_pos hdet, Function.update_same]
  refine ⟨by omega, hle, r, hr, hcount, by rw [g1], ?_⟩
  intro hfix
  have hprob : r.state.lookahead_probability_ var =
      max flags.lookahead_min_probability
        ((r.state.count_better_ordering_ var : ℚ) / (r.state._nLHcalls var : ℚ)) := by
    rw [g4, if_pos ⟨hdet, hfix⟩, Function.update_same, hcount, g1]
  have hpos : (0 : ℚ) < (s1._nLHcalls var : ℚ) := by
    have : 0 < s1._nLHcalls var := by omega
    exact_mod_cast this
  have hq : ((r.state.count_better_ordering_ var : ℚ) / (r.state._nLHcalls var : ℚ)) ≤ 1 := by
    rw [hcount, g1, div_le_one hpos]
    exact_mod_cast hle
  refine ⟨hprob, ?_, ?_⟩
  · rw [hprob]
    exact le_max_left _ _
  · rw [hprob]
    exact max_le_max (le_refl _) hq

/-- C38 at the state `exFresh`, in which no lookahead was counted: the round
for variable 1 computes the lookahead, `getHeurAll` finds a difference and
divides the count 1 by the lookahead count 1. -/
theorem getHeurAll_division_guarded_witness :
    1 ≤ exValidated._nLHcalls 1 ∧
      exValidated.count_better_ordering_ 1 + 1 ≤ exValidated._nLHcalls 1 ∧
      ∃ r, exValidated.getHeurAll {} 1 (fun _ => 0) = some r ∧
        r.state.count_better_ordering_ 1 = exValidated.count_better_ordering_ 1 + 1 ∧
        r.state._nLHcalls 1 = exValidated._nLHcalls 1 ∧
        (({} : Flags).lookahead_fix_probability = false →
          r.state.lookahead_probability_ 1 =
            max ({} : Flags).lookahead_min_probability
              ((r.state.count_better_ordering_ 1 : ℚ) / (r.state._nLHcalls 1 : ℚ)) ∧
          ({} : Flags).lookahead_min_probability ≤ r.state.lookahead_probability_ 1 ∧
          r.state.lookahead_probability_ 1 ≤
            max ({} : Flags).lookahead_min_probability 1) :=
  getHeurAll_division_guarded exFresh exFresh exValidated {} {} 0 [] 1 1 (fun _ => 0)
    (fun _ => 0) (fun _ => ⟨rfl, rfl⟩) rfl exFresh_noteOrNodeExpansionBeginning
    (by
      obtain ⟨st, h1, h2, h3⟩ := exValidated_compare
      unfold MiniBucketElimLH.getHeurAll_detects
      rw [h1]
      simp [exValidated, exFresh, exSubtree, h2, h3])

/-! ### The enumeration of a table -/

/-- The step "find next combination" takes the digits of `j` to the digits of
`j + 1`. -/
theorem nextTupleRev_mixedRadixRev :
    ∀ (ds : List Nat), (∀ d ∈ ds, 0 < d) → ∀ j : Nat,
      computeLocalErrorTable_nextTupleRev (mixedRadixRev ds j)
          (ds.map (fun (d : Nat) => (d : Int))) =
        mixedRadixRev ds (j + 1) := by
  intro ds
  induction ds with
  | nil => intro _ j; rfl
  | cons d ds ih =>
    intro h j
    have hd : 0 < d := h d (List.mem_cons_self _ _)
    have hlt : j % d < d := Nat.mod_lt _ hd
    have hsplit : j + 1 = (j % d + 1) + d * (j / d) := by
      have := Nat.div_add_mod j d
      omega
    simp only [mixedRadixRev, List.map_cons, computeLocalErrorTable_nextTupleRev]
    by_cases hc : j % d + 1 < d
    · have hci : ((j % d : Nat) : Int) + 1 < (d : Int) := by exact_mod_cast hc
      rw [if_pos hci]
      have h1 : (j + 1) % d = j % d + 1 := by
        rw [hsplit, Nat.add_mul_mod_self_left, Nat.mod_eq_of_lt hc]
      have h2 : (j + 1) / d = j / d := by
        rw [hsplit, Nat.add_mul_div_left _ _ hd, Nat.div_eq_of_lt hc, Nat.zero_add]
      rw [h1, h2]
      push_cast
      rfl
    · have hci : ¬ ((j % d : Nat) : Int) + 1 < (d : Int) := by exact_mod_cast hc
      rw [if_neg hci]
      have heq : j % d + 1 = d := by omega
      have hsplit2 : j + 1 = 0 + d * (j / d + 1) := by
        rw [hsplit, heq, Nat.mul_add, Nat.mul_one]
        omega
      have h1 : (j + 1) % d = 0 := by
        rw [hsplit2, Nat.add_mul_mod_self_left, Nat.zero_mod]
      have h2 : (j + 1) / d = j / d + 1 := by
        rw [hsplit2, Nat.add_mul_div_left _ _ hd, Nat.zero_div, Nat.zero_add]
      rw [h1, h2, ih (fun x hx => h x (List.mem_cons_of_mem _ hx))]
      rfl

/-- The digits of 0 are zeros. -/
theorem mixedRadixRev_zero : ∀ ds : List Nat, mixedRadixRev ds 0 = List.replicate ds.length 0 := by
  intro ds
  induction ds with
  | nil => rfl
  | cons d ds ih =>
    simp only [mixedRadixRev, Nat.zero_mod, Nat.zero_div, ih, List.length_cons,
      List.replicate_succ]
    rfl

/-- The digits have the length of the list of domain sizes. -/
theorem mixedRadixRev_length : ∀ (ds : List Nat) (j : Nat), (mixedRadixRev ds j).length = ds.length := by
  intro ds
  induction ds with
  | nil => intro j; rfl
  | cons d ds ih =>
    intro j
    simp only [mixedRadixRev, List.length_cons, ih]

/-- The first step "find next combination" on the tuple of lines 1168-1169
gives the tuple of zeros, the digits of 0. -/
theorem nextTuple_init (ds : List Nat) (hpos : ∀ d ∈ ds, 0 < d) (hne : ds ≠ []) :
    computeLocalErrorTable_nextTuple (ds.map (fun (d : Nat) => (d : Int)))
        (List.replicate (ds.length - 1) 0 ++ [-1]) =
      mixedRadixTuple ds 0 := by
  unfold computeLocalErrorTable_nextTuple mixedRadixTuple
  congr 1
  rw [List.reverse_append, List.reverse_replicate, ← List.map_reverse, mixedRadixRev_zero]
  have hne2 : ds.reverse ≠ [] := by simpa using hne
  have hpos2 : ∀ d ∈ ds.reverse, 0 < d := fun d hd => hpos d (List.mem_reverse.mp hd)
  have hlen : ds.length = ds.reverse.length := by simp
  rw [hlen]
  cases hr : ds.reverse with
  | nil => exact absurd hr hne2
  | cons d rest =>
    have hd : 0 < d := hpos2 d (by rw [hr]; exact List.mem_cons_self _ _)
    have hdi : (-1 : Int) + 1 < (d : Int) := by
      have : (0 : Int) < (d : Int) := by exact_mod_cast hd
      omega
    simp only [List.reverse_cons, List.reverse_nil, List.nil_append, List.singleton_append,
      List.map_cons, computeLocalErrorTable_nextTupleRev, List.length_cons,
      Nat.add_sub_cancel, List.replicate_succ]
    rw [if_pos hdi]
    norm_num

/-- The step "find next combination" takes the tuple of index `j` to the tuple
of index `j + 1`. -/
theorem nextTuple_mixedRadixTuple (ds : List Nat) (hpos : ∀ d ∈ ds, 0 < d) (j : Nat) :
    computeLocalErrorTable_nextTuple (ds.map (fun (d : Nat) => (d : Int)))
        (mixedRadixTuple ds j) =
      mixedRadixTuple ds (j + 1) := by
  unfold computeLocalErrorTable_nextTuple mixedRadixTuple
  rw [List.reverse_reverse, ← List.map_reverse,
    nextTupleRev_mixedRadixRev _ (fun d hd => hpos d (List.mem_reverse.mp hd))]

/-- The digits of `j` have the index `j`, below the number of combinations. -/
theorem hornerRev_mixedRadixRev :
    ∀ (ds : List Nat) (j : Nat), hornerRev ds (mixedRadixRev ds j) = ((j % ds.prod : Nat) : Int) := by
  intro ds
  induction ds with
  | nil =>
    intro j
    simp [hornerRev, mixedRadixRev, Nat.mod_one]
  | cons d ds ih =>
    intro j
    simp only [mixedRadixRev, hornerRev, ih, List.prod_cons]
    rw [Nat.mod_mul]
    push_cast
    rfl

/-- Every digit is a value of the domain of its position. -/
theorem mixedRadixRev_range :
    ∀ (ds : List Nat), (∀ d ∈ ds, 0 < d) → ∀ j : Nat,
      List.Forall₂ (fun (d : Nat) (x : Int) => 0 ≤ x ∧ x < (d : Int)) ds (mixedRadixRev ds j) := by
  intro ds
  induction ds with
  | nil => intro _ j; exact List.Forall₂.nil
  | cons d ds ih =>
    intro h j
    have hd : 0 < d := h d (List.mem_cons_self _ _)
    refine List.Forall₂.cons ⟨?_, ?_⟩ (ih (fun x hx => h x (List.mem_cons_of_mem _ hx)) _)
    · exact_mod_cast Nat.zero_le _
    · exact_mod_cast Nat.mod_lt j hd

/-- The index of digits in range is not negative. -/
theorem hornerRev_nonneg :
    ∀ (ds : List Nat) (xs : List Int),
      List.Forall₂ (fun (d : Nat) (x : Int) => 0 ≤ x ∧ x < (d : Int)) ds xs →
      0 ≤ hornerRev ds xs := by
  intro ds xs h
  induction h with
  | nil => simp [hornerRev]
  | cons hx _ ih =>
    simp only [hornerRev]
    have := hx.1
    positivity

/-- The index of digits in range is below the number of combinations. -/
theorem hornerRev_lt :
    ∀ (ds : List Nat) (xs : List Int),
      List.Forall₂ (fun (d : Nat) (x : Int) => 0 ≤ x ∧ x < (d : Int)) ds xs →
      hornerRev ds xs < (ds.prod : Int) := by
  intro ds xs h
  induction h with
  | nil => simp [hornerRev]
  | @cons d x ds xs hx hrest ih =>
    simp only [hornerRev, List.prod_cons]
    rw [Nat.cast_mul]
    have h1 : hornerRev ds xs + 1 ≤ (ds.prod : Int) := ih
    have h2 : (0 : Int) ≤ (d : Int) := by exact_mod_cast Nat.zero_le d
    have h3 := mul_le_mul_of_nonneg_left h1 h2
    have h4 := hx.2
    linarith

/-- Digits in range are the digits of their index. -/
theorem mixedRadixRev_hornerRev :
    ∀ (ds : List Nat) (xs : List Int),
      List.Forall₂ (fun (d : Nat) (x : Int) => 0 ≤ x ∧ x < (d : Int)) ds xs →
      mixedRadixRev ds (hornerRev ds xs).toNat = xs := by
  intro ds xs h
  induction h with
  | nil => rfl
  | @cons d x ds xs hx hrest ih =>
    have hnn := hornerRev_nonneg ds xs hrest
    have hd : 0 < d := by
      have : (0 : Int) < (d : Int) := lt_of_le_of_lt hx.1 hx.2
      exact_mod_cast this
    have hxn : x.toNat < d := by
      have : ((x.toNat : Nat) : Int) < (d : Int) := by
        rw [Int.toNat_of_nonneg hx.1]; exact hx.2
      exact_mod_cast this
    have hto : (x + (d : Int) * hornerRev ds xs).toNat =
        x.toNat + d * (hornerRev ds xs).toNat := by
      have h1 : x + (d : Int) * hornerRev ds xs =
          ((x.toNat + d * (hornerRev ds xs).toNat : Nat) : Int) := by
        push_cast
        rw [Int.toNat_of_nonneg hx.1, Int.toNat_of_nonneg hnn]
      rw [h1, Int.toNat_natCast]
    simp only [hornerRev, mixedRadixRev, hto]
    rw [Nat.add_mul_mod_self_left, Nat.mod_eq_of_lt hxn, Nat.add_mul_div_left _ _ hd,
      Nat.div_eq_of_lt hxn, Nat.zero_add, ih, Int.toNat_of_nonneg hx.1]

/-- The index of the entry that an assignment selects, by the values and the
domain sizes of the scope reversed. -/
theorem tableIndex_eq_hornerRev (problem : Problem) (a : Assignment) :
    ∀ scope : List Nat,
      tableIndex problem scope a =
        hornerRev (scope.map problem.getDomainSize).reverse (scope.map a).reverse := by
  intro scope
  induction scope using List.reverseRecOn with
  | nil => simp [tableIndex, hornerRev]
  | append_singleton l u ih =>
    unfold tableIndex at ih ⊢
    rw [List.foldl_append, List.foldl_cons, List.foldl_nil, ih]
    simp only [List.map_append, List.map_cons, List.map_nil, List.reverse_append,
      List.reverse_cons, List.reverse_nil, List.nil_append, List.singleton_append, hornerRev]
    ring

/-- The assignment that the pointers read from a tuple has the values of the
tuple at the variables of the scope. -/
theorem map_tupleAssignment (scope : List Nat) (tuple : List Int)
    (hnd : scope.Nodup) (hlen : tuple.length = scope.length) :
    scope.map (tupleAssignment scope tuple) = tuple := by
  apply List.ext_getElem
  · simp [hlen]
  · intro i h1 h2
    have hi : i < scope.length := by simpa using h1
    simp only [List.getElem_map, tupleAssignment]
    rw [List.indexOf_getElem hnd, List.getD_eq_getElem _ _ h2]

/-- The tuple of index `j` selects entry `j` of the table. -/
theorem tableIndex_mixedRadixTuple (problem : Problem) (scope : List Nat)
    (hnd : scope.Nodup) (j : Nat)
    (hj : j < (scope.map problem.getDomainSize).prod) :
    tableIndex problem scope
        (tupleAssignment scope (mixedRadixTuple (scope.map problem.getDomainSize) j)) =
      (j : Int) := by
  have hlen : (mixedRadixTuple (scope.map problem.getDomainSize) j).length = scope.length := by
    simp [mixedRadixTuple, mixedRadixRev_length]
  rw [tableIndex_eq_hornerRev, map_tupleAssignment scope _ hnd hlen]
  unfold mixedRadixTuple
  rw [List.reverse_reverse, hornerRev_mixedRadixRev, List.prod_reverse, Nat.mod_eq_of_lt hj]

/-- The tuple of index `j` holds a value of its domain for every variable of
the scope. -/
theorem mixedRadixTuple_range (problem : Problem) (scope : List Nat)
    (hnd : scope.Nodup) (hpos : ∀ u ∈ scope, 0 < problem.getDomainSize u) (j : Nat) :
    ∀ u ∈ scope,
      0 ≤ tupleAssignment scope (mixedRadixTuple (scope.map problem.getDomainSize) j) u ∧
      tupleAssignment scope (mixedRadixTuple (scope.map problem.getDomainSize) j) u <
        (problem.getDomainSize u : Int) := by
  have hlen : (mixedRadixTuple (scope.map problem.getDomainSize) j).length = scope.length := by
    simp [mixedRadixTuple, mixedRadixRev_length]
  have hmap := map_tupleAssignment scope _ hnd hlen
  have hpos2 : ∀ d ∈ (scope.map problem.getDomainSize).reverse, 0 < d := by
    intro d hd
    rw [List.mem_reverse, List.mem_map] at hd
    obtain ⟨u, hu, rfl⟩ := hd
    exact hpos u hu
  have h := mixedRadixRev_range _ hpos2 j
  rw [← List.forall₂_reverse_iff, List.reverse_reverse] at h
  change List.Forall₂ _ _ (mixedRadixTuple (scope.map problem.getDomainSize) j) at h
  rw [← hmap, List.forall₂_map_left_iff, List.forall₂_map_right_iff, List.forall₂_same] at h
  exact h

/-- An assignment with values of the domains is the tuple of its index. -/
theorem mixedRadixTuple_tableIndex (problem : Problem) (scope : List Nat) (a : Assignment)
    (ha : ∀ u ∈ scope, 0 ≤ a u ∧ a u < (problem.getDomainSize u : Int)) :
    0 ≤ tableIndex problem scope a ∧
      tableIndex problem scope a < ((scope.map problem.getDomainSize).prod : Int) ∧
      mixedRadixTuple (scope.map problem.getDomainSize) (tableIndex problem scope a).toNat =
        scope.map a := by
  have h : List.Forall₂ (fun (d : Nat) (x : Int) => 0 ≤ x ∧ x < (d : Int))
      (scope.map problem.getDomainSize).reverse (scope.map a).reverse := by
    rw [List.forall₂_reverse_iff, List.forall₂_map_left_iff, List.forall₂_map_right_iff,
      List.forall₂_same]
    exact ha
  rw [tableIndex_eq_hornerRev]
  refine ⟨hornerRev_nonneg _ _ h, ?_, ?_⟩
  · have := hornerRev_lt _ _ h
    rwa [List.prod_reverse] at this
  · unfold mixedRadixTuple
    rw [mixedRadixRev_hornerRev _ _ h, List.reverse_reverse]

/-- The values that the pointers read from the tuple of an assignment are
those of the assignment, on the scope. -/
theorem tupleAssignment_map (scope : List Nat) (a : Assignment) :
    ∀ u ∈ scope, tupleAssignment scope (scope.map a) u = a u := by
  intro u hu
  have hi : scope.indexOf u < scope.length := List.indexOf_lt_length.mpr hu
  have hi2 : scope.indexOf u < (scope.map a).length := by simpa using hi
  simp only [tupleAssignment]
  rw [List.getD_eq_getElem _ _ hi2, List.getElem_map]
  exact congrArg a (List.getElem_indexOf hi)

/-- The product of the domain sizes of a scope, when it does not leave the
range of `int64`. -/
theorem computeLocalErrorTable_TableSize_pos (problem : Problem) (scope : List Nat)
    (h : 0 < (scope.map problem.getDomainSize).prod) :
    ∀ u ∈ scope, 0 < problem.getDomainSize u := by
  intro u hu
  by_contra hc
  have h0 : problem.getDomainSize u = 0 := by omega
  have : (scope.map problem.getDomainSize).prod = 0 :=
    List.prod_eq_zero (List.mem_map.mpr ⟨u, hu, h0⟩)
  omega

/-- The path of `computeLocalErrorTable` to its loop: when no early exit is
taken and the two pointer maps are made, the call returns what lines 1296-1392
make of what the loop leaves. -/
theorem computeLocalErrorTable_reaches_loop (self : MiniBucketElimLH) (libm : Libm)
    (flags : Flags) (rand : Nat → Nat → Nat → Int) (var : Nat)
    (build_table sample : Bool) (limit capped : Val) (scope : List Nat) (tsl : Val)
    (req : Int)
    (hcap : (if limit > dbl 9 then dbl 9 else limit) = capped)
    (hmb : ¬ (self._MiniBuckets var).length ≤ 1)
    (hforce : ¬ (self.m_options.force_compute_tables = false ∧ build_table = false ∧
      capped ≤ 0))
    (hscope : ((self._BucketScopes var).erase var).sort (fun a b => a ≤ b) = scope)
    (htsl : computeLocalErrorTable_TableSizeLog libm self.m_problem scope = some tsl)
    (htsl0 : ¬ tsl < 0)
    (hsample : ¬ (tsl > capped ∧ sample = false))
    (hT : ¬ computeLocalErrorTable_TableSize self.m_problem scope ≤ 0)
    (hvar : ∀ f ∈ self._BucketFunctions var, var ∈ f.scope)
    (hvMB : ∀ f ∈ collect_funs_MB (self._MiniBuckets var), ∀ u ∈ f.scope,
      (u : Int) < INT_MAX)
    (hB : (computeMBOutFnArgsVectorPtrMap_scope (some var)
      (self._BucketFunctions var)).length = scope.length)
    (hMB : (computeMBOutFnArgsVectorPtrMap_scope none
      (collect_funs_MB (self._MiniBuckets var))).length = scope.length)
    (hn : scope.length ≠ 0)
    (hreq : toInt64 (libm.pow10D capped) = some req) :
    self.computeLocalErrorTable libm flags rand var build_table sample limit =
      some ((if self._Stats_EnforcedPseudoWidth < scope.length then
            { self with _Stats_EnforcedPseudoWidth := scope.length }
          else self).computeLocalErrorTable_finish var
        (if tsl > capped then false else build_table)
        ((if tsl > capped then false else build_table) ||
            decide (min (computeLocalErrorTable_TableSize self.m_problem scope)
              (if req < 1024 then 1024 else req) ≥
                computeLocalErrorTable_TableSize self.m_problem scope))
        scope (computeLocalErrorTable_TableSize self.m_problem scope) tsl
        ((List.range (min (computeLocalErrorTable_TableSize self.m_problem scope)
            (if req < 1024 then 1024 else req)).toNat).foldl
          (computeLocalErrorTable_loopStep self.m_problem libm flags rand var
            (self._BucketFunctions var) (self._MiniBuckets var)
            (computeMBOutFnArgsVectorPtrMap_scope (some var) (self._BucketFunctions var))
            (computeMBOutFnArgsVectorPtrMap_scope none
              (collect_funs_MB (self._MiniBuckets var)))
            (scope.map (fun u => (self.m_problem.getDomainSize u : Int)))
            ((if tsl > capped then false else build_table) ||
              decide (min (computeLocalErrorTable_TableSize self.m_problem scope)
                (if req < 1024 then 1024 else req) ≥
                  computeLocalErrorTable_TableSize self.m_problem scope)))
          { tuple := List.replicate (scope.length - 1) 0 ++ [-1],
            newTable := if (if tsl > capped then false else build_table) = true
              then some [] else none })) := by
  obtain ⟨mapB, hmapB, hsB, hnB, htB⟩ := computeMBOutFnArgsVectorPtrMap_first var
    (self._BucketFunctions var) hvar
  obtain ⟨mapMB, hmapMB, hsMB, hnMB, _⟩ := (computeMBOutFnArgsVectorPtrMap_second
    (collect_funs_MB (self._MiniBuckets var))
    (computeMBOutFnArgsVectorPtrMap_scope (some var) (self._BucketFunctions var)).length
    ((computeMBOutFnArgsVectorPtrMap_scope (some var) (self._BucketFunctions var)).length + 1)
    hvMB).1 (by rw [hB, hMB])
  rw [← htB, ← hnB] at hmapMB
  unfold MiniBucketElimLH.computeLocalErrorTable
  simp only [hcap, hmb, if_false, hforce, hscope, htsl, htsl0, hsample, hT, hmapB, hmapMB,
    hsB, hsMB, hnMB, hB, hMB, ne_eq, not_true_eq_false, hn, not_false_eq_true, hreq]

/-- One iteration of the loop that enumerates: the tuple is the next
combination and the error of its entry, a number or NaN, is appended to the
table. -/
theorem computeLocalErrorTable_loopStep_enumerate (problem : Problem) (libm : Libm)
    (flags : Flags) (rand : Nat → Nat → Nat → Int) (var : Nat)
    (funs_B : List Function) (minibuckets : List MiniBucket)
    (scope : List Nat) (domains : List Int)
    (st : LocalErrorTableLoop) (j : Nat) :
    (computeLocalErrorTable_loopStep problem libm flags rand var funs_B minibuckets
        scope scope domains true st j).tuple =
      computeLocalErrorTable_nextTuple domains st.tuple ∧
    (computeLocalErrorTable_loopStep problem libm flags rand var funs_B minibuckets
        scope scope domains true st j).newTable =
      st.newTable.map (fun t => t ++ [computeLocalErrorTable_e problem funs_B minibuckets
        var (tupleAssignment scope (computeLocalErrorTable_nextTuple domains st.tuple))]) :=
  ⟨rfl, rfl⟩

/-- The tuple that the loop holds after `m` iterations of the enumeration, and
the table it has written. -/
theorem computeLocalErrorTable_loop_enumerates (problem : Problem) (libm : Libm)
    (flags : Flags) (rand : Nat → Nat → Nat → Int) (var : Nat)
    (funs_B : List Function) (minibuckets : List MiniBucket)
    (scope : List Nat) (ds : List Nat) (hpos : ∀ d ∈ ds, 0 < d) (hne : ds ≠ [])
    (st0 : LocalErrorTableLoop)
    (h0 : st0.tuple = List.replicate (ds.length - 1) 0 ++ [-1]) :
    ∀ m : Nat,
      ((List.range m).foldl
        (computeLocalErrorTable_loopStep problem libm flags rand var funs_B minibuckets
          scope scope (ds.map (fun (d : Nat) => (d : Int))) true) st0).tuple =
        (if m = 0 then List.replicate (ds.length - 1) 0 ++ [-1]
          else mixedRadixTuple ds (m - 1)) ∧
      ((List.range m).foldl
        (computeLocalErrorTable_loopStep problem libm flags rand var funs_B minibuckets
          scope scope (ds.map (fun (d : Nat) => (d : Int))) true) st0).newTable =
        st0.newTable.map (fun t0 => t0 ++ (List.range m).map (fun j =>
          computeLocalErrorTable_e problem funs_B minibuckets var
            (tupleAssignment scope (mixedRadixTuple ds j)))) := by
  intro m
  induction m with
  | zero =>
    refine ⟨by simp [h0], ?_⟩
    cases hnt : st0.newTable <;> simp [hnt]
  | succ m ih =>
    obtain ⟨ht, htab⟩ := ih
    rw [List.range_succ, List.foldl_append, List.foldl_cons, List.foldl_nil]
    obtain ⟨a1, a2⟩ := computeLocalErrorTable_loopStep_enumerate problem libm flags rand
      var funs_B minibuckets scope (ds.map (fun (d : Nat) => (d : Int)))
      ((List.range m).foldl
        (computeLocalErrorTable_loopStep problem libm flags rand var funs_B minibuckets
          scope scope (ds.map (fun (d : Nat) => (d : Int))) true) st0) m
    have htuple : computeLocalErrorTable_nextTuple (ds.map (fun (d : Nat) => (d : Int)))
        ((List.range m).foldl
          (computeLocalErrorTable_loopStep problem libm flags rand var funs_B minibuckets
            scope scope (ds.map (fun (d : Nat) => (d : Int))) true) st0).tuple =
        mixedRadixTuple ds m := by
      rw [ht]
      by_cases hm : m = 0
      · subst hm
        rw [if_pos rfl]
        exact nextTuple_init ds hpos hne
      · rw [if_neg hm]
        have := nextTuple_mixedRadixTuple ds hpos (m - 1)
        rwa [Nat.sub_add_cancel (Nat.pos_of_ne_zero hm)] at this
    refine ⟨?_, ?_⟩
    · rw [a1, htuple]
      simp
    · rw [a2, htuple, htab]
      cases hnt : st0.newTable <;> simp [List.range_succ]

/-- The enumeration does not read the random numbers. -/
theorem computeLocalErrorTable_loopStep_rand (problem : Problem) (libm : Libm)
    (flags : Flags) (rand rand1 : Nat → Nat → Nat → Int) (var : Nat)
    (funs_B : List Function) (minibuckets : List MiniBucket)
    (scopeB scopeMB : List Nat) (domains : List Int) :
    computeLocalErrorTable_loopStep problem libm flags rand var funs_B minibuckets scopeB
        scopeMB domains true =
      computeLocalErrorTable_loopStep problem libm flags rand1 var funs_B minibuckets scopeB
        scopeMB domains true := by
  funext st j
  unfold computeLocalErrorTable_loopStep
  simp only [if_true]

/-- The number that line 1203 converts to `int64`, raised to 1024, is the
integer part of the power of ten raised to 1024. -/
theorem toInt64_max (x : ℚ) (req : Int) (h : toInt64 (dbl x) = some req) :
    max 1024 req = max 1024 (Int.floor x) := by
  have h1 : toInt64 (dbl x) =
      (if -(2 : Int) ^ 63 ≤ (if 0 ≤ x then Int.floor x else -Int.floor (-x)) ∧
          (if 0 ≤ x then Int.floor x else -Int.floor (-x)) < (2 : Int) ^ 63 then
        some (if 0 ≤ x then Int.floor x else -Int.floor (-x)) else none) := rfl
  rw [h1] at h
  by_cases hx : 0 ≤ x
  · simp only [if_pos hx] at h
    split_ifs at h
    simp only [Option.some.injEq] at h
    rw [← h]
  · simp only [if_neg hx] at h
    split_ifs at h
    simp only [Option.some.injEq] at h
    have hx1 : x < 0 := lt_of_not_le hx
    have h2 : Int.floor x < 0 := by
      rw [Int.floor_lt]
      exact_mod_cast hx1
    have h3 : 0 ≤ Int.floor (-x) := Int.floor_nonneg.mpr (by linarith)
    rw [← h, max_eq_left (by omega), max_eq_left (by omega)]

/-- C40: the number of entries that `computeLocalErrorTable` generates.  For a
bucket with more than one mini-bucket that takes none of the early exits and
whose two pointer maps are made (every bucket function holds the bucket
variable, the variables of the outputs are below `INT_MAX`), with `capped` the
table limit capped at 9 (lines 1043-1044) and `req` the value that line 1203
converts to `int64`: the call returns, whatever the entries are (a NaN among
them does not stop the loop); the number of entries generated is the minimum of
the table size and of the maximum of 1024 and `req`, where that maximum is the
one of 1024 and the integer part of the power of ten; and a table of at most
1024 entries is enumerated, the result does not depend on the random numbers,
and the number of entries generated is the table size. -/
theorem computeLocalErrorTable_entries_generated (self : MiniBucketElimLH) (libm : Libm)
    (flags : Flags) (rand : Nat → Nat → Nat → Int) (var : Nat)
    (build_table sample : Bool) (limit capped : Val) (scope : List Nat) (tsl : Val)
    (req : Int)
    (hcap : (if limit > dbl 9 then dbl 9 else limit) = capped)
    (hmb : ¬ (self._MiniBuckets var).length ≤ 1)
    (hforce : ¬ (self.m_options.force_compute_tables = false ∧ build_table = false ∧
      capped ≤ 0))
    (hscope : ((self._BucketScopes var).erase var).sort (fun a b => a ≤ b) = scope)
    (htsl : computeLocalErrorTable_TableSizeLog libm self.m_problem scope = some tsl)
    (htsl0 : ¬ tsl < 0)
    (hsample : ¬ (tsl > capped ∧ sample = false))
    (hT : ¬ computeLocalErrorTable_TableSize self.m_problem scope ≤ 0)
    (hvar : ∀ f ∈ self._BucketFunctions var, var ∈ f.scope)
    (hvMB : ∀ f ∈ collect_funs_MB (self._MiniBuckets var), ∀ u ∈ f.scope,
      (u : Int) < INT_MAX)
    (hB : (computeMBOutFnArgsVectorPtrMap_scope (some var)
      (self._BucketFunctions var)).length = scope.length)
    (hMB : (computeMBOutFnArgsVectorPtrMap_scope none
      (collect_funs_MB (self._MiniBuckets var))).length = scope.length)
    (hn : scope.length ≠ 0)
    (hreq : toInt64 (libm.pow10D capped) = some req) :
    ∃ r, self.computeLocalErrorTable libm flags rand var build_table sample limit =
        some r ∧
      r.nEntriesGenerated =
        (min (computeLocalErrorTable_TableSize self.m_problem scope) (max 1024 req)).toNat ∧
      (∀ x : ℚ, capped = dbl x → max 1024 req = max 1024 (Int.floor (libm.pow10 x))) ∧
      (computeLocalErrorTable_TableSize self.m_problem scope ≤ 1024 →
        r.nEntriesGenerated = (computeLocalErrorTable_TableSize self.m_problem scope).toNat ∧
        ∀ rand1 : Nat → Nat → Nat → Int,
          self.computeLocalErrorTable libm flags rand1 var build_table sample limit =
            some r) := by
  have hrun := computeLocalErrorTable_reaches_loop self libm flags rand var build_table
    sample limit capped scope tsl req hcap hmb hforce hscope htsl htsl0 hsample hT hvar hvMB
    hB hMB hn hreq
  have hmax : (if req < 1024 then (1024 : Int) else req) = max 1024 req := by
    split_ifs with h
    · rw [max_eq_left (le_of_lt h)]
    · rw [max_eq_right (not_lt.mp h)]
  obtain ⟨r, hr⟩ : ∃ r, self.computeLocalErrorTable libm flags rand var build_table sample
      limit = some r := ⟨_, hrun⟩
  have hfin := Option.some.inj (hrun.symm.trans hr)
  have hgen : r.nEntriesGenerated =
      (min (computeLocalErrorTable_TableSize self.m_problem scope) (max 1024 req)).toNat := by
    rw [← hfin, computeLocalErrorTable_finish_nEntriesGenerated,
      (computeLocalErrorTable_loop_counts _ _ _ _ _ _ _ _ _ _ _ _ _).2.1, List.length_range,
      hmax]
    exact Nat.zero_add _
  refine ⟨r, hr, hgen, ?_, ?_⟩
  · intro x hx
    rw [hx] at hreq
    exact toInt64_max _ _ hreq
  · intro hsmall
    have hmin : min (computeLocalErrorTable_TableSize self.m_problem scope)
        (if req < 1024 then 1024 else req) =
        computeLocalErrorTable_TableSize self.m_problem scope := by
      rw [hmax]
      exact min_eq_left (le_trans hsmall (le_max_left _ _))
    refine ⟨?_, ?_⟩
    · rw [hgen, ← hmax, hmin]
    · intro rand1
      have hrun1 := computeLocalErrorTable_reaches_loop self libm flags rand1 var build_table
        sample limit capped scope tsl req hcap hmb hforce hscope htsl htsl0 hsample hT hvar
        hvMB hB hMB hn hreq
      rw [hrun1, ← hr, hrun]
      simp only [hmin, ge_iff_le, le_refl, decide_True, Bool.or_true]
      rw [computeLocalErrorTable_loopStep_rand _ _ _ rand rand1]

/-- C40 at bucket 0 of `exZeroRow`, whose table has 4 entries, two of them
NaN. -/
theorem computeLocalErrorTable_entries_generated_witness :
    ∃ r, exZeroRow.computeLocalErrorTable exLibm {} (fun _ _ _ => 0) 0 true true
        (dbl 3) = some r ∧
      r.nEntriesGenerated =
        (min (computeLocalErrorTable_TableSize exZeroRow.m_problem [1, 2])
          (max 1024 1000)).toNat ∧
      (∀ x : ℚ, dbl 3 = dbl x → max 1024 (1000 : Int) = max 1024 (Int.floor (exLibm.pow10 x))) ∧
      (computeLocalErrorTable_TableSize exZeroRow.m_problem [1, 2] ≤ 1024 →
        r.nEntriesGenerated =
          (computeLocalErrorTable_TableSize exZeroRow.m_problem [1, 2]).toNat ∧
        ∀ rand1 : Nat → Nat → Nat → Int,
          exZeroRow.computeLocalErrorTable exLibm {} rand1 0 true true (dbl 3) = some r) :=
  computeLocalErrorTable_entries_generated exZeroRow exLibm {} (fun _ _ _ => 0) 0 true true
    (dbl 3) (dbl 3) [1, 2] (dbl (3 / 5)) 1000
    (by rw [if_neg]; rw [gt_iff_lt, dbl_lt_dbl]; norm_num)
    (by decide)
    (by simp)
    exZeroRow_scopes.2.2 exLibm_TableSizeLog
    (by rw [dbl_lt_zero]; norm_num)
    (by simp)
    (by rw [show exZeroRow.m_problem = exProblem from rfl, exProblem_TableSize]; decide)
    (by decide) (by decide)
    (by rw [exZeroRow_scopes.1]) (by rw [exZeroRow_scopes.2.1]) (by decide)
    exLibm_requested

/-- C31: the full enumeration of `computeLocalErrorTable`.  For a bucket that
takes none of the early exits, whose two pointer maps are made (every bucket
function holds the bucket variable, the variables of the outputs are below
`INT_MAX`) over the sorted scope of the table, whose table size does not leave
the range of `int64`, and whose table is enumerated (`enumerate_table` of line
1213 holds), with `N` the number of iterations of the loop (the table size when
the requested number of entries reaches it): the call returns what lines
1296-1392 make of the loop of `N` iterations; iteration `j` works on the tuple
whose mixed-radix index over the domain sizes of the scope is `j`, the last
variable running fastest, the first one being the tuple of zeros; when the
table is built its entry `j` is the error of that tuple, a number or the NaN
that a row of two zeros gives; the tuples of different indices below the
product of the domain sizes are assignments of the scope that differ, the tuple
of index `j` selecting entry `j`, and every assignment of the scope is one of
them. -/
theorem computeLocalErrorTable_full_enumeration (self : MiniBucketElimLH) (libm : Libm)
    (flags : Flags) (rand : Nat → Nat → Nat → Int) (var : Nat)
    (build_table sample : Bool) (limit capped : Val) (scope : List Nat) (tsl : Val)
    (req : Int)
    (hcap : (if limit > dbl 9 then dbl 9 else limit) = capped)
    (hmb : ¬ (self._MiniBuckets var).length ≤ 1)
    (hforce : ¬ (self.m_options.force_compute_tables = false ∧ build_table = false ∧
      capped ≤ 0))
    (hscope : ((self._BucketScopes var).erase var).sort (fun a b => a ≤ b) = scope)
    (htsl : computeLocalErrorTable_TableSizeLog libm self.m_problem scope = some tsl)
    (htsl0 : ¬ tsl < 0)
    (hsample : ¬ (tsl > capped ∧ sample = false))
    (hT : ¬ computeLocalErrorTable_TableSize self.m_problem scope ≤ 0)
    (hfit : computeLocalErrorTable_TableSize self.m_problem scope =
      (((scope.map self.m_problem.getDomainSize).prod : Nat) : Int))
    (hvar : ∀ f ∈ self._BucketFunctions var, var ∈ f.scope)
    (hvMB : ∀ f ∈ collect_funs_MB (self._MiniBuckets var), ∀ u ∈ f.scope,
      (u : Int) < INT_MAX)
    (hB : computeMBOutFnArgsVectorPtrMap_scope (some var) (self._BucketFunctions var) =
      scope)
    (hMB : computeMBOutFnArgsVectorPtrMap_scope none
      (collect_funs_MB (self._MiniBuckets var)) = scope)
    (hn : scope.length ≠ 0)
    (hreq : toInt64 (libm.pow10D capped) = some req)
    (henum : ((if tsl > capped then false else build_table) ||
      decide (min (computeLocalErrorTable_TableSize self.m_problem scope)
        (if req < 1024 then 1024 else req) ≥
          computeLocalErrorTable_TableSize self.m_problem scope)) = true) :
    self.computeLocalErrorTable libm flags rand var build_table sample limit =
      some ((if self._Stats_EnforcedPseudoWidth < scope.length then
            { self with _Stats_EnforcedPseudoWidth := scope.length }
          else self).computeLocalErrorTable_finish var
        (if tsl > capped then false else build_table) true scope
        (computeLocalErrorTable_TableSize self.m_problem scope) tsl
        (self.computeLocalErrorTable_loop libm flags rand var scope
          (if tsl > capped then false else build_table) true
          (min (computeLocalErrorTable_TableSize self.m_problem scope)
            (max 1024 req)).toNat)) ∧
      (computeLocalErrorTable_TableSize self.m_problem scope ≤ max 1024 req →
        (min (computeLocalErrorTable_TableSize self.m_problem scope) (max 1024 req)).toNat =
          (scope.map self.m_problem.getDomainSize).prod) ∧
      (∀ j : Nat,
        j < (min (computeLocalErrorTable_TableSize self.m_problem scope)
          (max 1024 req)).toNat →
        (self.computeLocalErrorTable_loop libm flags rand var scope
            (if tsl > capped then false else build_table) true (j + 1)).tuple =
          mixedRadixTuple (scope.map self.m_problem.getDomainSize) j) ∧
      mixedRadixTuple (scope.map self.m_problem.getDomainSize) 0 =
        List.replicate scope.length 0 ∧
      ((if tsl > capped then false else build_table) = true →
        (self.computeLocalErrorTable_loop libm flags rand var scope
            (if tsl > capped then false else build_table) true
            (min (computeLocalErrorTable_TableSize self.m_problem scope)
              (max 1024 req)).toNat).newTable =
          some ((List.range (min (computeLocalErrorTable_TableSize self.m_problem scope)
              (max 1024 req)).toNat).map
            (fun j => computeLocalErrorTable_e self.m_problem (self._BucketFunctions var)
              (self._MiniBuckets var) var
              (tupleAssignment scope
                (mixedRadixTuple (scope.map self.m_problem.getDomainSize) j))))) ∧
      (∀ j : Nat, j < (scope.map self.m_problem.getDomainSize).prod →
        tableIndex self.m_problem scope
            (tupleAssignment scope
              (mixedRadixTuple (scope.map self.m_problem.getDomainSize) j)) = (j : Int) ∧
        ∀ u ∈ scope,
          0 ≤ tupleAssignment scope
              (mixedRadixTuple (scope.map self.m_problem.getDomainSize) j) u ∧
            tupleAssignment scope
              (mixedRadixTuple (scope.map self.m_problem.getDomainSize) j) u <
                (self.m_problem.getDomainSize u : Int)) ∧
      (∀ j1 j2 : Nat, j1 < (scope.map self.m_problem.getDomainSize).prod →
        j2 < (scope.map self.m_problem.getDomainSize).prod →
        mixedRadixTuple (scope.map self.m_problem.getDomainSize) j1 =
          mixedRadixTuple (scope.map self.m_problem.getDomainSize) j2 → j1 = j2) ∧
      (∀ a : Assignment,
        (∀ u ∈ scope, 0 ≤ a u ∧ a u < (self.m_problem.getDomainSize u : Int)) →
        ∃ j : Nat, j < (scope.map self.m_problem.getDomainSize).prod ∧
          (j : Int) = tableIndex self.m_problem scope a ∧
          mixedRadixTuple (scope.map self.m_problem.getDomainSize) j = scope.map a ∧
          ∀ u ∈ scope,
            tupleAssignment scope
              (mixedRadixTuple (scope.map self.m_problem.getDomainSize) j) u = a u) := by
  have hnd : scope.Nodup := by
    rw [← hscope]
    exact Finset.sort_nodup _ _
  have hprod : 0 < (scope.map self.m_problem.getDomainSize).prod := by
    have h1 : (0 : Int) < (((scope.map self.m_problem.getDomainSize).prod : Nat) : Int) := by
      rw [← hfit]
      exact not_le.mp hT
    exact_mod_cast h1
  have hpos := computeLocalErrorTable_TableSize_pos self.m_problem scope hprod
  have hposd : ∀ d ∈ scope.map self.m_problem.getDomainSize, 0 < d := by
    intro d hd
    rw [List.mem_map] at hd
    obtain ⟨u, hu, rfl⟩ := hd
    exact hpos u hu
  have hned : scope.map self.m_problem.getDomainSize ≠ [] := by
    intro h
    apply hn
    have := congrArg List.length h
    simpa using this
  have hdom : scope.map (fun u => (self.m_problem.getDomainSize u : Int)) =
      (scope.map self.m_problem.getDomainSize).map (fun (d : Nat) => (d : Int)) := by
    rw [List.map_map]
    rfl
  have hlen : (scope.map self.m_problem.getDomainSize).length = scope.length := by simp
  have hmax : (if req < 1024 then (1024 : Int) else req) = max 1024 req := by
    split_ifs with h
    · rw [max_eq_left (le_of_lt h)]
    · rw [max_eq_right (not_lt.mp h)]
  have hrun := computeLocalErrorTable_reaches_loop self libm flags rand var build_table
    sample limit capped scope tsl req hcap hmb hforce hscope htsl htsl0 hsample hT hvar hvMB
    (by rw [hB]) (by rw [hMB]) hn hreq
  rw [henum, hB, hMB, hmax] at hrun
  have hloop : ∀ m : Nat,
      self.computeLocalErrorTable_loop libm flags rand var scope
          (if tsl > capped then false else build_table) true m =
        (List.range m).foldl
          (computeLocalErrorTable_loopStep self.m_problem libm flags rand var
            (self._BucketFunctions var) (self._MiniBuckets var) scope scope
            ((scope.map self.m_problem.getDomainSize).map (fun (d : Nat) => (d : Int)))
            true)
          { tuple := List.replicate (scope.length - 1) 0 ++ [-1],
            newTable := if (if tsl > capped then false else build_table) = true
              then some [] else none } := by
    intro m
    unfold MiniBucketElimLH.computeLocalErrorTable_loop
    rw [hdom]
  have hinv := computeLocalErrorTable_loop_enumerates self.m_problem libm flags rand var
    (self._BucketFunctions var) (self._MiniBuckets var) scope
    (scope.map self.m_problem.getDomainSize) hposd hned
    { tuple := List.replicate (scope.length - 1) 0 ++ [-1],
      newTable := if (if tsl > capped then false else build_table) = true
        then some [] else none }
    (by rw [hlen])
  refine ⟨hrun, ?_, ?_, ?_, ?_, ?_, ?_, ?_⟩
  · intro hfull
    rw [min_eq_left hfull, hfit, Int.toNat_natCast]
  · intro j _
    rw [hloop, (hinv (j + 1)).1]
    simp
  · unfold mixedRadixTuple
    rw [mixedRadixRev_zero]
    simp
  · intro hbt
    rw [hloop, (hinv _).2]
    simp [hbt]
  · intro j hj
    exact ⟨tableIndex_mixedRadixTuple self.m_problem scope hnd j hj,
      mixedRadixTuple_range self.m_problem scope hnd hpos j⟩
  · intro j1 j2 h1 h2 heq
    have e1 := tableIndex_mixedRadixTuple self.m_problem scope hnd j1 h1
    have e2 := tableIndex_mixedRadixTuple self.m_problem scope hnd j2 h2
    rw [heq, e2] at e1
    exact_mod_cast e1.symm
  · intro a ha
    obtain ⟨h0, hlt, htup⟩ := mixedRadixTuple_tableIndex self.m_problem scope a ha
    refine ⟨(tableIndex self.m_problem scope a).toNat, ?_, Int.toNat_of_nonneg h0, htup, ?_⟩
    · have : (((tableIndex self.m_problem scope a).toNat : Nat) : Int) <
          (((scope.map self.m_problem.getDomainSize).prod : Nat) : Int) := by
        rw [Int.toNat_of_nonneg h0]
        exact hlt
      exact_mod_cast this
    · rw [htup]
      exact tupleAssignment_map scope a

/-- C31 at bucket 0 of `exZeroRow`, whose table of 4 entries is built: the call
returns, and the entries are the errors of the tuples in mixed-radix order, the
first two of them NaN. -/
theorem computeLocalErrorTable_full_enumeration_witness :
    (∃ r, exZeroRow.computeLocalErrorTable exLibm {} (fun _ _ _ => 0) 0 true true
        (dbl 3) = some r) ∧
      (∀ j : Nat,
        j < (min (computeLocalErrorTable_TableSize exZeroRow.m_problem [1, 2])
          (max 1024 1000)).toNat →
        (exZeroRow.computeLocalErrorTable_loop exLibm {} (fun _ _ _ => 0) 0 [1, 2]
            (if dbl (3 / 5) > dbl 3 then false else true) true (j + 1)).tuple =
          mixedRadixTuple ([1, 2].map exZeroRow.m_problem.getDomainSize) j) ∧
      ((if dbl (3 / 5) > dbl 3 then false else true) = true →
        (exZeroRow.computeLocalErrorTable_loop exLibm {} (fun _ _ _ => 0) 0 [1, 2]
            (if dbl (3 / 5) > dbl 3 then false else true) true
            (min (computeLocalErrorTable_TableSize exZeroRow.m_problem [1, 2])
              (max 1024 1000)).toNat).newTable =
          some ((List.range (min (computeLocalErrorTable_TableSize exZeroRow.m_problem [1, 2])
              (max 1024 1000)).toNat).map
            (fun j => computeLocalErrorTable_e exZeroRow.m_problem
              (exZeroRow._BucketFunctions 0) (exZeroRow._MiniBuckets 0) 0
              (tupleAssignment [1, 2]
                (mixedRadixTuple ([1, 2].map exZeroRow.m_problem.getDomainSize) j))))) := by
  obtain ⟨h1, _, h3, _, h5, _⟩ :=
    computeLocalErrorTable_full_enumeration exZeroRow exLibm {} (fun _ _ _ => 0) 0 true true
      (dbl 3) (dbl 3) [1, 2] (dbl (3 / 5)) 1000
      (by rw [if_neg]; rw [gt_iff_lt, dbl_lt_dbl]; norm_num)
      (by decide)
      (by simp)
      exZeroRow_scopes.2.2 exLibm_TableSizeLog
      (by rw [dbl_lt_zero]; norm_num)
      (by simp)
      (by rw [show exZeroRow.m_problem = exProblem from rfl, exProblem_TableSize]; decide)
      (by rw [show exZeroRow.m_problem = exProblem from rfl, exProblem_TableSize]; rfl)
      (by decide) (by decide)
      exZeroRow_scopes.1 exZeroRow_scopes.2.1 (by decide) exLibm_requested
      (by
        have hlt : ¬ dbl (3 / 5) > dbl 3 := by
          rw [gt_iff_lt, dbl_lt_dbl]
          norm_num
        simp [hlt])
  exact ⟨⟨_, h1⟩, h3, h5⟩
/-! ### The two forms of `getLocalError` -/

/-- Subtracting 0 leaves a double as it is. -/
theorem OP_DIVIDE_zero (o : Val) : OP_DIVIDE o 0 = some o := by
  rcases o with _ | _ | x
  · rfl
  · rfl
  · show some (((x - 0 : ℚ) : WithTop ℚ) : Val) = some (((x : ℚ) : WithTop ℚ) : Val)
    rw [sub_zero]

/-- The difference of a finite double and a double is not a NaN. -/
theorem OP_DIVIDE_dbl_left (q : ℚ) (r : Val) : ∃ x, OP_DIVIDE (dbl q) r = some x := by
  rcases r with _ | _ | y
  · exact ⟨_, rfl⟩
  · exact ⟨_, rfl⟩
  · exact ⟨_, rfl⟩

/-- The statement `out[k] OP_DIVIDEEQ x` changes entry `k` only. -/
theorem getLocalError_divideEq_spec (out : List Val) (k : Nat) (x o d : Val)
    (ho : out[k]? = some o) (hd : OP_DIVIDE o x = some d) :
    getLocalError_divideEq out k x = some (out.set k d) ∧
      (out.set k d).length = out.length ∧
      (∀ i, i ≠ k → (out.set k d)[i]? = out[i]?) ∧
      (out.set k d)[k]? = some d := by
  have hk : k < out.length := by
    by_contra hc
    rw [List.getElem?_eq_none (not_lt.mp hc)] at ho
    exact absurd ho (by simp)
  refine ⟨?_, List.length_set _ _ _, ?_, ?_⟩
  · unfold getLocalError_divideEq
    rw [ho]
    simp only [hd, Option.map_some']
  · intro i hi
    rw [List.getElem?_set]
    simp [Ne.symm hi]
  · rw [List.getElem?_set]
    simp [hk]

/-- A loop whose iteration `k` subtracts the value `g k` from entry `k` of a
vector: when the indices are distinct and inside the vector and no difference
is a NaN, the loop returns, and the entry of every index is the difference of
what it was and its value. -/
theorem foldlM_subtract {σ : Type} (outOf : σ → List Val) (step : σ → Nat → Option σ)
    (g : Nat → Option Val) (Inv : σ → Prop) (ok : Nat → Prop)
    (hstep : ∀ st k, Inv st → ok k → k < (outOf st).length →
      (∀ o r, (outOf st)[k]? = some o → g k = some r → ∃ x, OP_DIVIDE o r = some x) →
      ∃ st1, step st k = some st1 ∧ Inv st1 ∧
        (outOf st1).length = (outOf st).length ∧
        (∀ i, i ≠ k → (outOf st1)[i]? = (outOf st)[i]?) ∧
        ∃ o r x, (outOf st)[k]? = some o ∧ g k = some r ∧ OP_DIVIDE o r = some x ∧
          (outOf st1)[k]? = some x) :
    ∀ (ks : List Nat), ks.Nodup → ∀ st, Inv st →
      (∀ k ∈ ks, ok k ∧ k < (outOf st).length ∧
        ∀ o r, (outOf st)[k]? = some o → g k = some r → ∃ x, OP_DIVIDE o r = some x) →
      ∃ st1, ks.foldlM step st = some st1 ∧ Inv st1 ∧
        (outOf st1).length = (outOf st).length ∧
        (∀ i, i ∉ ks → (outOf st1)[i]? = (outOf st)[i]?) ∧
        ∀ k ∈ ks, ∃ o r x, (outOf st)[k]? = some o ∧ g k = some r ∧
          OP_DIVIDE o r = some x ∧ (outOf st1)[k]? = some x := by
  intro ks
  induction ks with
  | nil =>
    intro _ st hinv _
    exact ⟨st, rfl, hinv, rfl, fun _ _ => rfl, fun k hk => absurd hk (List.not_mem_nil k)⟩
  | cons k ks ih =>
    intro hnd st hinv hks
    obtain ⟨hkn, hnd1⟩ := List.nodup_cons.mp hnd
    obtain ⟨hok, hlt, hnan⟩ := hks k (List.mem_cons_self _ _)
    obtain ⟨st1, h1, hinv1, hlen1, hsame1, o, r, x, ho, hr, hx, hres⟩ :=
      hstep st k hinv hok hlt hnan
    have hks1 : ∀ j ∈ ks, ok j ∧ j < (outOf st1).length ∧
        ∀ o r, (outOf st1)[j]? = some o → g j = some r → ∃ x, OP_DIVIDE o r = some x := by
      intro j hj
      have hjk : j ≠ k := fun h => hkn (h ▸ hj)
      obtain ⟨a1, a2, a3⟩ := hks j (List.mem_cons_of_mem _ hj)
      refine ⟨a1, by rw [hlen1]; exact a2, ?_⟩
      intro o r ho hr
      rw [hsame1 j hjk] at ho
      exact a3 o r ho hr
    obtain ⟨st2, h2, hinv2, hlen2, hsame2, hall2⟩ := ih hnd1 st1 hinv1 hks1
    refine ⟨st2, ?_, hinv2, hlen2.trans hlen1, ?_, ?_⟩
    · rw [List.foldlM_cons, h1]
      exact h2
    · intro i hi
      rw [List.mem_cons, not_or] at hi
      rw [hsame2 i hi.2, hsame1 i hi.1]
    · intro j hj
      rcases List.mem_cons.mp hj with rfl | hj
      · exact ⟨o, r, x, ho, hr, hx, by rw [hsame2 j hkn]; exact hres⟩
      · have hjk : j ≠ k := fun h => hkn (h ▸ hj)
        obtain ⟨o2, r2, x2, b1, b2, b3, b4⟩ := hall2 j hj
        exact ⟨o2, r2, x2, by rw [← hsame1 j hjk]; exact b1, b2, b3, b4⟩

/-- The scalar form on the path that reads the stored error function. -/
theorem getLocalError_stored (self : MiniBucketElimLH) (var : Nat) (a : Assignment)
    (errorFn : Function)
    (hearly : ¬ ((self._MiniBuckets var).length ≤ 1 ∨ 0 = self._BucketErrorQuality var))
    (hfn : self._BucketErrorFunctions var = some errorFn) :
    self.getLocalError var a = some (errorFn.getValue a) := by
  unfold MiniBucketElimLH.getLocalError
  simp only [hearly, if_false, hfn]

/-- The scalar form on the path that recomputes the error, the domain of `var`
not being empty. -/
theorem getLocalError_recomputed (self : MiniBucketElimLH) (var : Nat) (a : Assignment)
    (front : Val) (rest : List Val)
    (hearly : ¬ ((self._MiniBuckets var).length ≤ 1 ∨ 0 = self._BucketErrorQuality var))
    (hfn : self._BucketErrorFunctions var = none)
    (hs : getLocalError_sumVals (self._BucketFunctions var) a var
      (self.m_problem.getDomainSize var) = front :: rest) :
    self.getLocalError var a =
      if combineValues (collect_funs_MB (self._MiniBuckets var)) a ≤
          rest.foldl (fun acc s => max acc s) front then some 0
      else OP_DIVIDE (combineValues (collect_funs_MB (self._MiniBuckets var)) a)
        (rest.foldl (fun acc s => max acc s) front) := by
  unfold MiniBucketElimLH.getLocalError
  simp only [hearly, if_false, hfn, hs]
  by_cases hbot : OUR_OWN_nInfinity = combineValues (collect_funs_MB (self._MiniBuckets var)) a
  · rw [if_pos hbot, if_pos]
    rw [← hbot]
    exact bot_le
  · rw [if_neg hbot]

/-- One iteration of the loop of the vector form that reads the stored error
function subtracts what the scalar form returns. -/
theorem getLocalError_storedStep (self : MiniBucketElimLH) (parent var : Nat)
    (assignment : Assignment) (errorFn : Function)
    (hearly : ¬ ((self._MiniBuckets var).length ≤ 1 ∨ 0 = self._BucketErrorQuality var))
    (hfn : self._BucketErrorFunctions var = some errorFn)
    (st : Assignment × List Val) (k : Nat)
    (hinv : st.1 = assignment)
    (hok : k < self.m_problem.getDomainSize parent)
    (hlt : k < st.2.length)
    (hnan : ∀ o r, st.2[k]? = some o →
      self.getLocalError var (Function.update assignment parent (k : Int)) = some r →
      ∃ x, OP_DIVIDE o r = some x) :
    ∃ st1,
      (match (errorFn.getValues assignment parent
          (self.m_problem.getDomainSize parent))[k]? with
        | none => none
        | some f => (getLocalError_divideEq st.2 k f).map (fun out => (st.1, out))) =
        some st1 ∧
      st1.1 = assignment ∧ st1.2.length = st.2.length ∧
      (∀ i, i ≠ k → st1.2[i]? = st.2[i]?) ∧
      ∃ o r x, st.2[k]? = some o ∧
        self.getLocalError var (Function.update assignment parent (k : Int)) = some r ∧
        OP_DIVIDE o r = some x ∧ st1.2[k]? = some x := by
  have hval : (errorFn.getValues assignment parent
      (self.m_problem.getDomainSize parent))[k]? =
      some (errorFn.getValue (Function.update assignment parent (k : Int))) := by
    unfold Function.getValues
    rw [List.getElem?_map, List.getElem?_range hok]
    rfl
  have hsc := getLocalError_stored self var (Function.update assignment parent (k : Int))
    errorFn hearly hfn
  obtain ⟨o, ho⟩ : ∃ o, st.2[k]? = some o := ⟨_, List.getElem?_eq_getElem hlt⟩
  obtain ⟨x, hx⟩ := hnan o _ ho hsc
  obtain ⟨d1, d2, d3, d4⟩ := getLocalError_divideEq_spec st.2 k _ o x ho hx
  refine ⟨(st.1, st.2.set k x), ?_, hinv, d2, d3, o, _, x, ho, hsc, hx, d4⟩
  rw [hval]
  simp only [d1, Option.map_some']

/-- One iteration of the loop of lines 1012-1026 subtracts what the scalar
form returns at the assignment with `parent := k`. -/
theorem getLocalError_vectorStep_spec (self : MiniBucketElimLH) (parent var : Nat)
    (assignment : Assignment)
    (hearly : ¬ ((self._MiniBuckets var).length ≤ 1 ∨ 0 = self._BucketErrorQuality var))
    (hfn : self._BucketErrorFunctions var = none)
    (hdom : 0 < self.m_problem.getDomainSize var)
    (st : Assignment × List Val) (k : Nat)
    (hinv : ∃ v, st.1 = Function.update assignment parent v)
    (hok : k < self.m_problem.getDomainSize parent)
    (hlt : k < st.2.length)
    (hnan : ∀ o r, st.2[k]? = some o →
      self.getLocalError var (Function.update assignment parent (k : Int)) = some r →
      ∃ x, OP_DIVIDE o r = some x) :
    ∃ st1,
      getLocalError_vectorStep (self._BucketFunctions var) parent var
        (self.m_problem.getDomainSize var)
        (getLocalError_sumVals (collect_funs_MB (self._MiniBuckets var)) assignment parent
          (self.m_problem.getDomainSize parent)) st k = some st1 ∧
      (∃ v, st1.1 = Function.update assignment parent v) ∧
      st1.2.length = st.2.length ∧
      (∀ i, i ≠ k → st1.2[i]? = st.2[i]?) ∧
      ∃ o r x, st.2[k]? = some o ∧
        self.getLocalError var (Function.update assignment parent (k : Int)) = some r ∧
        OP_DIVIDE o r = some x ∧ st1.2[k]? = some x := by
  obtain ⟨v, hv⟩ := hinv
  have ha : Function.update st.1 parent (k : Int) =
      Function.update assignment parent (k : Int) := by
    rw [hv, Function.update_idem]
  have hmb : (getLocalError_sumVals (collect_funs_MB (self._MiniBuckets var)) assignment
      parent (self.m_problem.getDomainSize parent))[k]? =
      some (combineValues (collect_funs_MB (self._MiniBuckets var))
        (Function.update assignment parent (k : Int))) := by
    rw [getLocalError_sumVals_eq, List.getElem?_map, List.getElem?_range hok]
    rfl
  obtain ⟨o, ho⟩ : ∃ o, st.2[k]? = some o := ⟨_, List.getElem?_eq_getElem hlt⟩
  unfold getLocalError_vectorStep
  simp only [ha, hmb]
  cases hs : getLocalError_sumVals (self._BucketFunctions var)
      (Function.update assignment parent (k : Int)) var
      (self.m_problem.getDomainSize var) with
  | nil =>
    have hl := congrArg List.length hs
    rw [getLocalError_sumVals_eq] at hl
    simp at hl
    omega
  | cons front rest =>
    have hsc := getLocalError_recomputed self var
      (Function.update assignment parent (k : Int)) front rest hearly hfn hs
    simp only []
    by_cases hle : combineValues (collect_funs_MB (self._MiniBuckets var))
        (Function.update assignment parent (k : Int)) ≤
        rest.foldl (fun acc s => max acc s) front
    · rw [if_pos hle] at hsc
      rw [if_pos hle]
      exact ⟨_, rfl, ⟨_, rfl⟩, rfl, fun _ _ => rfl, o, 0, o, ho, hsc, OP_DIVIDE_zero o, ho⟩
    · rw [if_neg hle] at hsc
      rw [if_neg hle]
      obtain ⟨d, hd, _⟩ := OP_DIVIDE_pos _ _ (lt_of_not_le hle)
      rw [hd] at hsc
      obtain ⟨x, hx⟩ := hnan o d ho hsc
      obtain ⟨d1, d2, d3, d4⟩ := getLocalError_divideEq_spec st.2 k d o x ho hx
      refine ⟨(Function.update assignment parent (k : Int), st.2.set k x), ?_, ⟨_, rfl⟩, d2, d3,
        o, d, x, ho, hsc, hx, d4⟩
      simp only [hd, d1, Option.map_some']

/-- C35: the vector form `getLocalError(parent, var, assignment, out)` against
the scalar form.  When `var` has at most one mini-bucket or quality 0 the call
returns and leaves `out` and the assignment as they are.  Otherwise, on the
path that recomputes the error and on the path that reads the stored error
function, when `out` has an entry for every value of the parent, the domain of
`var` is not empty where the error is recomputed, and no difference is a NaN:
the call returns, the assignment is the one at entry (`assignment[parent]` is
restored), `out` keeps its length and its entries past the domain of the
parent, and for every value `k` of the parent the entry `out[k]` after the
call is `out[k]` before the call minus what `getLocalError(var, assignment)`
returns at the assignment with `parent := k`. -/
theorem getLocalError_vector_agrees (self : MiniBucketElimLH) (parent var : Nat)
    (assignment : Assignment) (out : List Val) :
    (((self._MiniBuckets var).length ≤ 1 ∨ 0 = self._BucketErrorQuality var) →
      self.getLocalError_vector parent var assignment out = some (assignment, out)) ∧
    (¬ ((self._MiniBuckets var).length ≤ 1 ∨ 0 = self._BucketErrorQuality var) →
      self.m_problem.getDomainSize parent ≤ out.length →
      (self._BucketErrorFunctions var = none → 0 < self.m_problem.getDomainSize var) →
      (∀ k o r, k < self.m_problem.getDomainSize parent → out[k]? = some o →
        self.getLocalError var (Function.update assignment parent (k : Int)) = some r →
        ∃ x, OP_DIVIDE o r = some x) →
      ∃ out1,
        self.getLocalError_vector parent var assignment out = some (assignment, out1) ∧
        out1.length = out.length ∧
        (∀ i, self.m_problem.getDomainSize parent ≤ i → out1[i]? = out[i]?) ∧
        ∀ k, k < self.m_problem.getDomainSize parent →
          ∃ o r x, out[k]? = some o ∧
            self.getLocalError var (Function.update assignment parent (k : Int)) = some r ∧
            OP_DIVIDE o r = some x ∧ out1[k]? = some x) := by
  refine ⟨?_, ?_⟩
  · intro hearly
    unfold MiniBucketElimLH.getLocalError_vector
    simp only [hearly, if_true]
  · intro hearly hlen hdom hnan
    have hks : ∀ k ∈ List.range (self.m_problem.getDomainSize parent),
        k < self.m_problem.getDomainSize parent ∧ k < out.length ∧
        ∀ o r, out[k]? = some o →
          self.getLocalError var (Function.update assignment parent (k : Int)) = some r →
          ∃ x, OP_DIVIDE o r = some x := by
      intro k hk
      have hk1 := List.mem_range.mp hk
      exact ⟨hk1, lt_of_lt_of_le hk1 hlen, fun o r ho hr => hnan k o r hk1 ho hr⟩
    unfold MiniBucketElimLH.getLocalError_vector
    simp only [hearly, if_false]
    cases hfn : self._BucketErrorFunctions var with
    | some errorFn =>
      obtain ⟨st1, h1, hinv, h2, h3, h4⟩ := foldlM_subtract
        (fun (st : Assignment × List Val) => st.2)
        (fun (st : Assignment × List Val) (k : Nat) =>
          match (errorFn.getValues assignment parent
              (self.m_problem.getDomainSize parent))[k]? with
          | none => none
          | some f => (getLocalError_divideEq st.2 k f).map (fun out => (st.1, out)))
        (fun k => self.getLocalError var (Function.update assignment parent (k : Int)))
        (fun st => st.1 = assignment)
        (fun k => k < self.m_problem.getDomainSize parent)
        (fun st k hinv hok hlt hn =>
          getLocalError_storedStep self parent var assignment errorFn hearly hfn st k hinv
            hok hlt hn)
        (List.range (self.m_problem.getDomainSize parent)) (List.nodup_range _)
        (assignment, out) rfl hks
      refine ⟨st1.2, ?_, h2, ?_, ?_⟩
      · exact h1.trans (congrArg some (Prod.ext hinv rfl))
      · intro i hi
        exact h3 i (by simpa using hi)
      · intro k hk
        exact h4 k (List.mem_range.mpr hk)
    | none =>
      obtain ⟨st1, h1, hinv, h2, h3, h4⟩ := foldlM_subtract
        (fun (st : Assignment × List Val) => st.2)
        (getLocalError_vectorStep (self._BucketFunctions var) parent var
          (self.m_problem.getDomainSize var)
          (getLocalError_sumVals (collect_funs_MB (self._MiniBuckets var)) assignment parent
            (self.m_problem.getDomainSize parent)))
        (fun k => self.getLocalError var (Function.update assignment parent (k : Int)))
        (fun st => ∃ v, st.1 = Function.update assignment parent v)
        (fun k => k < self.m_problem.getDomainSize parent)
        (fun st k hinv hok hlt hn =>
          getLocalError_vectorStep_spec self parent var assignment hearly hfn (hdom hfn) st k
            hinv hok hlt hn)
        (List.range (self.m_problem.getDomainSize parent)) (List.nodup_range _)
        (assignment, out) ⟨assignment parent, (Function.update_eq_self _ _).symm⟩ hks
      simp only [h1, Option.map_some']
      obtain ⟨v, hv⟩ := hinv
      refine ⟨st1.2, ?_, h2, ?_, ?_⟩
      · rw [hv, Function.update_idem, Function.update_eq_self]
      · intro i hi
        exact h3 i (by simpa using hi)
      · intro k hk
        exact h4 k (List.mem_range.mpr hk)

/-- C35 at bucket 0 of the small model, whose error is recomputed, for its
parent 1 and a vector of two zeros. -/
theorem getLocalError_vector_agrees_witness :
    ∃ out1,
      exState.getLocalError_vector 1 0 (fun _ => 0) [dbl 0, dbl 0] =
        some (fun _ => 0, out1) ∧
      out1.length = [dbl 0, dbl 0].length ∧
      (∀ i, exState.m_problem.getDomainSize 1 ≤ i → out1[i]? = [dbl 0, dbl 0][i]?) ∧
      ∀ k, k < exState.m_problem.getDomainSize 1 →
        ∃ o r x, [dbl 0, dbl 0][k]? = some o ∧
          exState.getLocalError 0 (Function.update (fun _ => 0) 1 (k : Int)) = some r ∧
          OP_DIVIDE o r = some x ∧ out1[k]? = some x :=
  (getLocalError_vector_agrees exState 1 0 (fun _ => 0) [dbl 0, dbl 0]).2
    (by decide) (by decide) (fun _ => by decide)
    (by
      intro k o r hk ho _
      have hk2 : k < 2 := hk
      have ho2 : o = dbl 0 := by
        interval_cases k <;> simp at ho <;> exact ho.symm
      rw [ho2]
      exact OP_DIVIDE_dbl_left 0 r)

/-! ### The routing invariant -/

/-- A minimum of values that are not negative is not negative. -/
theorem foldl_min_nonneg (xs : List ℚ) :
    ∀ x : ℚ, 0 ≤ x → (∀ y ∈ xs, 0 ≤ y) → 0 ≤ xs.foldl (fun value y => min value y) x := by
  induction xs with
  | nil => intro x hx _; exact hx
  | cons z zs ih =>
    intro x hx hall
    rw [List.foldl_cons]
    exact ih _ (le_min hx (hall z (List.mem_cons_self _ _)))
      (fun y hy => hall y (List.mem_cons_of_mem _ hy))

/-- The local `value` of lines 2404-2407 is not negative when the table of `v`
is not. -/
theorem ComputeDepthLimitedSubtreeErrorFns_value_nonneg (problem : Problem)
    (v_fn : ErrorTable) (agg_scope : List Nat) (tuple : Assignment)
    (h : ∀ a, 0 ≤ v_fn.getValuePtr a) :
    0 ≤ ComputeDepthLimitedSubtreeErrorFns_value problem v_fn agg_scope tuple := by
  unfold ComputeDepthLimitedSubtreeErrorFns_value
  cases hl : (assignmentsOver problem agg_scope tuple).map v_fn.getValuePtr with
  | nil => exact le_refl _
  | cons x xs =>
    have hall : ∀ y ∈ x :: xs, 0 ≤ y := by
      intro y hy
      rw [← hl, List.mem_map] at hy
      obtain ⟨t, _, rfl⟩ := hy
      exact h t
    exact foldl_min_nonneg xs x (hall x (List.mem_cons_self _ _))
      (fun y hy => hall y (List.mem_cons_of_mem _ hy))

/-- The message from `v` to its parent is computed when the domains of the
variables of the two scopes are not empty; it keeps the scope of the table of
the parent, and it lowers no entry when the table of `v` is not negative. -/
theorem ComputeDepthLimitedSubtreeErrorFns_message_spec (problem : Problem)
    (v_fn p_fn : ErrorTable)
    (hdom : ∀ u ∈ v_fn.scope ∪ p_fn.scope, 0 < problem.getDomainSize u) :
    ∃ f, ComputeDepthLimitedSubtreeErrorFns_message problem v_fn p_fn = some f ∧
      f.scope = p_fn.scope ∧
      ((∀ a, 0 ≤ v_fn.getValuePtr a) → ∀ a, p_fn.getValuePtr a ≤ f.getValuePtr a) := by
  have hno : ¬ ∃ u ∈ v_fn.scope ∪ p_fn.scope, problem.getDomainSize u = 0 := by
    rintro ⟨u, hu, h0⟩
    have := hdom u hu
    omega
  unfold ComputeDepthLimitedSubtreeErrorFns_message
  simp only [hno, if_false]
  refine ⟨_, rfl, ?_, ?_⟩
  · exact (setValuePtr_fold_fold
      (fun tuple => ComputeDepthLimitedSubtreeErrorFns_value problem v_fn
        ((v_fn.scope \ p_fn.scope).sort (fun a b => a ≤ b)) tuple)
      (fun tuple => assignmentsOver problem
        ((p_fn.scope \ v_fn.scope).sort (fun a b => a ≤ b)) tuple)
      (fun _ => 0) _ p_fn).1
  · intro hnn a
    rw [(setValuePtr_fold_fold
      (fun tuple => ComputeDepthLimitedSubtreeErrorFns_value problem v_fn
        ((v_fn.scope \ p_fn.scope).sort (fun a b => a ≤ b)) tuple)
      (fun tuple => assignmentsOver problem
        ((p_fn.scope \ v_fn.scope).sort (fun a b => a ≤ b)) tuple)
      a _ p_fn).2]
    have hsum : 0 ≤ ((assignmentsOver problem
        ((v_fn.scope ∩ p_fn.scope).sort (fun a b => a ≤ b)) (fun _ => 0)).map
        (fun tau => ((assignmentsOver problem
          ((p_fn.scope \ v_fn.scope).sort (fun a b => a ≤ b)) tau).map
            (fun t => if ∀ u ∈ p_fn.scope, a u = t u then
              ComputeDepthLimitedSubtreeErrorFns_value problem v_fn
                ((v_fn.scope \ p_fn.scope).sort (fun a b => a ≤ b)) tau
              else 0)).sum)).sum := by
      apply List.sum_nonneg
      intro x hx
      rw [List.mem_map] at hx
      obtain ⟨tau, _, rfl⟩ := hx
      apply List.sum_nonneg
      intro y hy
      rw [List.mem_map] at hy
      obtain ⟨t, _, rfl⟩ := hy
      split_ifs
      · exact ComputeDepthLimitedSubtreeErrorFns_value_nonneg problem v_fn _ tau hnn
      · exact le_refl _
    linarith

/-- The copy of lines 2309-2312 leaves in `buckets[c_var]` the bucket error
function of `c_var`. -/
theorem ComputeDepthLimitedSubtreeErrorFns_copy_spec (nonneg : Prop) (N : Nat)
    (B m : Nat → Option ErrorTable) (c : Nat)
    (hnn : nonneg → ∀ i f, B i = some f → ∀ a, 0 ≤ f.getValuePtr a)
    (hG : ComputeDepthLimitedSubtreeErrorFns_valid nonneg N B m) (hc : c < N) :
    ∃ m1, ComputeDepthLimitedSubtreeErrorFns_copy N B m c = some m1 ∧
      ComputeDepthLimitedSubtreeErrorFns_valid nonneg N B m1 ∧
      (∀ var, ComputeDepthLimitedSubtreeErrorFns_atLeast nonneg B m var →
        ComputeDepthLimitedSubtreeErrorFns_atLeast nonneg B m1 var) ∧
      ComputeDepthLimitedSubtreeErrorFns_atLeast nonneg B m1 c ∧
      m1 c = B c ∧ (∀ u, u ≠ c → m1 u = m u) := by
  obtain ⟨b, f, hb, hf, hsc, _⟩ := hG c hc
  have heq : ({ b with table := f.table } : ErrorTable) = f := by
    cases b
    cases f
    simp only at hsc
    subst hsc
    rfl
  have hcopy : ComputeDepthLimitedSubtreeErrorFns_copy N B m c =
      some (Function.update m c (some f)) := by
    unfold ComputeDepthLimitedSubtreeErrorFns_copy
    simp only [hc, if_true, hb, hf, heq]
  refine ⟨_, hcopy, ?_, ?_, ?_, ?_, ?_⟩
  · intro i hi
    by_cases hic : i = c
    · subst hic
      exact ⟨f, f, Function.update_same _ _ _, hf, rfl, fun h => hnn h i f hf⟩
    · obtain ⟨b1, f1, h1, h2, h3, h4⟩ := hG i hi
      exact ⟨b1, f1, by rw [Function.update_noteq hic]; exact h1, h2, h3, h4⟩
  · intro var hT
    by_cases hvc : var = c
    · subst hvc
      exact ⟨f, f, Function.update_same _ _ _, hf, rfl, fun _ a => le_refl _⟩
    · obtain ⟨b1, f1, h1, h2, h3, h4⟩ := hT
      exact ⟨b1, f1, by rw [Function.update_noteq hvc]; exact h1, h2, h3, h4⟩
  · exact ⟨f, f, Function.update_same _ _ _, hf, rfl, fun _ a => le_refl _⟩
  · rw [Function.update_same, hf]
  · intro u hu
    exact Function.update_noteq hu _ _

/-- The copies of the nodes that are popped from `dfs`. -/
theorem ComputeDepthLimitedSubtreeErrorFns_copies (nonneg : Prop) (N : Nat)
    (B : Nat → Option ErrorTable)
    (hnn : nonneg → ∀ i f, B i = some f → ∀ a, 0 ≤ f.getValuePtr a) :
    ∀ (order : List Nat) (m : Nat → Option ErrorTable),
      (∀ c ∈ order, c < N) →
      ComputeDepthLimitedSubtreeErrorFns_valid nonneg N B m →
      ∃ m1, order.foldlM (ComputeDepthLimitedSubtreeErrorFns_copy N B) m = some m1 ∧
        ComputeDepthLimitedSubtreeErrorFns_valid nonneg N B m1 ∧
        (∀ var, ComputeDepthLimitedSubtreeErrorFns_atLeast nonneg B m var →
          ComputeDepthLimitedSubtreeErrorFns_atLeast nonneg B m1 var) ∧
        (∀ c ∈ order, ComputeDepthLimitedSubtreeErrorFns_atLeast nonneg B m1 c ∧
          m1 c = B c) := by
  intro order
  induction order with
  | nil =>
    intro m _ hG
    exact ⟨m, rfl, hG, fun _ h => h, fun c hc => absurd hc (List.not_mem_nil c)⟩
  | cons c order ih =>
    intro m hlt hG
    obtain ⟨m1, h1, hG1, hT1, hTc, hex, hother⟩ :=
      ComputeDepthLimitedSubtreeErrorFns_copy_spec nonneg N B m c hnn hG
        (hlt c (List.mem_cons_self _ _))
    obtain ⟨m2, h2, hG2, hT2, hall2⟩ := ih m1 (fun x hx => hlt x (List.mem_cons_of_mem _ hx))
      hG1
    refine ⟨m2, ?_, hG2, fun var h => hT2 var (hT1 var h), ?_⟩
    · rw [List.foldlM_cons, h1]
      exact h2
    · intro x hx
      by_cases hxo : x ∈ order
      · exact hall2 x hxo
      · rcases List.mem_cons.mp hx with rfl | hx1
        · refine ⟨hT2 x hTc, ?_⟩
          -- the later copies are those of other nodes
          have hkeep : ∀ (l : List Nat) (ma mb : Nat → Option ErrorTable), x ∉ l →
              l.foldlM (ComputeDepthLimitedSubtreeErrorFns_copy N B) ma = some mb →
              mb x = ma x := by
            intro l
            induction l with
            | nil =>
              intro ma mb _ h
              simp only [List.foldlM_nil, Option.pure_def, Option.some.injEq] at h
              rw [h]
            | cons y l ihl =>
              intro ma mb hnot h
              rw [List.foldlM_cons] at h
              cases hcy : ComputeDepthLimitedSubtreeErrorFns_copy N B ma y with
              | none =>
                rw [hcy] at h
                cases h
              | some mc =>
                rw [hcy] at h
                have h3 : l.foldlM (ComputeDepthLimitedSubtreeErrorFns_copy N B) mc =
                    some mb := h
                rw [ihl mc mb (fun hm => hnot (List.mem_cons_of_mem _ hm)) h3]
                unfold ComputeDepthLimitedSubtreeErrorFns_copy at hcy
                split_ifs at hcy
                split at hcy
                · simp only [Option.some.injEq] at hcy
                  rw [← hcy]
                  exact Function.update_noteq
                    (fun (he : x = y) => hnot (by rw [he]; exact List.mem_cons_self _ _)) _ _
                · cases hcy
          rw [hkeep order m1 m2 hxo h2, hex]
        · exact absurd hx1 hxo

/-- The message of a node with a parent other than itself, both inside the
vectors, is sent when the domains of the variables of the scopes are not
empty. -/
theorem ComputeDepthLimitedSubtreeErrorFns_send_spec (nonneg : Prop) (problem : Problem)
    (pt : Pseudotree) (B m : Nat → Option ErrorTable) (v p : Nat)
    (hdom : ∀ i, i < problem.N → ∀ f, B i = some f →
      ∀ u ∈ f.scope, 0 < problem.getDomainSize u)
    (hG : ComputeDepthLimitedSubtreeErrorFns_valid nonneg problem.N B m)
    (hv : v < problem.N) (hpar : pt.parent v = some p) (hp : p < problem.N)
    (hpv : p ≠ v) :
    ∃ m1, ComputeDepthLimitedSubtreeErrorFns_send problem pt m v = some m1 ∧
      ComputeDepthLimitedSubtreeErrorFns_valid nonneg problem.N B m1 ∧
      (∀ var, ComputeDepthLimitedSubtreeErrorFns_atLeast nonneg B m var →
        ComputeDepthLimitedSubtreeErrorFns_atLeast nonneg B m1 var) := by
  obtain ⟨vb, vf, hvb, hvf, hvs, hvn⟩ := hG v hv
  obtain ⟨pb, pf, hpb, hpf, hps, hpn⟩ := hG p hp
  have hd : ∀ u ∈ vb.scope ∪ pb.scope, 0 < problem.getDomainSize u := by
    intro u hu
    rcases Finset.mem_union.mp hu with h | h
    · rw [hvs] at h
      exact hdom v hv vf hvf u h
    · rw [hps] at h
      exact hdom p hp pf hpf u h
  obtain ⟨f, hf, hfs, hfle⟩ := ComputeDepthLimitedSubtreeErrorFns_message_spec problem vb pb hd
  have hsend : ComputeDepthLimitedSubtreeErrorFns_send problem pt m v =
      some (Function.update m p (some f)) := by
    unfold ComputeDepthLimitedSubtreeErrorFns_send
    simp only [hpar, hv, hp, hpv, ne_eq, not_false_eq_true, and_self, if_true, hvb, hpb, hf,
      Option.map_some']
  refine ⟨_, hsend, ?_, ?_⟩
  · intro i hi
    by_cases hip : i = p
    · subst hip
      refine ⟨f, pf, Function.update_same _ _ _, hpf, hfs.trans hps, ?_⟩
      intro h a
      exact le_trans (hpn h a) (hfle (hvn h) a)
    · obtain ⟨b1, f1, h1, h2, h3, h4⟩ := hG i hi
      exact ⟨b1, f1, by rw [Function.update_noteq hip]; exact h1, h2, h3, h4⟩
  · intro var hT
    by_cases hvp : var = p
    · subst hvp
      obtain ⟨b1, f1, h1, h2, h3, h4⟩ := hT
      rw [hpb] at h1
      simp only [Option.some.injEq] at h1
      subst h1
      refine ⟨f, f1, Function.update_same _ _ _, h2, hfs.trans h3, ?_⟩
      intro h a
      exact le_trans (h4 h a) (hfle (hvn h) a)
    · obtain ⟨b1, f1, h1, h2, h3, h4⟩ := hT
      exact ⟨b1, f1, by rw [Function.update_noteq hvp]; exact h1, h2, h3, h4⟩

/-- The messages of the nodes that are popped from `processing_stack`. -/
theorem ComputeDepthLimitedSubtreeErrorFns_sends (nonneg : Prop) (problem : Problem)
    (pt : Pseudotree) (B : Nat → Option ErrorTable)
    (hdom : ∀ i, i < problem.N → ∀ f, B i = some f →
      ∀ u ∈ f.scope, 0 < problem.getDomainSize u) :
    ∀ (vs : List Nat) (m : Nat → Option ErrorTable),
      (∀ v ∈ vs, v < problem.N ∧ ∃ p, pt.parent v = some p ∧ p < problem.N ∧ p ≠ v) →
      ComputeDepthLimitedSubtreeErrorFns_valid nonneg problem.N B m →
      ∃ m1, vs.foldlM (ComputeDepthLimitedSubtreeErrorFns_send problem pt) m = some m1 ∧
        ComputeDepthLimitedSubtreeErrorFns_valid nonneg problem.N B m1 ∧
        (∀ var, ComputeDepthLimitedSubtreeErrorFns_atLeast nonneg B m var →
          ComputeDepthLimitedSubtreeErrorFns_atLeast nonneg B m1 var) := by
  intro vs
  induction vs with
  | nil =>
    intro m _ hG
    exact ⟨m, rfl, hG, fun _ h => h⟩
  | cons v vs ih =>
    intro m hvs hG
    obtain ⟨hv, p, hpar, hp, hpv⟩ := hvs v (List.mem_cons_self _ _)
    obtain ⟨m1, h1, hG1, hT1⟩ := ComputeDepthLimitedSubtreeErrorFns_send_spec nonneg problem
      pt B m v p hdom hG hv hpar hp hpv
    obtain ⟨m2, h2, hG2, hT2⟩ := ih m1 (fun x hx => hvs x (List.mem_cons_of_mem _ hx)) hG1
    refine ⟨m2, ?_, hG2, fun var h => hT2 var (hT1 var h)⟩
    rw [List.foldlM_cons, h1]
    exact h2

/-- A node that is popped from `dfs` is the node that the stack started with,
or a variable of the elimination order that has a parent. -/
theorem ComputeDepthLimitedSubtreeErrorFns_dfs_mem (pt : Pseudotree) :
    ∀ (depth c x : Nat), x ∈ ComputeDepthLimitedSubtreeErrorFns_dfs pt depth c →
      x = c ∨ (x ∈ pt.elimOrder ∧ ∃ p, pt.parent x = some p) := by
  intro depth
  induction depth with
  | zero =>
    intro c x hx
    simp only [ComputeDepthLimitedSubtreeErrorFns_dfs, List.mem_singleton] at hx
    exact Or.inl hx
  | succ depth ih =>
    intro c x hx
    simp only [ComputeDepthLimitedSubtreeErrorFns_dfs, List.mem_cons, List.mem_flatten,
      List.mem_map, List.mem_reverse] at hx
    rcases hx with hx | ⟨l, ⟨ch, hch, rfl⟩, hxl⟩
    · exact Or.inl hx
    · have hch1 : ch ∈ pt.elimOrder ∧ ∃ p, pt.parent ch = some p := by
        unfold Pseudotree.children at hch
        rw [List.mem_filter] at hch
        obtain ⟨h1, h2⟩ := hch
        simp only [decide_eq_true_eq] at h2
        exact ⟨h1, c, h2.2⟩
      rcases ih ch x hxl with h | h
      · rw [h]
        exact Or.inr hch1
      · exact Or.inr h

/-- The first node that is popped from `dfs` is the one that the stack started
with. -/
theorem ComputeDepthLimitedSubtreeErrorFns_dfs_head (pt : Pseudotree) (depth c : Nat) :
    c ∈ ComputeDepthLimitedSubtreeErrorFns_dfs pt depth c := by
  cases depth with
  | zero => simp [ComputeDepthLimitedSubtreeErrorFns_dfs]
  | succ depth => simp [ComputeDepthLimitedSubtreeErrorFns_dfs]

/-- The body of the loop of lines 2291-2426 for `var`: it returns, when the
nodes are inside the vectors and, for a positive depth limit, the variables of
the order and their parents are, no variable is its own parent and no domain
of a variable of a scope is empty; it changes the subtree error function of
`var` only, whose entries are then at least those of the bucket error function
of `var`, and which is that function when the depth limit is not positive. -/
theorem ComputeDepthLimitedSubtreeErrorFns_var_spec (nonneg : Prop) (problem : Problem)
    (pt : Pseudotree) (B : Nat → Option ErrorTable) (depth_limit : Int)
    (hnn : nonneg → ∀ i f, B i = some f → ∀ a, 0 ≤ f.getValuePtr a)
    (st : (Nat → Option ErrorTable) × (Nat → Option ErrorTable)) (var : Nat)
    (hGS : ComputeDepthLimitedSubtreeErrorFns_valid nonneg problem.N B st.1)
    (hGb : ComputeDepthLimitedSubtreeErrorFns_valid nonneg problem.N B st.2)
    (hvar : var < problem.N)
    (hmsg : 0 < depth_limit →
      (∀ v ∈ pt.elimOrder, v < problem.N) ∧
      (∀ v ∈ pt.elimOrder, ∀ p, pt.parent v = some p → p < problem.N ∧ p ≠ v) ∧
      (∀ i, i < problem.N → ∀ f, B i = some f →
        ∀ u ∈ f.scope, 0 < problem.getDomainSize u)) :
    ∃ st1, ComputeDepthLimitedSubtreeErrorFns_var problem pt B depth_limit st var =
        some st1 ∧
      ComputeDepthLimitedSubtreeErrorFns_valid nonneg problem.N B st1.1 ∧
      ComputeDepthLimitedSubtreeErrorFns_valid nonneg problem.N B st1.2 ∧
      ComputeDepthLimitedSubtreeErrorFns_atLeast nonneg B st1.1 var ∧
      (∀ u, u ≠ var → st1.1 u = st.1 u) ∧
      (depth_limit ≤ 0 → st1.1 var = B var) := by
  have hG0 : ComputeDepthLimitedSubtreeErrorFns_valid nonneg problem.N B
      (Function.update st.2 var (st.1 var)) := by
    intro i hi
    by_cases hiv : i = var
    · subst hiv
      rw [Function.update_same]
      exact hGS i hi
    · rw [Function.update_noteq hiv]
      exact hGb i hi
  have hord : ∀ c ∈ ComputeDepthLimitedSubtreeErrorFns_dfs pt depth_limit.toNat var,
      c < problem.N := by
    intro c hc
    by_cases hd : 0 < depth_limit
    · rcases ComputeDepthLimitedSubtreeErrorFns_dfs_mem pt _ var c hc with h | h
      · rw [h]
        exact hvar
      · exact (hmsg hd).1 c h.1
    · have h0 : depth_limit.toNat = 0 := Int.toNat_eq_zero.mpr (not_lt.mp hd)
      rw [h0] at hc
      simp only [ComputeDepthLimitedSubtreeErrorFns_dfs, List.mem_singleton] at hc
      rw [hc]
      exact hvar
  obtain ⟨m1, h1, hG1, _, hall1⟩ := ComputeDepthLimitedSubtreeErrorFns_copies nonneg
    problem.N B hnn _ _ hord hG0
  obtain ⟨hT1, hex1⟩ := hall1 var (ComputeDepthLimitedSubtreeErrorFns_dfs_head pt _ var)
  have hsend : ∃ m2,
      ((ComputeDepthLimitedSubtreeErrorFns_dfs pt depth_limit.toNat var).filter
        (fun c_var => decide (c_var ≠ var))).reverse.foldlM
        (ComputeDepthLimitedSubtreeErrorFns_send problem pt) m1 = some m2 ∧
      ComputeDepthLimitedSubtreeErrorFns_valid nonneg problem.N B m2 ∧
      ComputeDepthLimitedSubtreeErrorFns_atLeast nonneg B m2 var ∧
      (depth_limit ≤ 0 → m2 = m1) := by
    by_cases hd : 0 < depth_limit
    · obtain ⟨hv, hp, hdom⟩ := hmsg hd
      obtain ⟨m2, h2, hG2, hT2⟩ := ComputeDepthLimitedSubtreeErrorFns_sends nonneg problem pt
        B hdom
        ((ComputeDepthLimitedSubtreeErrorFns_dfs pt depth_limit.toNat var).filter
          (fun c_var => decide (c_var ≠ var))).reverse m1
        (by
          intro v hvm
          rw [List.mem_reverse, List.mem_filter] at hvm
          obtain ⟨hvo, hne⟩ := hvm
          simp only [decide_eq_true_eq] at hne
          rcases ComputeDepthLimitedSubtreeErrorFns_dfs_mem pt _ var v hvo with h | h
          · exact absurd h hne
          · obtain ⟨hve, p, hpp⟩ := h
            exact ⟨hv v hve, p, hpp, hp v hve p hpp⟩)
        hG1
      exact ⟨m2, h2, hG2, hT2 var hT1, fun h => absurd h (not_le.mpr hd)⟩
    · have h0 : depth_limit.toNat = 0 := Int.toNat_eq_zero.mpr (not_lt.mp hd)
      refine ⟨m1, ?_, hG1, hT1, fun _ => rfl⟩
      rw [h0]
      simp [ComputeDepthLimitedSubtreeErrorFns_dfs]
  obtain ⟨m2, h2, hG2, hT2, hex2⟩ := hsend
  have hstep : ComputeDepthLimitedSubtreeErrorFns_var problem pt B depth_limit st var =
      some (Function.update st.1 var (m2 var), Function.update m2 var (st.2 var)) := by
    unfold ComputeDepthLimitedSubtreeErrorFns_var
    simp only [h1, h2]
  have hA : ComputeDepthLimitedSubtreeErrorFns_valid nonneg problem.N B
      (Function.update st.1 var (m2 var)) := by
    intro i hi
    by_cases hiv : i = var
    · subst hiv
      rw [Function.update_same]
      exact hG2 i hi
    · rw [Function.update_noteq hiv]
      exact hGS i hi
  have hB : ComputeDepthLimitedSubtreeErrorFns_valid nonneg problem.N B
      (Function.update m2 var (st.2 var)) := by
    intro i hi
    by_cases hiv : i = var
    · subst hiv
      rw [Function.update_same]
      exact hGb i hi
    · rw [Function.update_noteq hiv]
      exact hG2 i hi
  have hC : ComputeDepthLimitedSubtreeErrorFns_atLeast nonneg B
      (Function.update st.1 var (m2 var)) var := by
    obtain ⟨b, f, hb, hf, hs, hle⟩ := hT2
    exact ⟨b, f, by rw [Function.update_same]; exact hb, hf, hs, hle⟩
  have hD : ∀ u, u ≠ var → Function.update st.1 var (m2 var) u = st.1 u :=
    fun u hu => Function.update_noteq hu _ _
  have hE : depth_limit ≤ 0 → Function.update st.1 var (m2 var) var = B var := by
    intro hd
    rw [Function.update_same, hex2 hd, hex1]
  exact ⟨_, hstep, hA, hB, hC, hD, hE⟩

/-- The loop of lines 2291-2426 over a list of variables. -/
theorem ComputeDepthLimitedSubtreeErrorFns_loop (nonneg : Prop) (problem : Problem)
    (pt : Pseudotree) (B : Nat → Option ErrorTable) (depth_limit : Int)
    (hnn : nonneg → ∀ i f, B i = some f → ∀ a, 0 ≤ f.getValuePtr a)
    (hmsg : 0 < depth_limit →
      (∀ v ∈ pt.elimOrder, v < problem.N) ∧
      (∀ v ∈ pt.elimOrder, ∀ p, pt.parent v = some p → p < problem.N ∧ p ≠ v) ∧
      (∀ i, i < problem.N → ∀ f, B i = some f →
        ∀ u ∈ f.scope, 0 < problem.getDomainSize u)) :
    ∀ (l : List Nat) (st : (Nat → Option ErrorTable) × (Nat → Option ErrorTable)),
      (∀ v ∈ l, v < problem.N) →
      ComputeDepthLimitedSubtreeErrorFns_valid nonneg problem.N B st.1 →
      ComputeDepthLimitedSubtreeErrorFns_valid nonneg problem.N B st.2 →
      ∃ st1, l.foldlM
          (ComputeDepthLimitedSubtreeErrorFns_var problem pt B depth_limit) st = some st1 ∧
        ComputeDepthLimitedSubtreeErrorFns_valid nonneg problem.N B st1.1 ∧
        ComputeDepthLimitedSubtreeErrorFns_valid nonneg problem.N B st1.2 ∧
        (∀ u, u ∉ l → st1.1 u = st.1 u) ∧
        ∀ v ∈ l, ComputeDepthLimitedSubtreeErrorFns_atLeast nonneg B st1.1 v ∧
          (depth_limit ≤ 0 → st1.1 v = B v) := by
  intro l
  induction l with
  | nil =>
    intro st _ hGS hGb
    exact ⟨st, rfl, hGS, hGb, fun _ _ => rfl, fun v hv => absurd hv (List.not_mem_nil v)⟩
  | cons var l ih =>
    intro st hlt hGS hGb
    obtain ⟨st1, h1, hGS1, hGb1, hT1, hother1, hex1⟩ :=
      ComputeDepthLimitedSubtreeErrorFns_var_spec nonneg problem pt B depth_limit hnn st var
        hGS hGb (hlt var (List.mem_cons_self _ _)) hmsg
    obtain ⟨st2, h2, hGS2, hGb2, hother2, hall2⟩ := ih st1
      (fun v hv => hlt v (List.mem_cons_of_mem _ hv)) hGS1 hGb1
    refine ⟨st2, ?_, hGS2, hGb2, ?_, ?_⟩
    · rw [List.foldlM_cons, h1]
      exact h2
    · intro u hu
      rw [List.mem_cons, not_or] at hu
      rw [hother2 u hu.2, hother1 u hu.1]
    · intro v hv
      by_cases hvl : v ∈ l
      · exact hall2 v hvl
      · rcases List.mem_cons.mp hv with rfl | hv1
        · have hkeep := hother2 v hvl
          obtain ⟨b, f, hb, hf, hs, hle⟩ := hT1
          exact ⟨⟨b, f, by rw [hkeep]; exact hb, hf, hs, hle⟩,
            fun hd => by rw [hkeep]; exact hex1 hd⟩
        · exact absurd hv1 hvl

/-- C36: `ComputeDepthLimitedSubtreeErrorFns`, on tables of finite values,
for bucket error functions that are not null and an elimination order of
variables below the number of variables.  With a depth limit of 0 (or below)
the call returns, and the subtree error function of every variable of the
order is its bucket error function, scope and table.  With any depth limit,
when the parents of the variables of the order are below the number of
variables and other than their children, and no variable of a scope has an
empty domain, the call returns, the subtree error function of every variable
of the order is over the scope of its bucket error function, and when no entry
of a bucket error function is negative every entry of the subtree error
function is at least the entry of the bucket error function of the variable. -/
theorem ComputeDepthLimitedSubtreeErrorFns_spec (problem : Problem) (pt : Pseudotree)
    (bucket_error_fns : Nat → Option ErrorTable) (depth_limit : Int)
    (hB : ∀ i, i < problem.N → ∃ f, bucket_error_fns i = some f)
    (hvars : ∀ v ∈ pt.elimOrder, v < problem.N) :
    (depth_limit ≤ 0 →
      ∃ S, ComputeDepthLimitedSubtreeErrorFns problem pt bucket_error_fns depth_limit =
          some S ∧
        ∀ v ∈ pt.elimOrder, ∃ f, bucket_error_fns v = some f ∧ S v = some f) ∧
    ((∀ v ∈ pt.elimOrder, ∀ p, pt.parent v = some p → p < problem.N ∧ p ≠ v) →
      (∀ i, i < problem.N → ∀ f, bucket_error_fns i = some f →
        ∀ u ∈ f.scope, 0 < problem.getDomainSize u) →
      ∃ S, ComputeDepthLimitedSubtreeErrorFns problem pt bucket_error_fns depth_limit =
          some S ∧
        ∀ v ∈ pt.elimOrder, ∃ s f, S v = some s ∧ bucket_error_fns v = some f ∧
          s.scope = f.scope ∧
          ((∀ i g, bucket_error_fns i = some g → ∀ a, 0 ≤ g.getValuePtr a) →
            ∀ a, f.getValuePtr a ≤ s.getValuePtr a)) := by
  have hall : ∀ i, i < problem.N → (bucket_error_fns i).isSome = true := by
    intro i hi
    obtain ⟨f, hf⟩ := hB i hi
    rw [hf]
    rfl
  obtain ⟨zeros, hinit, hvalid⟩ : ∃ zeros,
      ComputeDepthLimitedSubtreeErrorFns_init problem.N bucket_error_fns = some zeros ∧
      ∀ nonneg : Prop,
        ComputeDepthLimitedSubtreeErrorFns_valid nonneg problem.N bucket_error_fns zeros := by
    refine ⟨_, by unfold ComputeDepthLimitedSubtreeErrorFns_init; rw [if_pos hall], ?_⟩
    intro nonneg i hi
    obtain ⟨f, hf⟩ := hB i hi
    refine ⟨{ scope := f.scope, table := fun _ => 0 }, f, ?_, hf, rfl, fun _ a => le_refl _⟩
    simp only [hi, if_true, hf, Option.map_some']
  refine ⟨?_, ?_⟩
  · intro hd
    obtain ⟨st1, h1, _, _, _, hres⟩ := ComputeDepthLimitedSubtreeErrorFns_loop False problem
      pt bucket_error_fns depth_limit (fun h => absurd h not_false)
      (fun h => absurd hd (not_le.mpr h)) pt.elimOrder (zeros, zeros) hvars (hvalid False)
      (hvalid False)
    refine ⟨st1.1, ?_, ?_⟩
    · unfold ComputeDepthLimitedSubtreeErrorFns
      simp only [hinit, h1, Option.map_some']
    · intro v hv
      obtain ⟨f, hf⟩ := hB v (hvars v hv)
      exact ⟨f, hf, by rw [(hres v hv).2 hd, hf]⟩
  · intro hpar hdom
    obtain ⟨st1, h1, _, _, _, hres⟩ := ComputeDepthLimitedSubtreeErrorFns_loop
      (∀ i g, bucket_error_fns i = some g → ∀ a, 0 ≤ g.getValuePtr a) problem
      pt bucket_error_fns depth_limit (fun h => h)
      (fun _ => ⟨hvars, hpar, hdom⟩) pt.elimOrder (zeros, zeros) hvars (hvalid _) (hvalid _)
    refine ⟨st1.1, ?_, ?_⟩
    · unfold ComputeDepthLimitedSubtreeErrorFns
      simp only [hinit, h1, Option.map_some']
    · intro v hv
      obtain ⟨b, f, hb, hf, hs, hle⟩ := (hres v hv).1
      exact ⟨b, f, hb, hf, hs, hle⟩

/-- C36 on the small model, with the depth limit 1. -/
theorem ComputeDepthLimitedSubtreeErrorFns_spec_witness :
    ((1 : Int) ≤ 0 →
      ∃ S, ComputeDepthLimitedSubtreeErrorFns exProblem exTree exErrorFns 1 = some S ∧
        ∀ v ∈ exTree.elimOrder, ∃ f, exErrorFns v = some f ∧ S v = some f) ∧
    ((∀ v ∈ exTree.elimOrder, ∀ p, exTree.parent v = some p → p < exProblem.N ∧ p ≠ v) →
      (∀ i, i < exProblem.N → ∀ f, exErrorFns i = some f →
        ∀ u ∈ f.scope, 0 < exProblem.getDomainSize u) →
      ∃ S, ComputeDepthLimitedSubtreeErrorFns exProblem exTree exErrorFns 1 = some S ∧
        ∀ v ∈ exTree.elimOrder, ∃ s f, S v = some s ∧ exErrorFns v = some f ∧
          s.scope = f.scope ∧
          ((∀ i g, exErrorFns i = some g → ∀ a, 0 ≤ g.getValuePtr a) →
            ∀ a, f.getValuePtr a ≤ s.getValuePtr a)) :=
  ComputeDepthLimitedSubtreeErrorFns_spec exProblem exTree exErrorFns 1
    (by
      intro i hi
      have hi3 : i < 3 := hi
      interval_cases i <;> exact ⟨_, rfl⟩)
    (by
      intro v hv
      simp only [exTree, List.mem_cons, List.mem_singleton, List.not_mem_nil, or_false] at hv
      rcases hv with rfl | rfl | rfl <;> decide)

end daoopt
